import Mathlib

/-!
# Blue Moon AI: search and evaluation engine

A shallow embedding of the decision engine of `ai.c` (with the parts of
`bluemoon.h`, `net.c` and `engine.c` it relies on) and theorems about it.

Conventions of the embedding.

* C `int` fields are `Int`; a C truth test `if (x)` is `x ≠ 0`, and a C
  comparison or logical operator used as a value is `b2i` of the condition.
* `double` values are exact rationals (`ℚ`); the library function `exp` is a
  parameter `expf : ℚ → ℚ`.
* A pointer to an immutable card design (`design *`) is the design itself,
  `Option design` where the pointer may be `NULL`.
* Fixed-size arrays are lists, read with a default and written with `List.set`.
* C functions that write through a `game *` or to the static variables of
  `ai.c` return the new values.
-/

namespace BlueMoon

/-! ## Constants of `bluemoon.h` -/

def DECK_SIZE : Nat := 31

def ICON_SHIELD_F : Nat := 0x1
def ICON_SHIELD_E : Nat := 0x2
def ICON_STOP : Nat := 0x4
def ICON_RETRIEVE : Nat := 0x8
def ICON_PAIR : Nat := 0x10
def ICON_FREE : Nat := 0x20
def ICON_PROTECTED : Nat := 0x40
def ICON_BLUFF_F : Nat := 0x800
def ICON_BLUFF_E : Nat := 0x1000
def ICON_BLUFF_N : Nat := 0x2000
def ICON_BLUFF_MASK : Nat := ICON_BLUFF_F ||| ICON_BLUFF_E ||| ICON_BLUFF_N

def TYPE_CHARACTER : Int := 0x1
def TYPE_BOOSTER : Int := 0x2
def TYPE_SUPPORT : Int := 0x4
def TYPE_LEADERSHIP : Int := 0x8
def TYPE_INFLUENCE : Int := 0x10

def S3_YOU_MAY_NOT : Nat := 0x1
def S3_CALL_BLUFF : Nat := 0x40
def S4_OPTIONAL : Nat := 0x4000000
def S7_DISCARD_FIRE : Nat := 0x4
def S7_DISCARD_EARTH : Nat := 0x8
def S7_DISCARD_BOTH : Nat := 0x10
def S7_DISCARD_EITHER : Nat := 0x20
def S7_DISCARD_CHAR : Nat := 0x40
def S7_DISCARD_MASK : Nat :=
  S7_DISCARD_FIRE ||| S7_DISCARD_EARTH ||| S7_DISCARD_BOTH ||| S7_DISCARD_EITHER |||
    S7_DISCARD_CHAR
def S8_OPTIONAL : Nat := 0x8

def TIME_ALWAYS : Int := 0
def TIME_NOW : Int := 1
def TIME_ENDTURN : Int := 2
def TIME_ENDSUPPORT : Int := 3
def TIME_MYTURN : Int := 4

def LOC_NONE : Int := 0
def LOC_HAND : Int := 1
def LOC_DRAW : Int := 2
def LOC_COMBAT : Int := 3
def LOC_SUPPORT : Int := 4
def LOC_LEADERSHIP : Int := 5
def LOC_DISCARD : Int := 6
def LOC_INFLUENCE : Int := 7
def LOC_MAX : Nat := 8

def PHASE_NONE : Int := 0
def PHASE_START : Int := 1
def PHASE_BEGIN : Int := 2
def PHASE_LEADER : Int := 3
def PHASE_RETREAT : Int := 4
def PHASE_CHAR : Int := 5
def PHASE_SUPPORT : Int := 6
def PHASE_AFTER_SB : Int := 7
def PHASE_ANNOUNCE : Int := 8
def PHASE_REFRESH : Int := 9
def PHASE_END : Int := 10
def PHASE_OVER : Int := 11

/-- The value of a C comparison or logical operator: 1 when it holds, else 0. -/
def b2i (b : Bool) : Int := if b then 1 else 0

/-- The C test `x & mask` on a non-negative flag word. -/
def has_bits (x : Int) (mask : Nat) : Bool := (x.toNat &&& mask) != 0

/-! ## Data model of `bluemoon.h` -/

/-- Information about a card design (`struct design`). -/
structure design where
  value : Int × Int
  type : Int
  icons : Int
  name : String
  text : String
  special_prio : Int
  special_cat : Int
  special_time : Int
  special_effect : Int
  special_value : Int
  people : Int
  index : Int
  moons : Int
  capacity : Int
  deriving DecidableEq, Inhabited

/-- Information about a card in hand or on the table (`struct card`).
The C field `where` is written `where_`. -/
structure card where
  owner : Int
  d_ptr : design
  type : Int
  target : Option design
  where_ : Int
  ship : Option design
  on_bottom : Int
  printed : Int × Int
  value : Int × Int
  recent : Int
  active : Int
  playing_free : Int
  was_played_free : Int
  bluff : Int
  landed : Int
  value_ignored : Int
  text_ignored : Int
  text_boosted : Int
  icons : Int
  used : Int
  random_fake : Int
  loc_known : Int
  disclosed : Int
  deriving DecidableEq, Inhabited

/-- The target of a player's `interface *control`: the table `ai_func` of
`ai.c`, or some other table of decision functions. -/
inductive interface where
  | ai_func
  | other (id : Nat)
  deriving DecidableEq, Inhabited

/-- Information about a player (`struct player`); `p_ptr` is the index of the
player's people in `peoples`. -/
structure player where
  p_ptr : Nat
  control : interface
  dragons : Int
  instant_win : Int
  crystals : Int
  no_cards : Int
  phase : Int
  deck : List card
  stack : List Int
  last_leader : Option design
  last_discard : Option design
  char_played : Int
  min_power : Int
  cards_drawn : Int
  last_played : Int
  deriving DecidableEq, Inhabited

/-- Current game state (`struct game`); `p0` and `p1` are `p[0]` and `p[1]`. -/
structure game where
  p0 : player
  p1 : player
  turn : Int
  simulation : Int
  sim_turn : Int
  fight_element : Int
  fight_started : Int
  game_over : Int
  random_event : Int
  random_seed : Nat
  start_seed : Nat
  deriving DecidableEq, Inhabited

/-- The player record `g->p[who]`. -/
def game.p (g : game) (who : Int) : player := if who = 0 then g.p0 else g.p1

/-- The state after an assignment to `g->p[who]`. -/
def game.set_p (g : game) (who : Int) (x : player) : game :=
  if who = 0 then { g with p0 := x } else { g with p1 := x }

/-- The C value `!who` of a player index. -/
def other_player (who : Int) : Int := if who = 0 then 1 else 0




/-- The entry `stack[loc]` of a player. -/
def player.stack_at (p : player) (loc : Int) : Int := p.stack.getD loc.toNat 0

/-! ## Simulation (`ai.c`) -/

/-- Copy a game structure and set the "simulation" flag (`simulate_game`). -/
def simulate_game (orig : game) : game :=
  let sim := orig
  if sim.simulation = 0 then
    { sim with
      simulation := 1
      sim_turn := sim.turn
      p0 := { sim.p0 with control := interface.ai_func }
      p1 := { sim.p1 with control := interface.ai_func }
      random_seed := 0 }
  else sim

/-! ## Neural net (`net.c`) -/

/-- A neural net (`struct net`; the header `net.h` declares it, the fields are
those `net.c` uses).  Rows of `hidden_weight` are indexed by input, rows of
`output_weight` by hidden node. -/
structure net where
  num_inputs : Int
  num_hidden : Int
  num_output : Int
  input_value : List Int
  prev_input : List Int
  hidden_sum : List ℚ
  hidden_result : List ℚ
  hidden_error : List ℚ
  net_result : List ℚ
  win_prob : List ℚ
  prob_sum : ℚ
  hidden_weight : List (List ℚ)
  output_weight : List (List ℚ)
  past_input : List (List Int)
  num_past : Int
  num_training : Int
  alpha : ℚ
  deriving DecidableEq, Inhabited

/-- The C loop `for (i = 0; i < n; i++) s = body(i, s)`. -/
def for_range {σ : Type} (n : Nat) (body : Nat → σ → σ) (s : σ) : σ :=
  (List.range n).foldl (fun acc i => body i acc) s

/-- Normalize a number using a 'sigmoid' function (`sigmoid`). -/
def sigmoid (expf : ℚ → ℚ) (x : ℚ) : ℚ := 1 / (1 + expf (-x))

/-- The entry `hidden_weight[i][j]`. -/
def net.hw (l : net) (i j : Nat) : ℚ := (l.hidden_weight.getD i []).getD j 0

/-- The entry `output_weight[j][i]`. -/
def net.ow (l : net) (j i : Nat) : ℚ := (l.output_weight.getD j []).getD i 0

/-- First loop of `compute_net`: fold the changed inputs into the hidden sums. -/
def compute_net_inputs (learn : net) : net :=
  for_range (learn.num_inputs + 1).toNat (fun i l =>
    if l.input_value.getD i 0 ≠ l.prev_input.getD i 0 then
      let hs := for_range l.num_hidden.toNat (fun j hs =>
        hs.set j (hs.getD j 0 +
          l.hw i j * ((l.input_value.getD i 0 - l.prev_input.getD i 0 : Int) : ℚ)))
        l.hidden_sum
      { l with hidden_sum := hs, prev_input := l.prev_input.set i (l.input_value.getD i 0) }
    else l) learn

/-- Second loop of `compute_net`: normalize hidden node results. -/
def compute_net_hidden (expf : ℚ → ℚ) (learn : net) : net :=
  for_range learn.num_hidden.toNat (fun i l =>
    { l with hidden_result := l.hidden_result.set i (sigmoid expf (l.hidden_sum.getD i 0)) })
    learn

/-- The weighted sum feeding output node `i`. -/
def output_sum (l : net) (i : Nat) : ℚ :=
  for_range (l.num_hidden + 1).toNat (fun j sum =>
    sum + l.hidden_result.getD j 0 * l.ow j i) 0

/-- Third loop of `compute_net`: output nodes and the total of their exponentials. -/
def compute_net_outputs (expf : ℚ → ℚ) (learn : net) : net :=
  for_range learn.num_output.toNat (fun i l =>
    { l with net_result := l.net_result.set i (output_sum l i),
             prob_sum := l.prob_sum + expf (output_sum l i) })
    { learn with prob_sum := 0 }

/-- Last loop of `compute_net`: output probabilities. -/
def compute_net_probs (expf : ℚ → ℚ) (learn : net) : net :=
  for_range learn.num_output.toNat (fun i l =>
    { l with win_prob := l.win_prob.set i (expf (l.net_result.getD i 0) / l.prob_sum) })
    learn

/-- Compute a neural net's result (`compute_net`). -/
def compute_net (expf : ℚ → ℚ) (learn : net) : net :=
  compute_net_probs expf (compute_net_outputs expf (compute_net_hidden expf
    (compute_net_inputs learn)))

/-! ## Rules engine queries used by the evaluator (`engine.c`) -/

/-- The entry `x[e]` of a two-element value array. -/
def pair_at (x : Int × Int) (e : Int) : Int := if e = 0 then x.1 else x.2

/-- The cards `deck[1]`, ..., `deck[DECK_SIZE - 1]` the loops of the program
run over. -/
def player.loop_cards (p : player) : List card :=
  (List.range (DECK_SIZE - 1)).map (fun j => p.deck.getD (j + 1) default)

/-- Total power of a player in the fight element (`compute_power`). -/
def compute_power (g : game) (who : Int) : Int :=
  let p := g.p who
  let power := (p.loop_cards.filter (fun c =>
      (c.where_ = LOC_COMBAT ∨ c.where_ = LOC_SUPPORT) ∧ c.active ≠ 0 ∧
        c.value_ignored = 0)).foldl (fun acc c => acc + pair_at c.value g.fight_element) 0
  if power < p.min_power then p.min_power else power

/-! ## Static state of `ai.c` -/

def ACT_NONE : Int := 0
def ACT_RETREAT : Int := 1
def ACT_RETRIEVE : Int := 2
def ACT_PLAY : Int := 3
def ACT_PLAY_NO : Int := 4
def ACT_ANN_FIRE : Int := 5
def ACT_ANN_EARTH : Int := 6
def ACT_USE : Int := 7
def ACT_SATISFY : Int := 8
def ACT_CHOOSE : Int := 9
def ACT_LAND : Int := 10
def ACT_LOAD : Int := 11
def ACT_BLUFF : Int := 12
def ACT_REVEAL : Int := 13

def MAX_ACTION : Nat := 50
def NET_INPUT : Nat := 443
def HIDDEN_NODES : Nat := 50

/-- An action to take (`struct action`).  A field the program leaves unset
when it builds an action is zero here. -/
structure action where
  act : Int
  arg : Option design
  target : Option design
  chosen : Int
  index : Int
  deriving DecidableEq, Inhabited

/-- The number of cells of the array `legal` of a choice node
(`int legal[5000]`). -/
def LEGAL_SIZE : Nat := 5000

/-- Information about choice to make (`struct node`).  The function pointer
`callback` and the pointer `data` are names of a callback and of its data;
`legal` and `choices` are the arrays, cells beyond the list being zero. -/
structure node where
  callback : Nat
  legal : List Int
  num_legal : Int
  choices : List design
  who : Int
  data : Nat
  deriving DecidableEq, Inhabited

/-- Write cell `k` of an array held as a list (cells beyond the list are zero). -/
def write_at {α : Type} [Inhabited α] (xs : List α) (k : Nat) (x : α) : List α :=
  if k < xs.length then xs.set k x
  else xs ++ List.replicate (k - xs.length) default ++ [x]

/-- The static variables of `ai.c`, with the two nets `learner[0]` and
`learner[1]`.  The last field, `legal_overrun`, is no variable of the program:
it is 0 until a combination is written at an index outside the array `legal`
of a choice node, a write for which C defines no behaviour, and 1 from then
on.  A state with `legal_overrun` set says nothing about the program. -/
structure ai_state where
  best_path : List action
  best_path_pos : Int
  best_path_score : ℚ
  nodes : List node
  node_pos : Int
  node_len : Int
  inside_choose : Int
  assist_str : Option String
  must_retreat : Int
  checking_retreat : Int
  checking_decline : Int
  learner0 : net
  learner1 : net
  stop_choose : Int
  legal_overrun : Int
  deriving DecidableEq, Inhabited

/-- The net `learner[who]`. -/
def ai_state.learner (s : ai_state) (who : Int) : net :=
  if who = 0 then s.learner0 else s.learner1

/-- The state after an assignment to `learner[who]`. -/
def ai_state.set_learner (s : ai_state) (who : Int) (l : net) : ai_state :=
  if who = 0 then { s with learner0 := l } else { s with learner1 := l }

/-- The node `nodes[k]`. -/
def ai_state.node_at (s : ai_state) (k : Int) : node := s.nodes.getD k.toNat default

/-- The part of the static state that the chooser `ai_choose` writes when it is
called on a simulated game: the choice nodes and their count, the two guard
flags, and the nets it evaluates with. -/
structure choose_state where
  nodes : List node
  node_len : Int
  inside_choose : Int
  stop_choose : Int
  learner0 : net
  learner1 : net
  deriving DecidableEq, Inhabited

/-- The chooser's part of the static state. -/
def ai_state.cs (s : ai_state) : choose_state :=
  { nodes := s.nodes, node_len := s.node_len, inside_choose := s.inside_choose,
    stop_choose := s.stop_choose, learner0 := s.learner0, learner1 := s.learner1 }

/-- The static state with the chooser's part replaced. -/
def ai_state.with_cs (s : ai_state) (c : choose_state) : ai_state :=
  { s with nodes := c.nodes, node_len := c.node_len, inside_choose := c.inside_choose,
           stop_choose := c.stop_choose, learner0 := c.learner0, learner1 := c.learner1 }

/-! ## The rules engine as seen from `ai.c`

The functions of `engine.c` that `ai.c` calls are parameters.  The static
variables of `ai.c` have internal linkage: a rules function reaches them only by
calling the `choose` handler of a player's control table, and in a simulated
game both tables are `ai_func` (see `simulate_game`), so the handler is
`ai_choose`.  A mutator or a choice callback therefore maps the game and the
chooser's part of the static state to new ones, reading the flag
`checking_retreat`; the legality queries read the game only.  On the real
game, or while an assist string is set, `ai_choose` replays the stored path
and a callback can reach all of the static state: that run of a callback is
the separate parameter `replay_callback`. -/

/-- A rules function that changes the game (run on a simulated game). -/
abbrev mutator := game → Int → choose_state → game × choose_state

/-- The rules engine: queries and mutators of `engine.c` and the choice
callbacks it hands to `choose`. -/
structure Engine where
  retrieve_legal : game → card → Int
  card_eligible : game → design → Int
  card_allowed : game → design → Int
  special_possible : game → design → Int
  satisfy_possible : game → design → Int
  check_end_support : game → Int
  support_allowed : game → Int
  load_allowed : game → design → Int
  bluff_legal : game → Int → Int
  start_turn : mutator
  end_support : mutator
  refresh_phase : mutator
  end_turn : mutator
  retreat : mutator
  retrieve_card : Option design → mutator
  play_card : Option design → Int → Int → mutator
  announce_power : Int → mutator
  use_special : Option design → mutator
  satisfy_discard : Option design → mutator
  land_ship : Option design → mutator
  load_card : Option design → Option design → mutator
  play_bluff : Option design → mutator
  reveal_bluff : Int → Option design → mutator
  callback : Nat → game → Int → List design → Nat → Int → choose_state →
    Int × game × choose_state
  replay_callback : Nat → game → Int → List design → Nat → ai_state →
    Int × game × ai_state

/-- Run a mutator of the rules engine from `ai.c`. -/
def run_mutator (m : mutator) (g : game) (s : ai_state) : game × ai_state :=
  let r := m g s.checking_retreat s.cs
  (r.1, s.with_cs r.2)

/-- Call a choice callback from `ai.c`: the callback value, the game and the
static state afterwards. -/
def run_callback (E : Engine) (cb : Nat) (g : game) (who : Int) (list : List design)
    (data : Nat) (s : ai_state) : Int × game × ai_state :=
  let r := E.callback cb g who list data s.checking_retreat s.cs
  (r.1, r.2.1, s.with_cs r.2.2)

/-! ## Position evaluator (`ai.c`) -/

/-- The features `x > 0`, `x > 1`, ..., `x > n - 1`. -/
def thresholds (n : Nat) (x : Int) : List Int :=
  (List.range n).map (fun j => b2i (decide (x > (j : Int))))

/-- The per-card inputs of player `i` as seen by `who`: active, in hand, used,
loaded on a ship (four loops over the deck). -/
def eval_card_inputs (g : game) (who i : Int) : List Int :=
  let cs := (g.p i).loop_cards
  cs.map (fun c => b2i (c.active ≠ 0 && c.random_fake = 0 &&
      c.d_ptr.type ≠ TYPE_LEADERSHIP && (who = i || c.loc_known ≠ 0))) ++
  cs.map (fun c => b2i ((who = i || c.loc_known ≠ 0) && c.where_ = LOC_HAND &&
      c.random_fake = 0)) ++
  cs.map (fun c => b2i ((who = i || c.loc_known ≠ 0) && c.random_fake = 0 &&
      (c.where_ = LOC_DISCARD || c.where_ = LOC_LEADERSHIP ||
        (c.where_ = LOC_COMBAT && c.active = 0)))) ++
  cs.map (fun c => b2i (c.ship ≠ none))

/-- The flag `bad_bluff`: some bluff card of `who` lacks the bluff icon of the
current fight element. -/
def eval_bad_bluff (g : game) (who : Int) : Int :=
  b2i ((g.p who).loop_cards.any (fun c => c.bluff ≠ 0 &&
    ((g.fight_element = 0 && !has_bits c.icons ICON_BLUFF_F) ||
     (g.fight_element ≠ 0 && !has_bits c.icons ICON_BLUFF_E))))

/-- The per-player inputs of player `i` as seen by `who` (second loop over the
players). -/
def eval_player_inputs (g : game) (who i : Int) : List Int :=
  let p := g.p i
  let power := if g.fight_started ≠ 0 then compute_power g i else 0
  let bluff : Int := (p.loop_cards.filter (fun c => c.bluff ≠ 0)).length
  let stack := p.stack_at LOC_COMBAT + p.stack_at LOC_SUPPORT - bluff
  let chars : Int := (p.loop_cards.filter (fun c => c.d_ptr.type = TYPE_CHARACTER &&
      (c.where_ = LOC_HAND && (who = i || c.loc_known ≠ 0) && c.random_fake = 0))).length
  let undisclosed : Int := (p.loop_cards.filter (fun c => c.where_ = LOC_HAND &&
      c.disclosed = 0)).length
  [b2i (g.turn = i && g.game_over = 0)] ++
  thresholds 15 power ++
  thresholds 8 stack ++
  thresholds 4 bluff ++
  thresholds 10 (p.stack_at LOC_HAND) ++
  thresholds 30 (p.stack_at LOC_DRAW + p.stack_at LOC_HAND) ++
  thresholds 5 chars ++
  thresholds 6 undisclosed ++
  [p.no_cards] ++
  thresholds 3 p.dragons ++
  [p.instant_win]

/-- The values `eval_game` passes to `SET_INPUT`, in the order of the calls. -/
def eval_inputs (g : game) (who : Int) : List Int :=
  eval_card_inputs g who 0 ++ eval_card_inputs g who 1 ++
  (g.p who).loop_cards.map (fun c =>
    b2i (c.text_boosted ≠ 0 || c.on_bottom ≠ 0 || c.bluff ≠ 0)) ++
  [eval_bad_bluff g who, g.game_over, g.fight_started,
   b2i (g.fight_element ≠ 0 && g.fight_started ≠ 0),
   b2i (g.fight_element = 0 && g.fight_started ≠ 0)] ++
  eval_player_inputs g who 0 ++ eval_player_inputs g who 1

/-- The macro `SET_INPUT(l, n, x)`. -/
def SET_INPUT (l : net) (n : Nat) (x : Int) : net :=
  { l with input_value := l.input_value.set n x }

/-- The calls `SET_INPUT(l, n++, x)` for the values `xs` in turn, from `n = 0`. -/
def set_inputs (l : net) (xs : List Int) : net :=
  (xs.foldl (fun (acc : net × Nat) x => (SET_INPUT acc.1 acc.2 x, acc.2 + 1)) (l, 0)).1

/-- The evaluator on the net `l = learner[who]`: the score and the net after
the call. -/
def eval_game_net (expf : ℚ → ℚ) (l : net) (g : game) (who : Int) : ℚ × net :=
  if l.num_inputs = 0 then (1 / 2, l)
  else
    let l1 := compute_net expf (set_inputs l (eval_inputs g who))
    (l1.win_prob.getD who.toNat 0, l1)

/-- Evaluate the current game state (`eval_game`). -/
def eval_game (expf : ℚ → ℚ) (g : game) (who : Int) (s : ai_state) : ℚ × ai_state :=
  let r := eval_game_net expf (s.learner who) g who
  (r.1, s.set_learner who r.2)

/-! ## Legal actions (`ai.c`) -/

/-- An action with only its code set. -/
def mk_act (a : Int) : action :=
  { act := a, arg := none, target := none, chosen := 0, index := 0 }

/-- An action with its code, card index and argument set. -/
def mk_act_card (a : Int) (i : Nat) (d : design) : action :=
  { act := a, arg := some d, target := none, chosen := 0, index := i }

/-- The card `deck[i]` of a player. -/
def player.card_at (p : player) (i : Nat) : card := p.deck.getD i default

/-- The indices `1`, ..., `DECK_SIZE - 1` of the loops over a deck. -/
def deck_indices : List Nat := (List.range (DECK_SIZE - 1)).map (fun j => j + 1)

/-- The indices of the loop `for (i = p->last_played + 1; i < DECK_SIZE; i++)`. -/
def later_indices (p : player) : List Nat :=
  (List.range DECK_SIZE).filter (fun i => decide (p.last_played + 1 ≤ (i : Int)))

/-- The effect code of "you may not call bluff". -/
def no_call_bluff_effect : Int := ((S3_YOU_MAY_NOT ||| S3_CALL_BLUFF : Nat) : Int)

/-- Return how many more bluff cards we can play before it is obvious that it
is bad (`check_auto_bluff`). -/
def check_auto_bluff (g : game) (future : Int) : Int :=
  let p := g.p g.turn
  if p.loop_cards.any (fun c =>
      c.d_ptr.special_cat = 3 && c.d_ptr.special_effect = no_call_bluff_effect &&
        ((c.active ≠ 0 && c.text_ignored = 0) || (c.where_ = LOC_HAND && future ≠ 0)))
  then 99
  else
    let unknown_f : Int := (p.loop_cards.filter (fun c =>
      has_bits c.d_ptr.icons ICON_BLUFF_F && c.loc_known = 0)).length
    let unknown_e : Int := (p.loop_cards.filter (fun c =>
      has_bits c.d_ptr.icons ICON_BLUFF_E && c.loc_known = 0)).length
    let bluff : Int := (p.loop_cards.filter (fun c => c.bluff ≠ 0)).length
    if g.fight_started ≠ 0 then
      (if g.fight_element ≠ 0 then unknown_e - bluff else unknown_f - bluff)
    else
      (if unknown_e < unknown_f then unknown_e - bluff else unknown_f - bluff)

/-- The load actions of `legal_support`: for the first active ship, one per
eligible character, booster or support card when loading is allowed. -/
def legal_loads (E : Engine) (g : game) (checking_retreat : Int) : List action :=
  let p := g.p g.turn
  if checking_retreat ≠ 0 then []
  else
    match deck_indices.find? (fun i =>
        (p.card_at i).active ≠ 0 && (p.card_at i).d_ptr.capacity ≠ 0) with
    | none => []
    | some i =>
      let c := p.card_at i
      ((later_indices p).filter (fun j =>
          let d := p.card_at j
          E.card_eligible g d.d_ptr ≠ 0 &&
          (d.d_ptr.type = TYPE_CHARACTER || d.d_ptr.type = TYPE_BOOSTER ||
            d.d_ptr.type = TYPE_SUPPORT) &&
          E.load_allowed g c.d_ptr ≠ 0)).map (fun j =>
        { act := ACT_LOAD, arg := some (p.card_at j).d_ptr, target := some c.d_ptr,
          chosen := 0, index := j })

/-- The bluff actions of `legal_support`. -/
def legal_bluffs (E : Engine) (g : game) (checking_retreat : Int) : List action :=
  let p := g.p g.turn
  let all := ((later_indices p).filter (fun i =>
      E.card_eligible g (p.card_at i).d_ptr ≠ 0 &&
        has_bits (p.card_at i).icons ICON_BLUFF_MASK)).map (fun i =>
    mk_act_card ACT_BLUFF i (p.card_at i).d_ptr)
  if checking_retreat ≠ 0 then all.take 1 else all

/-- Add a list of legal support phase actions to the given list
(`legal_support`). -/
def legal_support (E : Engine) (g : game) (checking_retreat : Int)
    (legal : List action) : List action :=
  if E.support_allowed g = 0 then legal
  else
    let legal1 := legal ++ legal_loads E g checking_retreat
    if E.bluff_legal g g.turn = 0 then legal1
    else if check_auto_bluff g 1 < 1 then legal1
    else legal1 ++ legal_bluffs E g checking_retreat

/-- The loop "look for cards to play" of `legal_act` over the given indices:
the actions added, and whether the loop left the function (a character on a
ship was found). -/
def legal_plays (E : Engine) (g : game) (checking_retreat : Int) (p : player) :
    List Nat → List action × Bool
  | [] => ([], false)
  | i :: rest =>
    let c := p.card_at i
    if c.random_fake ≠ 0 ∨ E.card_eligible g c.d_ptr = 0 ∨
        (c.d_ptr.type = TYPE_LEADERSHIP ∧ p.phase ≠ PHASE_LEADER) ∨
        (c.d_ptr.type = TYPE_CHARACTER ∧ p.phase ≠ PHASE_CHAR) ∨
        (c.d_ptr.type = TYPE_BOOSTER ∧ p.phase ≠ PHASE_SUPPORT) ∨
        (c.d_ptr.type = TYPE_SUPPORT ∧ p.phase ≠ PHASE_SUPPORT) ∨
        E.card_allowed g c.d_ptr = 0 then
      legal_plays E g checking_retreat p rest
    else
      let acts :=
        (if ((c.d_ptr.special_cat = 4 ∧ has_bits c.d_ptr.special_effect S4_OPTIONAL) ∨
             (c.d_ptr.special_cat = 8 ∧ has_bits c.d_ptr.special_effect S8_OPTIONAL)) ∧
            checking_retreat = 0
         then [mk_act_card ACT_PLAY_NO i c.d_ptr] else []) ++
        [mk_act_card ACT_PLAY i c.d_ptr]
      if p.phase = PHASE_CHAR ∧ c.ship ≠ none then (acts, true)
      else
        let r := legal_plays E g checking_retreat p rest
        (acts ++ r.1, r.2)

/-- The end of `legal_act`, after the switch on the phase: the forced
"satisfy" action for the first unsatisfied "discard or..." card of the
opponent is added to the list. -/
def legal_satisfy (E : Engine) (g : game) (legal : List action) : List action :=
  let p := g.p g.turn
  let opp := g.p (other_player g.turn)
  if legal.length = 0 then legal
  else if p.phase = PHASE_CHAR then legal
  else
    match opp.loop_cards.find? (fun c =>
        c.active ≠ 0 && c.text_ignored = 0 && c.d_ptr.special_cat = 7 &&
        has_bits c.d_ptr.special_effect S7_DISCARD_MASK && c.used = 0 &&
        E.satisfy_possible g c.d_ptr ≠ 0) with
    | some c => legal ++ [{ mk_act ACT_SATISFY with arg := some c.d_ptr }]
    | none => legal

/-- The case `PHASE_BEGIN` of `legal_act`: land a ship, reveal a bluff,
retrieve a card, or do nothing. -/
def legal_begin (E : Engine) (g : game) (checking_retreat : Int) : List action :=
  let p := g.p g.turn
  ((later_indices p).filter (fun i =>
      (p.card_at i).active ≠ 0 && (p.card_at i).d_ptr.capacity ≠ 0 &&
        (p.card_at i).landed = 0)).map (fun i =>
    mk_act_card ACT_LAND i (p.card_at i).d_ptr) ++
  ((later_indices p).filter (fun i =>
      (p.card_at i).bluff ≠ 0 && checking_retreat = 0)).map (fun i =>
    mk_act_card ACT_REVEAL i (p.card_at i).d_ptr) ++
  ((later_indices p).filter (fun i =>
      E.retrieve_legal g (p.card_at i) ≠ 0)).map (fun i =>
    mk_act_card ACT_RETRIEVE i (p.card_at i).d_ptr) ++
  [mk_act ACT_NONE]

/-- The first loop of the play phases of `legal_act`: one action for each
special power that can be used now. -/
def legal_uses (E : Engine) (g : game) : List action :=
  ((g.p g.turn).loop_cards.filter (fun c =>
      c.active ≠ 0 && c.d_ptr.special_cat ≠ 0 && c.text_ignored = 0 && c.used = 0 &&
      c.d_ptr.special_time = TIME_MYTURN && E.special_possible g c.d_ptr ≠ 0)).map
    (fun c => { mk_act ACT_USE with arg := some c.d_ptr })

/-- The end of the play phases of `legal_act`: during a retreat check a
non-empty list is left as it is; otherwise advancing the phase is added unless
a character is still to be played. -/
def legal_advance (p : player) (checking_retreat : Int) (legal : List action) :
    List action :=
  if checking_retreat ≠ 0 ∧ legal.length > 0 then legal
  else if p.phase ≠ PHASE_CHAR ∨ p.char_played ≠ 0 then legal ++ [mk_act ACT_NONE]
  else legal

/-- The cases `PHASE_LEADER`, `PHASE_CHAR` and `PHASE_SUPPORT` of `legal_act`,
with the code after the switch. -/
def legal_play_phase (E : Engine) (g : game) (checking_retreat : Int) : List action :=
  let p := g.p g.turn
  if check_auto_bluff g 1 < 0 then []
  else if (legal_uses E g).length ≠ 0 then legal_uses E g
  else
    let plays := legal_plays E g checking_retreat p (later_indices p)
    if plays.2 then plays.1
    else if p.phase = PHASE_SUPPORT then
      legal_satisfy E g (legal_advance p checking_retreat
        (legal_support E g checking_retreat plays.1))
    else legal_satisfy E g (legal_advance p checking_retreat plays.1)

/-- The case `PHASE_ANNOUNCE` of `legal_act`. -/
def legal_announce (g : game) : List action :=
  if g.fight_started = 0 then [mk_act ACT_ANN_FIRE, mk_act ACT_ANN_EARTH]
  else
    let power :=
      if (g.p g.turn).loop_cards.any (fun c => c.where_ = LOC_COMBAT && c.active ≠ 0 &&
          has_bits c.icons (1 <<< g.fight_element.toNat))
      then 0 else compute_power g (other_player g.turn)
    if power ≤ compute_power g g.turn then [mk_act (ACT_ANN_FIRE + g.fight_element)]
    else []

/-- The case `PHASE_AFTER_SB` of `legal_act`. -/
def legal_after_sb (E : Engine) (g : game) : List action :=
  if check_auto_bluff g 0 < 0 then []
  else if E.check_end_support g ≠ 0 then [mk_act ACT_NONE]
  else []

/-- Return a list of legal actions from the given game state (`legal_act`). -/
def legal_act (E : Engine) (g : game) (checking_retreat : Int) : List action :=
  let p := g.p g.turn
  if p.phase = PHASE_BEGIN then legal_begin E g checking_retreat
  else if p.phase = PHASE_LEADER ∨ p.phase = PHASE_CHAR ∨ p.phase = PHASE_SUPPORT then
    legal_play_phase E g checking_retreat
  else if p.phase = PHASE_RETREAT then [mk_act ACT_RETREAT, mk_act ACT_NONE]
  else if p.phase = PHASE_ANNOUNCE then legal_announce g
  else if p.phase = PHASE_AFTER_SB then legal_after_sb E g
  else if p.phase = PHASE_START ∨ p.phase = PHASE_REFRESH ∨ p.phase = PHASE_END ∨
      p.phase = PHASE_OVER then [mk_act ACT_NONE]
  else []

/-! ## Performing an action (`ai.c`) -/

/-- The assignment `p->phase++` for the player to move. -/
def advance_phase (g : game) : game :=
  g.set_p g.turn { g.p g.turn with phase := (g.p g.turn).phase + 1 }

/-- The assignment `p->last_played = i` for the player `who`. -/
def set_last_played (g : game) (who : Int) (i : Int) : game :=
  g.set_p who { g.p who with last_played := i }

/-- The end of a turn in `perform_act` (old phase `PHASE_OVER`): the player
`who` is done, the turn passes, and the opponent starts. -/
def pass_turn (g : game) (who : Int) : game :=
  let g2 := g.set_p who { g.p who with phase := PHASE_NONE }
  let g3 := { g2 with turn := other_player g2.turn }
  g3.set_p (other_player who) { g3.p (other_player who) with phase := PHASE_START }

/-- The case `ACT_NONE` of `perform_act`: advance the phase counter and take
care of the bookkeeping of the phase left. -/
def perform_none (E : Engine) (g : game) (s : ai_state) : game × ai_state :=
  let old_phase := (g.p g.turn).phase
  let g1 := advance_phase g
  if old_phase = PHASE_OVER then (pass_turn g1 g.turn, s)
  else
    let r :=
      if old_phase = PHASE_START then run_mutator E.start_turn g1 s
      else if old_phase = PHASE_AFTER_SB then run_mutator E.end_support g1 s
      else if old_phase = PHASE_REFRESH then run_mutator E.refresh_phase g1 s
      else if old_phase = PHASE_END then run_mutator E.end_turn g1 s
      else (g1, s)
    (set_last_played r.1 g.turn 0, r.2)

/-- Perform the given action (`perform_act`). -/
def perform_act (E : Engine) (g : game) (a : action) (s : ai_state) : game × ai_state :=
  if a.act = ACT_NONE then perform_none E g s
  else if a.act = ACT_RETREAT then run_mutator E.retreat g s
  else if a.act = ACT_RETRIEVE then
    run_mutator (E.retrieve_card a.arg) (set_last_played g g.turn a.index) s
  else if a.act = ACT_PLAY then
    run_mutator (E.play_card a.arg 0 0) (set_last_played g g.turn a.index) s
  else if a.act = ACT_PLAY_NO then
    run_mutator (E.play_card a.arg 1 0) (set_last_played g g.turn a.index) s
  else if a.act = ACT_ANN_FIRE ∨ a.act = ACT_ANN_EARTH then
    run_mutator (E.announce_power (a.act - ACT_ANN_FIRE)) (advance_phase g) s
  else if a.act = ACT_USE then run_mutator (E.use_special a.arg) g s
  else if a.act = ACT_SATISFY then run_mutator (E.satisfy_discard a.arg) g s
  else if a.act = ACT_LAND then
    run_mutator (E.land_ship a.arg) (set_last_played g g.turn a.index) s
  else if a.act = ACT_LOAD then
    run_mutator (E.load_card a.arg a.target) (set_last_played g g.turn a.index) s
  else if a.act = ACT_BLUFF then
    run_mutator (E.play_bluff a.arg) (set_last_played g g.turn a.index) s
  else if a.act = ACT_REVEAL then
    run_mutator (E.reveal_bluff g.turn a.arg) (set_last_played g g.turn a.index) s
  else (g, s)

/-! ## Search (`ai.c`) -/

/-- What a search function returns: the score, the game its argument points to
and the static state, all after the call. -/
abbrev search_result := ℚ × game × ai_state

/-- The cards selected by the bits of a combination: the loop
`for (j = 0; (1 << j) <= mask; j++) if (mask & (1 << j)) list[num++] = choices[j]`
over 32-bit integers. -/
def chosen_cards (choices : List design) (mask : Int) : List design :=
  ((List.range 31).filter (fun j =>
    decide ((2 : Int) ^ j ≤ mask) && mask.toNat.testBit j)).map
      (fun j => choices.getD j default)

/-- The block "check for better actions than previously discovered": unless a
retreat check is running, a score not below `best_path_score` is saved and the
entry `best_path[best_path_pos]` is rewritten by `upd`. -/
def store_best (s : ai_state) (score : ℚ) (upd : action → action) : ai_state :=
  if s.checking_retreat = 0 ∧ score ≥ s.best_path_score then
    { s with
      best_path := write_at s.best_path s.best_path_pos.toNat
        (upd (s.best_path.getD s.best_path_pos.toNat default))
      best_path_score := score }
  else s

/-- Simulate the results of declining a fight (`check_decline`). -/
def check_decline (expf : ℚ → ℚ) (g : game) (who : Int) (s : ai_state) : ℚ × ai_state :=
  let opp := g.p who
  let r0 := eval_game expf g who s
  if opp.stack_at LOC_HAND = 0 then r0
  else
    let s1 := { r0.2 with checking_decline := 1 }
    let sim_f := { simulate_game g with fight_started := 1, fight_element := 0, turn := who }
    let r1 := eval_game expf sim_f who s1
    let b1 := if r1.1 < r0.1 then r1.1 else r0.1
    let sim_e := { simulate_game g with fight_started := 1, fight_element := 1, turn := who }
    let r2 := eval_game expf sim_e who r1.2
    let b2 := if r2.1 < b1 then r2.1 else b1
    (b2, { r2.2 with checking_decline := 0 })

/-- The flag `bluff` of `check_retreat`: an active opponent card is a bluff, and
no active opponent card forbids calling bluffs. -/
def retreat_bluff (opp : player) : Bool :=
  let blocks (c : card) : Bool :=
    c.active ≠ 0 && c.text_ignored = 0 && c.d_ptr.special_cat = 3 &&
      c.d_ptr.special_effect = no_call_bluff_effect
  !(opp.loop_cards.any blocks) && opp.loop_cards.any (fun c => c.active ≠ 0 && c.bluff ≠ 0)

/-- A card whose location `check_retreat` treats as unknown. -/
def card.unknown (c : card) : Bool := !(c.loc_known ≠ 0 && c.random_fake = 0)

/-- The hypothetical deck of `check_retreat`: every card of unknown location is
put in the hand. -/
def pretend_in_hand (p : player) : player :=
  let deck1 := deck_indices.foldl (fun d i =>
    if (d.getD i default).unknown then
      d.set i { d.getD i default with random_fake := 0, where_ := LOC_HAND }
    else d) p.deck
  { p with deck := deck1 }

/-- The hypothetical game of `check_retreat` and the number `moved` of cards
put in the hand: a copy of the game in which, unless every card in the hand of
the player to move is known, all cards of unknown location are in that hand. -/
def retreat_hypothesis (g : game) : game × Int :=
  let sim := simulate_game g
  let p := sim.p sim.turn
  if p.loop_cards.all (fun c => c.where_ ≠ LOC_HAND || c.loc_known ≠ 0) then (sim, 0)
  else (sim.set_p sim.turn (pretend_in_hand p), (p.loop_cards.filter card.unknown).length)

/-- The end of `check_retreat`, after the simulated search returned in the
static state `s`: a player who must retreat does so in the game `g`, and the
retreat check flag is cleared. -/
def check_retreat_end (E : Engine) (g : game) (s : ai_state) : game × ai_state :=
  let r := if s.must_retreat ≠ 0 then run_mutator E.retreat g s else (g, s)
  (r.1, { r.2 with checking_retreat := 0 })

/-- Check if current player must retreat (`check_retreat`); `find` is
`find_action`. -/
def check_retreat (E : Engine) (find : game → ai_state → Option search_result)
    (g : game) (s : ai_state) : Option (game × ai_state) :=
  if g.fight_started = 0 then some (g, s)
  else if retreat_bluff (g.p (other_player g.turn)) then some (g, s)
  else if (retreat_hypothesis g).2 > 15 then some (g, s)
  else
    match find (retreat_hypothesis g).1 { s with must_retreat := 1, checking_retreat := 1 } with
    | none => none
    | some r => some (check_retreat_end E g r.2.2)

/-- One pass of the loop of `choose_action` for the combination `legal[i]` of
the node `n`: the score and the static state afterwards. -/
def choose_branch (E : Engine) (expf : ℚ → ℚ)
    (find : game → ai_state → Option search_result) (g : game) (old_turn : Int)
    (n : node) (i : Nat) (s : ai_state) : Option (ℚ × ai_state) :=
  let list := chosen_cards n.choices (n.legal.getD i 0)
  let sim := simulate_game g
  let r := run_callback E n.callback sim n.who list n.data s
  let sim1 := r.2.1
  let s1 := r.2.2
  if sim1.turn ≠ old_turn then
    if s1.checking_retreat ≠ 0 then some (0, s1)
    else some (check_decline expf sim1 sim1.sim_turn s1)
  else (find sim1 s1).map (fun x => (x.1, x.2.2))

/-- The loop over the combinations of the node `nodes[pos]` in `choose_action`,
from index `i` with the best score `b_s` and combination `best_combo` so far.
The array `legal` has 5000 cells: `fuel` bounds the passes, and reading past the
array gives no result. -/
def choose_loop (E : Engine) (expf : ℚ → ℚ)
    (find : game → ai_state → Option search_result) (g : game) (old_turn : Int)
    (pos : Int) : Nat → Nat → ℚ → Int → ai_state → Option (ℚ × Int × ai_state)
  | 0, i, b_s, best_combo, s =>
    if (i : Int) < (s.node_at pos).num_legal ∧ ¬ (s.checking_retreat ≠ 0 ∧ s.must_retreat = 0)
    then none else some (b_s, best_combo, s)
  | fuel + 1, i, b_s, best_combo, s =>
    if (i : Int) < (s.node_at pos).num_legal ∧ ¬ (s.checking_retreat ≠ 0 ∧ s.must_retreat = 0)
    then
      match choose_branch E expf find g old_turn (s.node_at pos) i s with
      | none => none
      | some r =>
        if r.1 ≥ b_s then
          choose_loop E expf find g old_turn pos fuel (i + 1) r.1
            ((r.2.node_at pos).legal.getD i 0) r.2
        else choose_loop E expf find g old_turn pos fuel (i + 1) b_s best_combo r.2
    else some (b_s, best_combo, s)

/-- Handle a choice to be made (`choose_action`): the score and the static
state afterwards. -/
def choose_action (E : Engine) (expf : ℚ → ℚ)
    (find : game → ai_state → Option search_result) (g : game) (s : ai_state) :
    Option (ℚ × ai_state) :=
  let old_turn := g.turn
  let pos := s.node_pos
  let s1 := { s with node_pos := s.node_pos + 1, best_path_pos := s.best_path_pos + 1 }
  match choose_loop E expf find g old_turn pos 5000 0 (-1) 0 s1 with
  | none => none
  | some r =>
    let b_s := r.1
    let best_combo := r.2.1
    let s2 := { r.2.2 with node_pos := r.2.2.node_pos - 1, node_len := r.2.2.node_len - 1,
                           best_path_pos := r.2.2.best_path_pos - 1 }
    some (b_s, store_best s2 b_s (fun a => { a with act := ACT_CHOOSE, chosen := best_combo }))

/-- The single-action part of `find_action`: the only legal action `a` is
performed on the game itself. -/
def find_single (E : Engine) (expf : ℚ → ℚ)
    (find : game → ai_state → Option search_result) (g : game) (a : action)
    (s : ai_state) : Option search_result :=
  let old_turn := g.turn
  let s1 := { s with best_path_pos := s.best_path_pos + 1 }
  let r := perform_act E g a s1
  let scored : Option search_result :=
    if r.1.turn ≠ old_turn then
      if r.2.checking_retreat ≠ 0 then some (0, r.1, { r.2 with must_retreat := 0 })
      else
        match check_retreat E find r.1 r.2 with
        | none => none
        | some c =>
          let e := eval_game expf c.1 c.1.sim_turn c.2
          some (e.1, c.1, { e.2 with must_retreat := 0 })
    else find r.1 r.2
  match scored with
  | none => none
  | some x =>
    let s2 := { x.2.2 with best_path_pos := x.2.2.best_path_pos - 1 }
    some (x.1, x.2.1, store_best s2 x.1 (fun _ => a))

/-- One pass of the loop over the available actions in `find_action`: the
action is performed on a copy of the game and the continuation is scored. -/
def find_branch (E : Engine) (expf : ℚ → ℚ)
    (find : game → ai_state → Option search_result) (g : game) (a : action)
    (s : ai_state) : Option (ℚ × ai_state) :=
  let sim := simulate_game g
  let r := perform_act E sim a s
  if a.act = ACT_RETREAT ∧ r.2.node_pos = r.2.node_len then
    if r.2.checking_retreat ≠ 0 then some (0, r.2)
    else some (eval_game expf r.1 r.1.sim_turn r.2)
  else (find r.1 r.2).map (fun x => (x.1, x.2.2))

/-- The loop over the available actions in `find_action`, with the best score
`b_s` and the action `best_act` kept so far (`none` while it is unassigned). -/
def find_loop (E : Engine) (expf : ℚ → ℚ)
    (find : game → ai_state → Option search_result) (g : game) :
    List action → ℚ → Option action → ai_state → Option (ℚ × Option action × ai_state)
  | [], b_s, best_act, s => some (b_s, best_act, s)
  | a :: rest, b_s, best_act, s =>
    if s.checking_retreat ≠ 0 ∧ s.must_retreat = 0 then some (b_s, best_act, s)
    else
      match find_branch E expf find g a s with
      | none => none
      | some r =>
        if r.1 ≥ b_s then find_loop E expf find g rest r.1 (some a) r.2
        else find_loop E expf find g rest b_s best_act r.2

/-- The multi-action part of `find_action` for the list `legal` of actions.
Storing a `best_act` that was never assigned has no defined result. -/
def find_multi (E : Engine) (expf : ℚ → ℚ)
    (find : game → ai_state → Option search_result) (g : game) (legal : List action)
    (s : ai_state) : Option search_result :=
  let s1 := { s with best_path_pos := s.best_path_pos + 1 }
  match find_loop E expf find g legal (-1) none s1 with
  | none => none
  | some r =>
    let b_s := r.1
    let s2 := { r.2.2 with best_path_pos := r.2.2.best_path_pos - 1 }
    if s2.checking_retreat = 0 ∧ b_s ≥ s2.best_path_score then
      match r.2.1 with
      | none => none
      | some best_act => some (b_s, g, store_best s2 b_s (fun _ => best_act))
    else some (b_s, g, s2)

/-- The body of `find_action`, with `find` for its recursive calls. -/
def find_action_step (E : Engine) (expf : ℚ → ℚ)
    (find : game → ai_state → Option search_result) (g : game) (s : ai_state) :
    Option search_result :=
  if g.game_over ≠ 0 then
    let e := eval_game expf g g.sim_turn { s with node_len := s.node_pos }
    some (e.1, g, e.2)
  else if s.node_pos < s.node_len then
    (choose_action E expf find g s).map (fun r => (r.1, g, r.2))
  else if s.checking_retreat ≠ 0 ∧ s.must_retreat = 0 then some (0, g, s)
  else
    let legal := legal_act E g s.checking_retreat
    match legal with
    | [] => some (-1, g, s)
    | [a] => find_single E expf find g a s
    | _ => find_multi E expf find g legal s

/-- Find the best "action path" available from the given state
(`find_action`).  The function is recursive; `fuel` bounds the depth of the
calls, and no result is returned when it runs out. -/
def find_action (E : Engine) (expf : ℚ → ℚ) : Nat → game → ai_state → Option search_result
  | 0 => fun _ _ => none
  | fuel + 1 => find_action_step E expf (find_action E expf fuel)

/-! ## Card chooser (`ai.c`) -/

/-- The text `choose_assist` adds to the assist string. -/
def choose_assist_text (chosen : List design) : String :=
  if chosen.length ≠ 0 then
    "Choose " ++ toString chosen.length ++ ": " ++
      ", ".intercalate (chosen.map (fun d => d.name)) ++ "\n"
  else "Choose none\n"

/-- The check "ability to stop looking": a callback value above 1 during a
retreat check sets `stop_choose`. -/
def note_decisive (s : ai_state) (callback_value : Int) : ai_state :=
  if callback_value > 1 ∧ s.checking_retreat ≠ 0 then { s with stop_choose := 1 } else s

/-- The combination `chosen` is added to the node `nodes[node_len]`:
`legal[num_legal] = chosen` and `num_legal++`.  The array `legal` has
`LEGAL_SIZE` cells and the program does not check the index.  A write at an
index from `LEGAL_SIZE` on falls outside the array: the model sets
`legal_overrun` and goes on as if the array were long enough, and from then on
it does not describe the program. -/
def record_combo (s : ai_state) (chosen : Int) : ai_state :=
  let nd := s.node_at s.node_len
  let legal1 := write_at nd.legal nd.num_legal.toNat chosen
  let nd1 := { nd with legal := legal1, num_legal := nd.num_legal + 1 }
  { s with
    nodes := write_at s.nodes s.node_len.toNat nd1,
    legal_overrun :=
      if 0 ≤ nd.num_legal ∧ nd.num_legal < (LEGAL_SIZE : Int) then s.legal_overrun else 1 }

/-- The end of the recursion of `ai_choose_aux` (`n` is zero): the combination
`chosen` is tried on a copy of the game. -/
def ai_choose_leaf (E : Engine) (expf : ℚ → ℚ) (g : game) (chooser who : Int)
    (choices : List design) (callback data : Nat) (chosen best : Int) (b_s : ℚ)
    (s : ai_state) : Int × ℚ × ai_state :=
  let r := run_callback E callback (simulate_game g) who (chosen_cards choices chosen) data s
  if r.1 = 0 then (best, b_s, r.2.2)
  else if chooser = g.turn then (best, b_s, record_combo (note_decisive r.2.2 r.1) chosen)
  else
    let e := eval_game expf r.2.1 chooser (note_decisive r.2.2 r.1)
    if e.1 ≥ b_s then (chosen, e.1, e.2) else (best, b_s, e.2)

/-- Card chooser helper function (`ai_choose_aux`): with `n` cards left to
decide on and `c` more to choose, the new `*best`, `*b_s` and static state. -/
def ai_choose_aux (E : Engine) (expf : ℚ → ℚ) (g : game) (chooser who : Int)
    (choices : List design) (callback data : Nat) :
    Nat → Int → Int → Int → ℚ → ai_state → Int × ℚ × ai_state
  | 0, c, chosen, best, b_s, s =>
    if s.stop_choose ≠ 0 then (best, b_s, s)
    else if c > 0 then (best, b_s, s)
    else ai_choose_leaf E expf g chooser who choices callback data chosen best b_s s
  | n + 1, c, chosen, best, b_s, s =>
    if s.stop_choose ≠ 0 then (best, b_s, s)
    else if c > ((n + 1 : Nat) : Int) then (best, b_s, s)
    else
      let r := ai_choose_aux E expf g chooser who choices callback data n c
        (chosen * 2) best b_s s
      if c ≠ 0 then
        ai_choose_aux E expf g chooser who choices callback data n (c - 1)
          (chosen * 2 + 1) r.1 r.2.1 r.2.2
      else r

/-- A node set up by `ai_choose` for a choice: callback, data, owner and the
roster `choices[0]`, ..., `choices[num_choices - 1]` are written, and
`num_legal` is cleared. -/
def fill_node (nd : node) (who : Int) (choices : List design) (num_choices : Nat)
    (callback data : Nat) : node :=
  let nd1 := { nd with callback := callback, data := data, num_legal := 0, who := who }
  let roster := for_range num_choices (fun i cs => write_at cs i (choices.getD i default))
    nd1.choices
  { nd1 with choices := roster }

/-- The block "set choice data" of `ai_choose`: the node `nodes[node_len]` is
set up for the choice. -/
def register_node (s : ai_state) (who : Int) (choices : List design) (num_choices : Nat)
    (callback data : Nat) : ai_state :=
  let nd := fill_node (s.node_at s.node_len) who choices num_choices callback data
  { s with nodes := write_at s.nodes s.node_len.toNat nd }

/-- The start of `ai_choose` on the real game, or while an assist string is
set, when the next action of the stored path is a choice: the stored
combination `best` is used. -/
def ai_choose_replay (E : Engine) (g : game) (who : Int) (choices : List design)
    (callback data : Nat) (best : Int) (s : ai_state) : game × ai_state :=
  let chosen := chosen_cards choices best
  let r := E.replay_callback callback g who chosen data
    { s with best_path_pos := s.best_path_pos + 1 }
  match r.2.2.assist_str with
  | some str => (r.2.1, { r.2.2 with assist_str := some (str ++ choose_assist_text chosen) })
  | none => (r.2.1, r.2.2)

/-- The statement "restrict maximum" of `ai_choose`. -/
def restrict_max (num_choices : Nat) (max : Int) : Int :=
  if max > (num_choices : Int) then (num_choices : Int) else max

/-- The loop `for (c = min; c <= max; c++)` of `ai_choose` over the number of
cards to choose, from `best = 0` and `b_s = -2`. -/
def ai_choose_search (E : Engine) (expf : ℚ → ℚ) (g : game) (chooser who : Int)
    (choices : List design) (num_choices : Nat) (min max : Int) (callback data : Nat)
    (s : ai_state) : Int × ℚ × ai_state :=
  (List.range (max - min + 1).toNat).foldl (fun acc (k : Nat) =>
    ai_choose_aux E expf g chooser who choices callback data num_choices
      (min + (k : Int)) 0 acc.1 acc.2.1 acc.2.2) (0, -2, s)

/-- The static state when the search for combinations starts: the guard
against recursive calls is set, on the chooser's turn the node is set up, and
`stop_choose` is cleared. -/
def ai_choose_enter (s : ai_state) (on_turn : Bool) (who : Int) (choices : List design)
    (num_choices : Nat) (callback data : Nat) : ai_state :=
  let s1 := { s with inside_choose := 1 }
  let s2 := if on_turn then register_node s1 who choices num_choices callback data else s1
  { s2 with stop_choose := 0 }

/-- Generic card chooser (`ai_choose`); `num_choices` is the number of cards
offered.  The messages printed on an error are left out. -/
def ai_choose (E : Engine) (expf : ℚ → ℚ) (g : game) (chooser who : Int)
    (choices : List design) (num_choices : Nat) (min max : Int) (callback data : Nat)
    (s : ai_state) : game × ai_state :=
  let stored := s.best_path.getD s.best_path_pos.toNat default
  if ((g.simulation = 0 ∧ chooser = g.turn) ∨ s.assist_str ≠ none) ∧
      stored.act = ACT_CHOOSE then
    ai_choose_replay E g who choices callback data stored.chosen s
  else if min > (num_choices : Int) then (g, s)
  else if num_choices = 0 then (g, s)
  else if s.inside_choose ≠ 0 then (g, s)
  else
    let r := ai_choose_search E expf g chooser who choices num_choices min
      (restrict_max num_choices max) callback data
      (ai_choose_enter s (decide (chooser = g.turn)) who choices num_choices callback data)
    if chooser = g.turn then
      (g, { r.2.2 with node_len := r.2.2.node_len + 1, inside_choose := 0 })
    else
      let done := run_callback E callback g who (chosen_cards choices r.1) data r.2.2
      (done.2.1, { done.2.2 with inside_choose := 0 })

/-! ## Sample engine and states

A small rules engine and a few states on which the definitions are run. -/

/-- The mutator that changes nothing. -/
def keep : mutator := fun g _ c => (g, c)

/-- A rules engine whose queries all answer no (the support phase may end),
whose mutators change nothing and whose callbacks accept every combination
and end the game. -/
def quiet_engine : Engine :=
  { retrieve_legal := fun _ _ => 0, card_eligible := fun _ _ => 0,
    card_allowed := fun _ _ => 0, special_possible := fun _ _ => 0,
    satisfy_possible := fun _ _ => 0, check_end_support := fun _ => 1,
    support_allowed := fun _ => 0, load_allowed := fun _ _ => 0,
    bluff_legal := fun _ _ => 0,
    start_turn := keep, end_support := keep, refresh_phase := keep, end_turn := keep,
    retreat := keep, retrieve_card := fun _ => keep, play_card := fun _ _ _ => keep,
    announce_power := fun _ => keep, use_special := fun _ => keep,
    satisfy_discard := fun _ => keep, land_ship := fun _ => keep,
    load_card := fun _ _ => keep, play_bluff := fun _ => keep,
    reveal_bluff := fun _ _ => keep,
    callback := fun _ g _ _ _ _ c => (1, { g with game_over := 1 }, c),
    replay_callback := fun _ g _ _ _ s => (1, g, s) }

/-- A stand-in for `exp`: the constant 1. -/
def flat_exp : ℚ → ℚ := fun _ => 1

/-- A player with 31 blank cards and empty stacks, in the given phase. -/
def blank_player (phase : Int) : player :=
  { (default : player) with
    phase := phase, deck := List.replicate 31 default, stack := List.replicate 8 0 }

/-- A real game at the start of player 0's turn, with seed 7. -/
def real_game : game :=
  { (default : game) with
    p0 := blank_player PHASE_START, p1 := blank_player PHASE_NONE,
    random_seed := 7, start_seed := 7 }

/-- The static state at the start of a search: nothing stored, no net loaded. -/
def fresh_state : ai_state := { (default : ai_state) with best_path_score := -1 }


/-- The arrays of outputs of a net have the size `make_learner` gives them. -/
def net_ok (l : net) : Prop :=
  l.net_result.length = l.num_output.toNat ∧ l.win_prob.length = l.num_output.toNat

/-- A simulated game in which player 0, in the leader phase, holds a played
bluff card that cannot be one: no action is legal. -/
def stuck_game : game :=
  { (default : game) with
    p0 := { blank_player PHASE_LEADER with
      deck := default :: { (default : card) with bluff := 1, loc_known := 1 } ::
        List.replicate 29 default },
    p1 := blank_player PHASE_NONE, simulation := 1 }

/-- A simulated game that is over. -/
def over_game : game :=
  { (default : game) with
    p0 := blank_player PHASE_OVER, p1 := blank_player PHASE_NONE,
    simulation := 1, game_over := 1 }

/-- A simulated game in which player 0 is in the retreat phase. -/
def retreat_game : game :=
  { (default : game) with
    p0 := blank_player PHASE_RETREAT, p1 := blank_player PHASE_NONE, simulation := 1 }

/-- What a search call keeps of the static state `s` in the state `s1` it
returns: the flag `checking_retreat`, and, while that flag is set, the best
path and its score. -/
def kept (s s1 : ai_state) : Prop :=
  s1.checking_retreat = s.checking_retreat ∧
  (s.checking_retreat ≠ 0 →
    s1.best_path = s.best_path ∧ s1.best_path_score = s.best_path_score)

/-- Every call of `find` that returns keeps what `kept` says. -/
def find_keeps (find : game → ai_state → Option search_result) : Prop :=
  ∀ g s r, find g s = some r → kept s r.2.2

/-- Both nets have output arrays of the size `make_learner` gives them. -/
def nets_ok (s : ai_state) : Prop := net_ok s.learner0 ∧ net_ok s.learner1

/-- The rules engine leaves the sizes of the nets' output arrays alone (it
reaches the nets only through the evaluator). -/
def Engine.keeps_nets (E : Engine) : Prop :=
  (∀ g a s, nets_ok s → nets_ok (perform_act E g a s).2) ∧
  (∀ g s, nets_ok s → nets_ok (run_mutator E.retreat g s).2) ∧
  (∀ cb g who list data s, nets_ok s → nets_ok (run_callback E cb g who list data s).2.2)

/-- Every call of `find` that returns from nets of the right sizes gives a
score of at least -1 and leaves nets of the right sizes. -/
def find_scores (find : game → ai_state → Option search_result) : Prop :=
  ∀ g s r, nets_ok s → find g s = some r → -1 ≤ r.1 ∧ nets_ok r.2.2

/-- The scores of the branches of the multi-action loop of `find_action` for
the actions `legal`, each branch run in turn from the static state the one
before left, and the static state after the last. -/
def branch_scores (E : Engine) (expf : ℚ → ℚ)
    (find : game → ai_state → Option search_result) (g : game) :
    List action → ai_state → Option (List ℚ × ai_state)
  | [], s => some ([], s)
  | a :: rest, s =>
    match find_branch E expf find g a s with
    | none => none
    | some x =>
      match branch_scores E expf find g rest x.2 with
      | none => none
      | some y => some (x.1 :: y.1, y.2)

/-- The comparison of the multi-action loop of `find_action` run over the
actions paired with their scores: a score not below the best so far replaces
it, with its action. -/
def keep_best (pairs : List (action × ℚ)) (b_s : ℚ) (best_act : Option action) :
    ℚ × Option action :=
  pairs.foldl (fun acc p => if p.2 ≥ acc.1 then (p.2, some p.1) else acc) (b_s, best_act)

/-- A simulated game in which player 0 is to move in a search of their own. -/
def own_game : game :=
  { (default : game) with
    p0 := blank_player PHASE_SUPPORT, p1 := blank_player PHASE_NONE,
    turn := 0, simulation := 1, sim_turn := 0 }

/-- A card design named by its index alone. -/
def plain_design (k : Int) : design := { (default : design) with index := k }

/-- Two cards offered for a choice. -/
def two_cards : List design := [plain_design 1, plain_design 2]
/-- A rules engine like `quiet_engine` whose callbacks end the game also when a
stored choice is replayed. -/
def marking_engine : Engine :=
  { quiet_engine with replay_callback := fun _ g _ _ _ s => (1, { g with game_over := 1 }, s) }

/-- The static state in the middle of a search for combinations (the guard
`inside_choose` is set) with the stored path `[ACT_CHOOSE 1]`. -/
def guarded_state : ai_state :=
  { fresh_state with
    inside_choose := 1, best_path := [{ mk_act ACT_CHOOSE with chosen := 1 }] }

/-- A real game in the support phase of player 0. -/
def support_game : game :=
  { (default : game) with
    p0 := blank_player PHASE_SUPPORT, p1 := blank_player PHASE_NONE,
    random_seed := 7, start_seed := 7 }
/-- What the end of `ai_choose_aux` finds for one combination when the chooser
is not to move: the callback value on the copy of the game and, for an accepted
combination, the score of the copy for the chooser. -/
structure combo_try where
  mask : Int
  value : Int
  score : ℚ
  deriving DecidableEq, Inhabited

/-- The comparison `score >= *b_s` of `ai_choose_aux` run over the combinations
tried: an accepted combination with a score not below the best so far replaces
it. -/
def pick_combo (tries : List combo_try) (best : Int) (b_s : ℚ) : Int × ℚ :=
  tries.foldl (fun acc t =>
    if t.value ≠ 0 ∧ t.score ≥ acc.2 then (t.mask, t.score) else acc) (best, b_s)

/-- What `make_learner` takes from outside the program: the contents of the
cells `malloc` returns and that it leaves unset, and the values drawn by
`random_weight` for `hidden_weight[i][j]` and `output_weight[i][j]`. -/
structure allocation where
  input_value : Nat → Int
  hidden_result : Nat → ℚ
  net_result : Nat → ℚ
  win_prob : Nat → ℚ
  hidden_weight : Nat → Nat → ℚ
  output_weight : Nat → Nat → ℚ

/-- Create a network of the given size (`make_learner`).  The fields
`prob_sum` and `alpha` are not assigned. -/
def make_learner (learn : net) (input hidden output : Nat) (mem : allocation) : net :=
  { learn with
    num_output := output, num_inputs := input, num_hidden := hidden,
    input_value := (List.range input).map mem.input_value ++ [1],
    prev_input := List.replicate (input + 1) 0,
    hidden_sum := List.replicate hidden 0,
    hidden_result := (List.range hidden).map mem.hidden_result ++ [1],
    hidden_error := List.replicate hidden 0,
    net_result := (List.range output).map mem.net_result,
    win_prob := (List.range output).map mem.win_prob,
    hidden_weight := (List.range (input + 1)).map (fun i =>
      (List.range hidden).map (fun j => mem.hidden_weight i j)),
    output_weight := (List.range (hidden + 1)).map (fun i =>
      (List.range output).map (fun j => mem.output_weight i j)),
    past_input := [], num_past := 0, num_training := 0 }

/-- A stand-in for `exp` that is positive and increasing: `1 + x` from 0 on,
`1 / (1 - x)` below. -/
def ramp_exp : ℚ → ℚ := fun x => if 0 ≤ x then 1 + x else 1 / (1 - x)

/-- Cleared memory, all weights zero but the bias weight `a` of output 0 and
`b` of output 1. -/
def bias_memory (hidden : Nat) (a b : ℚ) : allocation :=
  { input_value := fun _ => 0, hidden_result := fun _ => 0, net_result := fun _ => 0,
    win_prob := fun _ => 0, hidden_weight := fun _ _ => 0,
    output_weight := fun j i => if j = hidden then (if i = 0 then a else b) else 0 }

/-- A net of the program's size made by `make_learner` from cleared memory, all
weights zero but the bias weights `a` and `b` of the two outputs, with the
learning rate of `ai_initialize`. -/
def favouring_net (a b : ℚ) : net :=
  { make_learner default NET_INPUT HIDDEN_NODES 2 (bias_memory HIDDEN_NODES a b) with
    alpha := 1 / 10000 }

/-- The static state with a net of the program's size for each player: the net
of player 0 favours output 0 and the net of player 1 favours output 1. -/
def loaded_state : ai_state :=
  { fresh_state with
    learner0 := favouring_net 1 0, learner1 := favouring_net 0 1 }
/-! ## Training and incremental evaluation (`net.c`) -/

/-- The assignment `output_weight[j][i] = x`. -/
def net.set_ow (l : net) (j i : Nat) (x : ℚ) : net :=
  { l with output_weight := l.output_weight.set j ((l.output_weight.getD j []).set i x) }

/-- The assignment `hidden_weight[i][j] = x`. -/
def net.set_hw (l : net) (i j : Nat) (x : ℚ) : net :=
  { l with hidden_weight := l.hidden_weight.set i ((l.hidden_weight.getD i []).set j x) }

/-- The hidden node's effect on output `i` in `train_net`: the loop over the
other output nodes `k`. -/
def train_hderiv (expf : ℚ → ℚ) (l : net) (i j : Nat) (deriv : ℚ) : ℚ :=
  for_range l.num_output.toNat (fun k hderiv =>
    if i = k then hderiv
    else hderiv - l.ow j k * expf (l.net_result.getD i 0 + l.net_result.getD k 0) /
      (l.prob_sum * l.prob_sum)) (deriv * l.ow j i)

/-- The pass of the first loop of `train_net` for the output node `i`: the
weights of the hidden nodes, their errors, and the bias weight (after the inner
loop `j` is `num_hidden`). -/
def train_output (expf : ℚ → ℚ) (lambda : ℚ) (desired : List ℚ) (i : Nat) (l : net) : net :=
  let error := lambda * (l.win_prob.getD i 0 - desired.getD i 0)
  let deriv := l.win_prob.getD i 0 * (1 - l.win_prob.getD i 0)
  let l1 := for_range l.num_hidden.toNat (fun j x =>
    let corr := -error * x.hidden_result.getD j 0 * deriv
    let hderiv := train_hderiv expf x i j deriv
    let x1 := { x with hidden_error := x.hidden_error.set j (x.hidden_error.getD j 0 +
      error * hderiv) }
    x1.set_ow j i (x1.ow j i + x1.alpha * corr)) l
  l1.set_ow l1.num_hidden.toNat i (l1.ow l1.num_hidden.toNat i + l1.alpha * -error * deriv)

/-- The array `hidden_corr` of `train_net`. -/
def train_hidden_corr (l : net) : List ℚ :=
  (List.range l.num_hidden.toNat).map (fun i =>
    l.hidden_result.getD i 0 * (1 - l.hidden_result.getD i 0) * -l.hidden_error.getD i 0 *
      l.alpha)

/-- The loop over inputs of `train_net`: the hidden weights of the nonzero
inputs are adjusted. -/
def train_hidden_weights (l : net) (hidden_corr : List ℚ) : net :=
  for_range (l.num_inputs + 1).toNat (fun i x =>
    if x.input_value.getD i 0 = 0 then x
    else for_range x.num_hidden.toNat (fun j y =>
      y.set_hw i j (y.hw i j + hidden_corr.getD j 0)) x) l

/-- The end of `train_net`: the hidden errors, the stored sums and the
previous inputs are cleared. -/
def train_clear (l : net) : net :=
  let l1 := for_range l.num_hidden.toNat (fun i x =>
    { x with hidden_error := x.hidden_error.set i 0, hidden_sum := x.hidden_sum.set i 0 }) l
  { l1 with prev_input :=
      for_range (l1.num_inputs + 1).toNat (fun i p => p.set i 0) l1.prev_input }

/-- Train a network so that the current results are more like the desired
(`train_net`). -/
def train_net (expf : ℚ → ℚ) (learn : net) (lambda : ℚ) (desired : List ℚ) : net :=
  let l1 := for_range learn.num_output.toNat (train_output expf lambda desired) learn
  train_clear (train_hidden_weights l1 (train_hidden_corr l1))

/-- A call on a net: an input is changed, the net is computed, or it is
trained. -/
inductive net_op where
  | set_input (n : Nat) (x : Int)
  | compute
  | train (lambda : ℚ) (desired : List ℚ)

/-- The net after a call. -/
def run_op (expf : ℚ → ℚ) (l : net) : net_op → net
  | net_op.set_input n x => SET_INPUT l n x
  | net_op.compute => compute_net expf l
  | net_op.train lambda desired => train_net expf l lambda desired

/-- The net after a sequence of calls. -/
def run_ops (expf : ℚ → ℚ) (l : net) (ops : List net_op) : net :=
  ops.foldl (run_op expf) l

/-- The hidden sum of node `j` computed from scratch, as the specification
describes the forward pass: the sum over the inputs `i` in `0..num_inputs`
(bias slot included) of `hidden_weight[i][j] * input_value[i]`. -/
def scratch_hidden_sum (l : net) (j : Nat) : ℚ :=
  ((List.range (l.num_inputs + 1).toNat).map (fun i =>
    l.hw i j * ((l.input_value.getD i 0 : Int) : ℚ))).sum

/-- The stored sums of a net agree with its previous inputs: the arrays have
the allocated sizes and `hidden_sum[j]` is the sum of
`hidden_weight[i][j] * prev_input[i]`. -/
def sums_stored (l : net) : Prop :=
  l.hidden_sum.length = l.num_hidden.toNat ∧
  l.prev_input.length = (l.num_inputs + 1).toNat ∧
  l.input_value.length = (l.num_inputs + 1).toNat ∧
  ∀ j, j < l.num_hidden.toNat →
    l.hidden_sum.getD j 0 = ((List.range (l.num_inputs + 1).toNat).map (fun i =>
      l.hw i j * ((l.prev_input.getD i 0 : Int) : ℚ))).sum
/-! ## Weights files (`net.c`)

A file is the sequence of the items written to it.  An item is a decimal
integer, another number, or text that is no number; `%d` reads an integer item
and `%lf` reads an integer or another number (a number that is not a decimal
integer counts as a matching failure for `%d`).  A conversion that fails
assigns nothing and reads nothing. -/

/-- An item of a weights file. -/
inductive item where
  | int (n : Int)
  | real (x : ℚ)
  | text
  deriving DecidableEq, Inhabited

/-- The conversion `%d` of `fscanf`. -/
def scan_int : List item → Option Int × List item
  | item.int n :: rest => (some n, rest)
  | f => (none, f)

/-- The conversion `%lf` of `fscanf`. -/
def scan_real : List item → Option ℚ × List item
  | item.int n :: rest => (some (n : ℚ), rest)
  | item.real x :: rest => (some x, rest)
  | f => (none, f)

/-- The call `fscanf(fff, "%d %d %d\n", &input, &hidden, &output)`, whose
result is not checked: the conversions stop at the first failure, and a
variable that is not assigned keeps the value `junk` it has on the stack. -/
def scan_sizes (junk : Int × Int × Int) (f : List item) : (Int × Int × Int) × List item :=
  match scan_int f with
  | (none, f1) => (junk, f1)
  | (some a, f1) =>
    match scan_int f1 with
    | (none, f2) => ((a, junk.2.1, junk.2.2), f2)
    | (some b, f2) =>
      match scan_int f2 with
      | (none, f3) => ((a, b, junk.2.2), f3)
      | (some c, f3) => ((a, b, c), f3)

/-- The cells `hidden_weight[j][i]` in the order of the loops of `load_net`
and `save_net`: for each hidden node `i`, the inputs `j` in `0..num_inputs`. -/
def hidden_cells (l : net) : List (Nat × Nat) :=
  (List.range l.num_hidden.toNat).flatMap (fun i =>
    (List.range (l.num_inputs + 1).toNat).map (fun j => (j, i)))

/-- The cells `output_weight[j][i]` in the order of the loops of `load_net` and
`save_net`: for each output node `i`, the hidden slots `j` in `0..num_hidden`. -/
def output_cells (l : net) : List (Nat × Nat) :=
  (List.range l.num_output.toNat).flatMap (fun i =>
    (List.range (l.num_hidden + 1).toNat).map (fun j => (j, i)))

/-- A loop of `load_net` over weight cells: each weight is read with `%lf` and
stored with `put`; at the first failure the loop ends with the flag `false`. -/
def read_cells (put : net → Nat × Nat → ℚ → net) :
    List (Nat × Nat) → net → List item → Bool × net × List item
  | [], l, f => (true, l, f)
  | c :: cs, l, f =>
    match scan_real f with
    | (some x, f1) => read_cells put cs (put l c x) f1
    | (none, f1) => (false, l, f1)

/-- The call `fscanf(fff, "%d\n", &learn->num_training)` of `load_net`, whose
result is not checked. -/
def load_training (learn : net) (f : List item) : net × List item :=
  match scan_int f with
  | (some n, f1) => ({ learn with num_training := n }, f1)
  | (none, f1) => (learn, f1)

/-- The two loops of `load_net` over the hidden weights and the output weights:
the return value and the net. -/
def load_weights (learn : net) (f : List item) : Int × net :=
  let h := read_cells (fun l c x => l.set_hw c.1 c.2 x) (hidden_cells learn) learn f
  if h.1 = false then (-1, h.2.1)
  else
    let o := read_cells (fun l c x => l.set_ow c.1 c.2 x) (output_cells h.2.1) h.2.1 h.2.2
    if o.1 = false then (-1, o.2.1) else (0, o.2.1)

/-- Load network weights from disk (`load_net`): the return value and the
net.  The file is `none` if it cannot be opened. -/
def load_net (learn : net) (file : Option (List item)) (junk : Int × Int × Int) :
    Int × net :=
  match file with
  | none => (-1, learn)
  | some f =>
    let sizes := scan_sizes junk f
    if sizes.1.1 ≠ learn.num_inputs ∨ sizes.1.2.1 ≠ learn.num_hidden ∨
        sizes.1.2.2 ≠ learn.num_output then (-1, learn)
    else load_weights (load_training learn sizes.2).1 (load_training learn sizes.2).2

/-- Save network weights to disk (`save_net`): the items written. -/
def save_net (learn : net) : List item :=
  [item.int learn.num_inputs, item.int learn.num_hidden, item.int learn.num_output,
    item.int learn.num_training] ++
  (hidden_cells learn).map (fun c => item.real (learn.hw c.1 c.2)) ++
  (output_cells learn).map (fun c => item.real (learn.ow c.1 c.2))

/-- The stored sums and previous inputs of a net are cleared, and its arrays
have the allocated sizes. -/
def cleared (l : net) : Prop :=
  l.hidden_sum.length = l.num_hidden.toNat ∧
  l.prev_input.length = (l.num_inputs + 1).toNat ∧
  l.input_value.length = (l.num_inputs + 1).toNat ∧
  (∀ j, l.hidden_sum.getD j 0 = 0) ∧ (∀ i, l.prev_input.getD i 0 = 0)

/-- Two nets agree on their sizes, inputs, previous inputs and stored sums. -/
def same_shape (a b : net) : Prop :=
  a.num_inputs = b.num_inputs ∧ a.num_hidden = b.num_hidden ∧
  a.input_value = b.input_value ∧ a.prev_input = b.prev_input ∧
  a.hidden_sum = b.hidden_sum
/-- The weight matrices of a net have at least the allocated sizes: a row for
every input and the bias, with a cell for every hidden node, and a row for
every hidden node and the bias, with a cell for every output. -/
def weights_allocated (l : net) : Prop :=
  (l.num_inputs + 1).toNat ≤ l.hidden_weight.length ∧
  (∀ j, j < (l.num_inputs + 1).toNat → l.num_hidden.toNat ≤ (l.hidden_weight.getD j []).length) ∧
  (l.num_hidden + 1).toNat ≤ l.output_weight.length ∧
  (∀ j, j < (l.num_hidden + 1).toNat → l.num_output.toNat ≤ (l.output_weight.getD j []).length)
/-- Cleared memory with every hidden weight 7 and every output weight zero. -/
def heavy_memory : allocation :=
  { input_value := fun _ => 0, hidden_result := fun _ => 0, net_result := fun _ => 0,
    win_prob := fun _ => 0, hidden_weight := fun _ _ => 7, output_weight := fun _ _ => 0 }

/-- A net of the program's size with every hidden weight 7, trained 5 times. -/
def heavy_net : net :=
  { make_learner default NET_INPUT HIDDEN_NODES 2 heavy_memory with num_training := 5 }
/-! ## The forced "satisfy" action of `legal_act` -/

/-- The test of the last loop of `legal_act` on an opponent card: active, text
not ignored, category 7 with a "discard" effect, not satisfied, and satisfaction
possible. -/
def owes_discard (E : Engine) (g : game) (c : card) : Bool :=
  c.active ≠ 0 && c.text_ignored = 0 && c.d_ptr.special_cat = 7 &&
  has_bits c.d_ptr.special_effect S7_DISCARD_MASK && c.used = 0 &&
  E.satisfy_possible g c.d_ptr ≠ 0

/-- The list `legal` when a play phase of `legal_act` leaves the switch by
`break`: the cards to play, the support actions in the support phase, and the
advance of the phase. -/
def play_pass (E : Engine) (g : game) (checking_retreat : Int) : List action :=
  let p := g.p g.turn
  let plays := legal_plays E g checking_retreat p (later_indices p)
  if p.phase = PHASE_SUPPORT then
    legal_advance p checking_retreat (legal_support E g checking_retreat plays.1)
  else legal_advance p checking_retreat plays.1

/-- A rules engine like `quiet_engine` for which every special power can be
used and every "discard or..." card can be satisfied. -/
def ready_engine : Engine :=
  { quiet_engine with special_possible := fun _ _ => 1, satisfy_possible := fun _ _ => 1 }

/-- A card design of category 7 with the effect "discard a fire card or...". -/
def duty_design : design :=
  { (default : design) with
    index := 3, special_cat := 7, special_effect := (S7_DISCARD_FIRE : Int) }

/-- A card design with a special power to use on the own turn. -/
def power_design : design :=
  { (default : design) with index := 4, special_cat := 1, special_time := TIME_MYTURN }

/-- A simulated game in the leader phase of player 0; the opponent's card
`deck[1]` is an active, unsatisfied "discard or..." card. -/
def duty_game : game :=
  { (default : game) with
    p0 := blank_player PHASE_LEADER,
    p1 := { blank_player PHASE_NONE with
      deck := default :: { (default : card) with d_ptr := duty_design, active := 1 } ::
        List.replicate 29 default },
    simulation := 1 }

/-- The game `duty_game` in which the card `deck[1]` of player 0 is active and
has a special power to use. -/
def duty_power_game : game :=
  { duty_game with
    p0 := { blank_player PHASE_LEADER with
      deck := default :: { (default : card) with d_ptr := power_design, active := 1 } ::
        List.replicate 29 default } }

/-- The test of the first loop of the play phases of `legal_act` on a card of
the player to move: active, with a special effect, text not ignored, unused,
to be used "on my turn", and of some use now. -/
def usable_now (E : Engine) (g : game) (c : card) : Bool :=
  c.active ≠ 0 && c.d_ptr.special_cat ≠ 0 && c.text_ignored = 0 && c.used = 0 &&
  c.d_ptr.special_time = TIME_MYTURN && E.special_possible g c.d_ptr ≠ 0

/-- The shield icon of an element: `ICON_SHIELD_F` for fire (0),
`ICON_SHIELD_E` for earth. -/
def shield_icon (e : Int) : Nat := if e = 0 then ICON_SHIELD_F else ICON_SHIELD_E

/-- The power of the opponent that the player to move has to match in the
announce phase: the opponent's power, or 0 when the player to move has an
active card in the combat area whose icons hold the shield of the fight
element. -/
def power_to_match (g : game) : Int :=
  if (g.p g.turn).loop_cards.any (fun c => c.where_ = LOC_COMBAT && c.active ≠ 0 &&
      has_bits c.icons (shield_icon g.fight_element))
  then 0 else compute_power g (other_player g.turn)

/-- A game in the announce phase of player 0 in a fight over earth: the card
`deck[1]` of player 0 is an active combat card with the earth shield, the card
`deck[1]` of the opponent an active combat card of value 5. -/
def shield_game : game :=
  { (default : game) with
    p0 := { blank_player PHASE_ANNOUNCE with
      deck := default :: { (default : card) with
        where_ := LOC_COMBAT, active := 1, icons := 2 } :: List.replicate 29 default },
    p1 := { blank_player PHASE_NONE with
      deck := default :: { (default : card) with
        where_ := LOC_COMBAT, active := 1, value := (5, 5) } :: List.replicate 29 default },
    fight_started := 1, fight_element := 1 }

/-- A game in the beginning phase of player 0 whose card `deck[1]` is an
active ship that has not landed and whose card `deck[2]` is a bluff card. -/
def harbour_game : game :=
  { (default : game) with
    p0 := { blank_player PHASE_BEGIN with
      deck := default ::
        { (default : card) with
          d_ptr := { (default : design) with index := 5, capacity := 2 }, active := 1 } ::
        { (default : card) with d_ptr := plain_design 6, bluff := 1 } ::
        List.replicate 28 default } }

/-- A rules engine like `quiet_engine` for which every card is eligible and
allowed to be played. -/
def open_engine : Engine :=
  { quiet_engine with card_eligible := fun _ _ => 1, card_allowed := fun _ _ => 1 }

/-- A character card design. -/
def crew_design : design := { (default : design) with index := 8, type := TYPE_CHARACTER }

/-- A game in the character phase of player 0, who has played a character
this turn; the card `deck[1]` is a character loaded on a ship. -/
def crew_game : game :=
  { (default : game) with
    p0 := { blank_player PHASE_CHAR with
      char_played := 1,
      deck := default ::
        { (default : card) with
          d_ptr := crew_design, where_ := LOC_INFLUENCE, ship := some (plain_design 9) } ::
        List.replicate 29 default } }

/-- The count `unknown_f` (element 0) or `unknown_e` of `check_auto_bluff`:
the cards of the player to move with the bluff icon of the element whose
location is not known. -/
def unknown_bluffs (g : game) (e : Int) : Int :=
  ((g.p g.turn).loop_cards.filter (fun c =>
    has_bits c.d_ptr.icons (if e = 0 then ICON_BLUFF_F else ICON_BLUFF_E) &&
      c.loc_known = 0)).length

/-- The count `bluff` of `check_auto_bluff`: the bluff cards of the player to
move. -/
def bluffs_played (g : game) : Int :=
  ((g.p g.turn).loop_cards.filter (fun c => c.bluff ≠ 0)).length

/-- The first loop of `check_auto_bluff` finds a "you may not call bluff" card
that is in force, or in hand when `future` is set. -/
def uncallable (g : game) (future : Int) : Bool :=
  (g.p g.turn).loop_cards.any (fun c =>
    c.d_ptr.special_cat = 3 && c.d_ptr.special_effect = no_call_bluff_effect &&
      ((c.active ≠ 0 && c.text_ignored = 0) || (c.where_ = LOC_HAND && future ≠ 0)))

/-- A rules engine like `open_engine` that allows support cards and bluffs. -/
def bluff_engine : Engine :=
  { open_engine with support_allowed := fun _ => 1, bluff_legal := fun _ _ => 1 }

/-- A game in the support phase of player 0 in a fight over fire: the card
`deck[1]` is a bluff card in play, its location known, and the card `deck[2]`
is a card in hand with the fire bluff icon, its location unknown. -/
def spent_bluff_game : game :=
  { (default : game) with
    p0 := { blank_player PHASE_SUPPORT with
      deck := default ::
        { (default : card) with d_ptr := plain_design 1, bluff := 1, loc_known := 1 } ::
        { (default : card) with
          d_ptr := { (default : design) with index := 2, icons := 0x800 },
          icons := 0x800, where_ := LOC_HAND } ::
        List.replicate 28 default },
    fight_started := 1, fight_element := 0 }

/-- The count of unknown bluff cards that `check_auto_bluff` compares with the
bluff cards played: that of the fight element, or the lesser of the two counts
when no fight has started. -/
def relevant_unknown (g : game) : Int :=
  if g.fight_started ≠ 0 then unknown_bluffs g g.fight_element
  else min (unknown_bluffs g 0) (unknown_bluffs g 1)

/-- The outcome of `announce_power`: the game afterwards, whether the control
`call_bluff` of the opponent was invoked, and whether `bluff_called` was. -/
structure announced where
  game : game
  asked : Bool
  called : Bool
  deriving DecidableEq, Inhabited

/-- The test of the loop "look for you may not call bluff effect" of
`announce_power` on a card: active, text not ignored, category 3, and the
effect code of "you may not call bluff". -/
def forbids_call (c : card) : Bool :=
  c.active ≠ 0 && c.text_ignored = 0 && c.d_ptr.special_cat = 3 &&
  c.d_ptr.special_effect = no_call_bluff_effect

/-- The start of `announce_power`: a fight that has not started is started in
the element and the card effects are noticed (`notice` is `notice_effect_1`). -/
def announce_start (notice : game → game) (g : game) (element : Int) : game :=
  if g.fight_started = 0 then notice { g with fight_started := 1, fight_element := element }
  else g

/-- Announce power (`announce_power`).  The rules function `notice_effect_1`,
the handler `call_bluff` of a control table and the rules function
`bluff_called` are parameters; the message is left out. -/
def announce_power (notice : game → game) (call_bluff : interface → game → Int × game)
    (bluff_called : game → game) (g : game) (element : Int) : announced :=
  let g1 := announce_start notice g element
  let p := g1.p g.turn
  let opp := g1.p (other_player g.turn)
  if g1.simulation ≠ 0 then { game := g1, asked := false, called := false }
  else if ¬ (p.loop_cards.any (fun c => c.bluff ≠ 0 && c.value_ignored = 0)) then
    { game := g1, asked := false, called := false }
  else if p.loop_cards.any forbids_call then { game := g1, asked := false, called := false }
  else
    let r := call_bluff opp.control g1
    let g2 := if r.1 ≠ 0 then bluff_called r.2 else r.2
    { game := { g2 with random_event := 1 }, asked := true, called := decide (r.1 ≠ 0) }

/-- A card design with the text "you may not call bluff". -/
def silence_design : design :=
  { (default : design) with index := 7, special_cat := 3, special_effect := 0x41 }

/-- A real game in the announce phase of player 0 in a fight over fire: the
card `deck[1]` is an active "you may not call bluff" card and the card
`deck[2]` is a bluff card in play. -/
def silence_game : game :=
  { (default : game) with
    p0 := { blank_player PHASE_ANNOUNCE with
      deck := default ::
        { (default : card) with d_ptr := silence_design, active := 1, where_ := LOC_COMBAT } ::
        { (default : card) with d_ptr := plain_design 2, bluff := 1, where_ := LOC_SUPPORT } ::
        List.replicate 28 default },
    p1 := blank_player PHASE_NONE,
    fight_started := 1, fight_element := 0 }

/-- The game `silence_game` with the text of the card `deck[1]` ignored. -/
def loud_game : game :=
  { silence_game with
    p0 := { blank_player PHASE_ANNOUNCE with
      deck := default ::
        { (default : card) with
          d_ptr := silence_design, active := 1, where_ := LOC_COMBAT, text_ignored := 1 } ::
        { (default : card) with d_ptr := plain_design 2, bluff := 1, where_ := LOC_SUPPORT } ::
        List.replicate 28 default } }

/-! ## Card mutators (`engine.c`)

The rules function `notice_effect_1` is a parameter `notice` of the mutators
that call it. -/

/-- Simple random number generator (`myrand`) on an `unsigned int` seed: the
number returned and the new seed. -/
def myrand (seed : Nat) : Nat × Nat :=
  let seed1 := (seed * 1103515245 + 12345) % 2 ^ 32
  (seed1 / 65536 % 32768, seed1)

/-- Find the card of a design in a player's deck (`find_card`): the index of the
first card of `deck[0]`, ..., `deck[DECK_SIZE - 1]` with the design, if any. -/
def find_card (g : game) (who : Int) (d_ptr : design) : Option Nat :=
  (List.range DECK_SIZE).find? (fun i => decide (((g.p who).card_at i).d_ptr = d_ptr))

/-- Deactivate a card (`deactivate_card`). -/
def deactivate_card (c : card) : card :=
  { c with active := 0, recent := 0, target := none, was_played_free := 0, used := 0 }

/-- The player after an assignment to the card `deck[k]`. -/
def player.set_card (p : player) (k : Nat) (c : card) : player :=
  { p with deck := p.deck.set k c }

/-- The array `stack` after `stack[loc] += d`. -/
def stack_add (st : List Int) (loc : Int) (d : Int) : List Int :=
  st.set loc.toNat (st.getD loc.toNat 0 + d)

/-- The statements `p->stack[c->where]--; c->where = to; p->stack[to]++` for
the card `c = deck[k]` (`to_` is the destination `to`). -/
def shift_card (p : player) (k : Nat) (to_ : Int) : player :=
  { p with
    stack := stack_add (stack_add p.stack (p.card_at k).where_ (-1)) to_ 1,
    deck := p.deck.set k { p.card_at k with where_ := to_ } }

/-- Check if the draw pile is empty and all cards in the discard pile are
known to be there; then the cards in hand are known as well
(`check_all_known`). -/
def check_all_known (g : game) (who : Int) : game :=
  let p := g.p who
  if p.stack_at LOC_DRAW ≠ 0 then g
  else if deck_indices.any (fun i =>
      (p.card_at i).where_ = LOC_DISCARD && (p.card_at i).loc_known = 0) then g
  else
    g.set_p who (deck_indices.foldl (fun q i =>
      if (q.card_at i).where_ = LOC_HAND then
        q.set_card i { q.card_at i with loc_known := 1 }
      else q) p)

/-- Check if any "random_fake" flags can be removed from cards
(`remove_fake`). -/
def remove_fake (g : game) (who : Int) : game :=
  if g.simulation = 0 then g
  else
    g.set_p who (deck_indices.foldl (fun q i =>
      if (q.card_at i).random_fake ≠ 0 ∧ q.stack_at (q.card_at i).random_fake = 0 then
        q.set_card i { q.card_at i with random_fake := 0 }
      else q) (g.p who))

/-- The number of cards of a pile that are not, or that are, forced at the
bottom (the counts `n1` and `n2` of `random_card`). -/
def pile_count (p : player) (stack : Int) (bottom : Bool) : Nat :=
  (deck_indices.filter (fun i =>
    (p.card_at i).where_ = stack && (((p.card_at i).on_bottom ≠ 0) == bottom))).length

/-- The index at which the second loop of `random_card` stops for the random
number `r`: the `n`-th card of the pile, cards on the bottom being skipped
when there are normal cards. -/
def random_index (p : player) (stack : Int) (r : Nat) : Nat :=
  let n1 := pile_count p stack false
  let n2 := pile_count p stack true
  let n := if n1 ≠ 0 then r % n1 else r % n2
  (deck_indices.filter (fun i =>
    (p.card_at i).where_ = stack && !((p.card_at i).on_bottom ≠ 0 && n1 ≠ 0))).getD n
      (DECK_SIZE - 1)

/-- The end of `random_card` for the card `deck[k]` chosen: the card is marked
in a simulated game, the random event is noted and the bottom flag removed. -/
def random_mark (g : game) (who : Int) (k : Nat) (seed : Nat) : game :=
  let c := (g.p who).card_at k
  let c1 := if g.simulation ≠ 0 then { c with random_fake := c.where_ } else c
  { g.set_p who ((g.p who).set_card k { c1 with on_bottom := 0 }) with
    random_seed := seed, random_event := 1 }

/-- Choose a card at random from one pile (`random_card`): the design chosen,
if the pile has a card, and the game afterwards. -/
def random_card (g : game) (who : Int) (stack : Int) : Option design × game :=
  let p := g.p who
  if pile_count p stack false + pile_count p stack true = 0 then (none, g)
  else
    let r := myrand g.random_seed
    let k := random_index p stack r.1
    (some (p.card_at k).d_ptr, random_mark g who k r.2)

/-- The start of `move_card` for the card `deck[k]` found: the card changes
zone, is deactivated and loses its disclosed flag. -/
def move_card_shift (g : game) (who : Int) (k : Nat) (to_ : Int) : game :=
  let p := shift_card (g.p who) k to_
  g.set_p who (p.set_card k { deactivate_card (p.card_at k) with disclosed := 0 })

/-- The check "last discard moved from discard pile" of `move_card`. -/
def track_discard (g : game) (who : Int) (d_ptr : design) (to_ : Int) : game :=
  if (g.p who).last_discard = some d_ptr ∧ to_ ≠ LOC_DISCARD then
    (random_card g who LOC_DISCARD).2.set_p who
      { (random_card g who LOC_DISCARD).2.p who with
        last_discard := (random_card g who LOC_DISCARD).1 }
  else g

/-- The statements "track last card moved to leadership pile" and "track last
card moved to discard pile" of `move_card`. -/
def track_last (g : game) (who : Int) (d_ptr : design) (to_ : Int) : game :=
  let g3 :=
    if to_ = LOC_LEADERSHIP then g.set_p who { g.p who with last_leader := some d_ptr }
    else g
  if to_ = LOC_DISCARD then g3.set_p who { g3.p who with last_discard := some d_ptr }
  else g3

/-- The statement `if (faceup) c->loc_known = 1;` of `move_card` for the card
`deck[k]`. -/
def track_known (g : game) (who : Int) (k : Nat) (faceup : Int) : game :=
  if faceup ≠ 0 then
    g.set_p who ((g.p who).set_card k { (g.p who).card_at k with loc_known := 1 })
  else g

/-- The check "running out of cards first" of `move_card`. -/
def track_no_cards (g : game) (who : Int) : game :=
  if (g.p who).stack_at LOC_HAND + (g.p who).stack_at LOC_DRAW = 0 ∧
      (g.p (other_player who)).no_cards = 0 then
    g.set_p who { g.p who with no_cards := 1 }
  else g

/-- The statements of `move_card` for the card `deck[k]` found, up to the check
for running out of cards; the message is left out. -/
def move_card_head (g : game) (who : Int) (k : Nat) (d_ptr : design) (to_ faceup : Int) :
    game :=
  track_no_cards (track_known (track_last (track_discard (move_card_shift g who k to_)
    who d_ptr to_) who d_ptr to_) who k faceup) who

/-- A loop whose body may give no result: the body `step` is run for the
elements of a list in order, from the game `acc`, as long as there is a
result. -/
def try_each {α : Type} (step : game → α → Option game) (l : List α) (acc : Option game) :
    Option game :=
  l.foldl (fun acc a => acc.bind (fun x => step x a)) acc

/-- The body of the loop "check for discarding ship" of `move_card` for the card
`deck[i]`: a card on the ship `d_ptr` is moved by a recursive call `move` and
is then no longer on the ship. -/
def unload_cargo (move : game → design → Option game) (who : Int) (d_ptr : design)
    (x : game) (i : Nat) : Option game :=
  if ((x.p who).card_at i).ship = some d_ptr then
    (move x ((x.p who).card_at i).d_ptr).map (fun y =>
      y.set_p who ((y.p who).set_card i { (y.p who).card_at i with ship := none }))
  else some x

/-- Move a given card to a new pile (`move_card`).  The cards loaded on a
discarded ship are discarded by recursive calls, which `fuel` bounds; no result
when the design is not found. -/
def move_card : Nat → game → Int → design → Int → Int → Option game
  | 0, _, _, _, _, _ => none
  | fuel + 1, g, who, d_ptr, to_, faceup =>
    match find_card g who d_ptr with
    | none => none
    | some k =>
      let g6 := move_card_head g who k d_ptr to_ faceup
      let r :=
        if ((g.p who).card_at k).d_ptr.capacity ≠ 0 ∧ to_ = LOC_DISCARD then
          try_each (unload_cargo (fun y d => move_card fuel y who d to_ faceup) who d_ptr)
            deck_indices (some g6)
        else some g6
      r.map (fun x => remove_fake (check_all_known x who) who)

/-- Load a card onto the given ship (`load_card`); the message is left out. -/
def load_card (notice : game → game) (g : game) (d_ptr ship_dptr : design) : Option game :=
  match find_card g g.turn d_ptr with
  | none => none
  | some k =>
    let p := shift_card (g.p g.turn) k LOC_INFLUENCE
    let c := { p.card_at k with
      ship := some ship_dptr, disclosed := 0, loc_known := 1, recent := 1 }
    let p1 := p.set_card k c
    let p2 :=
      if p1.stack_at LOC_HAND + p1.stack_at LOC_DRAW = 0 ∧
          (g.p (other_player g.turn)).no_cards = 0 then
        { p1 with no_cards := 1 }
      else p1
    some (notice (g.set_p g.turn p2))

/-- Retrieve the given card back into the current player's hand
(`retrieve_card`); the message is left out. -/
def retrieve_card (notice : game → game) (g : game) (d_ptr : design) : Option game :=
  match find_card g g.turn d_ptr with
  | none => none
  | some k =>
    let p := (g.p g.turn).set_card k (deactivate_card ((g.p g.turn).card_at k))
    let p1 := shift_card p k LOC_HAND
    let p2 := p1.set_card k { p1.card_at k with loc_known := 1 }
    some (notice (g.set_p g.turn p2))

/-- Reveal a bluff card and discard it (`reveal_bluff`): whether the bluff icon
of the card matches the fight element, and the game afterwards. -/
def reveal_bluff (notice : game → game) (fuel : Nat) (g : game) (who : Int)
    (d_ptr : design) : Option (Int × game) :=
  match find_card g who d_ptr with
  | none => none
  | some k =>
    let c := (g.p who).card_at k
    let good : Int :=
      if (g.fight_element = 0 ∧ has_bits c.icons ICON_BLUFF_F) ∨
          (g.fight_element ≠ 0 ∧ has_bits c.icons ICON_BLUFF_E) then 1 else 0
    let g1 := g.set_p who ((g.p who).set_card k { c with bluff := 0, type := c.d_ptr.type })
    (move_card fuel g1 who d_ptr LOC_DISCARD 1).map (fun x => (good, notice x))

/-- The body of the loop of `clear_cards` for the card `deck[j]` of the player
`i`. -/
def clear_card (notice : game → game) (fuel : Nat) (x : game) (i : Int) (j : Nat) :
    Option game :=
  let c := (x.p i).card_at j
  if c.type = TYPE_INFLUENCE then some (x.set_p i ((x.p i).set_card j { c with recent := 0 }))
  else if c.bluff ≠ 0 then (reveal_bluff notice fuel x i c.d_ptr).map (fun r => r.2)
  else
    let p := (x.p i).set_card j (deactivate_card c)
    if c.where_ = LOC_COMBAT ∨ c.where_ = LOC_SUPPORT then
      some (x.set_p i { shift_card p j LOC_DISCARD with last_discard := some c.d_ptr })
    else some (x.set_p i p)

/-- Clear both player's combat and support areas after a fight
(`clear_cards`). -/
def clear_cards (notice : game → game) (fuel : Nat) (g : game) : Option game :=
  (try_each (fun x (i : Int) => try_each (fun y j => clear_card notice fuel y i j)
    deck_indices (some x)) [0, 1] (some g)).map notice

/-- Zone and counter consistency of a player: the arrays `deck` and `stack`
have their sizes, every card `deck[1]`, ..., `deck[DECK_SIZE - 1]` is in one of
the `LOC_MAX` zones and has a design other than that of the unused cell
`deck[0]`, and for each zone `z` the counter `stack[z]` is the number of those
cards whose `where` is `z`. -/
def zones_ok (p : player) : Prop :=
  p.deck.length = DECK_SIZE ∧ p.stack.length = LOC_MAX ∧
  (∀ i, 1 ≤ i → i < DECK_SIZE →
    0 ≤ (p.card_at i).where_ ∧ (p.card_at i).where_ < (LOC_MAX : Int) ∧
    (p.card_at i).d_ptr ≠ (p.card_at 0).d_ptr) ∧
  ∀ z : Nat, z < LOC_MAX →
    p.stack.getD z 0 =
      ((deck_indices.filter (fun i => decide ((p.card_at i).where_ = (z : Int)))).length : Int)

/-- The player `q` has the counters and array sizes of the player `p` and,
card by card, the zone and the design. -/
def zones_same (p q : player) : Prop :=
  q.stack = p.stack ∧ q.deck.length = p.deck.length ∧
  ∀ i, (q.card_at i).where_ = (p.card_at i).where_ ∧
    (q.card_at i).d_ptr = (p.card_at i).d_ptr

/-- The player `q` is the player `p` with cards left in place: zones, counters
and designs are the same, and a card is loaded on the ship it was loaded on, or
on none. -/
def in_place (p q : player) : Prop :=
  zones_same p q ∧
  ∀ i, (q.card_at i).ship = (p.card_at i).ship ∨ (q.card_at i).ship = none

/-- The rules function `notice` writes neither `where` nor `stack` nor the
design nor the ship of a card, and keeps the arrays. -/
def keeps_zones (notice : game → game) : Prop :=
  ∀ (x : game) (who : Int), in_place (x.p who) ((notice x).p who)

/-- The player `q` has the deck size and, card by card, the design of the
player `p`, and a card is loaded on the ship it was loaded on, or on none. -/
def cargo_same (p q : player) : Prop :=
  q.deck.length = p.deck.length ∧
  ∀ i, (q.card_at i).d_ptr = (p.card_at i).d_ptr ∧
    ((q.card_at i).ship = (p.card_at i).ship ∨ (q.card_at i).ship = none)

/-- The game `y` is the game `x` with the cards of both players left in
place. -/
def game_in_place (x y : game) : Prop := ∀ who : Int, in_place (x.p who) (y.p who)

/-- The game `y` has, for both players, the deck size and the designs of the
game `x`, and no card is loaded on a ship it was not loaded on in `x`. -/
def game_cargo_same (x y : game) : Prop := ∀ who : Int, cargo_same (x.p who) (y.p who)

/-- Zone and counter consistency of both players. -/
def game_zones_ok (g : game) : Prop := ∀ who : Int, zones_ok (g.p who)

/-- No card loaded on a ship is a ship itself. -/
def cargo_flat (p : player) : Prop :=
  ∀ i, 1 ≤ i → i < DECK_SIZE → (p.card_at i).ship ≠ none → (p.card_at i).d_ptr.capacity = 0

/-- The sum of the counters `stack[0]`, ..., `stack[LOC_MAX - 1]`. -/
def stack_total (p : player) : Int :=
  ((List.range LOC_MAX).map (fun z => p.stack.getD z 0)).sum

/-- A ship design with room for two cards. -/
def barge_design : design := { (default : design) with index := 1, capacity := 2 }

/-- A player whose card `deck[1]` is a ship in the influence area, whose card
`deck[2]` is loaded on it, and whose other 28 cards are in the draw pile. -/
def barge_player : player :=
  { blank_player PHASE_NONE with
    deck := default ::
      { (default : card) with d_ptr := barge_design, where_ := LOC_INFLUENCE, active := 1 } ::
      { (default : card) with
        d_ptr := plain_design 2, where_ := LOC_INFLUENCE, ship := some barge_design } ::
      (List.range 28).map (fun j =>
        { (default : card) with d_ptr := plain_design ((j : Int) + 3), where_ := LOC_DRAW }),
    stack := [0, 0, 28, 0, 0, 0, 0, 2] }

/-- A real game of two players with a loaded ship each, player 0 to move. -/
def barge_game : game :=
  { (default : game) with p0 := barge_player, p1 := barge_player }

/-! ## A small net trained once -/

/-- A net with 2 inputs, 1 hidden node and 2 outputs made by `make_learner`
from the memory `mem`, with the learning rate `alpha`. -/
def tiny_net (mem : allocation) (alpha : ℚ) : net :=
  { make_learner default 2 1 2 mem with alpha := alpha }

/-- The small net after its two inputs are set to `x0` and `x1` and it is
computed. -/
def tiny_before (expf : ℚ → ℚ) (mem : allocation) (alpha : ℚ) (x0 x1 : Int) : net :=
  compute_net expf (SET_INPUT (SET_INPUT (tiny_net mem alpha) 0 x0) 1 x1)

/-- The small net after one call of `train_net` with `lambda = 1` towards
`desired`, computed again on the same inputs. -/
def tiny_after (expf : ℚ → ℚ) (mem : allocation) (alpha : ℚ) (x0 x1 : Int)
    (desired : List ℚ) : net :=
  compute_net expf (train_net expf (tiny_before expf mem alpha x0 x1) 1 desired)

/-- The squared error between the outputs `win_prob` of a net and the values
`desired`. -/
def squared_error (l : net) (desired : List ℚ) : ℚ :=
  ((List.range l.num_output.toNat).map (fun i =>
    (l.win_prob.getD i 0 - desired.getD i 0) ^ 2)).sum

/-- A net with 2 inputs, 1 hidden node and 2 outputs, given by the contents of
its arrays: the inputs `xs` and previous inputs `prev`, the stored sum `hsum`,
result `h` and error `herr` of the hidden node, the sums `r0`, `r1` and
probabilities `p0`, `p1` of the outputs with `prob_sum = S`, and the weights. -/
def tiny_state (xs prev : List Int) (hsum h herr r0 r1 S p0 p1 : ℚ)
    (hidden_weight output_weight : List (List ℚ)) (alpha : ℚ) : net :=
  { num_inputs := 2, num_hidden := 1, num_output := 2, input_value := xs, prev_input := prev,
    hidden_sum := [hsum], hidden_result := [h, 1], hidden_error := [herr],
    net_result := [r0, r1], win_prob := [p0, p1], prob_sum := S,
    hidden_weight := hidden_weight, output_weight := output_weight,
    past_input := [], num_past := 0, num_training := 0, alpha := alpha }

/-- Memory whose hidden node pulls the outputs apart: weight 2000 to output 0
and -2000 to output 1, with the bias weights -1000 and 1000 and the hidden
weights zero, so that both output sums are 0 on the inputs 0, 0. -/
def steep_memory : allocation :=
  { input_value := fun _ => 0, hidden_result := fun _ => 0, net_result := fun _ => 0,
    win_prob := fun _ => 0, hidden_weight := fun _ _ => 0,
    output_weight := fun j i =>
      if j = 0 then (if i = 0 then 2000 else -2000) else (if i = 0 then -1000 else 1000) }

/-! ## Declining a fight -/

/-- Number of previous input sets a net keeps (`PAST_MAX`). -/
def PAST_MAX : Nat := 50

/-- The cells `input_value[0]`, ..., `input_value[num_inputs]` that `store_net`
copies with `memcpy`. -/
def input_copy (learn : net) : List Int :=
  (List.range (learn.num_inputs + 1).toNat).map (fun k => learn.input_value.getD k 0)

/-- The loop "move all inputs up one spot" of `store_net`. -/
def shift_past (past : List (List Int)) : List (List Int) :=
  for_range (PAST_MAX - 1) (fun i p => write_at p i (p.getD (i + 1) [])) past

/-- Store the current inputs into the past set array (`store_net`). -/
def store_net (learn : net) : net :=
  let l1 :=
    if learn.num_past = (PAST_MAX : Int) then
      { learn with past_input := shift_past learn.past_input, num_past := learn.num_past - 1 }
    else learn
  { l1 with past_input := write_at l1.past_input l1.num_past.toNat (input_copy l1),
            num_past := l1.num_past + 1 }

/-- Clean up past stored inputs (`clear_store`). -/
def clear_store (learn : net) : net :=
  { learn with num_past := 0 }

/-- A call on the window of past inputs. -/
inductive past_op where
  | store
  | clear

/-- The net after a call on its window. -/
def run_past_op (l : net) : past_op → net
  | past_op.store => store_net l
  | past_op.clear => clear_store l

/-- The net after a sequence of calls on its window. -/
def run_past_ops (l : net) (ops : List past_op) : net :=
  ops.foldl run_past_op l

/-- The statement `memcpy(l->input_value, l->past_input[i], ...)` of
`perform_training`: the cells `input_value[0..num_inputs]` are overwritten by
the stored snapshot `i`. -/
def load_past (l : net) (i : Nat) : net :=
  { l with input_value :=
      (List.range (l.num_inputs + 1).toNat).map (fun k => (l.past_input.getD i []).getD k 0) ++
        l.input_value.drop (l.num_inputs + 1).toNat }

/-- The body of the loop over past inputs of `perform_training` for the
snapshot `i` and the training amount `lambda`. -/
def replay_step (expf : ℚ → ℚ) (target : List ℚ) (l : net) (i : Nat) (lambda : ℚ) : net :=
  train_net expf (compute_net expf (load_past l i)) lambda target

/-- The loop `for (i = num_past - 2; i >= 0; i--)` of `perform_training` with
`n` passes left, so that the next snapshot is `n - 1`: after each pass `lambda`
is multiplied by 0.9. -/
def replay_past (expf : ℚ → ℚ) (target : List ℚ) : Nat → ℚ → net → net
  | 0, _, l => l
  | i + 1, lambda, l =>
    replay_past expf target i (lambda * (9 / 10)) (replay_step expf target l i lambda)

/-- The net `learner[who]` in `perform_training` after the current inputs are
stored and, when results are passed in, trained towards them: the net and the
target of the replay. -/
def training_target (expf : ℚ → ℚ) (l : net) (desired : Option (List ℚ)) : net × List ℚ :=
  match desired with
  | some d => (train_net expf l 1 [d.getD 0 0, d.getD 1 0], [d.getD 0 0, d.getD 1 0])
  | none => (l, [l.win_prob.getD 0 0, l.win_prob.getD 1 0])

/-- The net `learner[who]` in `perform_training` after the call of `eval_game`
and the call of `store_net`. -/
def stored_learner (expf : ℚ → ℚ) (g : game) (who : Int) (s : ai_state) : net :=
  store_net ((eval_game expf g who s).2.learner who)

/-- Perform a training iteration (`perform_training`); `desired` is `none` for
the null pointer. -/
def perform_training (expf : ℚ → ℚ) (g : game) (who : Int) (desired : Option (List ℚ))
    (s : ai_state) : ai_state :=
  if (s.learner who).num_inputs = 0 then s
  else
    let t := training_target expf (stored_learner expf g who s) desired
    (eval_game expf g who s).2.set_learner who
      (replay_past expf t.2 (t.1.num_past - 1).toNat 1 t.1)

/-- The replay as the specification words it, with the exponent `k - shift`:
the snapshots `k = 1, ..., n - 1` steps back in time from the newest of `n`
stored snapshots, most recent first, each trained with
`lambda = 0.9 ^ (k - shift)` towards `target`. -/
def replay_by_age (expf : ℚ → ℚ) (target : List ℚ) (shift : Nat) (n : Nat) (l : net) : net :=
  ((List.range (n - 1)).map (fun j => j + 1)).foldl (fun acc k =>
    replay_step expf target acc (n - 1 - k) ((9 / 10 : ℚ) ^ (k - shift))) l

/-- The small net with the two snapshots (1, 0) and (0, 0) stored, computed on
the inputs 0, 0. -/
def tiny_stored : net :=
  { tiny_before ramp_exp steep_memory (1 / 10000) 0 0 with
    past_input := [[1, 0, 1], [0, 0, 1]], num_past := 2 }

/-! ## Marks of randomly chosen cards (`engine.c`) -/

/-- The marks `random_fake` are kept from the game `x` to the game `y`: the
simulation flag is the same, and when `x` is not a simulation every card of
both players has the same mark. -/
def marks_kept (x y : game) : Prop :=
  y.simulation = x.simulation ∧
  (x.simulation = 0 → ∀ (who : Int) (i : Nat),
    ((y.p who).card_at i).random_fake = ((x.p who).card_at i).random_fake)

/-- No card `deck[1]`, ..., `deck[DECK_SIZE - 1]` of the player carries a mark
`random_fake` that names a zone whose counter is 0. -/
def fakes_live (p : player) : Prop :=
  ∀ i, i ∈ deck_indices → (p.card_at i).random_fake ≠ 0 →
    p.stack_at (p.card_at i).random_fake ≠ 0

/-- A simulated game in which player 0 has the card `deck[1]` in hand and the
card `deck[2]`, in the discard pile, marked as randomly chosen from the hand;
the other 28 cards are in the draw pile. -/
def marked_game : game :=
  { (default : game) with
    simulation := 1,
    p0 := { blank_player PHASE_NONE with
      deck := default ::
        { (default : card) with d_ptr := plain_design 1, where_ := LOC_HAND } ::
        { (default : card) with
          d_ptr := plain_design 2, where_ := LOC_DISCARD, random_fake := LOC_HAND } ::
        (List.range 28).map (fun j =>
          { (default : card) with d_ptr := plain_design ((j : Int) + 3), where_ := LOC_DRAW }),
      stack := [0, 1, 28, 0, 0, 0, 1, 0] },
    p1 := blank_player PHASE_NONE }

/-! ## Hidden cards and the evaluator -/

/-- A card of player `i` whose place is hidden from the evaluating player
`who`: a card of the other player whose location is not known, or a card
marked `random_fake`. -/
def card.hidden (who i : Int) (c : card) : Bool :=
  (who ≠ i && c.loc_known = 0) || c.random_fake ≠ 0

/-- The test of the loop of `eval_game` that counts the characters in hand of
player `i`. -/
def counts_as_character (who i : Int) (c : card) : Bool :=
  c.d_ptr.type = TYPE_CHARACTER &&
    (c.where_ = LOC_HAND && (who = i || c.loc_known ≠ 0) && c.random_fake = 0)

/-- The number of characters in hand of player `i` that `eval_game` counts for
`who`. -/
def hand_characters (g : game) (who i : Int) : Int :=
  ((g.p i).loop_cards.filter (counts_as_character who i)).length

/-- The game `y` differs from the game `x` only in the zone of cards hidden
from `who`: both players have the same counters, and every card `deck[1]`,
..., `deck[DECK_SIZE - 1]` is the same but for its zone `where`, which is the
same too unless the card is hidden. -/
def zone_variant (who : Int) (x y : game) : Prop :=
  ∀ i : Int, (y.p i).stack = (x.p i).stack ∧
    ∀ k, 1 ≤ k → k < DECK_SIZE →
      (y.p i).card_at k = { (x.p i).card_at k with where_ := ((y.p i).card_at k).where_ } ∧
      (((y.p i).card_at k).where_ = ((x.p i).card_at k).where_ ∨
        ((x.p i).card_at k).hidden who i = true)

/-! ## The number of legal actions -/

/-- The number of cards `deck[last_played + 1]`, ... of the player to move
that `card_eligible` accepts. -/
def eligible_count (E : Engine) (g : game) : Nat :=
  ((later_indices (g.p g.turn)).filter (fun i =>
    E.card_eligible g ((g.p g.turn).card_at i).d_ptr ≠ 0)).length

/-- The number of cards `deck[last_played + 1]`, ... of the player to move
that are active ships not yet landed. -/
def ships_to_land (g : game) : Nat :=
  ((later_indices (g.p g.turn)).filter (fun i =>
    ((g.p g.turn).card_at i).active ≠ 0 && ((g.p g.turn).card_at i).d_ptr.capacity ≠ 0 &&
      ((g.p g.turn).card_at i).landed = 0)).length

/-- The number of cards `deck[last_played + 1]`, ... of the player to move
that are played as bluffs. -/
def bluffs_to_reveal (g : game) : Nat :=
  ((later_indices (g.p g.turn)).filter (fun i => ((g.p g.turn).card_at i).bluff ≠ 0)).length

/-- The number of cards `deck[last_played + 1]`, ... of the player to move
that `retrieve_legal` accepts. -/
def retrievable (E : Engine) (g : game) : Nat :=
  ((later_indices (g.p g.turn)).filter (fun i =>
    E.retrieve_legal g ((g.p g.turn).card_at i) ≠ 0)).length

/-- A card design of category 4 whose effect is optional. -/
def optional_design (k : Int) : design :=
  { (default : design) with
    index := k, type := TYPE_LEADERSHIP, special_cat := 4, special_effect := (S4_OPTIONAL : Int) }

/-- A simulated game in which player 0, in the leader phase, holds 30
leadership cards with an optional effect. -/
def crowded_game : game :=
  { (default : game) with
    simulation := 1,
    p0 := { blank_player PHASE_LEADER with
      deck := default :: (List.range 30).map (fun j =>
        { (default : card) with
          d_ptr := optional_design ((j : Int) + 1), where_ := LOC_HAND, loc_known := 1 }),
      stack := [0, 30, 0, 0, 0, 0, 0, 0] },
    p1 := blank_player PHASE_NONE }

/-! ## The number of combinations a choice node records -/

/-- What a search call restores of the static state `s` in the state `t` it
returns: the cursors `best_path_pos` and `node_pos`; and the flag
`checking_decline` is clear again if it was clear. -/
def cursors (s t : ai_state) : Prop :=
  t.best_path_pos = s.best_path_pos ∧ t.node_pos = s.node_pos ∧
  (s.checking_decline = 0 → t.checking_decline = 0)

/-- Every call of `find` that returns restores the cursors. -/
def find_restores (find : game → ai_state → Option search_result) : Prop :=
  ∀ g s r, find g s = some r → cursors s r.2.2

/-- The static state at the start of a search with one choice node to examine:
the node offers `two_cards` and holds the one combination 1. -/
def pending_state : ai_state :=
  { fresh_state with
    nodes := [{ (default : node) with legal := [1], num_legal := 1, choices := two_cards }],
    node_len := 1 }
/-! ## The hypothetical hand of the retreat check -/

/-- A player with one card of unknown location in the hand, one card of unknown
location in the draw pile, and 28 cards known to be in the discard pile. -/
def fog_player : player :=
  { blank_player PHASE_START with
    deck := default ::
      { (default : card) with d_ptr := plain_design 1, where_ := LOC_HAND } ::
      { (default : card) with d_ptr := plain_design 2, where_ := LOC_DRAW } ::
      (List.range 28).map (fun j =>
        { (default : card) with
          d_ptr := plain_design ((j : Int) + 3), where_ := LOC_DISCARD, loc_known := 1 }),
    stack := [0, 1, 1, 0, 0, 0, 28, 0] }

/-- A real game in a fight, player 0 to move with the cards of `fog_player`. -/
def fog_game : game :=
  { (default : game) with p0 := fog_player, p1 := barge_player, fight_started := 1 }

/-- A player with one card of unknown location and one card marked
`random_fake` in the hand, and 28 cards known to be in the discard pile. -/
def mist_player : player :=
  { blank_player PHASE_START with
    deck := default ::
      { (default : card) with d_ptr := plain_design 1, where_ := LOC_HAND } ::
      { (default : card) with
        d_ptr := plain_design 2, where_ := LOC_HAND, loc_known := 1, random_fake := 1 } ::
      (List.range 28).map (fun j =>
        { (default : card) with
          d_ptr := plain_design ((j : Int) + 3), where_ := LOC_DISCARD, loc_known := 1 }),
    stack := [0, 2, 0, 0, 0, 0, 28, 0] }

/-- A real game in a fight, player 0 to move with the cards of `mist_player`. -/
def mist_game : game :=
  { (default : game) with p0 := mist_player, p1 := barge_player, fight_started := 1 }

/-- The deck `d` has the size and, card by card, the zone and the design of the
deck `orig`, and a card of unknown location in `d` is one in `orig`. -/
def same_places (orig d : List card) : Prop :=
  d.length = orig.length ∧
  ∀ i, (d.getD i default).where_ = (orig.getD i default).where_ ∧
    (d.getD i default).d_ptr = (orig.getD i default).d_ptr ∧
    ((d.getD i default).unknown = true → (orig.getD i default).unknown = true)
/-! ## Records inside the array `legal` -/

/-- A neural net (`struct net`) with the cells of type `double` in `K`. -/
structure net_of (K : Type) where
  num_inputs : Int
  num_hidden : Int
  num_output : Int
  input_value : List Int
  prev_input : List Int
  hidden_sum : List K
  hidden_result : List K
  hidden_error : List K
  net_result : List K
  win_prob : List K
  prob_sum : K
  hidden_weight : List (List K)
  output_weight : List (List K)
  past_input : List (List Int)
  num_past : Int
  num_training : Int
  alpha : K

/-- Normalize a number using a 'sigmoid' function (`sigmoid`), over `K`. -/
def sigmoid_of {K : Type} [One K] [Add K] [Div K] [Neg K] (expf : K → K) (x : K) : K :=
  1 / (1 + expf (-x))

/-- The entry `hidden_weight[i][j]`. -/
def net_of.hw {K : Type} [Zero K] (l : net_of K) (i j : Nat) : K :=
  (l.hidden_weight.getD i []).getD j 0

/-- The entry `output_weight[j][i]`. -/
def net_of.ow {K : Type} [Zero K] (l : net_of K) (j i : Nat) : K :=
  (l.output_weight.getD j []).getD i 0

/-- First loop of `compute_net`, over `K`: fold the changed inputs into the
hidden sums. -/
def compute_net_inputs_of {K : Type} [Zero K] [Add K] [Mul K] [IntCast K] (learn : net_of K) :
    net_of K :=
  for_range (learn.num_inputs + 1).toNat (fun i l =>
    if l.input_value.getD i 0 ≠ l.prev_input.getD i 0 then
      let hs := for_range l.num_hidden.toNat (fun j hs =>
        hs.set j (hs.getD j 0 +
          l.hw i j * ((l.input_value.getD i 0 - l.prev_input.getD i 0 : Int) : K)))
        l.hidden_sum
      { l with hidden_sum := hs, prev_input := l.prev_input.set i (l.input_value.getD i 0) }
    else l) learn

/-- Second loop of `compute_net`, over `K`: normalize hidden node results. -/
def compute_net_hidden_of {K : Type} [Zero K] [One K] [Add K] [Div K] [Neg K] (expf : K → K)
    (learn : net_of K) : net_of K :=
  for_range learn.num_hidden.toNat (fun i l =>
    { l with
      hidden_result := l.hidden_result.set i (sigmoid_of expf (l.hidden_sum.getD i 0)) })
    learn

/-- The weighted sum feeding output node `i`, over `K`. -/
def output_sum_of {K : Type} [Zero K] [Add K] [Mul K] (l : net_of K) (i : Nat) : K :=
  for_range (l.num_hidden + 1).toNat (fun j sum =>
    sum + l.hidden_result.getD j 0 * l.ow j i) 0

/-- Third loop of `compute_net`, over `K`: output nodes and the total of their
exponentials. -/
def compute_net_outputs_of {K : Type} [Zero K] [Add K] [Mul K] (expf : K → K)
    (learn : net_of K) : net_of K :=
  for_range learn.num_output.toNat (fun i l =>
    { l with net_result := l.net_result.set i (output_sum_of l i),
             prob_sum := l.prob_sum + expf (output_sum_of l i) })
    { learn with prob_sum := 0 }

/-- Last loop of `compute_net`, over `K`: output probabilities. -/
def compute_net_probs_of {K : Type} [Zero K] [Div K] (expf : K → K) (learn : net_of K) :
    net_of K :=
  for_range learn.num_output.toNat (fun i l =>
    { l with win_prob := l.win_prob.set i (expf (l.net_result.getD i 0) / l.prob_sum) })
    learn

/-- Compute a neural net's result (`compute_net`), over `K`. -/
def compute_net_of {K : Type} [Zero K] [One K] [Add K] [Mul K] [Div K] [Neg K] [IntCast K]
    (expf : K → K) (learn : net_of K) : net_of K :=
  compute_net_probs_of expf (compute_net_outputs_of expf (compute_net_hidden_of expf
    (compute_net_inputs_of learn)))

/-- The macro `SET_INPUT(l, n, x)`, over `K`. -/
def SET_INPUT_of {K : Type} (l : net_of K) (n : Nat) (x : Int) : net_of K :=
  { l with input_value := l.input_value.set n x }

/-- The calls `SET_INPUT(l, n++, x)` for the values `xs` in turn, from `n = 0`,
over `K`. -/
def set_inputs_of {K : Type} (l : net_of K) (xs : List Int) : net_of K :=
  (xs.foldl (fun (acc : net_of K × Nat) x => (SET_INPUT_of acc.1 acc.2 x, acc.2 + 1)) (l, 0)).1

/-- The evaluator on the net `l = learner[who]`, over `K`: the score and the
net after the call (the score 0.5 of an absent net is `1 / (1 + 1)`). -/
def eval_game_net_of {K : Type} [Zero K] [One K] [Add K] [Mul K] [Div K] [Neg K] [IntCast K]
    (expf : K → K) (l : net_of K) (g : game) (who : Int) : K × net_of K :=
  if l.num_inputs = 0 then (1 / (1 + 1), l)
  else
    let l1 := compute_net_of expf (set_inputs_of l (eval_inputs g who))
    (l1.win_prob.getD who.toNat 0, l1)

/-- What `make_learner` takes from outside the program, over `K`. -/
structure allocation_of (K : Type) where
  input_value : Nat → Int
  hidden_result : Nat → K
  net_result : Nat → K
  win_prob : Nat → K
  hidden_weight : Nat → Nat → K
  output_weight : Nat → Nat → K

/-- Create a network of the given size (`make_learner`), over `K`.  The fields
`prob_sum` and `alpha` are not assigned. -/
def make_learner_of {K : Type} [Zero K] [One K] (learn : net_of K) (input hidden output : Nat)
    (mem : allocation_of K) : net_of K :=
  { learn with
    num_output := output, num_inputs := input, num_hidden := hidden,
    input_value := (List.range input).map mem.input_value ++ [1],
    prev_input := List.replicate (input + 1) 0,
    hidden_sum := List.replicate hidden 0,
    hidden_result := (List.range hidden).map mem.hidden_result ++ [1],
    hidden_error := List.replicate hidden 0,
    net_result := (List.range output).map mem.net_result,
    win_prob := (List.range output).map mem.win_prob,
    hidden_weight := (List.range (input + 1)).map (fun i =>
      (List.range hidden).map (fun j => mem.hidden_weight i j)),
    output_weight := (List.range (hidden + 1)).map (fun i =>
      (List.range output).map (fun j => mem.output_weight i j)),
    past_input := [], num_past := 0, num_training := 0 }

/-- The assignment `output_weight[j][i] = x`, over `K`. -/
def net_of.set_ow {K : Type} (l : net_of K) (j i : Nat) (x : K) : net_of K :=
  { l with output_weight := l.output_weight.set j ((l.output_weight.getD j []).set i x) }

/-- The assignment `hidden_weight[i][j] = x`, over `K`. -/
def net_of.set_hw {K : Type} (l : net_of K) (i j : Nat) (x : K) : net_of K :=
  { l with hidden_weight := l.hidden_weight.set i ((l.hidden_weight.getD i []).set j x) }

/-- The hidden node's effect on output `i` in `train_net`, over `K`: the loop
over the other output nodes `k`. -/
def train_hderiv_of {K : Type} [Zero K] [Add K] [Sub K] [Mul K] [Div K] (expf : K → K)
    (l : net_of K) (i j : Nat) (deriv : K) : K :=
  for_range l.num_output.toNat (fun k hderiv =>
    if i = k then hderiv
    else hderiv - l.ow j k * expf (l.net_result.getD i 0 + l.net_result.getD k 0) /
      (l.prob_sum * l.prob_sum)) (deriv * l.ow j i)

/-- The pass of the first loop of `train_net` for the output node `i`, over
`K`: the weights of the hidden nodes, their errors, and the bias weight. -/
def train_output_of {K : Type} [Zero K] [One K] [Add K] [Sub K] [Mul K] [Div K] [Neg K]
    (expf : K → K) (lambda : K) (desired : List K) (i : Nat) (l : net_of K) : net_of K :=
  let error := lambda * (l.win_prob.getD i 0 - desired.getD i 0)
  let deriv := l.win_prob.getD i 0 * (1 - l.win_prob.getD i 0)
  let l1 := for_range l.num_hidden.toNat (fun j x =>
    let corr := -error * x.hidden_result.getD j 0 * deriv
    let hderiv := train_hderiv_of expf x i j deriv
    let x1 := { x with hidden_error := x.hidden_error.set j (x.hidden_error.getD j 0 +
      error * hderiv) }
    x1.set_ow j i (x1.ow j i + x1.alpha * corr)) l
  l1.set_ow l1.num_hidden.toNat i (l1.ow l1.num_hidden.toNat i + l1.alpha * -error * deriv)

/-- The array `hidden_corr` of `train_net`, over `K`. -/
def train_hidden_corr_of {K : Type} [Zero K] [One K] [Sub K] [Mul K] [Neg K] (l : net_of K) :
    List K :=
  (List.range l.num_hidden.toNat).map (fun i =>
    l.hidden_result.getD i 0 * (1 - l.hidden_result.getD i 0) * -l.hidden_error.getD i 0 *
      l.alpha)

/-- The loop over inputs of `train_net`, over `K`: the hidden weights of the
nonzero inputs are adjusted. -/
def train_hidden_weights_of {K : Type} [Zero K] [Add K] (l : net_of K) (hidden_corr : List K) :
    net_of K :=
  for_range (l.num_inputs + 1).toNat (fun i x =>
    if x.input_value.getD i 0 = 0 then x
    else for_range x.num_hidden.toNat (fun j y =>
      y.set_hw i j (y.hw i j + hidden_corr.getD j 0)) x) l

/-- The end of `train_net`, over `K`: the hidden errors, the stored sums and
the previous inputs are cleared. -/
def train_clear_of {K : Type} [Zero K] (l : net_of K) : net_of K :=
  let l1 := for_range l.num_hidden.toNat (fun i x =>
    { x with hidden_error := x.hidden_error.set i 0, hidden_sum := x.hidden_sum.set i 0 }) l
  { l1 with prev_input :=
      for_range (l1.num_inputs + 1).toNat (fun i p => p.set i 0) l1.prev_input }

/-- Train a network so that the current results are more like the desired
(`train_net`), over `K`. -/
def train_net_of {K : Type} [Zero K] [One K] [Add K] [Sub K] [Mul K] [Div K] [Neg K]
    (expf : K → K) (learn : net_of K) (lambda : K) (desired : List K) : net_of K :=
  let l1 := for_range learn.num_output.toNat (train_output_of expf lambda desired) learn
  train_clear_of (train_hidden_weights_of l1 (train_hidden_corr_of l1))

/-- A net with no cell allocated, over `K`. -/
def blank_net_of {K : Type} [Zero K] : net_of K :=
  { num_inputs := 0, num_hidden := 0, num_output := 0, input_value := [], prev_input := [],
    hidden_sum := [], hidden_result := [], hidden_error := [], net_result := [],
    win_prob := [], prob_sum := 0, hidden_weight := [], output_weight := [],
    past_input := [], num_past := 0, num_training := 0, alpha := 0 }

/-- A net with 2 inputs, 1 hidden node and 2 outputs made by `make_learner`
from the memory `mem`, with the learning rate `alpha`, over `K`. -/
def tiny_net_of {K : Type} [Zero K] [One K] (mem : allocation_of K) (alpha : K) : net_of K :=
  { make_learner_of blank_net_of 2 1 2 mem with alpha := alpha }

/-- The small net after its two inputs are set to `x0` and `x1` and it is
computed, over `K`. -/
def tiny_before_of {K : Type} [Zero K] [One K] [Add K] [Mul K] [Div K] [Neg K] [IntCast K]
    (expf : K → K) (mem : allocation_of K) (alpha : K) (x0 x1 : Int) : net_of K :=
  compute_net_of expf (SET_INPUT_of (SET_INPUT_of (tiny_net_of mem alpha) 0 x0) 1 x1)

/-- The small net after one call of `train_net` with `lambda = 1` towards
`desired`, computed again on the same inputs, over `K`. -/
def tiny_after_of {K : Type} [Zero K] [One K] [Add K] [Sub K] [Mul K] [Div K] [Neg K]
    [IntCast K] (expf : K → K) (mem : allocation_of K) (alpha : K) (x0 x1 : Int)
    (desired : List K) : net_of K :=
  compute_net_of expf (train_net_of expf (tiny_before_of expf mem alpha x0 x1) 1 desired)

/-- The squared error between the outputs `win_prob` of a net and the values
`desired`, over `K`. -/
def squared_error_of {K : Type} [Zero K] [Add K] [Sub K] [Mul K] (l : net_of K)
    (desired : List K) : K :=
  ((List.range l.num_output.toNat).map (fun i =>
    (l.win_prob.getD i 0 - desired.getD i 0) * (l.win_prob.getD i 0 - desired.getD i 0))).sum

/-- A net with 2 inputs, 1 hidden node and 2 outputs over `K`, given by the
contents of its arrays. -/
def tiny_state_of {K : Type} [One K] (xs prev : List Int) (hsum h herr r0 r1 S p0 p1 : K)
    (hidden_weight output_weight : List (List K)) (alpha : K) : net_of K :=
  { num_inputs := 2, num_hidden := 1, num_output := 2, input_value := xs, prev_input := prev,
    hidden_sum := [hsum], hidden_result := [h, 1], hidden_error := [herr],
    net_result := [r0, r1], win_prob := [p0, p1], prob_sum := S,
    hidden_weight := hidden_weight, output_weight := output_weight,
    past_input := [], num_past := 0, num_training := 0, alpha := alpha }

/-- Memory whose hidden node pulls the outputs apart, over `K`: weight 2000 to
output 0 and -2000 to output 1, with the bias weights -1000 and 1000 and the
hidden weights zero. -/
def steep_memory_of {K : Type} [Zero K] [IntCast K] : allocation_of K :=
  { input_value := fun _ => 0, hidden_result := fun _ => 0, net_result := fun _ => 0,
    win_prob := fun _ => 0, hidden_weight := fun _ _ => 0,
    output_weight := fun j i =>
      if j = 0 then (if i = 0 then ((2000 : Int) : K) else ((-2000 : Int) : K))
      else (if i = 0 then ((-1000 : Int) : K) else ((1000 : Int) : K)) }

/-- The net of the exact model as a net over the rationals. -/
def net.to_of (l : net) : net_of ℚ :=
  { num_inputs := l.num_inputs, num_hidden := l.num_hidden, num_output := l.num_output,
    input_value := l.input_value, prev_input := l.prev_input, hidden_sum := l.hidden_sum,
    hidden_result := l.hidden_result, hidden_error := l.hidden_error,
    net_result := l.net_result, win_prob := l.win_prob, prob_sum := l.prob_sum,
    hidden_weight := l.hidden_weight, output_weight := l.output_weight,
    past_input := l.past_input, num_past := l.num_past, num_training := l.num_training,
    alpha := l.alpha }

/-- The comparison of the multi-action loop of `find_action` run over the
actions paired with their scores, over `K` with its comparison `>=`: a score
not below the best so far replaces it, with its action. -/
def keep_best_of {K : Type} [LE K] [DecidableRel (fun x y : K => x ≤ y)]
    (pairs : List (action × K)) (b_s : K) (best_act : Option action) : K × Option action :=
  pairs.foldl (fun acc p => if p.2 ≥ acc.1 then (p.2, some p.1) else acc) (b_s, best_act)

/-! ## Values of the type `double`

A value of the C type `double` is a number, an infinity or NaN.  The numbers
are taken exact here (no rounding) and zero is taken as `+0`; what is modelled
is the arithmetic of the special values: overflow to an infinity, and NaN as
the result of `inf - inf`, `0 * inf`, `0 / 0` and `inf / inf`, with every
comparison with NaN false. -/

/-- A value of the C type `double`: a number, `+inf`, `-inf` or NaN. -/
inductive dbl where
  | num (q : ℚ)
  | pinf
  | ninf
  | nan
  deriving DecidableEq, Inhabited

/-- The negation of a double. -/
def dbl.neg : dbl → dbl
  | dbl.num q => dbl.num (-q)
  | dbl.pinf => dbl.ninf
  | dbl.ninf => dbl.pinf
  | dbl.nan => dbl.nan

/-- The sum of two doubles. -/
def dbl.add : dbl → dbl → dbl
  | dbl.nan, _ => dbl.nan
  | _, dbl.nan => dbl.nan
  | dbl.pinf, dbl.ninf => dbl.nan
  | dbl.ninf, dbl.pinf => dbl.nan
  | dbl.pinf, _ => dbl.pinf
  | _, dbl.pinf => dbl.pinf
  | dbl.ninf, _ => dbl.ninf
  | _, dbl.ninf => dbl.ninf
  | dbl.num a, dbl.num b => dbl.num (a + b)

/-- The infinity with the sign of the number `a`, and NaN for `a = 0`. -/
def dbl.signed_inf (a : ℚ) (positive : Bool) : dbl :=
  if a = 0 then dbl.nan
  else if (0 < a) = positive then dbl.pinf else dbl.ninf

/-- The product of two doubles. -/
def dbl.mul : dbl → dbl → dbl
  | dbl.nan, _ => dbl.nan
  | _, dbl.nan => dbl.nan
  | dbl.num a, dbl.num b => dbl.num (a * b)
  | dbl.num a, dbl.pinf => dbl.signed_inf a true
  | dbl.num a, dbl.ninf => dbl.signed_inf a false
  | dbl.pinf, dbl.num b => dbl.signed_inf b true
  | dbl.ninf, dbl.num b => dbl.signed_inf b false
  | dbl.pinf, dbl.pinf => dbl.pinf
  | dbl.ninf, dbl.ninf => dbl.pinf
  | dbl.pinf, dbl.ninf => dbl.ninf
  | dbl.ninf, dbl.pinf => dbl.ninf

/-- The quotient of two doubles. -/
def dbl.div : dbl → dbl → dbl
  | dbl.nan, _ => dbl.nan
  | _, dbl.nan => dbl.nan
  | dbl.num a, dbl.num b => if b = 0 then dbl.signed_inf a true else dbl.num (a / b)
  | dbl.num _, dbl.pinf => dbl.num 0
  | dbl.num _, dbl.ninf => dbl.num 0
  | dbl.pinf, dbl.num b => if 0 ≤ b then dbl.pinf else dbl.ninf
  | dbl.ninf, dbl.num b => if 0 ≤ b then dbl.ninf else dbl.pinf
  | dbl.pinf, dbl.pinf => dbl.nan
  | dbl.pinf, dbl.ninf => dbl.nan
  | dbl.ninf, dbl.pinf => dbl.nan
  | dbl.ninf, dbl.ninf => dbl.nan

/-- The C comparison `x <= y` of two doubles: false when one of them is NaN. -/
def dbl.le : dbl → dbl → Bool
  | dbl.nan, _ => false
  | _, dbl.nan => false
  | dbl.ninf, _ => true
  | _, dbl.pinf => true
  | dbl.pinf, _ => false
  | _, dbl.ninf => false
  | dbl.num a, dbl.num b => decide (a ≤ b)

instance : Zero dbl := ⟨dbl.num 0⟩
instance : One dbl := ⟨dbl.num 1⟩
instance : Neg dbl := ⟨dbl.neg⟩
instance : Add dbl := ⟨dbl.add⟩
instance : Sub dbl := ⟨fun x y => dbl.add x (dbl.neg y)⟩
instance : Mul dbl := ⟨dbl.mul⟩
instance : Div dbl := ⟨dbl.div⟩
instance : IntCast dbl := ⟨fun z => dbl.num (z : ℚ)⟩
instance : LE dbl := ⟨fun x y => dbl.le x y = true⟩
instance : DecidableRel (fun x y : dbl => x ≤ y) :=
  fun x y => inferInstanceAs (Decidable (dbl.le x y = true))

/-- The C function `exp` on doubles, as far as its special values go: `exp` of
NaN is NaN, of `+inf` is `+inf`, of `-inf` is 0; a number from 710 on overflows
to `+inf` (the largest double is below `e ^ 710`), a number up to -746
underflows to 0 (`e ^ -746` is less than half the smallest positive double),
and `exp 0 = 1`.  In between, the stand-in `ramp_exp` takes the place of the
exponential. -/
def dbl_exp : dbl → dbl
  | dbl.nan => dbl.nan
  | dbl.pinf => dbl.pinf
  | dbl.ninf => dbl.num 0
  | dbl.num q => if 710 ≤ q then dbl.pinf else if q ≤ -746 then dbl.num 0 else dbl.num (ramp_exp q)

/-- A net of the program's size made by `make_learner` from cleared memory, all
weights zero but the bias weights `a` and `b` of the two outputs, over the
doubles. -/
def favouring_net_d (a b : ℚ) : net_of dbl :=
  make_learner_of { (blank_net_of : net_of dbl) with alpha := dbl.num (1 / 10000) }
    NET_INPUT HIDDEN_NODES 2
    { input_value := fun _ => 0, hidden_result := fun _ => 0, net_result := fun _ => 0,
      win_prob := fun _ => 0, hidden_weight := fun _ _ => 0,
      output_weight := fun j i =>
        if j = HIDDEN_NODES then (if i = 0 then dbl.num a else dbl.num b) else 0 }

/-- The net `l` with the input values `xs` and the previous inputs `ps` in the
place of its own. -/
def net_of.put_inputs {K : Type} (l : net_of K) (xs ps : List Int) : net_of K :=
  { l with input_value := xs, prev_input := ps }

/-! ## Theorems -/

/-- C1: for every game `orig` whose simulation flag is 0, the copy made by
`simulate_game` has the flag set to 1, `sim_turn` equal to `orig.turn`, the
random seed 0 and both controls set to the AI interface, while every other
field (of the game and of both players: decks, stacks, phases, dragons, turn,
fight element, fight started, game over, start seed, ...) is that of `orig`. -/
theorem simulate_game_of_real (orig : game) (h : orig.simulation = 0) :
    (simulate_game orig).simulation = 1 ∧
    (simulate_game orig).sim_turn = orig.turn ∧
    (simulate_game orig).random_seed = 0 ∧
    (simulate_game orig).p0.control = interface.ai_func ∧
    (simulate_game orig).p1.control = interface.ai_func ∧
    (simulate_game orig).turn = orig.turn ∧
    (simulate_game orig).fight_element = orig.fight_element ∧
    (simulate_game orig).fight_started = orig.fight_started ∧
    (simulate_game orig).game_over = orig.game_over ∧
    (simulate_game orig).random_event = orig.random_event ∧
    (simulate_game orig).start_seed = orig.start_seed ∧
    (∀ who, ((simulate_game orig).p who).deck = (orig.p who).deck ∧
      ((simulate_game orig).p who).stack = (orig.p who).stack ∧
      ((simulate_game orig).p who).phase = (orig.p who).phase ∧
      ((simulate_game orig).p who).dragons = (orig.p who).dragons) ∧
    { (simulate_game orig).p0 with control := orig.p0.control } = orig.p0 ∧
    { (simulate_game orig).p1 with control := orig.p1.control } = orig.p1 := by
  simp [simulate_game, h, game.p]
  intro who
  split <;> simp

/-- Witness for C1 on a real game with seed 7. -/
theorem simulate_game_of_real_witness :
    real_game.simulation = 0 ∧ (simulate_game real_game).simulation = 1 ∧
      (simulate_game real_game).random_seed = 0 ∧
      (simulate_game real_game).sim_turn = real_game.turn :=
  ⟨by decide, (simulate_game_of_real real_game (by decide)).1,
    (simulate_game_of_real real_game (by decide)).2.2.1,
    (simulate_game_of_real real_game (by decide)).2.1⟩

/-- C2: `simulate_game` applied to a state that is already a simulation is an
exact copy (so `sim_turn`, the random seed and every card flag, `random_fake`
included, stay as they were), and for every state `s`, simulating the
simulation gives the simulation again. -/
theorem simulate_game_idempotent (s : game) :
    (s.simulation ≠ 0 → simulate_game s = s) ∧
    simulate_game (simulate_game s) = simulate_game s := by
  constructor
  · intro h
    simp [simulate_game, h]
  · by_cases h : s.simulation = 0
    · simp [simulate_game, h]
    · simp [simulate_game, h]

/-! ### The evaluator's score lies in [0,1] -/

theorem for_range_succ {σ : Type} (n : Nat) (body : Nat → σ → σ) (s : σ) :
    for_range (n + 1) body s = body n (for_range n body s) := by
  simp [for_range, List.range_succ, List.foldl_append]

theorem for_range_zero {σ : Type} (body : Nat → σ → σ) (s : σ) :
    for_range 0 body s = s := by
  simp [for_range]

/-- An invariant that every pass of a loop keeps holds after the loop. -/
theorem for_range_induct {σ : Type} (P : Nat → σ → Prop) (body : Nat → σ → σ) (s : σ)
    (n : Nat) (h0 : P 0 s) (hstep : ∀ k x, k < n → P k x → P (k + 1) (body k x)) :
    P n (for_range n body s) := by
  induction n with
  | zero => simpa [for_range_zero] using h0
  | succ m ih =>
    rw [for_range_succ]
    exact hstep m _ (Nat.lt_succ_self m)
      (ih (fun k x hk hp => hstep k x (Nat.lt_succ_of_lt hk) hp))

theorem getD_set_self (xs : List ℚ) (i : Nat) (x : ℚ) (h : i < xs.length) :
    (xs.set i x).getD i 0 = x := by
  simp [List.getD_eq_getElem?_getD, List.getElem?_set, h]

theorem getD_set_other (xs : List ℚ) (i j : Nat) (x : ℚ) (h : i ≠ j) :
    (xs.set i x).getD j 0 = xs.getD j 0 := by
  simp [List.getD_eq_getElem?_getD, List.getElem?_set, h]

/-- The first two loops of `compute_net` leave the output arrays and their
declared size alone. -/
theorem compute_net_inputs_frame (l : net) :
    (compute_net_inputs l).num_output = l.num_output ∧
    (compute_net_inputs l).net_result = l.net_result ∧
    (compute_net_inputs l).win_prob = l.win_prob := by
  unfold compute_net_inputs
  refine for_range_induct (fun _ (x : net) => x.num_output = l.num_output ∧
    x.net_result = l.net_result ∧ x.win_prob = l.win_prob) _ _ _ ?_ ?_
  · exact ⟨rfl, rfl, rfl⟩
  · intro k x _ hx
    dsimp only
    split
    · exact hx
    · exact hx

theorem compute_net_hidden_frame (expf : ℚ → ℚ) (l : net) :
    (compute_net_hidden expf l).num_output = l.num_output ∧
    (compute_net_hidden expf l).net_result = l.net_result ∧
    (compute_net_hidden expf l).win_prob = l.win_prob := by
  unfold compute_net_hidden
  refine for_range_induct (fun _ (x : net) => x.num_output = l.num_output ∧
    x.net_result = l.net_result ∧ x.win_prob = l.win_prob) _ _ _ ?_ ?_
  · exact ⟨rfl, rfl, rfl⟩
  · intro k x _ hx
    exact hx

/-- After the third loop of `compute_net` the exponential of every output is
positive and at most `prob_sum`. -/
theorem compute_net_outputs_bound (expf : ℚ → ℚ) (hexp : ∀ x, 0 < expf x) (l : net)
    (hlen : l.net_result.length = l.num_output.toNat) :
    (compute_net_outputs expf l).num_output = l.num_output ∧
    (compute_net_outputs expf l).win_prob = l.win_prob ∧
    ∀ i, i < l.num_output.toNat →
      expf ((compute_net_outputs expf l).net_result.getD i 0) ≤
        (compute_net_outputs expf l).prob_sum := by
  unfold compute_net_outputs
  have key := for_range_induct (fun k x => x.num_output = l.num_output ∧
      x.win_prob = l.win_prob ∧ x.net_result.length = l.net_result.length ∧
      0 ≤ x.prob_sum ∧
      ∀ i, i < k → expf (x.net_result.getD i 0) ≤ x.prob_sum)
    (fun i (x : net) => { x with net_result := x.net_result.set i (output_sum x i),
                                 prob_sum := x.prob_sum + expf (output_sum x i) })
    { l with prob_sum := 0 } l.num_output.toNat
    ⟨rfl, rfl, rfl, le_refl _, fun i hi => absurd hi (Nat.not_lt_zero i)⟩
    (by
      intro k x hk hx
      obtain ⟨h1, h2, h3, h4, h5⟩ := hx
      refine ⟨h1, h2, by simpa using h3, ?_, ?_⟩
      · exact add_nonneg h4 (le_of_lt (hexp _))
      · intro i hi
        dsimp only
        by_cases hik : i = k
        · subst hik
          rw [getD_set_self _ _ _ (by omega)]
          linarith
        · have hlt : i < k := by omega
          rw [getD_set_other _ _ _ _ (fun h => hik h.symm)]
          have := h5 i hlt
          have := hexp (output_sum x k)
          linarith)
  exact ⟨key.1, key.2.1, key.2.2.2.2⟩

/-- After `compute_net` every entry of `win_prob` lies in [0,1]. -/
theorem compute_net_win_prob_range (expf : ℚ → ℚ) (hexp : ∀ x, 0 < expf x) (l : net)
    (hok : net_ok l) (i : Nat) :
    0 ≤ (compute_net expf l).win_prob.getD i 0 ∧
      (compute_net expf l).win_prob.getD i 0 ≤ 1 := by
  obtain ⟨hn, hw⟩ := hok
  have hi := compute_net_inputs_frame l
  have hh := compute_net_hidden_frame expf (compute_net_inputs l)
  set l2 := compute_net_hidden expf (compute_net_inputs l) with hl2
  have hn2 : l2.net_result.length = l2.num_output.toNat := by
    rw [hh.2.1, hh.1, hi.2.1, hi.1]; exact hn
  have ho := compute_net_outputs_bound expf hexp l2 hn2
  set l3 := compute_net_outputs expf l2 with hl3
  have hnum : l3.num_output = l.num_output := by rw [ho.1, hh.1, hi.1]
  have hwl : l3.win_prob.length = l.num_output.toNat := by
    rw [ho.2.1, hh.2.2, hi.2.2]; exact hw
  have key := for_range_induct (fun k (x : net) => x.net_result = l3.net_result ∧
      x.prob_sum = l3.prob_sum ∧ x.win_prob.length = l3.win_prob.length ∧
      ∀ j, 0 ≤ x.win_prob.getD j 0 ∧ x.win_prob.getD j 0 ≤ 1 ∨
        (k ≤ j ∧ j < l.num_output.toNat))
    (fun i (x : net) =>
      { x with win_prob := x.win_prob.set i (expf (x.net_result.getD i 0) / x.prob_sum) })
    l3 l3.num_output.toNat
    ⟨rfl, rfl, rfl, by
      intro j
      by_cases hj : j < l.num_output.toNat
      · exact Or.inr ⟨Nat.zero_le _, hj⟩
      · left
        rw [List.getD_eq_default _ _ (by omega)]
        exact ⟨le_refl _, zero_le_one⟩⟩
    (by
      intro k x hk hx
      obtain ⟨h1, h2, h3, h4⟩ := hx
      refine ⟨h1, h2, by simpa using h3, ?_⟩
      intro j
      dsimp only
      by_cases hjk : j = k
      · subst hjk
        left
        rw [getD_set_self _ _ _ (by rw [h3, hwl, ← hnum]; exact hk)]
        rw [h1, h2]
        have hb := ho.2.2 j (by rw [hh.1, hi.1, ← hnum]; exact hk)
        have hpos := hexp (l3.net_result.getD j 0)
        have hS : 0 < l3.prob_sum := lt_of_lt_of_le hpos hb
        exact ⟨div_nonneg (le_of_lt hpos) (le_of_lt hS), (div_le_one hS).mpr hb⟩
      · rw [getD_set_other _ _ _ _ (fun h => hjk h.symm)]
        rcases h4 j with h | h
        · exact Or.inl h
        · exact Or.inr ⟨by omega, h.2⟩)
  have hfin : compute_net expf l = compute_net_probs expf l3 := rfl
  rw [hfin]
  unfold compute_net_probs
  rcases key.2.2.2 i with h | h
  · exact h
  · rw [hnum] at h
    omega

/-- `compute_net` keeps the sizes of the output arrays. -/
theorem compute_net_ok (expf : ℚ → ℚ) (l : net) (hok : net_ok l) :
    net_ok (compute_net expf l) := by
  obtain ⟨hn, hw⟩ := hok
  have hi := compute_net_inputs_frame l
  have hh := compute_net_hidden_frame expf (compute_net_inputs l)
  set l2 := compute_net_hidden expf (compute_net_inputs l) with hl2
  have h3 : (compute_net_outputs expf l2).num_output = l2.num_output ∧
      (compute_net_outputs expf l2).net_result.length = l2.net_result.length ∧
      (compute_net_outputs expf l2).win_prob = l2.win_prob := by
    unfold compute_net_outputs
    refine for_range_induct (fun _ (x : net) => x.num_output = l2.num_output ∧
      x.net_result.length = l2.net_result.length ∧ x.win_prob = l2.win_prob) _ _ _ ?_ ?_
    · exact ⟨rfl, rfl, rfl⟩
    · intro k x _ hx
      exact ⟨hx.1, by simpa using hx.2.1, hx.2.2⟩
  set l3 := compute_net_outputs expf l2 with hl3
  have h4 : (compute_net_probs expf l3).num_output = l3.num_output ∧
      (compute_net_probs expf l3).net_result = l3.net_result ∧
      (compute_net_probs expf l3).win_prob.length = l3.win_prob.length := by
    unfold compute_net_probs
    refine for_range_induct (fun _ (x : net) => x.num_output = l3.num_output ∧
      x.net_result = l3.net_result ∧ x.win_prob.length = l3.win_prob.length) _ _ _ ?_ ?_
    · exact ⟨rfl, rfl, rfl⟩
    · intro k x _ hx
      exact ⟨hx.1, hx.2.1, by simpa using hx.2.2⟩
  have hfin : compute_net expf l = compute_net_probs expf l3 := rfl
  rw [hfin]
  constructor
  · rw [h4.2.1, h4.1, h3.2.1, h3.1, hh.2.1, hh.1, hi.2.1, hi.1]; exact hn
  · rw [h4.2.2, h4.1, h3.2.2, h3.1, hh.2.2, hh.1, hi.2.2, hi.1]; exact hw

/-- `SET_INPUT` calls leave the output arrays and their declared size alone. -/
theorem set_inputs_frame (l : net) (xs : List Int) :
    (set_inputs l xs).num_output = l.num_output ∧
    (set_inputs l xs).net_result = l.net_result ∧
    (set_inputs l xs).win_prob = l.win_prob := by
  unfold set_inputs
  have : ∀ (ys : List Int) (acc : net × Nat),
      (ys.foldl (fun (acc : net × Nat) x => (SET_INPUT acc.1 acc.2 x, acc.2 + 1)) acc).1.num_output
        = acc.1.num_output ∧
      (ys.foldl (fun (acc : net × Nat) x => (SET_INPUT acc.1 acc.2 x, acc.2 + 1)) acc).1.net_result
        = acc.1.net_result ∧
      (ys.foldl (fun (acc : net × Nat) x => (SET_INPUT acc.1 acc.2 x, acc.2 + 1)) acc).1.win_prob
        = acc.1.win_prob := by
    intro ys
    induction ys with
    | nil => intro acc; exact ⟨rfl, rfl, rfl⟩
    | cons y ys ih =>
      intro acc
      simp only [List.foldl_cons]
      have := ih (SET_INPUT acc.1 acc.2 y, acc.2 + 1)
      simpa [SET_INPUT] using this
  exact this xs (l, 0)

/-- The evaluator on a net of the right sizes returns a score in [0,1] and a
net of the right sizes. -/
theorem eval_game_net_range (expf : ℚ → ℚ) (hexp : ∀ x, 0 < expf x) (l : net)
    (hok : net_ok l) (g : game) (who : Int) :
    0 ≤ (eval_game_net expf l g who).1 ∧ (eval_game_net expf l g who).1 ≤ 1 ∧
      net_ok (eval_game_net expf l g who).2 := by
  by_cases h : l.num_inputs = 0
  · simp only [eval_game_net, h, if_true]
    exact ⟨by norm_num, by norm_num, hok⟩
  · simp only [eval_game_net, h, if_false]
    have hf := set_inputs_frame l (eval_inputs g who)
    have hok2 : net_ok (set_inputs l (eval_inputs g who)) := by
      unfold net_ok
      rw [hf.1, hf.2.1, hf.2.2]
      exact hok
    generalize set_inputs l (eval_inputs g who) = l1 at hok2
    have hr := compute_net_win_prob_range expf hexp l1 hok2 who.toNat
    exact ⟨hr.1, hr.2, compute_net_ok expf l1 hok2⟩

/-! ### Frames of the evaluator and of the engine calls -/

theorem simulate_game_twice (g : game) :
    simulate_game (simulate_game g) = simulate_game g := by
  by_cases h : g.simulation = 0
  · simp [simulate_game, h]
  · simp [simulate_game, h]

/-- `eval_game` changes the static state only in the net it evaluates with. -/
theorem eval_game_frame (expf : ℚ → ℚ) (g : game) (who : Int) (s : ai_state) :
    (eval_game expf g who s).2.best_path = s.best_path ∧
    (eval_game expf g who s).2.best_path_pos = s.best_path_pos ∧
    (eval_game expf g who s).2.best_path_score = s.best_path_score ∧
    (eval_game expf g who s).2.nodes = s.nodes ∧
    (eval_game expf g who s).2.node_pos = s.node_pos ∧
    (eval_game expf g who s).2.node_len = s.node_len ∧
    (eval_game expf g who s).2.inside_choose = s.inside_choose ∧
    (eval_game expf g who s).2.assist_str = s.assist_str ∧
    (eval_game expf g who s).2.must_retreat = s.must_retreat ∧
    (eval_game expf g who s).2.checking_retreat = s.checking_retreat ∧
    (eval_game expf g who s).2.checking_decline = s.checking_decline ∧
    (eval_game expf g who s).2.stop_choose = s.stop_choose := by
  unfold eval_game ai_state.set_learner
  dsimp only
  split <;> exact ⟨rfl, rfl, rfl, rfl, rfl, rfl, rfl, rfl, rfl, rfl, rfl, rfl⟩

/-- The score of `eval_game` depends on the static state only through the net
of the evaluating player. -/
theorem eval_game_score (expf : ℚ → ℚ) (g : game) (who : Int) (s t : ai_state)
    (h : s.learner who = t.learner who) :
    (eval_game expf g who s).1 = (eval_game expf g who t).1 := by
  unfold eval_game
  dsimp only
  rw [h]

/-- C6: when `find_action` is called on a state whose `game_over` flag is set,
it returns (with any positive fuel) the evaluation `eval_game(g, g.sim_turn)`,
from the point of view of the player who started the simulation; the choice
nodes not yet examined are dropped (`node_len` becomes `node_pos`); the game,
the best path, its score and position, the nodes and `node_pos` are unchanged. -/
theorem find_action_game_over (E : Engine) (expf : ℚ → ℚ) (fuel : Nat) (g : game)
    (s : ai_state) (hover : g.game_over ≠ 0) :
    ∃ s1, find_action E expf (fuel + 1) g s =
        some ((eval_game expf g g.sim_turn s).1, g, s1) ∧
      s1.node_len = s.node_pos ∧ s1.node_pos = s.node_pos ∧ s1.nodes = s.nodes ∧
      s1.best_path = s.best_path ∧ s1.best_path_score = s.best_path_score ∧
      s1.best_path_pos = s.best_path_pos := by
  have hf := eval_game_frame expf g g.sim_turn { s with node_len := s.node_pos }
  refine ⟨(eval_game expf g g.sim_turn { s with node_len := s.node_pos }).2, ?_,
    hf.2.2.2.2.2.1, hf.2.2.2.2.1, hf.2.2.2.1, hf.1, hf.2.2.1, hf.2.1⟩
  have hs : (eval_game expf g g.sim_turn { s with node_len := s.node_pos }).1 =
      (eval_game expf g g.sim_turn s).1 :=
    eval_game_score expf g g.sim_turn _ _ (by unfold ai_state.learner; rfl)
  rw [← hs]
  simp only [find_action, find_action_step, hover, ne_eq, not_false_eq_true, if_true]

/-- Witness for C6 on a finished game. -/
theorem find_action_game_over_witness :
    over_game.game_over ≠ 0 ∧
    ∃ s1, find_action quiet_engine flat_exp 1 over_game fresh_state =
        some ((eval_game flat_exp over_game over_game.sim_turn fresh_state).1, over_game, s1) ∧
      s1.node_len = fresh_state.node_pos ∧ s1.node_pos = fresh_state.node_pos ∧
      s1.nodes = fresh_state.nodes ∧
      s1.best_path = fresh_state.best_path ∧
      s1.best_path_score = fresh_state.best_path_score ∧
      s1.best_path_pos = fresh_state.best_path_pos :=
  ⟨by decide, find_action_game_over quiet_engine flat_exp 0 over_game fresh_state (by decide)⟩

/-- C5 (as amended): if the game is not over, no choice node is pending, the
retreat check has not short-circuited the call and `legal_act` returns no
action, then `find_action` returns exactly -1 and leaves the game and the whole
static state (best path, its score and position included) unchanged; and in
exact arithmetic with a positive `exp` every score the evaluator produces on a
net of the right sizes lies in [0,1], so -1 is never the value of an evaluated
leaf. -/
theorem find_action_no_legal (E : Engine) (expf : ℚ → ℚ) (fuel : Nat) (g : game)
    (s : ai_state) (hover : g.game_over = 0) (hnode : ¬ s.node_pos < s.node_len)
    (hchk : ¬ (s.checking_retreat ≠ 0 ∧ s.must_retreat = 0))
    (hlegal : legal_act E g s.checking_retreat = []) (hexp : ∀ x, 0 < expf x) :
    find_action E expf (fuel + 1) g s = some (-1, g, s) ∧
    ∀ (g1 : game) (who : Int) (s1 : ai_state), net_ok (s1.learner who) →
      0 ≤ (eval_game expf g1 who s1).1 ∧ (eval_game expf g1 who s1).1 ≤ 1 ∧
        (eval_game expf g1 who s1).1 ≠ -1 := by
  constructor
  · simp only [find_action, find_action_step, hover, ne_eq, not_true_eq_false, if_false,
      hnode, hlegal]
    rw [if_neg (by simpa using hchk)]
  · intro g1 who s1 hok
    have h := eval_game_net_range expf hexp (s1.learner who) hok g1 who
    refine ⟨h.1, h.2.1, ?_⟩
    intro hneg
    have h0 : 0 ≤ (eval_game expf g1 who s1).1 := h.1
    rw [hneg] at h0
    norm_num at h0

/-- Witness for C5 on a leader phase with no legal action. -/
theorem find_action_no_legal_witness :
    stuck_game.game_over = 0 ∧ ¬ fresh_state.node_pos < fresh_state.node_len ∧
    legal_act quiet_engine stuck_game fresh_state.checking_retreat = [] ∧
    find_action quiet_engine flat_exp 1 stuck_game fresh_state =
      some (-1, stuck_game, fresh_state) :=
  ⟨by decide, by decide, by decide,
    (find_action_no_legal quiet_engine flat_exp 0 stuck_game fresh_state (by decide)
      (by decide) (by decide) (by decide) (fun _ => zero_lt_one)).1⟩

/-- C7: lookahead never changes the state it branches from.  When `find_action`
expands a choice node or takes the multi-action branch, the game it returns is
the game `g` it was given, field for field; and each pass of either loop works
on the copy `simulate_game g` only (run from the copy it gives the same result). -/
theorem find_action_keeps_game (E : Engine) (expf : ℚ → ℚ) (fuel : Nat) (g : game)
    (s : ai_state) (r : search_result) (hover : g.game_over = 0)
    (hbranch : s.node_pos < s.node_len ∨ 2 ≤ (legal_act E g s.checking_retreat).length)
    (hret : find_action E expf (fuel + 1) g s = some r) :
    r.2.1 = g ∧
    (∀ find a t, find_branch E expf find g a t =
      find_branch E expf find (simulate_game g) a t) ∧
    (∀ find n i t, choose_branch E expf find g g.turn n i t =
      choose_branch E expf find (simulate_game g) g.turn n i t) := by
  refine ⟨?_, ?_, ?_⟩
  · simp only [find_action, find_action_step, hover, ne_eq, not_true_eq_false,
      if_false] at hret
    by_cases hn : s.node_pos < s.node_len
    · rw [if_pos hn] at hret
      cases hc : choose_action E expf (find_action E expf fuel) g s with
      | none => rw [hc] at hret; simp at hret
      | some x =>
        rw [hc] at hret
        simp only [Option.map_some', Option.some.injEq] at hret
        rw [← hret]
    · rw [if_neg hn] at hret
      have h2 : 2 ≤ (legal_act E g s.checking_retreat).length := by
        rcases hbranch with h | h
        · exact absurd h hn
        · exact h
      split at hret
      · simp only [Option.some.injEq] at hret
        rw [← hret]
      · generalize legal_act E g s.checking_retreat = legal at hret h2
        cases legal with
        | nil => simp at h2
        | cons a rest =>
          cases rest with
          | nil => simp at h2
          | cons b rest2 =>
            simp only [find_multi] at hret
            split at hret
            · simp at hret
            · split at hret
              · split at hret
                · simp at hret
                · simp only [Option.some.injEq] at hret
                  rw [← hret]
              · simp only [Option.some.injEq] at hret
                rw [← hret]
  · intro find a t
    simp only [find_branch, simulate_game_twice]
  · intro find n i t
    simp only [choose_branch, simulate_game_twice]

/-- Witness for C7 on a retreat phase, where retreating and staying are both
legal. -/
theorem find_action_keeps_game_witness :
    retreat_game.game_over = 0 ∧
    2 ≤ (legal_act quiet_engine retreat_game fresh_state.checking_retreat).length ∧
    find_action quiet_engine flat_exp 2 retreat_game fresh_state =
      some (1 / 2, retreat_game,
        { fresh_state with best_path := [mk_act ACT_RETREAT], best_path_score := 1 / 2 }) ∧
    ((1 / 2 : ℚ), retreat_game,
        { fresh_state with best_path := [mk_act ACT_RETREAT],
                           best_path_score := 1 / 2 }).2.1 = retreat_game :=
  ⟨by decide, by decide, by with_unfolding_all decide,
    (find_action_keeps_game quiet_engine flat_exp 1 retreat_game fresh_state _ (by decide)
      (Or.inr (by decide)) (by with_unfolding_all decide)).1⟩

/-! ### What the search keeps of the static state -/

theorem kept_refl (s : ai_state) : kept s s := ⟨rfl, fun _ => ⟨rfl, rfl⟩⟩

theorem kept_trans {s t u : ai_state} (h1 : kept s t) (h2 : kept t u) : kept s u := by
  refine ⟨h2.1.trans h1.1, fun h => ?_⟩
  have ht : t.checking_retreat ≠ 0 := by rw [h1.1]; exact h
  exact ⟨(h2.2 ht).1.trans (h1.2 h).1, (h2.2 ht).2.trans (h1.2 h).2⟩

/-- Two states with the same flag, best path and score keep the same things. -/
theorem kept_of_eq {s t : ai_state} (h1 : t.checking_retreat = s.checking_retreat)
    (h2 : t.best_path = s.best_path) (h3 : t.best_path_score = s.best_path_score) :
    kept s t := ⟨h1, fun _ => ⟨h2, h3⟩⟩

theorem kept_run_mutator (m : mutator) (g : game) (s : ai_state) :
    kept s (run_mutator m g s).2 := kept_of_eq rfl rfl rfl

theorem kept_run_callback (E : Engine) (cb : Nat) (g : game) (who : Int)
    (list : List design) (data : Nat) (s : ai_state) :
    kept s (run_callback E cb g who list data s).2.2 := kept_of_eq rfl rfl rfl

theorem kept_perform_none (E : Engine) (g : game) (s : ai_state) :
    kept s (perform_none E g s).2 := by
  unfold perform_none
  by_cases h0 : (g.p g.turn).phase = PHASE_OVER
  · simp only [h0, if_true]; exact kept_refl s
  · simp only [h0, if_false]
    by_cases h1 : (g.p g.turn).phase = PHASE_START
    · simp only [h1, if_true]; exact kept_run_mutator _ _ s
    · simp only [h1, if_false]
      by_cases h2 : (g.p g.turn).phase = PHASE_AFTER_SB
      · simp only [h2, if_true]; exact kept_run_mutator _ _ s
      · simp only [h2, if_false]
        by_cases h3 : (g.p g.turn).phase = PHASE_REFRESH
        · simp only [h3, if_true]; exact kept_run_mutator _ _ s
        · simp only [h3, if_false]
          by_cases h4 : (g.p g.turn).phase = PHASE_END
          · simp only [h4, if_true]; exact kept_run_mutator _ _ s
          · simp only [h4, if_false]; exact kept_refl s

theorem kept_perform_act (E : Engine) (g : game) (a : action) (s : ai_state) :
    kept s (perform_act E g a s).2 := by
  unfold perform_act
  by_cases h1 : a.act = ACT_NONE
  · rw [if_pos h1]; exact kept_perform_none E g s
  rw [if_neg h1]
  by_cases h2 : a.act = ACT_RETREAT
  · rw [if_pos h2]; exact kept_run_mutator _ _ s
  rw [if_neg h2]
  by_cases h3 : a.act = ACT_RETRIEVE
  · rw [if_pos h3]; exact kept_run_mutator _ _ s
  rw [if_neg h3]
  by_cases h4 : a.act = ACT_PLAY
  · rw [if_pos h4]; exact kept_run_mutator _ _ s
  rw [if_neg h4]
  by_cases h5 : a.act = ACT_PLAY_NO
  · rw [if_pos h5]; exact kept_run_mutator _ _ s
  rw [if_neg h5]
  by_cases h6 : a.act = ACT_ANN_FIRE ∨ a.act = ACT_ANN_EARTH
  · rw [if_pos h6]; exact kept_run_mutator _ _ s
  rw [if_neg h6]
  by_cases h7 : a.act = ACT_USE
  · rw [if_pos h7]; exact kept_run_mutator _ _ s
  rw [if_neg h7]
  by_cases h8 : a.act = ACT_SATISFY
  · rw [if_pos h8]; exact kept_run_mutator _ _ s
  rw [if_neg h8]
  by_cases h9 : a.act = ACT_LAND
  · rw [if_pos h9]; exact kept_run_mutator _ _ s
  rw [if_neg h9]
  by_cases h10 : a.act = ACT_LOAD
  · rw [if_pos h10]; exact kept_run_mutator _ _ s
  rw [if_neg h10]
  by_cases h11 : a.act = ACT_BLUFF
  · rw [if_pos h11]; exact kept_run_mutator _ _ s
  rw [if_neg h11]
  by_cases h12 : a.act = ACT_REVEAL
  · rw [if_pos h12]; exact kept_run_mutator _ _ s
  rw [if_neg h12]
  exact kept_refl s

theorem kept_eval_game (expf : ℚ → ℚ) (g : game) (who : Int) (s : ai_state) :
    kept s (eval_game expf g who s).2 := by
  have h := eval_game_frame expf g who s
  exact kept_of_eq h.2.2.2.2.2.2.2.2.2.1 h.1 h.2.2.1

theorem kept_check_decline (expf : ℚ → ℚ) (g : game) (who : Int) (s : ai_state) :
    kept s (check_decline expf g who s).2 := by
  have e0 := eval_game_frame expf g who s
  unfold check_decline
  by_cases h : (g.p who).stack_at LOC_HAND = 0
  · simp only [h, if_true]
    exact kept_eval_game expf g who s
  · simp only [h, if_false]
    refine kept_of_eq ?_ ?_ ?_
    · simp only [(eval_game_frame expf _ who _).2.2.2.2.2.2.2.2.2.1]
    · simp only [(eval_game_frame expf _ who _).1]
    · simp only [(eval_game_frame expf _ who _).2.2.1]

theorem kept_store_best (s : ai_state) (score : ℚ) (upd : action → action) :
    kept s (store_best s score upd) := by
  unfold store_best
  split
  · rename_i h
    exact ⟨rfl, fun hc => absurd h.1 hc⟩
  · exact kept_refl s

/-- `check_retreat`, started outside a retreat check, ends outside one. -/
theorem kept_check_retreat (E : Engine) (find : game → ai_state → Option search_result)
    (g : game) (s : ai_state) (c : game × ai_state) (h0 : s.checking_retreat = 0)
    (hc : check_retreat E find g s = some c) : kept s c.2 := by
  unfold check_retreat at hc
  split at hc
  · cases hc; exact kept_refl s
  · split at hc
    · cases hc; exact kept_refl s
    · split at hc
      · cases hc; exact kept_refl s
      · split at hc
        · cases hc
        · cases hc
          exact ⟨by rw [h0]; rfl, fun h => absurd h0 h⟩

theorem kept_choose_branch (E : Engine) (expf : ℚ → ℚ)
    (find : game → ai_state → Option search_result) (hf : find_keeps find) (g : game)
    (old_turn : Int) (n : node) (i : Nat) (s : ai_state) (x : ℚ × ai_state)
    (hx : choose_branch E expf find g old_turn n i s = some x) : kept s x.2 := by
  unfold choose_branch at hx
  dsimp only at hx
  have hcb := kept_run_callback E n.callback (simulate_game g) n.who
    (chosen_cards n.choices (n.legal.getD i 0)) n.data s
  split at hx
  · split at hx
    · cases hx; exact hcb
    · cases hx
      exact kept_trans hcb (kept_check_decline expf _ _ _)
  · cases hr : find (run_callback E n.callback (simulate_game g) n.who
        (chosen_cards n.choices (n.legal.getD i 0)) n.data s).2.1
        (run_callback E n.callback (simulate_game g) n.who
        (chosen_cards n.choices (n.legal.getD i 0)) n.data s).2.2 with
    | none => rw [hr] at hx; simp at hx
    | some r =>
      rw [hr] at hx
      simp only [Option.map_some', Option.some.injEq] at hx
      subst hx
      exact kept_trans hcb (hf _ _ _ hr)

theorem kept_choose_loop (E : Engine) (expf : ℚ → ℚ)
    (find : game → ai_state → Option search_result) (hf : find_keeps find) (g : game)
    (old_turn : Int) (pos : Int) (fuel : Nat) :
    ∀ (i : Nat) (b_s : ℚ) (best_combo : Int) (s : ai_state) (r : ℚ × Int × ai_state),
      choose_loop E expf find g old_turn pos fuel i b_s best_combo s = some r →
        kept s r.2.2 := by
  induction fuel with
  | zero =>
    intro i b_s best_combo s r hr
    simp only [choose_loop] at hr
    split at hr
    · simp at hr
    · cases hr; exact kept_refl s
  | succ fuel ih =>
    intro i b_s best_combo s r hr
    simp only [choose_loop] at hr
    split at hr
    · cases hb : choose_branch E expf find g old_turn (s.node_at pos) i s with
      | none => rw [hb] at hr; simp at hr
      | some x =>
        rw [hb] at hr
        dsimp only at hr
        have hk := kept_choose_branch E expf find hf g old_turn _ i s x hb
        split at hr
        · exact kept_trans hk (ih _ _ _ _ _ hr)
        · exact kept_trans hk (ih _ _ _ _ _ hr)
    · cases hr; exact kept_refl s

theorem kept_choose_action (E : Engine) (expf : ℚ → ℚ)
    (find : game → ai_state → Option search_result) (hf : find_keeps find) (g : game)
    (s : ai_state) (r : ℚ × ai_state) (hr : choose_action E expf find g s = some r) :
    kept s r.2 := by
  unfold choose_action at hr
  dsimp only at hr
  split at hr
  · cases hr
  · rename_i x hx
    cases hr
    have h2 := kept_choose_loop E expf find hf g g.turn s.node_pos 5000 0 (-1) 0 _ x hx
    refine kept_trans (kept_trans (kept_of_eq rfl rfl rfl) h2)
      (kept_trans ?_ (kept_store_best _ _ _))
    exact kept_of_eq rfl rfl rfl

theorem kept_find_single (E : Engine) (expf : ℚ → ℚ)
    (find : game → ai_state → Option search_result) (hf : find_keeps find) (g : game)
    (a : action) (s : ai_state) (r : search_result)
    (hr : find_single E expf find g a s = some r) : kept s r.2.2 := by
  unfold find_single at hr
  dsimp only at hr
  have h1 : kept s { s with best_path_pos := s.best_path_pos + 1 } := kept_of_eq rfl rfl rfl
  have h2 := kept_perform_act E g a { s with best_path_pos := s.best_path_pos + 1 }
  have h12 := kept_trans h1 h2
  generalize perform_act E g a { s with best_path_pos := s.best_path_pos + 1 } = p at hr h12
  split at hr
  · cases hr
  · rename_i x hx
    cases hr
    have hx2 : kept p.2 x.2.2 := by
      split at hx
      · split at hx
        · cases hx
          exact kept_of_eq rfl rfl rfl
        · rename_i hcr
          split at hx
          · cases hx
          · rename_i c hc
            cases hx
            have hk := kept_check_retreat E find p.1 p.2 c (by simpa using hcr) hc
            refine kept_trans hk (kept_trans (kept_eval_game expf c.1 c.1.sim_turn c.2) ?_)
            exact kept_of_eq rfl rfl rfl
      · exact hf _ _ _ hx
    refine kept_trans (kept_trans h12 hx2) (kept_trans ?_ (kept_store_best _ _ _))
    exact kept_of_eq rfl rfl rfl

theorem kept_find_branch (E : Engine) (expf : ℚ → ℚ)
    (find : game → ai_state → Option search_result) (hf : find_keeps find) (g : game)
    (a : action) (s : ai_state) (x : ℚ × ai_state)
    (hx : find_branch E expf find g a s = some x) : kept s x.2 := by
  unfold find_branch at hx
  dsimp only at hx
  have hp := kept_perform_act E (simulate_game g) a s
  generalize perform_act E (simulate_game g) a s = p at hx hp
  split at hx
  · split at hx
    · cases hx; exact hp
    · cases hx
      exact kept_trans hp (kept_eval_game expf _ _ _)
  · cases hr : find p.1 p.2 with
    | none => rw [hr] at hx; simp at hx
    | some r =>
      rw [hr] at hx
      simp only [Option.map_some', Option.some.injEq] at hx
      subst hx
      exact kept_trans hp (hf _ _ _ hr)

theorem kept_find_loop (E : Engine) (expf : ℚ → ℚ)
    (find : game → ai_state → Option search_result) (hf : find_keeps find) (g : game)
    (legal : List action) :
    ∀ (b_s : ℚ) (best_act : Option action) (s : ai_state) (r : ℚ × Option action × ai_state),
      find_loop E expf find g legal b_s best_act s = some r → kept s r.2.2 := by
  induction legal with
  | nil =>
    intro b_s best_act s r hr
    simp only [find_loop, Option.some.injEq] at hr
    rw [← hr]; exact kept_refl s
  | cons a rest ih =>
    intro b_s best_act s r hr
    simp only [find_loop] at hr
    split at hr
    · cases hr; exact kept_refl s
    · cases hb : find_branch E expf find g a s with
      | none => rw [hb] at hr; simp at hr
      | some x =>
        rw [hb] at hr
        dsimp only at hr
        have hk := kept_find_branch E expf find hf g a s x hb
        split at hr
        · exact kept_trans hk (ih _ _ _ _ hr)
        · exact kept_trans hk (ih _ _ _ _ hr)

theorem kept_find_multi (E : Engine) (expf : ℚ → ℚ)
    (find : game → ai_state → Option search_result) (hf : find_keeps find) (g : game)
    (legal : List action) (s : ai_state) (r : search_result)
    (hr : find_multi E expf find g legal s = some r) : kept s r.2.2 := by
  unfold find_multi at hr
  dsimp only at hr
  split at hr
  · cases hr
  · rename_i x hx
    have h1 : kept s { s with best_path_pos := s.best_path_pos + 1 } := kept_of_eq rfl rfl rfl
    have h2 := kept_find_loop E expf find hf g legal (-1) none _ x hx
    have h3 : kept x.2.2 { x.2.2 with best_path_pos := x.2.2.best_path_pos - 1 } :=
      kept_of_eq rfl rfl rfl
    have h123 := kept_trans (kept_trans h1 h2) h3
    split at hr
    · split at hr
      · cases hr
      · cases hr
        exact kept_trans h123 (kept_store_best _ _ _)
    · cases hr
      exact h123

theorem kept_find_action_step (E : Engine) (expf : ℚ → ℚ)
    (find : game → ai_state → Option search_result) (hf : find_keeps find) :
    find_keeps (find_action_step E expf find) := by
  intro g s r hr
  unfold find_action_step at hr
  dsimp only at hr
  split at hr
  · cases hr
    refine kept_trans (t := { s with node_len := s.node_pos }) (kept_of_eq rfl rfl rfl) ?_
    exact kept_eval_game expf _ _ _
  · split at hr
    · cases hc : choose_action E expf find g s with
      | none => rw [hc] at hr; cases hr
      | some x =>
        rw [hc] at hr
        cases hr
        exact kept_choose_action E expf find hf g s x hc
    · split at hr
      · cases hr; exact kept_refl s
      · split at hr
        · cases hr; exact kept_refl s
        · exact kept_find_single E expf find hf g _ s r hr
        · exact kept_find_multi E expf find hf g _ s r hr

theorem kept_find_action (E : Engine) (expf : ℚ → ℚ) (fuel : Nat) :
    find_keeps (find_action E expf fuel) := by
  induction fuel with
  | zero => intro g s r hr; simp [find_action] at hr
  | succ k ih => exact kept_find_action_step E expf _ ih

/-! ### Scores are at least -1 -/

theorem nets_ok_eval_game (expf : ℚ → ℚ) (hexp : ∀ x, 0 < expf x) (g : game) (who : Int)
    (s : ai_state) (h : nets_ok s) :
    0 ≤ (eval_game expf g who s).1 ∧ (eval_game expf g who s).1 ≤ 1 ∧
      nets_ok (eval_game expf g who s).2 := by
  have hl : net_ok (s.learner who) := by
    unfold ai_state.learner; split
    · exact h.1
    · exact h.2
  have hr := eval_game_net_range expf hexp (s.learner who) hl g who
  refine ⟨hr.1, hr.2.1, ?_⟩
  unfold eval_game ai_state.set_learner nets_ok
  dsimp only
  split
  · exact ⟨hr.2.2, h.2⟩
  · exact ⟨h.1, hr.2.2⟩

theorem nets_ok_check_decline (expf : ℚ → ℚ) (hexp : ∀ x, 0 < expf x) (g : game)
    (who : Int) (s : ai_state) (h : nets_ok s) :
    0 ≤ (check_decline expf g who s).1 ∧ nets_ok (check_decline expf g who s).2 := by
  have e0 := nets_ok_eval_game expf hexp g who s h
  unfold check_decline
  by_cases hh : (g.p who).stack_at LOC_HAND = 0
  · simp only [hh, if_true]
    exact ⟨e0.1, e0.2.2⟩
  · simp only [hh, if_false]
    have h1 : nets_ok { (eval_game expf g who s).2 with checking_decline := 1 } := e0.2.2
    have e1 := nets_ok_eval_game expf hexp
      { simulate_game g with fight_started := 1, fight_element := 0, turn := who } who _ h1
    have e2 := nets_ok_eval_game expf hexp
      { simulate_game g with fight_started := 1, fight_element := 1, turn := who } who _ e1.2.2
    refine ⟨?_, e2.2.2⟩
    split_ifs <;> first | exact e0.1 | exact e1.1 | exact e2.1

theorem nets_ok_check_retreat (E : Engine) (hE : E.keeps_nets)
    (find : game → ai_state → Option search_result) (hf : find_scores find)
    (g : game) (s : ai_state) (c : game × ai_state) (h : nets_ok s)
    (hc : check_retreat E find g s = some c) : nets_ok c.2 := by
  unfold check_retreat at hc
  split at hc
  · cases hc; exact h
  · split at hc
    · cases hc; exact h
    · split at hc
      · cases hc; exact h
      · split at hc
        · cases hc
        · rename_i r hr
          cases hc
          have h1 := (hf _ _ _ (by exact h) hr).2
          unfold check_retreat_end
          dsimp only
          split
          · exact hE.2.1 g _ h1
          · exact h1

theorem scores_choose_branch (E : Engine) (hE : E.keeps_nets) (expf : ℚ → ℚ)
    (hexp : ∀ x, 0 < expf x) (find : game → ai_state → Option search_result)
    (hf : find_scores find) (g : game) (old_turn : Int) (n : node) (i : Nat)
    (s : ai_state) (x : ℚ × ai_state) (h : nets_ok s)
    (hx : choose_branch E expf find g old_turn n i s = some x) :
    -1 ≤ x.1 ∧ nets_ok x.2 := by
  unfold choose_branch at hx
  dsimp only at hx
  have hcb := hE.2.2 n.callback (simulate_game g) n.who
    (chosen_cards n.choices (n.legal.getD i 0)) n.data s h
  generalize run_callback E n.callback (simulate_game g) n.who
    (chosen_cards n.choices (n.legal.getD i 0)) n.data s = p at hx hcb
  split at hx
  · split at hx
    · cases hx; exact ⟨by norm_num, hcb⟩
    · cases hx
      have hd := nets_ok_check_decline expf hexp p.2.1 p.2.1.sim_turn p.2.2 hcb
      exact ⟨by linarith [hd.1], hd.2⟩
  · cases hr : find p.2.1 p.2.2 with
    | none => rw [hr] at hx; simp at hx
    | some r =>
      rw [hr] at hx
      simp only [Option.map_some', Option.some.injEq] at hx
      subst hx
      exact hf _ _ _ hcb hr

theorem scores_choose_loop (E : Engine) (hE : E.keeps_nets) (expf : ℚ → ℚ)
    (hexp : ∀ x, 0 < expf x) (find : game → ai_state → Option search_result)
    (hf : find_scores find) (g : game) (old_turn : Int) (pos : Int) (fuel : Nat) :
    ∀ (i : Nat) (b_s : ℚ) (best_combo : Int) (s : ai_state) (r : ℚ × Int × ai_state),
      nets_ok s → -1 ≤ b_s →
      choose_loop E expf find g old_turn pos fuel i b_s best_combo s = some r →
        -1 ≤ r.1 ∧ nets_ok r.2.2 := by
  induction fuel with
  | zero =>
    intro i b_s best_combo s r h hb hr
    simp only [choose_loop] at hr
    split at hr
    · cases hr
    · cases hr; exact ⟨hb, h⟩
  | succ fuel ih =>
    intro i b_s best_combo s r h hb hr
    simp only [choose_loop] at hr
    split at hr
    · cases hbr : choose_branch E expf find g old_turn (s.node_at pos) i s with
      | none => rw [hbr] at hr; cases hr
      | some x =>
        rw [hbr] at hr
        dsimp only at hr
        have hk := scores_choose_branch E hE expf hexp find hf g old_turn _ i s x h hbr
        split at hr
        · exact ih _ _ _ _ _ hk.2 hk.1 hr
        · exact ih _ _ _ _ _ hk.2 hb hr
    · cases hr; exact ⟨hb, h⟩

theorem nets_ok_store_best (s : ai_state) (score : ℚ) (upd : action → action)
    (h : nets_ok s) : nets_ok (store_best s score upd) := by
  unfold store_best
  split
  · exact h
  · exact h

theorem scores_choose_action (E : Engine) (hE : E.keeps_nets) (expf : ℚ → ℚ)
    (hexp : ∀ x, 0 < expf x) (find : game → ai_state → Option search_result)
    (hf : find_scores find) (g : game) (s : ai_state) (r : ℚ × ai_state) (h : nets_ok s)
    (hr : choose_action E expf find g s = some r) : -1 ≤ r.1 ∧ nets_ok r.2 := by
  unfold choose_action at hr
  dsimp only at hr
  split at hr
  · cases hr
  · rename_i x hx
    cases hr
    have h2 := scores_choose_loop E hE expf hexp find hf g g.turn s.node_pos 5000 0 (-1) 0
      _ x (by exact h) (le_refl _) hx
    exact ⟨h2.1, nets_ok_store_best _ _ _ h2.2⟩

theorem scores_find_single (E : Engine) (hE : E.keeps_nets) (expf : ℚ → ℚ)
    (hexp : ∀ x, 0 < expf x) (find : game → ai_state → Option search_result)
    (hf : find_scores find) (g : game) (a : action) (s : ai_state) (r : search_result)
    (h : nets_ok s) (hr : find_single E expf find g a s = some r) :
    -1 ≤ r.1 ∧ nets_ok r.2.2 := by
  unfold find_single at hr
  dsimp only at hr
  have h2 := hE.1 g a { s with best_path_pos := s.best_path_pos + 1 } h
  generalize perform_act E g a { s with best_path_pos := s.best_path_pos + 1 } = p at hr h2
  split at hr
  · cases hr
  · rename_i x hx
    cases hr
    have hx2 : -1 ≤ x.1 ∧ nets_ok x.2.2 := by
      split at hx
      · split at hx
        · cases hx
          exact ⟨by norm_num, h2⟩
        · split at hx
          · cases hx
          · rename_i c hc
            cases hx
            have hk := nets_ok_check_retreat E hE find hf p.1 p.2 c h2 hc
            have he := nets_ok_eval_game expf hexp c.1 c.1.sim_turn c.2 hk
            exact ⟨by linarith [he.1], he.2.2⟩
      · exact hf _ _ _ h2 hx
    exact ⟨hx2.1, nets_ok_store_best _ _ _ hx2.2⟩

theorem scores_find_branch (E : Engine) (hE : E.keeps_nets) (expf : ℚ → ℚ)
    (hexp : ∀ x, 0 < expf x) (find : game → ai_state → Option search_result)
    (hf : find_scores find) (g : game) (a : action) (s : ai_state) (x : ℚ × ai_state)
    (h : nets_ok s) (hx : find_branch E expf find g a s = some x) :
    -1 ≤ x.1 ∧ nets_ok x.2 := by
  unfold find_branch at hx
  dsimp only at hx
  have hp := hE.1 (simulate_game g) a s h
  generalize perform_act E (simulate_game g) a s = p at hx hp
  split at hx
  · split at hx
    · cases hx; exact ⟨by norm_num, hp⟩
    · cases hx
      have he := nets_ok_eval_game expf hexp p.1 p.1.sim_turn p.2 hp
      exact ⟨by linarith [he.1], he.2.2⟩
  · cases hr : find p.1 p.2 with
    | none => rw [hr] at hx; simp at hx
    | some r =>
      rw [hr] at hx
      simp only [Option.map_some', Option.some.injEq] at hx
      subst hx
      exact hf _ _ _ hp hr

theorem scores_find_loop (E : Engine) (hE : E.keeps_nets) (expf : ℚ → ℚ)
    (hexp : ∀ x, 0 < expf x) (find : game → ai_state → Option search_result)
    (hf : find_scores find) (g : game) (legal : List action) :
    ∀ (b_s : ℚ) (best_act : Option action) (s : ai_state) (r : ℚ × Option action × ai_state),
      nets_ok s → -1 ≤ b_s →
      find_loop E expf find g legal b_s best_act s = some r → -1 ≤ r.1 ∧ nets_ok r.2.2 := by
  induction legal with
  | nil =>
    intro b_s best_act s r h hb hr
    simp only [find_loop, Option.some.injEq] at hr
    subst hr; exact ⟨hb, h⟩
  | cons a rest ih =>
    intro b_s best_act s r h hb hr
    simp only [find_loop] at hr
    split at hr
    · cases hr; exact ⟨hb, h⟩
    · cases hbr : find_branch E expf find g a s with
      | none => rw [hbr] at hr; simp at hr
      | some x =>
        rw [hbr] at hr
        dsimp only at hr
        have hk := scores_find_branch E hE expf hexp find hf g a s x h hbr
        split at hr
        · exact ih _ _ _ _ hk.2 hk.1 hr
        · exact ih _ _ _ _ hk.2 hb hr

theorem scores_find_multi (E : Engine) (hE : E.keeps_nets) (expf : ℚ → ℚ)
    (hexp : ∀ x, 0 < expf x) (find : game → ai_state → Option search_result)
    (hf : find_scores find) (g : game) (legal : List action) (s : ai_state)
    (r : search_result) (h : nets_ok s) (hr : find_multi E expf find g legal s = some r) :
    -1 ≤ r.1 ∧ nets_ok r.2.2 := by
  unfold find_multi at hr
  dsimp only at hr
  split at hr
  · cases hr
  · rename_i x hx
    have h2 := scores_find_loop E hE expf hexp find hf g legal (-1) none _ x (by exact h) (le_refl _) hx
    split at hr
    · split at hr
      · cases hr
      · cases hr
        exact ⟨h2.1, nets_ok_store_best _ _ _ h2.2⟩
    · cases hr
      exact ⟨h2.1, h2.2⟩

theorem scores_find_action_step (E : Engine) (hE : E.keeps_nets) (expf : ℚ → ℚ)
    (hexp : ∀ x, 0 < expf x) (find : game → ai_state → Option search_result)
    (hf : find_scores find) : find_scores (find_action_step E expf find) := by
  intro g s r h hr
  unfold find_action_step at hr
  dsimp only at hr
  split at hr
  · cases hr
    have he := nets_ok_eval_game expf hexp g g.sim_turn { s with node_len := s.node_pos } h
    exact ⟨by linarith [he.1], he.2.2⟩
  · split at hr
    · cases hc : choose_action E expf find g s with
      | none => rw [hc] at hr; cases hr
      | some x =>
        rw [hc] at hr
        cases hr
        exact scores_choose_action E hE expf hexp find hf g s x h hc
    · split at hr
      · cases hr; exact ⟨by norm_num, h⟩
      · split at hr
        · cases hr; exact ⟨le_refl _, h⟩
        · exact scores_find_single E hE expf hexp find hf g _ s r h hr
        · exact scores_find_multi E hE expf hexp find hf g _ s r h hr

theorem scores_find_action (E : Engine) (hE : E.keeps_nets) (expf : ℚ → ℚ)
    (hexp : ∀ x, 0 < expf x) (fuel : Nat) : find_scores (find_action E expf fuel) := by
  induction fuel with
  | zero => intro g s r _ hr; simp [find_action] at hr
  | succ k ih => exact scores_find_action_step E hE expf hexp _ ih

theorem getD_write_at_self {α : Type} [Inhabited α] (xs : List α) (k : Nat) (x d : α) :
    (write_at xs k x).getD k d = x := by
  unfold write_at
  split
  · rename_i h
    simp [List.getD_eq_getElem?_getD, List.getElem?_set, h]
  · rename_i h
    have hk : xs.length ≤ k := Nat.le_of_not_lt h
    rw [List.getD_eq_getElem?_getD, List.append_assoc,
      List.getElem?_append_right hk,
      List.getElem?_append_right (by simp)]
    simp

/-! ### The multi-action loop keeps the last action of maximal score -/

/-- Outside a retreat check the loop over the actions runs every branch, and
its result is the comparison `keep_best` over the branch scores. -/
theorem find_loop_eq_keep_best (E : Engine) (expf : ℚ → ℚ)
    (find : game → ai_state → Option search_result) (hf : find_keeps find) (g : game)
    (legal : List action) :
    ∀ (s : ai_state) (scores : List ℚ) (s2 : ai_state) (b_s : ℚ) (best_act : Option action),
      s.checking_retreat = 0 →
      branch_scores E expf find g legal s = some (scores, s2) →
      find_loop E expf find g legal b_s best_act s =
        some ((keep_best (legal.zip scores) b_s best_act).1,
          (keep_best (legal.zip scores) b_s best_act).2, s2) ∧
      scores.length = legal.length ∧ s2.checking_retreat = 0 := by
  induction legal with
  | nil =>
    intro s scores s2 b_s best_act _ hs
    simp only [branch_scores, Option.some.injEq, Prod.mk.injEq] at hs
    obtain ⟨h1, h2⟩ := hs
    subst h1; subst h2
    simp [find_loop, keep_best]
    assumption
  | cons a rest ih =>
    intro s scores s2 b_s best_act hcr hs
    simp only [branch_scores] at hs
    cases hb : find_branch E expf find g a s with
    | none => rw [hb] at hs; simp at hs
    | some x =>
      rw [hb] at hs
      dsimp only at hs
      cases hrest : branch_scores E expf find g rest x.2 with
      | none => rw [hrest] at hs; simp at hs
      | some y =>
        rw [hrest] at hs
        simp only [Option.some.injEq, Prod.mk.injEq] at hs
        obtain ⟨h1, h2⟩ := hs
        subst h1; subst h2
        have hk := kept_find_branch E expf find hf g a s x hb
        have hx0 : x.2.checking_retreat = 0 := by rw [hk.1]; exact hcr
        simp only [find_loop, hcr, ne_eq, not_true_eq_false, false_and, if_false, hb]
        split
        · rename_i hge
          have := ih x.2 y.1 y.2 x.1 (some a) hx0 hrest
          refine ⟨?_, by simp [this.2.1], this.2.2⟩
          rw [this.1]
          simp [keep_best, hge]
        · rename_i hge
          have := ih x.2 y.1 y.2 b_s best_act hx0 hrest
          refine ⟨?_, by simp [this.2.1], this.2.2⟩
          rw [this.1]
          simp [keep_best, hge]

/-- The comparison `keep_best` returns a score at least the initial one that
bounds every score of the list; and either nothing replaced the initial pair
(every score is below it), or the result is an action of the list with its
score, every later score being strictly smaller. -/
theorem keep_best_spec (pairs : List (action × ℚ)) :
    ∀ (b_s : ℚ) (best_act : Option action),
      b_s ≤ (keep_best pairs b_s best_act).1 ∧
      (∀ p ∈ pairs, p.2 ≤ (keep_best pairs b_s best_act).1) ∧
      ((keep_best pairs b_s best_act = (b_s, best_act) ∧ ∀ p ∈ pairs, p.2 < b_s) ∨
       ∃ pre a post, pairs = pre ++ (a, (keep_best pairs b_s best_act).1) :: post ∧
         (keep_best pairs b_s best_act).2 = some a ∧
         ∀ p ∈ post, p.2 < (keep_best pairs b_s best_act).1) := by
  induction pairs with
  | nil =>
    intro b_s best_act
    simp [keep_best]
  | cons p rest ih =>
    intro b_s best_act
    have hstep : keep_best (p :: rest) b_s best_act =
        if p.2 ≥ b_s then keep_best rest p.2 (some p.1) else keep_best rest b_s best_act := by
      unfold keep_best
      simp only [List.foldl_cons]
      split <;> rfl
    rw [hstep]
    by_cases hge : p.2 ≥ b_s
    · simp only [hge, if_true]
      obtain ⟨h1, h2, h3⟩ := ih p.2 (some p.1)
      refine ⟨le_trans hge h1, ?_, ?_⟩
      · intro q hq
        rcases List.mem_cons.mp hq with h | h
        · rw [h]; exact h1
        · exact h2 q h
      · right
        rcases h3 with ⟨heq, hlt⟩ | ⟨pre, a, post, hp, ha, hpost⟩
        · refine ⟨[], p.1, rest, ?_, ?_, ?_⟩
          · rw [heq]; rfl
          · rw [heq]
          · intro q hq
            rw [heq]
            exact hlt q hq
        · refine ⟨p :: pre, a, post, ?_, ha, hpost⟩
          rw [List.cons_append, ← hp]
    · simp only [hge, if_false]
      have hlt : p.2 < b_s := lt_of_not_ge hge
      obtain ⟨h1, h2, h3⟩ := ih b_s best_act
      refine ⟨h1, ?_, ?_⟩
      · intro q hq
        rcases List.mem_cons.mp hq with h | h
        · rw [h]; exact le_of_lt (lt_of_lt_of_le hlt h1)
        · exact h2 q h
      · rcases h3 with ⟨heq, hlt2⟩ | ⟨pre, a, post, hp, ha, hpost⟩
        · left
          refine ⟨heq, ?_⟩
          intro q hq
          rcases List.mem_cons.mp hq with h | h
          · rw [h]; exact hlt
          · exact hlt2 q h
        · right
          refine ⟨p :: pre, a, post, ?_, ha, hpost⟩
          rw [List.cons_append, ← hp]

/-- Every branch score of the multi-action loop is at least -1. -/
theorem branch_scores_bound (E : Engine) (hE : E.keeps_nets) (expf : ℚ → ℚ)
    (hexp : ∀ x, 0 < expf x) (find : game → ai_state → Option search_result)
    (hf : find_scores find) (g : game) (legal : List action) :
    ∀ (s : ai_state) (scores : List ℚ) (s2 : ai_state), nets_ok s →
      branch_scores E expf find g legal s = some (scores, s2) →
      ∀ x ∈ scores, -1 ≤ x := by
  induction legal with
  | nil =>
    intro s scores s2 _ hs
    simp only [branch_scores, Option.some.injEq, Prod.mk.injEq] at hs
    intro x hx
    rw [← hs.1] at hx
    simp at hx
  | cons a rest ih =>
    intro s scores s2 h hs
    simp only [branch_scores] at hs
    cases hb : find_branch E expf find g a s with
    | none => rw [hb] at hs; simp at hs
    | some x =>
      rw [hb] at hs
      dsimp only at hs
      cases hrest : branch_scores E expf find g rest x.2 with
      | none => rw [hrest] at hs; simp at hs
      | some y =>
        rw [hrest] at hs
        simp only [Option.some.injEq, Prod.mk.injEq] at hs
        have hk := scores_find_branch E hE expf hexp find hf g a s x h hb
        intro z hz
        rw [← hs.1] at hz
        rcases List.mem_cons.mp hz with h1 | h1
        · rw [h1]; exact hk.1
        · exact ih x.2 y.1 y.2 hk.2 hrest z h1

theorem with_cs_cs (s : ai_state) : s.with_cs s.cs = s := rfl

theorem quiet_engine_perform_none (g : game) (s : ai_state) :
    (perform_none quiet_engine g s).2 = s := by
  unfold perform_none
  by_cases h0 : (g.p g.turn).phase = PHASE_OVER
  · simp only [h0, if_true]
  · simp only [h0, if_false]
    by_cases h1 : (g.p g.turn).phase = PHASE_START
    · simp only [h1, if_true]; rfl
    · simp only [h1, if_false]
      by_cases h2 : (g.p g.turn).phase = PHASE_AFTER_SB
      · simp only [h2, if_true]; rfl
      · simp only [h2, if_false]
        by_cases h3 : (g.p g.turn).phase = PHASE_REFRESH
        · simp only [h3, if_true]; rfl
        · simp only [h3, if_false]
          by_cases h4 : (g.p g.turn).phase = PHASE_END
          · simp only [h4, if_true]; rfl
          · simp only [h4, if_false]

theorem quiet_engine_perform_act (g : game) (a : action) (s : ai_state) :
    (perform_act quiet_engine g a s).2 = s := by
  unfold perform_act
  by_cases h1 : a.act = ACT_NONE
  · rw [if_pos h1]; exact quiet_engine_perform_none g s
  rw [if_neg h1]
  by_cases h2 : a.act = ACT_RETREAT
  · rw [if_pos h2]; rfl
  rw [if_neg h2]
  by_cases h3 : a.act = ACT_RETRIEVE
  · rw [if_pos h3]; rfl
  rw [if_neg h3]
  by_cases h4 : a.act = ACT_PLAY
  · rw [if_pos h4]; rfl
  rw [if_neg h4]
  by_cases h5 : a.act = ACT_PLAY_NO
  · rw [if_pos h5]; rfl
  rw [if_neg h5]
  by_cases h6 : a.act = ACT_ANN_FIRE ∨ a.act = ACT_ANN_EARTH
  · rw [if_pos h6]; rfl
  rw [if_neg h6]
  by_cases h7 : a.act = ACT_USE
  · rw [if_pos h7]; rfl
  rw [if_neg h7]
  by_cases h8 : a.act = ACT_SATISFY
  · rw [if_pos h8]; rfl
  rw [if_neg h8]
  by_cases h9 : a.act = ACT_LAND
  · rw [if_pos h9]; rfl
  rw [if_neg h9]
  by_cases h10 : a.act = ACT_LOAD
  · rw [if_pos h10]; rfl
  rw [if_neg h10]
  by_cases h11 : a.act = ACT_BLUFF
  · rw [if_pos h11]; rfl
  rw [if_neg h11]
  by_cases h12 : a.act = ACT_REVEAL
  · rw [if_pos h12]; rfl
  rw [if_neg h12]

/-- The sample engine leaves the nets alone. -/
theorem quiet_engine_keeps_nets : quiet_engine.keeps_nets := by
  refine ⟨?_, ?_, ?_⟩
  · intro g a s h
    rw [quiet_engine_perform_act]; exact h
  · intro g s h; exact h
  · intro cb g who list data s h; exact h

/-- C3 (as amended), in exact arithmetic with a positive `exp`, where every
score is a number: in the multi-action branch of `find_action` (game not over,
no choice node pending, no retreat check, at least two legal actions, every
branch returning), with `scores` the scores of the branches in the order of
the actions, the loop ends with the score `M` and the action `a` where `M` is
the maximum of `scores` and `a` is the action at the largest index whose score
is `M` (every earlier score is at most `M`, every later one strictly smaller);
the kept action is assigned, because every branch score is at least -1; and
`find_action` returns `M`. -/
theorem find_action_multi_max (E : Engine) (expf : ℚ → ℚ) (fuel : Nat) (g : game)
    (s : ai_state) (legal : List action) (scores : List ℚ) (s2 : ai_state)
    (hE : E.keeps_nets) (hexp : ∀ x, 0 < expf x) (hnets : nets_ok s)
    (hover : g.game_over = 0) (hnode : ¬ s.node_pos < s.node_len)
    (hcr : s.checking_retreat = 0)
    (hlegal : legal_act E g s.checking_retreat = legal) (hn : 2 ≤ legal.length)
    (hscores : branch_scores E expf (find_action E expf fuel) g legal
      { s with best_path_pos := s.best_path_pos + 1 } = some (scores, s2)) :
    ∃ M pre a post spre spost,
      legal = pre ++ a :: post ∧ scores = spre ++ M :: spost ∧
      pre.length = spre.length ∧
      (∀ x ∈ spre, x ≤ M) ∧ (∀ x ∈ spost, x < M) ∧ (∀ x ∈ scores, -1 ≤ x) ∧
      find_loop E expf (find_action E expf fuel) g legal (-1) none
        { s with best_path_pos := s.best_path_pos + 1 } = some (M, some a, s2) ∧
      (find_action E expf (fuel + 1) g s).map (fun r => r.1) = some M := by
  have hkeep := kept_find_action E expf fuel
  have hsc := scores_find_action E hE expf hexp fuel
  have hloop := find_loop_eq_keep_best E expf _ hkeep g legal
    { s with best_path_pos := s.best_path_pos + 1 } scores s2 (-1) none hcr hscores
  obtain ⟨hloop, hlen, hcr2⟩ := hloop
  have hbound := branch_scores_bound E hE expf hexp _ hsc g legal _ scores s2
    (by exact hnets) hscores
  obtain ⟨hb1, hb2, hb3⟩ := keep_best_spec (legal.zip scores) (-1) none
  have hfst : (legal.zip scores).map Prod.fst = legal :=
    List.map_fst_zip _ _ (by omega)
  have hsnd : (legal.zip scores).map Prod.snd = scores :=
    List.map_snd_zip _ _ (by omega)
  rcases hb3 with ⟨_, hall⟩ | ⟨pre, a, post, hp, ha, hpost⟩
  · exfalso
    cases hl : legal with
    | nil => rw [hl] at hn; simp at hn
    | cons a0 rest =>
      cases hs : scores with
      | nil => rw [hl, hs] at hlen; simp at hlen
      | cons x0 srest =>
        have h1 := hall (a0, x0) (by rw [hl, hs]; simp)
        have h2 := hbound x0 (by rw [hs]; simp)
        dsimp only at h1
        linarith
  · set M := (keep_best (legal.zip scores) (-1) none).1 with hM
    have hlegal2 : legal = pre.map Prod.fst ++ a :: post.map Prod.fst := by
      rw [← hfst, hp]; simp
    have hscores2 : scores = pre.map Prod.snd ++ M :: post.map Prod.snd := by
      rw [← hsnd, hp]; simp
    have hloop2 : find_loop E expf (find_action E expf fuel) g legal (-1) none
        { s with best_path_pos := s.best_path_pos + 1 } = some (M, some a, s2) := by
      rw [hloop, ha]
    refine ⟨M, pre.map Prod.fst, a, post.map Prod.fst, pre.map Prod.snd,
      post.map Prod.snd, hlegal2, hscores2, by simp, ?_, ?_, hbound, hloop2, ?_⟩
    · intro x hx
      obtain ⟨q, hq, rfl⟩ := List.mem_map.mp hx
      exact hb2 q (by rw [hp]; simp [hq])
    · intro x hx
      obtain ⟨q, hq, rfl⟩ := List.mem_map.mp hx
      exact hpost q hq
    · have hstep : find_action E expf (fuel + 1) g s =
          find_multi E expf (find_action E expf fuel) g legal s := by
        show find_action_step E expf (find_action E expf fuel) g s = _
        unfold find_action_step
        rw [if_neg (by simpa using hover), if_neg hnode, if_neg (by simp [hcr])]
        dsimp only
        rw [hlegal]
        cases hl : legal with
        | nil => rw [hl] at hn; simp at hn
        | cons a0 rest =>
          cases rest with
          | nil => rw [hl] at hn; simp at hn
          | cons a1 rest2 => rfl
      rw [hstep]
      unfold find_multi
      dsimp only
      rw [hloop2]
      dsimp only
      split <;> rfl

/-- Witness for C3: the retreat phase, where retreating scores 1/2 and staying
leads to a position without legal actions. -/
theorem find_action_multi_max_witness :
    retreat_game.game_over = 0 ∧ fresh_state.checking_retreat = 0 ∧
    2 ≤ [mk_act ACT_RETREAT, mk_act ACT_NONE].length ∧
    branch_scores quiet_engine flat_exp (find_action quiet_engine flat_exp 1) retreat_game
      [mk_act ACT_RETREAT, mk_act ACT_NONE]
      { fresh_state with best_path_pos := fresh_state.best_path_pos + 1 } =
        some ([1 / 2, -1], { fresh_state with best_path_pos := 1 }) ∧
    ∃ M pre a post spre spost,
      [mk_act ACT_RETREAT, mk_act ACT_NONE] = pre ++ a :: post ∧
      ([1 / 2, -1] : List ℚ) = spre ++ M :: spost ∧
      pre.length = spre.length ∧
      (∀ x ∈ spre, x ≤ M) ∧ (∀ x ∈ spost, x < M) ∧
      (∀ x ∈ ([1 / 2, -1] : List ℚ), -1 ≤ x) ∧
      find_loop quiet_engine flat_exp (find_action quiet_engine flat_exp 1) retreat_game
        [mk_act ACT_RETREAT, mk_act ACT_NONE] (-1) none
        { fresh_state with best_path_pos := fresh_state.best_path_pos + 1 } =
          some (M, some a, { fresh_state with best_path_pos := 1 }) ∧
      (find_action quiet_engine flat_exp (1 + 1) retreat_game fresh_state).map
        (fun r => r.1) = some M :=
  ⟨by decide, by decide, by decide, by with_unfolding_all decide,
    find_action_multi_max quiet_engine flat_exp 1 retreat_game fresh_state
      [mk_act ACT_RETREAT, mk_act ACT_NONE] [1 / 2, -1] { fresh_state with best_path_pos := 1 }
      quiet_engine_keeps_nets (fun _ => zero_lt_one) (by unfold nets_ok net_ok; decide)
      (by decide) (by decide) (by decide) (by decide) (by decide)
      (by with_unfolding_all decide)⟩

/-! ### `legal_act` never offers a retreat alone -/

theorem legal_plays_acts (E : Engine) (g : game) (cr : Int) (p : player) (idx : List Nat) :
    ∀ a ∈ (legal_plays E g cr p idx).1, a.act = ACT_PLAY ∨ a.act = ACT_PLAY_NO := by
  induction idx with
  | nil => intro a ha; simp [legal_plays] at ha
  | cons i rest ih =>
    intro a ha
    unfold legal_plays at ha
    dsimp only at ha
    split at ha
    · exact ih a ha
    · have hacts : ∀ b ∈ ((if ((p.card_at i).d_ptr.special_cat = 4 ∧
            has_bits (p.card_at i).d_ptr.special_effect S4_OPTIONAL = true ∨
            (p.card_at i).d_ptr.special_cat = 8 ∧
            has_bits (p.card_at i).d_ptr.special_effect S8_OPTIONAL = true) ∧ cr = 0
          then [mk_act_card ACT_PLAY_NO i (p.card_at i).d_ptr] else []) ++
          [mk_act_card ACT_PLAY i (p.card_at i).d_ptr]),
          b.act = ACT_PLAY ∨ b.act = ACT_PLAY_NO := by
        intro b hb
        rcases List.mem_append.mp hb with h | h
        · split at h
          · simp only [List.mem_singleton] at h
            right; rw [h]; rfl
          · simp at h
        · simp only [List.mem_singleton] at h
          left; rw [h]; rfl
      split at ha
      · exact hacts a ha
      · rcases List.mem_append.mp ha with h | h
        · exact hacts a h
        · exact ih a h

theorem legal_support_acts (E : Engine) (g : game) (cr : Int) (legal : List action) :
    ∀ a ∈ legal_support E g cr legal, a ∈ legal ∨ a.act = ACT_LOAD ∨ a.act = ACT_BLUFF := by
  intro a ha
  have hload : ∀ b ∈ legal_loads E g cr, b.act = ACT_LOAD := by
    intro b hb
    unfold legal_loads at hb
    dsimp only at hb
    split at hb
    · simp at hb
    · split at hb
      · simp at hb
      · obtain ⟨j, _, rfl⟩ := List.mem_map.mp hb
        rfl
  have hbluff : ∀ b ∈ legal_bluffs E g cr, b.act = ACT_BLUFF := by
    intro b hb
    unfold legal_bluffs at hb
    dsimp only at hb
    have hall : ∀ c ∈ (List.filter (fun i =>
        E.card_eligible g ((g.p g.turn).card_at i).d_ptr ≠ 0 &&
          has_bits ((g.p g.turn).card_at i).icons ICON_BLUFF_MASK)
        (later_indices (g.p g.turn))).map (fun i =>
          mk_act_card ACT_BLUFF i ((g.p g.turn).card_at i).d_ptr), c.act = ACT_BLUFF := by
      intro c hc
      obtain ⟨j, _, rfl⟩ := List.mem_map.mp hc
      rfl
    split at hb
    · exact hall b (List.mem_of_mem_take hb)
    · exact hall b hb
  unfold legal_support at ha
  split at ha
  · exact Or.inl ha
  · dsimp only at ha
    split at ha
    · rcases List.mem_append.mp ha with h | h
      · exact Or.inl h
      · exact Or.inr (Or.inl (hload a h))
    · split at ha
      · rcases List.mem_append.mp ha with h | h
        · exact Or.inl h
        · exact Or.inr (Or.inl (hload a h))
      · rcases List.mem_append.mp ha with h | h
        · rcases List.mem_append.mp h with h1 | h1
          · exact Or.inl h1
          · exact Or.inr (Or.inl (hload a h1))
        · exact Or.inr (Or.inr (hbluff a h))

/-- C12: an invalid request is rejected without any change.  In a simulated
state with no assist string, if `min > num_choices`, or if `num_choices = 0`
while `min > 0`, `ai_choose` returns the game and the static state (node stack,
`node_len`, `inside_choose` and all the rest) exactly as they were, whatever the
callback would do. -/
theorem ai_choose_invalid (E : Engine) (expf : ℚ → ℚ) (g : game) (chooser who : Int)
    (choices : List design) (num_choices : Nat) (min max : Int) (callback data : Nat)
    (s : ai_state) (hsim : g.simulation ≠ 0) (hassist : s.assist_str = none)
    (hbad : min > (num_choices : Int) ∨ (num_choices = 0 ∧ min > 0)) :
    ai_choose E expf g chooser who choices num_choices min max callback data s = (g, s) := by
  have hmin : min > (num_choices : Int) := by
    rcases hbad with h | ⟨h0, h1⟩
    · exact h
    · subst h0; simpa using h1
  unfold ai_choose
  dsimp only
  rw [if_neg (by simp [hsim, hassist]), if_pos hmin]

/-- Witness for C12: three cards are asked for among two. -/
theorem ai_choose_invalid_witness :
    own_game.simulation ≠ 0 ∧ fresh_state.assist_str = none ∧
    ((3 : Int) > ((2 : Nat) : Int) ∨ ((2 : Nat) = 0 ∧ (3 : Int) > 0)) ∧
    ai_choose marking_engine flat_exp own_game 0 0 two_cards 2 3 5 7 9 fresh_state =
      (own_game, fresh_state) :=
  ⟨by decide, by decide, by decide,
    ai_choose_invalid marking_engine flat_exp own_game 0 0 two_cards 2 3 5 7 9 fresh_state
      (by decide) (by decide) (by decide)⟩

/-- C13, counterexample: on the real game, on the chooser's turn, with the
stored path at a choice, a call made while `inside_choose` is set is answered
from the stored path: the callback is applied to the game, which is changed on
return. -/
theorem ai_choose_guarded_replays :
    guarded_state.inside_choose ≠ 0 ∧ (1 : Int) ≤ ((2 : Nat) : Int) ∧ (2 : Nat) ≠ 0 ∧
    (ai_choose marking_engine flat_exp support_game 0 0 two_cards 2 1 5 7 9
      guarded_state).1 = { support_game with game_over := 1 } ∧
    (ai_choose marking_engine flat_exp support_game 0 0 two_cards 2 1 5 7 9
      guarded_state).1 ≠ support_game := by
  refine ⟨by decide, by decide, by decide, ?_, ?_⟩ <;> with_unfolding_all decide

/-- C13, amended: a call of `ai_choose` that is not answered from the stored
path (as every call on a simulated game while no assist string is set) and is
made while `inside_choose` is set returns at once, with the game and the static
state as they were; and such a call made while `inside_choose` is clear, with
`min ≤ num_choices` and `num_choices ≠ 0`, leaves `inside_choose = 0` on
return. -/
theorem ai_choose_guard (E : Engine) (expf : ℚ → ℚ) (g : game) (chooser who : Int)
    (choices : List design) (num_choices : Nat) (min max : Int) (callback data : Nat)
    (s : ai_state)
    (hrep : ¬ (((g.simulation = 0 ∧ chooser = g.turn) ∨ s.assist_str ≠ none) ∧
      (s.best_path.getD s.best_path_pos.toNat default).act = ACT_CHOOSE)) :
    (s.inside_choose ≠ 0 →
      ai_choose E expf g chooser who choices num_choices min max callback data s = (g, s)) ∧
    (s.inside_choose = 0 → min ≤ (num_choices : Int) → num_choices ≠ 0 →
      (ai_choose E expf g chooser who choices num_choices min max callback data
        s).2.inside_choose = 0) := by
  constructor
  · intro hin
    unfold ai_choose
    dsimp only
    rw [if_neg hrep]
    by_cases h1 : min > (num_choices : Int)
    · rw [if_pos h1]
    · rw [if_neg h1]
      by_cases h2 : num_choices = 0
      · rw [if_pos h2]
      · rw [if_neg h2, if_pos hin]
  · intro hin hmin hnum
    unfold ai_choose
    dsimp only
    rw [if_neg hrep, if_neg (by omega), if_neg hnum, if_neg (by simp [hin])]
    by_cases ht : chooser = g.turn
    · rw [if_pos ht]
    · rw [if_neg ht]

/-- Witness for the amended C13: a simulated game, no assist string. -/
theorem ai_choose_guard_witness :
    ¬ (((own_game.simulation = 0 ∧ (0 : Int) = own_game.turn) ∨
        guarded_state.assist_str ≠ none) ∧
      (guarded_state.best_path.getD guarded_state.best_path_pos.toNat default).act =
        ACT_CHOOSE) ∧
    (guarded_state.inside_choose ≠ 0 →
      ai_choose marking_engine flat_exp own_game 0 0 two_cards 2 1 5 7 9 guarded_state =
        (own_game, guarded_state)) ∧
    (guarded_state.inside_choose = 0 → (1 : Int) ≤ ((2 : Nat) : Int) → (2 : Nat) ≠ 0 →
      (ai_choose marking_engine flat_exp own_game 0 0 two_cards 2 1 5 7 9
        guarded_state).2.inside_choose = 0) :=
  ⟨by decide,
    ai_choose_guard marking_engine flat_exp own_game 0 0 two_cards 2 1 5 7 9 guarded_state
      (by decide)⟩

/-! ### The card chooser for a player who is not to move -/

theorem pick_combo_nil (best : Int) (b_s : ℚ) : pick_combo [] best b_s = (best, b_s) := rfl

/-- The weighted sum of an output depends on the hidden results and the output
weights only. -/
theorem output_sum_congr (x l : net) (i : Nat) (h1 : x.num_hidden = l.num_hidden)
    (h2 : x.hidden_result = l.hidden_result) (h3 : x.output_weight = l.output_weight) :
    output_sum x i = output_sum l i := by
  unfold output_sum net.ow
  rw [h1, h2, h3]

/-- The third loop of `compute_net` stores the weighted sums of the outputs and
the total of their exponentials. -/
theorem compute_net_outputs_spec (expf : ℚ → ℚ) (l : net)
    (hlen : l.net_result.length = l.num_output.toNat) :
    (compute_net_outputs expf l).net_result.length = l.net_result.length ∧
    (∀ i, i < l.num_output.toNat →
      (compute_net_outputs expf l).net_result.getD i 0 = output_sum l i) ∧
    (compute_net_outputs expf l).prob_sum =
      ((List.range l.num_output.toNat).map (fun i => expf (output_sum l i))).sum := by
  unfold compute_net_outputs
  have key := for_range_induct (fun k (x : net) => x.num_hidden = l.num_hidden ∧
      x.hidden_result = l.hidden_result ∧ x.output_weight = l.output_weight ∧
      x.net_result.length = l.net_result.length ∧
      (∀ i, i < k → x.net_result.getD i 0 = output_sum l i) ∧
      x.prob_sum = ((List.range k).map (fun i => expf (output_sum l i))).sum)
    (fun i (x : net) => { x with net_result := x.net_result.set i (output_sum x i),
                                 prob_sum := x.prob_sum + expf (output_sum x i) })
    { l with prob_sum := 0 } l.num_output.toNat
    ⟨rfl, rfl, rfl, rfl, fun i hi => absurd hi (Nat.not_lt_zero i), by simp⟩
    (by
      intro k x hk hx
      obtain ⟨h1, h2, h3, h4, h5, h6⟩ := hx
      have hc := output_sum_congr x l k h1 h2 h3
      refine ⟨h1, h2, h3, by simpa using h4, ?_, ?_⟩
      · intro i hi
        dsimp only
        by_cases hik : i = k
        · subst hik
          rw [getD_set_self _ _ _ (by omega), hc]
        · rw [getD_set_other _ _ _ _ (Ne.symm hik)]
          exact h5 i (by omega)
      · dsimp only
        rw [h6, hc, List.range_succ, List.map_append, List.sum_append]
        simp)
  exact ⟨key.2.2.2.1, key.2.2.2.2.1, key.2.2.2.2.2⟩

/-- The last loop of `compute_net` divides the exponential of every output by
`prob_sum`. -/
theorem compute_net_probs_spec (expf : ℚ → ℚ) (l : net)
    (hlen : l.win_prob.length = l.num_output.toNat) :
    (compute_net_probs expf l).net_result = l.net_result ∧
    (compute_net_probs expf l).prob_sum = l.prob_sum ∧
    (compute_net_probs expf l).num_output = l.num_output ∧
    ∀ i, i < l.num_output.toNat →
      (compute_net_probs expf l).win_prob.getD i 0 =
        expf (l.net_result.getD i 0) / l.prob_sum := by
  unfold compute_net_probs
  have key := for_range_induct (fun k (x : net) => x.net_result = l.net_result ∧
      x.prob_sum = l.prob_sum ∧ x.num_output = l.num_output ∧
      x.win_prob.length = l.win_prob.length ∧
      ∀ i, i < k → x.win_prob.getD i 0 = expf (l.net_result.getD i 0) / l.prob_sum)
    (fun i (x : net) =>
      { x with win_prob := x.win_prob.set i (expf (x.net_result.getD i 0) / x.prob_sum) })
    l l.num_output.toNat
    ⟨rfl, rfl, rfl, rfl, fun i hi => absurd hi (Nat.not_lt_zero i)⟩
    (by
      intro k x hk hx
      obtain ⟨h1, h2, h3, h4, h5⟩ := hx
      refine ⟨h1, h2, h3, by simpa using h4, ?_⟩
      intro i hi
      dsimp only
      by_cases hik : i = k
      · subst hik
        rw [getD_set_self _ _ _ (by omega), h1, h2]
      · rw [getD_set_other _ _ _ _ (Ne.symm hik)]
        exact h5 i (by omega))
  exact ⟨key.1, key.2.1, key.2.2.1, key.2.2.2.2⟩

/-- The third loop of `compute_net` leaves `num_output` and `win_prob` alone. -/
theorem compute_net_outputs_bound_frame (expf : ℚ → ℚ) (l : net) :
    (compute_net_outputs expf l).num_output = l.num_output ∧
    (compute_net_outputs expf l).win_prob = l.win_prob := by
  unfold compute_net_outputs
  refine for_range_induct (fun _ (x : net) => x.num_output = l.num_output ∧
    x.win_prob = l.win_prob) _ _ _ ?_ ?_
  · exact ⟨rfl, rfl⟩
  · intro k x _ hx
    exact hx

/-- After `compute_net`, with `l2` the net after the first two loops: the
outputs are the weighted sums of the hidden results, `prob_sum` is the total of
their exponentials, and `win_prob[i]` is `exp(net_result[i]) / prob_sum`. -/
theorem compute_net_spec (expf : ℚ → ℚ) (l : net) (hok : net_ok l) :
    (compute_net expf l).num_output = l.num_output ∧
    (∀ i, i < l.num_output.toNat →
      (compute_net expf l).net_result.getD i 0 =
        output_sum (compute_net_hidden expf (compute_net_inputs l)) i) ∧
    (compute_net expf l).prob_sum =
      ((List.range l.num_output.toNat).map (fun k =>
        expf ((compute_net expf l).net_result.getD k 0))).sum ∧
    ∀ i, i < l.num_output.toNat →
      (compute_net expf l).win_prob.getD i 0 =
        expf ((compute_net expf l).net_result.getD i 0) / (compute_net expf l).prob_sum := by
  obtain ⟨hn, hw⟩ := hok
  have hi := compute_net_inputs_frame l
  have hh := compute_net_hidden_frame expf (compute_net_inputs l)
  set l2 := compute_net_hidden expf (compute_net_inputs l) with hl2
  have hn2 : l2.net_result.length = l2.num_output.toNat := by
    rw [hh.2.1, hh.1, hi.2.1, hi.1]; exact hn
  have hnum2 : l2.num_output = l.num_output := by rw [hh.1, hi.1]
  have ho := compute_net_outputs_spec expf l2 hn2
  have hob := compute_net_outputs_bound_frame expf l2
  set l3 := compute_net_outputs expf l2 with hl3
  have hnum3 : l3.num_output = l.num_output := by rw [hob.1, hnum2]
  have hw3 : l3.win_prob.length = l3.num_output.toNat := by
    rw [hob.2, hh.2.2, hi.2.2, hnum3]; exact hw
  have hp := compute_net_probs_spec expf l3 hw3
  have hc : compute_net expf l = compute_net_probs expf l3 := rfl
  rw [hc, hp.1, hp.2.1]
  rw [hnum2] at ho
  rw [hnum3] at hp
  refine ⟨hp.2.2.1, ho.2.1, ?_, hp.2.2.2⟩
  rw [ho.2.2]
  congr 1
  apply List.map_congr_left
  intro k hk
  rw [ho.2.1 k (List.mem_range.mp hk)]

theorem sum_map_div (xs : List Nat) (f : Nat → ℚ) (c : ℚ) :
    (xs.map (fun i => f i / c)).sum = (xs.map f).sum / c := by
  induction xs with
  | nil => simp
  | cons x rest ih => simp only [List.map_cons, List.sum_cons, ih, add_div]

theorem sum_map_pos (xs : List Nat) (f : Nat → ℚ) (hf : ∀ i, 0 < f i) (hne : xs ≠ []) :
    0 < (xs.map f).sum := by
  induction xs with
  | nil => exact absurd rfl hne
  | cons x rest ih =>
    simp only [List.map_cons, List.sum_cons]
    by_cases h : rest = []
    · subst h
      simpa using hf x
    · exact add_pos (hf x) (ih h)

/-- C15: after `compute_net` on a network (with output arrays of the allocated
size) and any input vector, `win_prob[i]` is
`exp(net_result[i]) / sum_k exp(net_result[k])` for each output `i`; hence,
`exp` being positive, every `win_prob[i]` is strictly between 0 and 1 for two
outputs, and the outputs of a network that has any sum to exactly 1. -/
theorem compute_net_softmax (expf : ℚ → ℚ) (hexp : ∀ x, 0 < expf x) (l : net)
    (hok : net_ok l) :
    (∀ i, i < l.num_output.toNat →
      (compute_net expf l).win_prob.getD i 0 =
        expf ((compute_net expf l).net_result.getD i 0) /
          ((List.range l.num_output.toNat).map (fun k =>
            expf ((compute_net expf l).net_result.getD k 0))).sum) ∧
    (l.num_output = 2 → ∀ i, i < 2 →
      0 < (compute_net expf l).win_prob.getD i 0 ∧
        (compute_net expf l).win_prob.getD i 0 < 1) ∧
    (0 < l.num_output →
      ((List.range l.num_output.toNat).map (fun i =>
        (compute_net expf l).win_prob.getD i 0)).sum = 1) := by
  obtain ⟨_, _, hsum, hwp⟩ := compute_net_spec expf l hok
  have hformula : ∀ i, i < l.num_output.toNat →
      (compute_net expf l).win_prob.getD i 0 =
        expf ((compute_net expf l).net_result.getD i 0) /
          ((List.range l.num_output.toNat).map (fun k =>
            expf ((compute_net expf l).net_result.getD k 0))).sum := by
    intro i hi
    rw [hwp i hi, hsum]
  refine ⟨hformula, ?_, ?_⟩
  · intro h2 i hi
    have hn : l.num_output.toNat = 2 := by omega
    rw [hformula i (by omega), hn]
    have hS : ((List.range 2).map (fun k =>
        expf ((compute_net expf l).net_result.getD k 0))).sum =
        expf ((compute_net expf l).net_result.getD 0 0) +
          expf ((compute_net expf l).net_result.getD 1 0) := by
      simp [List.range_succ]
    rw [hS]
    have h0 := hexp ((compute_net expf l).net_result.getD 0 0)
    have h1 := hexp ((compute_net expf l).net_result.getD 1 0)
    have hi2 : i = 0 ∨ i = 1 := by omega
    rcases hi2 with h | h
    · subst h
      exact ⟨div_pos h0 (add_pos h0 h1), (div_lt_one (add_pos h0 h1)).mpr (by linarith)⟩
    · subst h
      exact ⟨div_pos h1 (add_pos h0 h1), (div_lt_one (add_pos h0 h1)).mpr (by linarith)⟩
  · intro hpos
    have hne : List.range l.num_output.toNat ≠ [] := by
      intro h
      have := List.range_eq_nil.mp h
      omega
    have hS := sum_map_pos (List.range l.num_output.toNat)
      (fun k => expf ((compute_net expf l).net_result.getD k 0)) (fun k => hexp _) hne
    have hmap : (List.range l.num_output.toNat).map (fun i =>
        (compute_net expf l).win_prob.getD i 0) =
        (List.range l.num_output.toNat).map (fun i =>
          expf ((compute_net expf l).net_result.getD i 0) /
            ((List.range l.num_output.toNat).map (fun k =>
              expf ((compute_net expf l).net_result.getD k 0))).sum) := by
      apply List.map_congr_left
      intro i hi
      exact hformula i (List.mem_range.mp hi)
    rw [hmap, sum_map_div]
    exact div_self (ne_of_gt hS)

/-! ### Evaluation by two nets -/

theorem ramp_exp_pos : ∀ x, 0 < ramp_exp x := by
  intro x
  unfold ramp_exp
  split
  · linarith
  · rename_i h
    have : 0 < 1 - x := by linarith
    positivity

/-- The entries of the output weights set by `make_learner`. -/
theorem make_learner_ow (learn : net) (input hidden output : Nat) (mem : allocation)
    (j i : Nat) (hj : j < hidden + 1) (hi : i < output) :
    (make_learner learn input hidden output mem).ow j i = mem.output_weight j i := by
  unfold net.ow make_learner
  simp [List.getD_eq_getElem?_getD, List.getElem?_map, List.getElem?_range, hj, hi]

/-- The entries of the hidden weights set by `make_learner`. -/
theorem make_learner_hw (learn : net) (input hidden output : Nat) (mem : allocation)
    (i j : Nat) (hi : i < input + 1) (hj : j < hidden) :
    (make_learner learn input hidden output mem).hw i j = mem.hidden_weight i j := by
  unfold net.hw make_learner
  simp [List.getD_eq_getElem?_getD, List.getElem?_map, List.getElem?_range, hj, hi]

/-- `SET_INPUT` calls change `input_value` only. -/
theorem set_inputs_keeps (l : net) (xs : List Int) :
    (set_inputs l xs).num_hidden = l.num_hidden ∧
    (set_inputs l xs).hidden_result = l.hidden_result ∧
    (set_inputs l xs).output_weight = l.output_weight ∧
    (set_inputs l xs).num_inputs = l.num_inputs ∧
    (set_inputs l xs).hidden_weight = l.hidden_weight ∧
    (set_inputs l xs).hidden_sum = l.hidden_sum ∧
    (set_inputs l xs).prev_input = l.prev_input ∧
    (set_inputs l xs).input_value.length = l.input_value.length := by
  unfold set_inputs
  have : ∀ (ys : List Int) (acc : net × Nat),
      let r := (ys.foldl (fun (acc : net × Nat) x =>
        (SET_INPUT acc.1 acc.2 x, acc.2 + 1)) acc).1
      r.num_hidden = acc.1.num_hidden ∧ r.hidden_result = acc.1.hidden_result ∧
      r.output_weight = acc.1.output_weight ∧ r.num_inputs = acc.1.num_inputs ∧
      r.hidden_weight = acc.1.hidden_weight ∧ r.hidden_sum = acc.1.hidden_sum ∧
      r.prev_input = acc.1.prev_input ∧
      r.input_value.length = acc.1.input_value.length := by
    intro ys
    induction ys with
    | nil => intro acc; exact ⟨rfl, rfl, rfl, rfl, rfl, rfl, rfl, rfl⟩
    | cons y rest ih =>
      intro acc
      have h := ih (SET_INPUT acc.1 acc.2 y, acc.2 + 1)
      simp only [List.foldl_cons]
      refine ⟨h.1, h.2.1, h.2.2.1, h.2.2.2.1, h.2.2.2.2.1, h.2.2.2.2.2.1, h.2.2.2.2.2.2.1, ?_⟩
      rw [h.2.2.2.2.2.2.2]
      simp [SET_INPUT]
  exact this xs (l, 0)

/-- The first loop of `compute_net` changes `hidden_sum` and `prev_input` only. -/
theorem compute_net_inputs_keeps (l : net) :
    (compute_net_inputs l).num_hidden = l.num_hidden ∧
    (compute_net_inputs l).hidden_result = l.hidden_result ∧
    (compute_net_inputs l).output_weight = l.output_weight ∧
    (compute_net_inputs l).num_inputs = l.num_inputs ∧
    (compute_net_inputs l).hidden_weight = l.hidden_weight ∧
    (compute_net_inputs l).input_value = l.input_value := by
  unfold compute_net_inputs
  refine for_range_induct (fun _ (x : net) => x.num_hidden = l.num_hidden ∧
    x.hidden_result = l.hidden_result ∧ x.output_weight = l.output_weight ∧
    x.num_inputs = l.num_inputs ∧ x.hidden_weight = l.hidden_weight ∧
    x.input_value = l.input_value) _ _ _ ?_ ?_
  · exact ⟨rfl, rfl, rfl, rfl, rfl, rfl⟩
  · intro k x _ hx
    dsimp only
    split
    · exact hx
    · exact hx

/-- The second loop of `compute_net` changes the hidden results below
`num_hidden` only: the bias slot keeps its value. -/
theorem compute_net_hidden_keeps (expf : ℚ → ℚ) (l : net) :
    (compute_net_hidden expf l).num_hidden = l.num_hidden ∧
    (compute_net_hidden expf l).output_weight = l.output_weight ∧
    (compute_net_hidden expf l).hidden_sum = l.hidden_sum ∧
    (compute_net_hidden expf l).prev_input = l.prev_input ∧
    (compute_net_hidden expf l).input_value = l.input_value ∧
    (compute_net_hidden expf l).hidden_weight = l.hidden_weight ∧
    (compute_net_hidden expf l).num_inputs = l.num_inputs ∧
    ∀ j, l.num_hidden.toNat ≤ j →
      (compute_net_hidden expf l).hidden_result.getD j 0 = l.hidden_result.getD j 0 := by
  unfold compute_net_hidden
  have key := for_range_induct (fun k (x : net) => x.num_hidden = l.num_hidden ∧
      x.output_weight = l.output_weight ∧ x.hidden_sum = l.hidden_sum ∧
      x.prev_input = l.prev_input ∧ x.input_value = l.input_value ∧
      x.hidden_weight = l.hidden_weight ∧ x.num_inputs = l.num_inputs ∧
      ∀ j, k ≤ j → x.hidden_result.getD j 0 = l.hidden_result.getD j 0)
    (fun i (x : net) =>
      { x with hidden_result := x.hidden_result.set i (sigmoid expf (x.hidden_sum.getD i 0)) })
    l l.num_hidden.toNat ⟨rfl, rfl, rfl, rfl, rfl, rfl, rfl, fun _ _ => rfl⟩
    (by
      intro k x _ hx
      obtain ⟨h1, h2, h3, h4, h5, h6, h7, h8⟩ := hx
      refine ⟨h1, h2, h3, h4, h5, h6, h7, ?_⟩
      intro j hj
      dsimp only
      rw [getD_set_other _ _ _ _ (by omega)]
      exact h8 j (by omega))
  exact key

/-- With zero weights from the hidden nodes to an output, its weighted sum is
the bias weight. -/
theorem output_sum_bias (l : net) (i : Nat) (hnh : 0 ≤ l.num_hidden)
    (hone : l.hidden_result.getD l.num_hidden.toNat 0 = 1)
    (hzero : ∀ j, j < l.num_hidden.toNat → l.ow j i = 0) :
    output_sum l i = l.ow l.num_hidden.toNat i := by
  unfold output_sum
  have hn : (l.num_hidden + 1).toNat = l.num_hidden.toNat + 1 := by omega
  rw [hn, for_range_succ]
  have key := for_range_induct (fun k (x : ℚ) => x = 0)
    (fun j sum => sum + l.hidden_result.getD j 0 * l.ow j i) 0 l.num_hidden.toNat rfl
    (by
      intro k x hk hx
      show x + l.hidden_result.getD k 0 * l.ow k i = 0
      rw [hx, hzero k hk]
      simp)
  rw [key, hone]
  simp

/-- The evaluation by a loaded net with two outputs whose only nonzero output
weights are the bias weights: the softmax of the two bias weights. -/
theorem eval_game_net_bias (expf : ℚ → ℚ) (l : net) (g : game) (who : Int)
    (hok : net_ok l) (hin : l.num_inputs ≠ 0) (hout : l.num_output = 2)
    (hnh : 0 ≤ l.num_hidden) (hone : l.hidden_result.getD l.num_hidden.toNat 0 = 1)
    (hzero : ∀ j i, j < l.num_hidden.toNat → i < 2 → l.ow j i = 0)
    (hwho : who = 0 ∨ who = 1) :
    (eval_game_net expf l g who).1 =
      expf (l.ow l.num_hidden.toNat who.toNat) /
        (expf (l.ow l.num_hidden.toNat 0) + expf (l.ow l.num_hidden.toNat 1)) := by
  unfold eval_game_net
  rw [if_neg hin]
  dsimp only
  set l0 := set_inputs l (eval_inputs g who) with hl0
  have hs := set_inputs_keeps l (eval_inputs g who)
  have hf := set_inputs_frame l (eval_inputs g who)
  rw [← hl0] at hs hf
  have hok0 : net_ok l0 := by
    unfold net_ok
    rw [hf.1, hf.2.1, hf.2.2]
    exact hok
  have hout0 : l0.num_output = 2 := by rw [hf.1, hout]
  obtain ⟨_, hnr, hsum, hwp⟩ := compute_net_spec expf l0 hok0
  have hi := compute_net_inputs_keeps l0
  have hh := compute_net_hidden_keeps expf (compute_net_inputs l0)
  set l2 := compute_net_hidden expf (compute_net_inputs l0) with hl2
  have hnh2 : l2.num_hidden = l.num_hidden := by rw [hh.1, hi.1, hs.1]
  have how2 : l2.output_weight = l.output_weight := by rw [hh.2.1, hi.2.2.1, hs.2.2.1]
  have hone2 : l2.hidden_result.getD l2.num_hidden.toNat 0 = 1 := by
    rw [hh.2.2.2.2.2.2.2 _ (by rw [hnh2, hi.1, hs.1]), hnh2, hi.2.1, hs.2.1]
    exact hone
  have howeq : ∀ j i, l2.ow j i = l.ow j i := by
    intro j i
    unfold net.ow
    rw [how2]
  have hbias : ∀ i, i < 2 → output_sum l2 i = l.ow l.num_hidden.toNat i := by
    intro i hi2
    rw [output_sum_bias l2 i (by rw [hnh2]; exact hnh) hone2
      (fun j hj => by rw [howeq]; exact hzero j i (by rw [← hnh2]; exact hj) hi2), howeq,
      hnh2]
  have hn : l0.num_output.toNat = 2 := by rw [hout0]; rfl
  rw [hn] at hnr hsum hwp
  have hw2 : who.toNat < 2 := by rcases hwho with h | h <;> subst h <;> decide
  rw [hwp _ hw2, hsum, hnr _ hw2, hbias _ hw2]
  have hS : ((List.range 2).map (fun k =>
      expf ((compute_net expf l0).net_result.getD k 0))).sum =
      expf (l.ow l.num_hidden.toNat 0) + expf (l.ow l.num_hidden.toNat 1) := by
    simp only [List.range_succ, List.range_zero, List.nil_append, List.cons_append,
      List.map_cons, List.map_nil, List.sum_cons, List.sum_nil, add_zero]
    rw [hnr 0 (by decide), hnr 1 (by decide), hbias 0 (by decide), hbias 1 (by decide)]
  rw [hS]

theorem getD_append_last (xs : List ℚ) (x : ℚ) : (xs ++ [x]).getD xs.length 0 = x := by
  rw [List.getD_eq_getElem?_getD, List.getElem?_append_right (le_refl _)]
  simp

/-- The evaluation by the net `favouring_net a b`. -/
theorem eval_game_net_favouring (expf : ℚ → ℚ) (a b : ℚ) (g : game) (who : Int)
    (hwho : who = 0 ∨ who = 1) :
    (eval_game_net expf (favouring_net a b) g who).1 =
      expf (if who = 0 then a else b) / (expf a + expf b) := by
  have hbias : ∀ i, i < 2 → (favouring_net a b).ow HIDDEN_NODES i =
      (bias_memory HIDDEN_NODES a b).output_weight HIDDEN_NODES i := by
    intro i hi
    exact make_learner_ow default NET_INPUT HIDDEN_NODES 2 _ HIDDEN_NODES i (by decide) hi
  have h := eval_game_net_bias expf (favouring_net a b) g who
    (by unfold net_ok favouring_net make_learner; simp)
    (by have h : (favouring_net a b).num_inputs = 443 := rfl
        rw [h]; decide) rfl
    (by have h : (favouring_net a b).num_hidden = 50 := rfl
        rw [h]; decide)
    (by
      have hlen : ((List.range HIDDEN_NODES).map
          (bias_memory HIDDEN_NODES a b).hidden_result).length = HIDDEN_NODES := by
        rw [List.length_map, List.length_range]
      have := getD_append_last ((List.range HIDDEN_NODES).map
        (bias_memory HIDDEN_NODES a b).hidden_result) 1
      rw [hlen] at this
      exact this)
    (by
      intro j i hj hi
      have hj2 : j < HIDDEN_NODES := hj
      have := make_learner_ow default NET_INPUT HIDDEN_NODES 2
        (bias_memory HIDDEN_NODES a b) j i (by omega) hi
      have h2 : (favouring_net a b).ow j i =
          (bias_memory HIDDEN_NODES a b).output_weight j i := this
      rw [h2]
      unfold bias_memory
      simp [Nat.ne_of_lt hj2])
    hwho
  rw [h]
  have hnh : (favouring_net a b).num_hidden.toNat = HIDDEN_NODES := rfl
  rw [hnh, hbias 0 (by decide), hbias 1 (by decide)]
  rcases hwho with hw | hw
  · subst hw
    rw [show (0 : Int).toNat = 0 from rfl, hbias 0 (by decide)]
    simp [bias_memory]
  · subst hw
    rw [show (1 : Int).toNat = 1 from rfl, hbias 1 (by decide)]
    simp [bias_memory]

/-- Witness for C15: the net of the program's size with bias weights 1 and 0. -/
theorem compute_net_softmax_witness :
    (∀ x, 0 < ramp_exp x) ∧ net_ok (favouring_net 1 0) ∧
    (∀ i, i < (favouring_net 1 0).num_output.toNat →
      (compute_net ramp_exp (favouring_net 1 0)).win_prob.getD i 0 =
        ramp_exp ((compute_net ramp_exp (favouring_net 1 0)).net_result.getD i 0) /
          ((List.range (favouring_net 1 0).num_output.toNat).map (fun k =>
            ramp_exp ((compute_net ramp_exp (favouring_net 1 0)).net_result.getD k 0))).sum) ∧
    ((favouring_net 1 0).num_output = 2 → ∀ i, i < 2 →
      0 < (compute_net ramp_exp (favouring_net 1 0)).win_prob.getD i 0 ∧
        (compute_net ramp_exp (favouring_net 1 0)).win_prob.getD i 0 < 1) ∧
    (0 < (favouring_net 1 0).num_output →
      ((List.range (favouring_net 1 0).num_output.toNat).map (fun i =>
        (compute_net ramp_exp (favouring_net 1 0)).win_prob.getD i 0)).sum = 1) :=
  ⟨ramp_exp_pos, ⟨rfl, rfl⟩,
    compute_net_softmax ramp_exp ramp_exp_pos (favouring_net 1 0) ⟨rfl, rfl⟩⟩

/-- C14, counterexample: each player has a net of the program's size; the net
of player 0 favours output 0 and the net of player 1 favours output 1.  At the
start of a game the evaluation for player 0 is 2/3 and the evaluation for
player 1 is 2/3 (also when it follows the other): their sum is not 1. -/
theorem eval_game_sum_not_one :
    (eval_game ramp_exp real_game 0 loaded_state).1 = 2 / 3 ∧
    (eval_game ramp_exp real_game 1 loaded_state).1 = 2 / 3 ∧
    (eval_game ramp_exp real_game 1 (eval_game ramp_exp real_game 0 loaded_state).2).1 =
      2 / 3 ∧
    (eval_game ramp_exp real_game 0 loaded_state).1 +
      (eval_game ramp_exp real_game 1 loaded_state).1 ≠ 1 := by
  have h0 : (eval_game ramp_exp real_game 0 loaded_state).1 = 2 / 3 := by
    have h := eval_game_net_favouring ramp_exp 1 0 real_game 0 (Or.inl rfl)
    have hl : loaded_state.learner 0 = favouring_net 1 0 := rfl
    unfold eval_game
    dsimp only
    rw [hl, h]
    norm_num [ramp_exp]
  have h1 : (eval_game ramp_exp real_game 1 loaded_state).1 = 2 / 3 := by
    have h := eval_game_net_favouring ramp_exp 0 1 real_game 1 (Or.inr rfl)
    have hl : loaded_state.learner 1 = favouring_net 0 1 := rfl
    unfold eval_game
    dsimp only
    rw [hl, h]
    norm_num [ramp_exp]
  refine ⟨h0, h1, ?_, ?_⟩
  · rw [← h1]
    refine eval_game_score ramp_exp real_game 1 _ _ ?_
    unfold eval_game ai_state.set_learner ai_state.learner
    simp
  · rw [h0, h1]
    norm_num

/-- C14, amended: for every game state and each player `who`, `eval_game`
lies in [0,1] (for nets with output arrays of the allocated size and a positive
`exp`); and when the net of `who` is loaded and has two outputs, the value is
the output `win_prob[who]` of that net, whose two outputs sum to 1. -/
theorem eval_game_softmax (expf : ℚ → ℚ) (hexp : ∀ x, 0 < expf x) (g : game) (who : Int)
    (s : ai_state) (hnets : nets_ok s) :
    0 ≤ (eval_game expf g who s).1 ∧ (eval_game expf g who s).1 ≤ 1 ∧
    ((s.learner who).num_inputs ≠ 0 → (s.learner who).num_output = 2 →
      (eval_game expf g who s).1 =
        ((eval_game expf g who s).2.learner who).win_prob.getD who.toNat 0 ∧
      ((eval_game expf g who s).2.learner who).win_prob.getD 0 0 +
        ((eval_game expf g who s).2.learner who).win_prob.getD 1 0 = 1) := by
  have hr := nets_ok_eval_game expf hexp g who s hnets
  refine ⟨hr.1, hr.2.1, ?_⟩
  intro hin hout
  have hl : net_ok (s.learner who) := by
    unfold ai_state.learner; split
    · exact hnets.1
    · exact hnets.2
  have hf := set_inputs_frame (s.learner who) (eval_inputs g who)
  have hok0 : net_ok (set_inputs (s.learner who) (eval_inputs g who)) := by
    unfold net_ok
    rw [hf.1, hf.2.1, hf.2.2]
    exact hl
  have hnet : (eval_game expf g who s).2.learner who =
      compute_net expf (set_inputs (s.learner who) (eval_inputs g who)) := by
    unfold eval_game eval_game_net ai_state.set_learner ai_state.learner
    dsimp only
    by_cases hw : who = 0
    · simp only [hw, if_true]
      have hin0 : s.learner0.num_inputs ≠ 0 := by
        simpa [ai_state.learner, hw] using hin
      rw [if_neg hin0]
    · simp only [hw, if_false]
      have hin1 : s.learner1.num_inputs ≠ 0 := by
        simpa [ai_state.learner, hw] using hin
      rw [if_neg hin1]
  have hval : (eval_game expf g who s).1 =
      (compute_net expf (set_inputs (s.learner who) (eval_inputs g who))).win_prob.getD
        who.toNat 0 := by
    unfold eval_game eval_game_net
    dsimp only
    rw [if_neg hin]
  have hsm := (compute_net_softmax expf hexp _ hok0).2.2
  rw [hf.1, hout] at hsm
  have hsum := hsm (by decide)
  rw [hnet]
  refine ⟨hval, ?_⟩
  have h2 : (2 : Int).toNat = 2 := rfl
  rw [h2] at hsum
  simpa [List.range_succ] using hsum

/-- Witness for the amended C14: the two nets of `loaded_state`. -/
theorem eval_game_softmax_witness :
    (∀ x, 0 < ramp_exp x) ∧ nets_ok loaded_state ∧
    0 ≤ (eval_game ramp_exp real_game 0 loaded_state).1 ∧
    (eval_game ramp_exp real_game 0 loaded_state).1 ≤ 1 ∧
    ((loaded_state.learner 0).num_inputs ≠ 0 → (loaded_state.learner 0).num_output = 2 →
      (eval_game ramp_exp real_game 0 loaded_state).1 =
        ((eval_game ramp_exp real_game 0 loaded_state).2.learner 0).win_prob.getD
          (0 : Int).toNat 0 ∧
      ((eval_game ramp_exp real_game 0 loaded_state).2.learner 0).win_prob.getD 0 0 +
        ((eval_game ramp_exp real_game 0 loaded_state).2.learner 0).win_prob.getD 1 0 = 1) :=
  ⟨ramp_exp_pos, ⟨⟨rfl, rfl⟩, ⟨rfl, rfl⟩⟩,
    eval_game_softmax ramp_exp ramp_exp_pos real_game 0 loaded_state ⟨⟨rfl, rfl⟩, ⟨rfl, rfl⟩⟩⟩

/-! ### The incremental forward pass -/

theorem getD_set_self_int (xs : List Int) (i : Nat) (x : Int) (h : i < xs.length) :
    (xs.set i x).getD i 0 = x := by
  simp [List.getD_eq_getElem?_getD, List.getElem?_set, h]

theorem getD_set_other_int (xs : List Int) (i j : Nat) (x : Int) (h : i ≠ j) :
    (xs.set i x).getD j 0 = xs.getD j 0 := by
  simp [List.getD_eq_getElem?_getD, List.getElem?_set, h]

theorem hw_congr (a b : net) (h : a.hidden_weight = b.hidden_weight) (i j : Nat) :
    a.hw i j = b.hw i j := by
  unfold net.hw
  rw [h]

/-- A sum over `0..n-1` whose term `k` alone changes. -/
theorem sum_range_update (n : Nat) (f g : Nat → ℚ) (k : Nat) (hk : k < n)
    (h : ∀ i, i ≠ k → g i = f i) :
    ((List.range n).map g).sum = ((List.range n).map f).sum + (g k - f k) := by
  induction n with
  | zero => exact absurd hk (Nat.not_lt_zero k)
  | succ m ih =>
    rw [List.range_succ, List.map_append, List.map_append, List.sum_append, List.sum_append]
    simp only [List.map_cons, List.map_nil, List.sum_cons, List.sum_nil, add_zero]
    by_cases hkm : k = m
    · subst hkm
      have hsame : (List.range k).map g = (List.range k).map f := by
        apply List.map_congr_left
        intro i hi
        exact h i (Nat.ne_of_lt (List.mem_range.mp hi))
      rw [hsame]
      ring
    · rw [ih (by omega), h m (Ne.symm hkm)]
      ring

/-- The loop `for (j = 0; j < n; j++) hs[j] += c[j]`. -/
theorem for_range_add (n : Nat) (c : Nat → ℚ) (hs0 : List ℚ) (hlen : n ≤ hs0.length) :
    (for_range n (fun j hs => hs.set j (hs.getD j 0 + c j)) hs0).length = hs0.length ∧
    ∀ j, j < n →
      (for_range n (fun j hs => hs.set j (hs.getD j 0 + c j)) hs0).getD j 0 =
        hs0.getD j 0 + c j := by
  have key := for_range_induct (fun k (hs : List ℚ) => hs.length = hs0.length ∧
      (∀ j, j < k → hs.getD j 0 = hs0.getD j 0 + c j) ∧
      ∀ j, k ≤ j → hs.getD j 0 = hs0.getD j 0)
    (fun j hs => hs.set j (hs.getD j 0 + c j)) hs0 n
    ⟨rfl, fun j hj => absurd hj (Nat.not_lt_zero j), fun _ _ => rfl⟩
    (by
      intro k hs hk h
      obtain ⟨h1, h2, h3⟩ := h
      refine ⟨by simpa using h1, ?_, ?_⟩
      · intro j hj
        by_cases hjk : j = k
        · subst hjk
          rw [getD_set_self _ _ _ (by omega), h3 j (le_refl j)]
        · rw [getD_set_other _ _ _ _ (Ne.symm hjk)]
          exact h2 j (by omega)
      · intro j hj
        rw [getD_set_other _ _ _ _ (by omega)]
        exact h3 j (by omega))
  exact ⟨key.1, key.2.1⟩

/-- The first loop of `compute_net` on a net whose stored sums agree with its
previous inputs: afterwards the previous inputs are the inputs and the stored
sums agree with them. -/
theorem compute_net_inputs_stored (l : net) (h : sums_stored l) :
    sums_stored (compute_net_inputs l) ∧
    (compute_net_inputs l).prev_input = (compute_net_inputs l).input_value := by
  obtain ⟨hl1, hl2, hl3, hsum⟩ := h
  have key := for_range_induct (fun k (x : net) =>
      x.num_hidden = l.num_hidden ∧ x.num_inputs = l.num_inputs ∧
      x.hidden_weight = l.hidden_weight ∧ x.input_value = l.input_value ∧
      x.hidden_sum.length = l.hidden_sum.length ∧ x.prev_input.length = l.prev_input.length ∧
      (∀ i, i < k → x.prev_input.getD i 0 = l.input_value.getD i 0) ∧
      (∀ j, j < l.num_hidden.toNat →
        x.hidden_sum.getD j 0 = ((List.range (l.num_inputs + 1).toNat).map (fun i =>
          l.hw i j * ((x.prev_input.getD i 0 : Int) : ℚ))).sum))
    (fun i (x : net) =>
      if x.input_value.getD i 0 ≠ x.prev_input.getD i 0 then
        let hs := for_range x.num_hidden.toNat (fun j hs =>
          hs.set j (hs.getD j 0 +
            x.hw i j * ((x.input_value.getD i 0 - x.prev_input.getD i 0 : Int) : ℚ)))
          x.hidden_sum
        { x with hidden_sum := hs,
                 prev_input := x.prev_input.set i (x.input_value.getD i 0) }
      else x) l (l.num_inputs + 1).toNat
    ⟨rfl, rfl, rfl, rfl, rfl, rfl, fun i hi => absurd hi (Nat.not_lt_zero i), hsum⟩
    (by
      intro k x hk hx
      obtain ⟨h1, h2, h3, h4, h5, h6, h7, h8⟩ := hx
      beta_reduce
      by_cases hne : x.input_value.getD k 0 ≠ x.prev_input.getD k 0
      · rw [if_pos hne]
        dsimp only
        have hadd := for_range_add x.num_hidden.toNat (fun j =>
          x.hw k j * ((x.input_value.getD k 0 - x.prev_input.getD k 0 : Int) : ℚ))
          x.hidden_sum (by rw [h5, hl1, h1])
        refine ⟨h1, h2, h3, h4, by rw [hadd.1, h5], by simpa using h6, ?_, ?_⟩
        · intro i hi
          by_cases hik : i = k
          · subst hik
            rw [getD_set_self_int _ _ _ (by rw [h6, hl2]; exact hk), h4]
          · rw [getD_set_other_int _ _ _ _ (Ne.symm hik)]
            exact h7 i (by omega)
        · intro j hj
          have hjx := hadd.2 j (by rw [h1]; exact hj)
          beta_reduce at hjx
          rw [hjx, h8 j hj, hw_congr x l h3 k j]
          have hupd := sum_range_update (l.num_inputs + 1).toNat
            (fun i => l.hw i j * ((x.prev_input.getD i 0 : Int) : ℚ))
            (fun i => l.hw i j *
              (((x.prev_input.set k (x.input_value.getD k 0)).getD i 0 : Int) : ℚ))
            k hk
            (by
              intro i hik
              show l.hw i j * (((x.prev_input.set k (x.input_value.getD k 0)).getD i 0 : Int)
                : ℚ) = l.hw i j * ((x.prev_input.getD i 0 : Int) : ℚ)
              rw [getD_set_other_int _ _ _ _ (Ne.symm hik)])
          rw [hupd]
          show _ = _ + (l.hw k j *
            (((x.prev_input.set k (x.input_value.getD k 0)).getD k 0 : Int) : ℚ) -
              l.hw k j * ((x.prev_input.getD k 0 : Int) : ℚ))
          rw [getD_set_self_int _ _ _ (by rw [h6, hl2]; exact hk)]
          push_cast
          ring
      · rw [if_neg hne]
        refine ⟨h1, h2, h3, h4, h5, h6, ?_, h8⟩
        intro i hi
        by_cases hik : i = k
        · subst hik
          have heq : x.input_value.getD i 0 = x.prev_input.getD i 0 := not_not.mp hne
          rw [← heq, h4]
        · exact h7 i (by omega))
  have hc : compute_net_inputs l = for_range (l.num_inputs + 1).toNat (fun i (x : net) =>
      if x.input_value.getD i 0 ≠ x.prev_input.getD i 0 then
        let hs := for_range x.num_hidden.toNat (fun j hs =>
          hs.set j (hs.getD j 0 +
            x.hw i j * ((x.input_value.getD i 0 - x.prev_input.getD i 0 : Int) : ℚ)))
          x.hidden_sum
        { x with hidden_sum := hs,
                 prev_input := x.prev_input.set i (x.input_value.getD i 0) }
      else x) l := rfl
  rw [hc]
  obtain ⟨h1, h2, h3, h4, h5, h6, h7, h8⟩ := key
  refine ⟨⟨by rw [h5, h1]; exact hl1, by rw [h6, h2]; exact hl2, by rw [h4, h2]; exact hl3,
    ?_⟩, ?_⟩
  · intro j hj
    rw [h1] at hj
    rw [h8 j hj, h2]
    have hw : ∀ i, (for_range (l.num_inputs + 1).toNat (fun i (x : net) =>
      if x.input_value.getD i 0 ≠ x.prev_input.getD i 0 then
        let hs := for_range x.num_hidden.toNat (fun j hs =>
          hs.set j (hs.getD j 0 +
            x.hw i j * ((x.input_value.getD i 0 - x.prev_input.getD i 0 : Int) : ℚ)))
          x.hidden_sum
        { x with hidden_sum := hs,
                 prev_input := x.prev_input.set i (x.input_value.getD i 0) }
      else x) l).hw i j = l.hw i j := by
      intro i
      exact hw_congr _ _ h3 i j
    apply congrArg
    apply List.map_congr_left
    intro i _
    rw [hw i]
  · rw [h4]
    apply List.ext_getElem
    · rw [h6, hl2, hl3]
    · intro i hi1 hi2
      have hi : i < (l.num_inputs + 1).toNat := by rw [← hl3]; exact hi2
      have := h7 i hi
      rw [List.getD_eq_getElem?_getD, List.getD_eq_getElem?_getD,
        List.getElem?_eq_getElem hi1, List.getElem?_eq_getElem hi2] at this
      simpa using this

theorem same_shape_refl (a : net) : same_shape a a := ⟨rfl, rfl, rfl, rfl, rfl⟩

theorem same_shape_trans {a b c : net} (h1 : same_shape a b) (h2 : same_shape b c) :
    same_shape a c :=
  ⟨h1.1.trans h2.1, h1.2.1.trans h2.2.1, h1.2.2.1.trans h2.2.2.1,
    h1.2.2.2.1.trans h2.2.2.2.1, h1.2.2.2.2.trans h2.2.2.2.2⟩

/-- A loop whose passes keep the shape of the net keeps it. -/
theorem same_shape_for_range (n : Nat) (body : Nat → net → net) (l : net)
    (h : ∀ i x, same_shape (body i x) x) : same_shape (for_range n body l) l := by
  refine for_range_induct (fun _ (x : net) => same_shape x l) body l n (same_shape_refl l) ?_
  intro k x _ hx
  exact same_shape_trans (h k x) hx

theorem same_shape_set_ow (l : net) (j i : Nat) (x : ℚ) : same_shape (l.set_ow j i x) l :=
  ⟨rfl, rfl, rfl, rfl, rfl⟩

theorem same_shape_set_hw (l : net) (i j : Nat) (x : ℚ) : same_shape (l.set_hw i j x) l :=
  ⟨rfl, rfl, rfl, rfl, rfl⟩

theorem same_shape_train_output (expf : ℚ → ℚ) (lambda : ℚ) (desired : List ℚ) (i : Nat)
    (l : net) : same_shape (train_output expf lambda desired i l) l := by
  unfold train_output
  dsimp only
  refine same_shape_trans (same_shape_set_ow _ _ _ _) ?_
  apply same_shape_for_range
  intro j x
  exact same_shape_trans (same_shape_set_ow _ _ _ _) ⟨rfl, rfl, rfl, rfl, rfl⟩

theorem same_shape_train_hidden_weights (l : net) (hidden_corr : List ℚ) :
    same_shape (train_hidden_weights l hidden_corr) l := by
  unfold train_hidden_weights
  apply same_shape_for_range
  intro i x
  beta_reduce
  split
  · exact same_shape_refl x
  · apply same_shape_for_range
    intro j y
    exact same_shape_set_hw _ _ _ _

/-- The end of `train_net` clears the stored sums and the previous inputs and
keeps the sizes. -/
theorem train_clear_spec (l : net) :
    (train_clear l).num_inputs = l.num_inputs ∧ (train_clear l).num_hidden = l.num_hidden ∧
    (train_clear l).input_value = l.input_value ∧
    (train_clear l).hidden_sum.length = l.hidden_sum.length ∧
    (train_clear l).prev_input.length = l.prev_input.length ∧
    (∀ j, j < l.num_hidden.toNat → (train_clear l).hidden_sum.getD j 0 = 0) ∧
    (∀ i, i < (l.num_inputs + 1).toNat → (train_clear l).prev_input.getD i 0 = 0) := by
  have key := for_range_induct (fun k (x : net) =>
      x.num_inputs = l.num_inputs ∧ x.num_hidden = l.num_hidden ∧
      x.input_value = l.input_value ∧ x.prev_input = l.prev_input ∧
      x.hidden_sum.length = l.hidden_sum.length ∧
      ∀ j, j < k → x.hidden_sum.getD j 0 = 0)
    (fun i (x : net) =>
      { x with hidden_error := x.hidden_error.set i 0, hidden_sum := x.hidden_sum.set i 0 })
    l l.num_hidden.toNat
    ⟨rfl, rfl, rfl, rfl, rfl, fun j hj => absurd hj (Nat.not_lt_zero j)⟩
    (by
      intro k x _ hx
      obtain ⟨h1, h2, h3, h4, h5, h6⟩ := hx
      refine ⟨h1, h2, h3, h4, by simpa using h5, ?_⟩
      intro j hj
      dsimp only
      by_cases hjk : j = k
      · subst hjk
        simp [List.getD_eq_getElem?_getD, List.getElem?_set]
        split <;> simp
      · rw [getD_set_other _ _ _ _ (Ne.symm hjk)]
        exact h6 j (by omega))
  obtain ⟨h1, h2, h3, h4, h5, h6⟩ := key
  have kp := for_range_induct (fun k (p : List Int) =>
      p.length = l.prev_input.length ∧ ∀ i, i < k → p.getD i 0 = 0)
    (fun i (p : List Int) => p.set i 0) l.prev_input (l.num_inputs + 1).toNat
    ⟨rfl, fun i hi => absurd hi (Nat.not_lt_zero i)⟩
    (by
      intro k p _ hp
      refine ⟨by simpa using hp.1, ?_⟩
      intro i hi
      by_cases hik : i = k
      · subst hik
        simp [List.getD_eq_getElem?_getD, List.getElem?_set]
        split <;> simp
      · rw [getD_set_other_int _ _ _ _ (Ne.symm hik)]
        exact hp.2 i (by omega))
  unfold train_clear
  dsimp only
  refine ⟨h1, h2, h3, h5, ?_, h6, ?_⟩
  · rw [h1, h4]; exact kp.1
  · rw [h1, h4]; exact kp.2

/-- A sum of products with zero inputs is zero. -/
theorem sum_zero_inputs (n : Nat) (w : Nat → ℚ) (p : List Int)
    (hp : ∀ i, i < n → p.getD i 0 = 0) :
    ((List.range n).map (fun i => w i * ((p.getD i 0 : Int) : ℚ))).sum = 0 := by
  have : (List.range n).map (fun i => w i * ((p.getD i 0 : Int) : ℚ)) =
      (List.range n).map (fun _ => (0 : ℚ)) := by
    apply List.map_congr_left
    intro i hi
    rw [hp i (List.mem_range.mp hi)]
    simp
  rw [this]
  simp

/-- After `train_net` the stored sums agree with the (cleared) previous
inputs. -/
theorem train_net_stored (expf : ℚ → ℚ) (l : net) (lambda : ℚ) (desired : List ℚ)
    (h : sums_stored l) : sums_stored (train_net expf l lambda desired) := by
  obtain ⟨hl1, hl2, hl3, _⟩ := h
  unfold train_net
  dsimp only
  set l1 := for_range l.num_output.toNat (train_output expf lambda desired) l with hl1def
  have s1 : same_shape l1 l :=
    same_shape_for_range _ _ _ (fun i x => same_shape_train_output expf lambda desired i x)
  have s2 : same_shape (train_hidden_weights l1 (train_hidden_corr l1)) l :=
    same_shape_trans (same_shape_train_hidden_weights l1 _) s1
  set l2 := train_hidden_weights l1 (train_hidden_corr l1) with hl2def
  obtain ⟨c1, c2, c3, c4, c5, c6, c7⟩ := train_clear_spec l2
  obtain ⟨e1, e2, e3, e4, e5⟩ := s2
  refine ⟨?_, ?_, ?_, ?_⟩
  · rw [c4, c2, e5, e2]; exact hl1
  · rw [c5, c1, e4, e1]; exact hl2
  · rw [c3, c1, e3, e1]; exact hl3
  · intro j hj
    rw [c2] at hj
    rw [c6 j hj, c1]
    exact (sum_zero_inputs _ _ _ c7).symm

/-- `SET_INPUT` keeps the agreement of the stored sums with the previous
inputs. -/
theorem SET_INPUT_stored (l : net) (n : Nat) (x : Int) (h : sums_stored l) :
    sums_stored (SET_INPUT l n x) := by
  obtain ⟨hl1, hl2, hl3, hs⟩ := h
  unfold SET_INPUT
  exact ⟨hl1, hl2, by simpa using hl3, hs⟩

theorem same_shape_compute_net_hidden (expf : ℚ → ℚ) (l : net) :
    same_shape (compute_net_hidden expf l) l ∧
    (compute_net_hidden expf l).hidden_weight = l.hidden_weight := by
  have h := compute_net_hidden_keeps expf l
  exact ⟨⟨h.2.2.2.2.2.2.1, h.1, h.2.2.2.2.1, h.2.2.2.1, h.2.2.1⟩, h.2.2.2.2.2.1⟩

theorem same_shape_compute_net_outputs (expf : ℚ → ℚ) (l : net) :
    same_shape (compute_net_outputs expf l) l ∧
    (compute_net_outputs expf l).hidden_weight = l.hidden_weight := by
  unfold compute_net_outputs
  have key := for_range_induct (fun _ (x : net) => same_shape x l ∧
      x.hidden_weight = l.hidden_weight)
    (fun i (x : net) => { x with net_result := x.net_result.set i (output_sum x i),
                                 prob_sum := x.prob_sum + expf (output_sum x i) })
    { l with prob_sum := 0 } l.num_output.toNat ⟨⟨rfl, rfl, rfl, rfl, rfl⟩, rfl⟩
    (by
      intro k x _ hx
      exact hx)
  exact key

theorem same_shape_compute_net_probs (expf : ℚ → ℚ) (l : net) :
    same_shape (compute_net_probs expf l) l ∧
    (compute_net_probs expf l).hidden_weight = l.hidden_weight := by
  unfold compute_net_probs
  have key := for_range_induct (fun _ (x : net) => same_shape x l ∧
      x.hidden_weight = l.hidden_weight)
    (fun i (x : net) =>
      { x with win_prob := x.win_prob.set i (expf (x.net_result.getD i 0) / x.prob_sum) })
    l l.num_output.toNat ⟨⟨rfl, rfl, rfl, rfl, rfl⟩, rfl⟩
    (by
      intro k x _ hx
      exact hx)
  exact key

/-- Nets that agree on shape and hidden weights agree on whether the stored
sums agree with the previous inputs. -/
theorem sums_stored_of_same (a b : net) (hs : same_shape a b)
    (hw : a.hidden_weight = b.hidden_weight) (h : sums_stored b) : sums_stored a := by
  obtain ⟨e1, e2, e3, e4, e5⟩ := hs
  obtain ⟨h1, h2, h3, h4⟩ := h
  refine ⟨by rw [e5, e2]; exact h1, by rw [e4, e1]; exact h2, by rw [e3, e1]; exact h3, ?_⟩
  intro j hj
  rw [e2] at hj
  rw [e5, e4, e1, h4 j hj]
  apply congrArg
  apply List.map_congr_left
  intro i _
  rw [hw_congr a b hw i j]

/-- After `compute_net` on a net whose stored sums agree with its previous
inputs: they still do, the previous inputs are the inputs, and every stored sum
is the sum computed from scratch. -/
theorem compute_net_stored (expf : ℚ → ℚ) (l : net) (h : sums_stored l) :
    sums_stored (compute_net expf l) ∧
    (compute_net expf l).prev_input = (compute_net expf l).input_value ∧
    ∀ j, j < (compute_net expf l).num_hidden.toNat →
      (compute_net expf l).hidden_sum.getD j 0 = scratch_hidden_sum (compute_net expf l) j := by
  have h1 := compute_net_inputs_stored l h
  have a := same_shape_compute_net_hidden expf (compute_net_inputs l)
  have b := same_shape_compute_net_outputs expf (compute_net_hidden expf (compute_net_inputs l))
  have c := same_shape_compute_net_probs expf
    (compute_net_outputs expf (compute_net_hidden expf (compute_net_inputs l)))
  have hc : compute_net expf l = compute_net_probs expf
    (compute_net_outputs expf (compute_net_hidden expf (compute_net_inputs l))) := rfl
  have hs : same_shape (compute_net expf l) (compute_net_inputs l) := by
    rw [hc]
    exact same_shape_trans c.1 (same_shape_trans b.1 a.1)
  have hw : (compute_net expf l).hidden_weight = (compute_net_inputs l).hidden_weight := by
    rw [hc, c.2, b.2, a.2]
  have hst := sums_stored_of_same _ _ hs hw h1.1
  have hprev : (compute_net expf l).prev_input = (compute_net expf l).input_value := by
    rw [hs.2.2.2.1, hs.2.2.1]
    exact h1.2
  refine ⟨hst, hprev, ?_⟩
  intro j hj
  rw [hst.2.2.2 j hj]
  unfold scratch_hidden_sum
  rw [hprev]

/-- `compute_net` keeps the number of hidden nodes. -/
theorem compute_net_keeps_hidden (expf : ℚ → ℚ) (l : net) :
    (compute_net expf l).num_hidden = l.num_hidden := by
  have a := same_shape_compute_net_hidden expf (compute_net_inputs l)
  have b := same_shape_compute_net_outputs expf (compute_net_hidden expf (compute_net_inputs l))
  have c := same_shape_compute_net_probs expf
    (compute_net_outputs expf (compute_net_hidden expf (compute_net_inputs l)))
  have hc : compute_net expf l = compute_net_probs expf
    (compute_net_outputs expf (compute_net_hidden expf (compute_net_inputs l))) := rfl
  rw [hc, c.1.2.1, b.1.2.1, a.1.2.1]
  exact (compute_net_inputs_keeps l).1

/-- `train_net` keeps the number of hidden nodes. -/
theorem train_net_keeps_hidden (expf : ℚ → ℚ) (l : net) (lambda : ℚ) (desired : List ℚ) :
    (train_net expf l lambda desired).num_hidden = l.num_hidden := by
  unfold train_net
  dsimp only
  rw [(train_clear_spec _).2.1, (same_shape_train_hidden_weights _ _).2.1]
  exact (same_shape_for_range _ _ _
    (fun i x => same_shape_train_output expf lambda desired i x)).2.1

theorem cleared_stored (l : net) (h : cleared l) : sums_stored l := by
  obtain ⟨h1, h2, h3, h4, h5⟩ := h
  refine ⟨h1, h2, h3, ?_⟩
  intro j _
  rw [h4 j]
  exact (sum_zero_inputs _ _ _ (fun i _ => h5 i)).symm

theorem cleared_of_same (a b : net) (hs : same_shape a b) (h : cleared b) : cleared a := by
  obtain ⟨e1, e2, e3, e4, e5⟩ := hs
  obtain ⟨h1, h2, h3, h4, h5⟩ := h
  exact ⟨by rw [e5, e2]; exact h1, by rw [e4, e1]; exact h2, by rw [e3, e1]; exact h3,
    by rw [e5]; exact h4, by rw [e4]; exact h5⟩

/-- A net made by `make_learner` has cleared sums and previous inputs. -/
theorem make_learner_cleared (learn : net) (input hidden output : Nat) (mem : allocation) :
    cleared (make_learner learn input hidden output mem) := by
  unfold cleared make_learner
  dsimp only
  refine ⟨by simp, ?_, ?_, ?_, ?_⟩
  · rw [List.length_replicate]; omega
  · rw [List.length_append, List.length_map, List.length_range, List.length_singleton]; omega
  · intro j
    rw [List.getD_eq_getElem?_getD, List.getElem?_replicate]
    split <;> rfl
  · intro i
    rw [List.getD_eq_getElem?_getD, List.getElem?_replicate]
    split <;> rfl

/-- A loop of `load_net` keeps the shape of the net when `put` does. -/
theorem same_shape_read_cells (put : net → Nat × Nat → ℚ → net)
    (hput : ∀ l c x, same_shape (put l c x) l) (cells : List (Nat × Nat)) :
    ∀ (l : net) (f : List item), same_shape (read_cells put cells l f).2.1 l := by
  induction cells with
  | nil => intro l f; exact same_shape_refl l
  | cons c cs ih =>
    intro l f
    unfold read_cells
    cases hsc : scan_real f with
    | mk v f1 =>
      cases v with
      | none => exact same_shape_refl l
      | some x => exact same_shape_trans (ih (put l c x) f1) (hput l c x)

theorem same_shape_load_training (learn : net) (f : List item) :
    same_shape (load_training learn f).1 learn := by
  unfold load_training
  split
  · exact ⟨rfl, rfl, rfl, rfl, rfl⟩
  · exact same_shape_refl learn

theorem same_shape_load_weights (learn : net) (f : List item) :
    same_shape (load_weights learn f).2 learn := by
  have h1 := same_shape_read_cells (fun l c x => l.set_hw c.1 c.2 x)
    (fun l c x => same_shape_set_hw l c.1 c.2 x)
  have h2 := same_shape_read_cells (fun l c x => l.set_ow c.1 c.2 x)
    (fun l c x => same_shape_set_ow l c.1 c.2 x)
  unfold load_weights
  dsimp only
  split
  · exact h1 _ _ _
  · split
    · exact same_shape_trans (h2 _ _ _) (h1 _ _ _)
    · exact same_shape_trans (h2 _ _ _) (h1 _ _ _)

/-- `load_net` changes the weights and `num_training` only. -/
theorem same_shape_load_net (learn : net) (file : Option (List item))
    (junk : Int × Int × Int) : same_shape (load_net learn file junk).2 learn := by
  unfold load_net
  cases file with
  | none => exact same_shape_refl learn
  | some f =>
    dsimp only
    split
    · exact same_shape_refl learn
    · exact same_shape_trans (same_shape_load_weights _ _) (same_shape_load_training _ _)

/-- Every call keeps the agreement of the stored sums with the previous
inputs. -/
theorem run_ops_stored (expf : ℚ → ℚ) (ops : List net_op) :
    ∀ l, sums_stored l → sums_stored (run_ops expf l ops) := by
  induction ops with
  | nil => intro l h; exact h
  | cons op rest ih =>
    intro l h
    unfold run_ops
    rw [List.foldl_cons]
    apply ih
    cases op with
    | set_input n x => exact SET_INPUT_stored l n x h
    | compute => exact (compute_net_stored expf l h).1
    | train lambda desired => exact train_net_stored expf l lambda desired h

/-- C16: the incremental forward pass equals a from-scratch forward pass.
Starting from `make_learner`, optionally followed by `load_net` (of any file,
whether it succeeds or not), and after any sequence of input changes,
`compute_net` and `train_net` calls, on return from `compute_net` each
`hidden_sum[j]` equals the sum over `i` in `0..num_inputs` (bias slot included)
of `hidden_weight[i][j] * input_value[i]`, and `prev_input` equals
`input_value`.  Here `file` is `none` when `load_net` is not called. -/
theorem compute_net_from_scratch (expf : ℚ → ℚ) (learn : net) (input hidden output : Nat)
    (mem : allocation) (file : Option (Option (List item))) (junk : Int × Int × Int)
    (ops : List net_op) :
    (∀ j, j < hidden →
      (compute_net expf (run_ops expf
        (match file with
          | none => make_learner learn input hidden output mem
          | some f => (load_net (make_learner learn input hidden output mem) f junk).2)
        ops)).hidden_sum.getD j 0 =
      scratch_hidden_sum (compute_net expf (run_ops expf
        (match file with
          | none => make_learner learn input hidden output mem
          | some f => (load_net (make_learner learn input hidden output mem) f junk).2)
        ops)) j) ∧
    (compute_net expf (run_ops expf
      (match file with
        | none => make_learner learn input hidden output mem
        | some f => (load_net (make_learner learn input hidden output mem) f junk).2)
      ops)).prev_input =
    (compute_net expf (run_ops expf
      (match file with
        | none => make_learner learn input hidden output mem
        | some f => (load_net (make_learner learn input hidden output mem) f junk).2)
      ops)).input_value := by
  have hstart : cleared (match file with
      | none => make_learner learn input hidden output mem
      | some f => (load_net (make_learner learn input hidden output mem) f junk).2) := by
    cases file with
    | none => exact make_learner_cleared learn input hidden output mem
    | some f =>
      exact cleared_of_same _ _ (same_shape_load_net _ f junk)
        (make_learner_cleared learn input hidden output mem)
  have hnh : (match file with
      | none => make_learner learn input hidden output mem
      | some f => (load_net (make_learner learn input hidden output mem) f junk).2).num_hidden
      = (hidden : Int) := by
    cases file with
    | none => rfl
    | some f => exact (same_shape_load_net _ f junk).2.1
  generalize (match file with
      | none => make_learner learn input hidden output mem
      | some f => (load_net (make_learner learn input hidden output mem) f junk).2) = l0
    at hstart hnh
  have hrun := run_ops_stored expf ops l0 (cleared_stored l0 hstart)
  have hfin := compute_net_stored expf (run_ops expf l0 ops) hrun
  refine ⟨?_, hfin.2.1⟩
  intro j hj
  apply hfin.2.2 j
  -- the number of hidden nodes never changes
  have hkeep : ∀ (ops : List net_op) (l : net),
      (run_ops expf l ops).num_hidden = l.num_hidden := by
    intro ops
    induction ops with
    | nil => intro l; rfl
    | cons op rest ih =>
      intro l
      unfold run_ops
      rw [List.foldl_cons]
      have := ih (run_op expf l op)
      unfold run_ops at this
      rw [this]
      cases op with
      | set_input n x => rfl
      | compute => exact (compute_net_keeps_hidden expf l)
      | train lambda desired => exact (train_net_keeps_hidden expf l lambda desired)
  rw [compute_net_keeps_hidden, hkeep, hnh]
  simpa using hj

/-! ### Saving and loading weights -/

/-- The cell written by `m[j][i] = x` holds `x`. -/
theorem matrix_set_self (m : List (List ℚ)) (j i : Nat) (x : ℚ) (hj : j < m.length)
    (hi : i < (m.getD j []).length) :
    ((m.set j ((m.getD j []).set i x)).getD j []).getD i 0 = x := by
  have h1 : (m.set j ((m.getD j []).set i x)).getD j [] = (m.getD j []).set i x := by
    simp [List.getD_eq_getElem?_getD, List.getElem?_set, hj]
  rw [h1]
  exact getD_set_self _ _ _ hi

/-- The assignment `m[j][i] = x` leaves the other cells alone. -/
theorem matrix_set_other (m : List (List ℚ)) (j i j2 i2 : Nat) (x : ℚ)
    (h : (j2, i2) ≠ (j, i)) :
    ((m.set j ((m.getD j []).set i x)).getD j2 []).getD i2 0 = (m.getD j2 []).getD i2 0 := by
  by_cases hj : j2 = j
  · subst hj
    have hi : i ≠ i2 := by
      intro hi
      apply h
      rw [hi]
    by_cases hlen : j2 < m.length
    · have h1 : (m.set j2 ((m.getD j2 []).set i x)).getD j2 [] = (m.getD j2 []).set i x := by
        simp [List.getD_eq_getElem?_getD, List.getElem?_set, hlen]
      rw [h1]
      exact getD_set_other _ _ _ _ hi
    · have h1 : m.set j2 ((m.getD j2 []).set i x) = m := by
        apply List.set_eq_of_length_le
        omega
      rw [h1]
  · have h1 : (m.set j ((m.getD j []).set i x)).getD j2 [] = m.getD j2 [] := by
      simp [List.getD_eq_getElem?_getD, List.getElem?_set, Ne.symm hj]
    rw [h1]

/-- The assignment `m[j][i] = x` keeps the sizes of the matrix. -/
theorem matrix_set_length (m : List (List ℚ)) (j i : Nat) (x : ℚ) :
    (m.set j ((m.getD j []).set i x)).length = m.length ∧
    ∀ j2, ((m.set j ((m.getD j []).set i x)).getD j2 []).length = (m.getD j2 []).length := by
  refine ⟨by simp, ?_⟩
  intro j2
  by_cases hj : j2 = j
  · subst hj
    by_cases hlen : j2 < m.length
    · have h1 : (m.set j2 ((m.getD j2 []).set i x)).getD j2 [] = (m.getD j2 []).set i x := by
        simp [List.getD_eq_getElem?_getD, List.getElem?_set, hlen]
      rw [h1]
      simp
    · have h1 : m.set j2 ((m.getD j2 []).set i x) = m := by
        apply List.set_eq_of_length_le
        omega
      rw [h1]
  · have h1 : (m.set j ((m.getD j []).set i x)).getD j2 [] = m.getD j2 [] := by
      simp [List.getD_eq_getElem?_getD, List.getElem?_set, Ne.symm hj]
    rw [h1]

/-- A loop of `load_net` over a file that holds a number for every cell stores
them all. -/
theorem read_cells_saved (put : net → Nat × Nat → ℚ → net) (v : Nat × Nat → ℚ)
    (cells : List (Nat × Nat)) :
    ∀ (l : net) (rest : List item),
      read_cells put cells l (cells.map (fun c => item.real (v c)) ++ rest) =
        (true, cells.foldl (fun l c => put l c (v c)) l, rest) := by
  induction cells with
  | nil => intro l rest; rfl
  | cons c cs ih =>
    intro l rest
    rw [List.map_cons, List.cons_append]
    unfold read_cells
    simp only [scan_real, List.foldl_cons]
    exact ih _ _

/-- Storing a value in every hidden-weight cell of a list: the cells of the
list hold their values, the others and the rest of the net are unchanged. -/
theorem fold_set_hw (v : Nat × Nat → ℚ) (cells : List (Nat × Nat)) :
    ∀ (l : net),
      (∀ c ∈ cells, c.1 < l.hidden_weight.length ∧
        c.2 < (l.hidden_weight.getD c.1 []).length) →
      (∀ c ∈ cells, (cells.foldl (fun l c => l.set_hw c.1 c.2 (v c)) l).hw c.1 c.2 = v c) ∧
      (∀ j i, (j, i) ∉ cells →
        (cells.foldl (fun l c => l.set_hw c.1 c.2 (v c)) l).hw j i = l.hw j i) ∧
      (cells.foldl (fun l c => l.set_hw c.1 c.2 (v c)) l).output_weight = l.output_weight ∧
      (cells.foldl (fun l c => l.set_hw c.1 c.2 (v c)) l).num_training = l.num_training ∧
      (cells.foldl (fun l c => l.set_hw c.1 c.2 (v c)) l).num_output = l.num_output ∧
      same_shape (cells.foldl (fun l c => l.set_hw c.1 c.2 (v c)) l) l := by
  induction cells with
  | nil => intro l _; exact ⟨fun c hc => absurd hc (List.not_mem_nil c), fun _ _ _ => rfl, rfl,
      rfl, rfl, same_shape_refl l⟩
  | cons c cs ih =>
    intro l hr
    rw [List.foldl_cons]
    have hlen := matrix_set_length l.hidden_weight c.1 c.2 (v c)
    have hr2 : ∀ d ∈ cs, d.1 < (l.set_hw c.1 c.2 (v c)).hidden_weight.length ∧
        d.2 < ((l.set_hw c.1 c.2 (v c)).hidden_weight.getD d.1 []).length := by
      intro d hd
      have := hr d (List.mem_cons_of_mem c hd)
      unfold net.set_hw
      dsimp only
      rw [hlen.1, hlen.2]
      exact this
    obtain ⟨h1, h2, h3, h4, h5, h6⟩ := ih (l.set_hw c.1 c.2 (v c)) hr2
    have hc := hr c (List.mem_cons_self c cs)
    have hself : (l.set_hw c.1 c.2 (v c)).hw c.1 c.2 = v c :=
      matrix_set_self l.hidden_weight c.1 c.2 (v c) hc.1 hc.2
    refine ⟨?_, ?_, h3, h4, h5, same_shape_trans h6 (same_shape_set_hw _ _ _ _)⟩
    · intro d hd
      by_cases hdc : d ∈ cs
      · exact h1 d hdc
      · have hd2 : d = c := by
          rcases List.mem_cons.mp hd with h | h
          · exact h
          · exact absurd h hdc
        subst hd2
        rw [h2 d.1 d.2 hdc]
        exact hself
    · intro j i hji
      have hne : (j, i) ≠ c := fun h => hji (h ▸ List.mem_cons_self c cs)
      have hnot : (j, i) ∉ cs := fun h => hji (List.mem_cons_of_mem c h)
      rw [h2 j i hnot]
      exact matrix_set_other l.hidden_weight c.1 c.2 j i (v c) hne

/-- Storing a value in every output-weight cell of a list: the cells of the
list hold their values, the others and the rest of the net are unchanged. -/
theorem fold_set_ow (v : Nat × Nat → ℚ) (cells : List (Nat × Nat)) :
    ∀ (l : net),
      (∀ c ∈ cells, c.1 < l.output_weight.length ∧
        c.2 < (l.output_weight.getD c.1 []).length) →
      (∀ c ∈ cells, (cells.foldl (fun l c => l.set_ow c.1 c.2 (v c)) l).ow c.1 c.2 = v c) ∧
      (∀ j i, (j, i) ∉ cells →
        (cells.foldl (fun l c => l.set_ow c.1 c.2 (v c)) l).ow j i = l.ow j i) ∧
      (cells.foldl (fun l c => l.set_ow c.1 c.2 (v c)) l).hidden_weight = l.hidden_weight ∧
      (cells.foldl (fun l c => l.set_ow c.1 c.2 (v c)) l).num_training = l.num_training ∧
      (cells.foldl (fun l c => l.set_ow c.1 c.2 (v c)) l).num_output = l.num_output ∧
      same_shape (cells.foldl (fun l c => l.set_ow c.1 c.2 (v c)) l) l := by
  induction cells with
  | nil => intro l _; exact ⟨fun c hc => absurd hc (List.not_mem_nil c), fun _ _ _ => rfl, rfl,
      rfl, rfl, same_shape_refl l⟩
  | cons c cs ih =>
    intro l hr
    rw [List.foldl_cons]
    have hlen := matrix_set_length l.output_weight c.1 c.2 (v c)
    have hr2 : ∀ d ∈ cs, d.1 < (l.set_ow c.1 c.2 (v c)).output_weight.length ∧
        d.2 < ((l.set_ow c.1 c.2 (v c)).output_weight.getD d.1 []).length := by
      intro d hd
      have := hr d (List.mem_cons_of_mem c hd)
      unfold net.set_ow
      dsimp only
      rw [hlen.1, hlen.2]
      exact this
    obtain ⟨h1, h2, h3, h4, h5, h6⟩ := ih (l.set_ow c.1 c.2 (v c)) hr2
    have hc := hr c (List.mem_cons_self c cs)
    have hself : (l.set_ow c.1 c.2 (v c)).ow c.1 c.2 = v c :=
      matrix_set_self l.output_weight c.1 c.2 (v c) hc.1 hc.2
    refine ⟨?_, ?_, h3, h4, h5, same_shape_trans h6 (same_shape_set_ow _ _ _ _)⟩
    · intro d hd
      by_cases hdc : d ∈ cs
      · exact h1 d hdc
      · have hd2 : d = c := by
          rcases List.mem_cons.mp hd with h | h
          · exact h
          · exact absurd h hdc
        subst hd2
        rw [h2 d.1 d.2 hdc]
        exact hself
    · intro j i hji
      have hne : (j, i) ≠ c := fun h => hji (h ▸ List.mem_cons_self c cs)
      have hnot : (j, i) ∉ cs := fun h => hji (List.mem_cons_of_mem c h)
      rw [h2 j i hnot]
      exact matrix_set_other l.output_weight c.1 c.2 j i (v c) hne

theorem mem_hidden_cells (l : net) (c : Nat × Nat) :
    c ∈ hidden_cells l ↔ c.1 < (l.num_inputs + 1).toNat ∧ c.2 < l.num_hidden.toNat := by
  unfold hidden_cells
  rw [List.mem_flatMap]
  constructor
  · rintro ⟨i, hi, hc⟩
    obtain ⟨j, hj, hjc⟩ := List.mem_map.mp hc
    rw [← hjc]
    exact ⟨List.mem_range.mp hj, List.mem_range.mp hi⟩
  · rintro ⟨h1, h2⟩
    exact ⟨c.2, List.mem_range.mpr h2, List.mem_map.mpr ⟨c.1, List.mem_range.mpr h1, rfl⟩⟩

theorem mem_output_cells (l : net) (c : Nat × Nat) :
    c ∈ output_cells l ↔ c.1 < (l.num_hidden + 1).toNat ∧ c.2 < l.num_output.toNat := by
  unfold output_cells
  rw [List.mem_flatMap]
  constructor
  · rintro ⟨i, hi, hc⟩
    obtain ⟨j, hj, hjc⟩ := List.mem_map.mp hc
    rw [← hjc]
    exact ⟨List.mem_range.mp hj, List.mem_range.mp hi⟩
  · rintro ⟨h1, h2⟩
    exact ⟨c.2, List.mem_range.mpr h2, List.mem_map.mpr ⟨c.1, List.mem_range.mpr h1, rfl⟩⟩

/-- `load_net` on a file that starts with three integers: the sizes are
compared, and the rest of the file is read when they match. -/
theorem load_net_header (learn : net) (a b c : Int) (rest : List item)
    (junk : Int × Int × Int) :
    load_net learn (some (item.int a :: item.int b :: item.int c :: rest)) junk =
      if a ≠ learn.num_inputs ∨ b ≠ learn.num_hidden ∨ c ≠ learn.num_output then (-1, learn)
      else load_weights (load_training learn rest).1 (load_training learn rest).2 := by
  unfold load_net
  simp only [scan_sizes, scan_int]

theorem ow_congr (a b : net) (h : a.output_weight = b.output_weight) (j i : Nat) :
    a.ow j i = b.ow j i := by
  unfold net.ow
  rw [h]

/-- The two loops of `load_net` on the weights written by `save_net` for a net
of the same sizes: every weight is read into its cell. -/
theorem load_weights_saved (src dst : net) (h1 : dst.num_inputs = src.num_inputs)
    (h2 : dst.num_hidden = src.num_hidden) (h3 : dst.num_output = src.num_output)
    (hw : weights_allocated dst) :
    (load_weights dst ((hidden_cells src).map (fun c => item.real (src.hw c.1 c.2)) ++
      (output_cells src).map (fun c => item.real (src.ow c.1 c.2)))).1 = 0 ∧
    (load_weights dst ((hidden_cells src).map (fun c => item.real (src.hw c.1 c.2)) ++
      (output_cells src).map (fun c => item.real (src.ow c.1 c.2)))).2.num_training =
        dst.num_training ∧
    (∀ j i, j < (src.num_inputs + 1).toNat → i < src.num_hidden.toNat →
      (load_weights dst ((hidden_cells src).map (fun c => item.real (src.hw c.1 c.2)) ++
        (output_cells src).map (fun c => item.real (src.ow c.1 c.2)))).2.hw j i =
          src.hw j i) ∧
    (∀ j i, j < (src.num_hidden + 1).toNat → i < src.num_output.toNat →
      (load_weights dst ((hidden_cells src).map (fun c => item.real (src.hw c.1 c.2)) ++
        (output_cells src).map (fun c => item.real (src.ow c.1 c.2)))).2.ow j i =
          src.ow j i) := by
  obtain ⟨w1, w2, w3, w4⟩ := hw
  have hcells : hidden_cells dst = hidden_cells src := by
    unfold hidden_cells
    rw [h1, h2]
  have hh := read_cells_saved (fun l c x => l.set_hw c.1 c.2 x) (fun c => src.hw c.1 c.2)
    (hidden_cells src) dst ((output_cells src).map (fun c => item.real (src.ow c.1 c.2)))
  have fh := fold_set_hw (fun c => src.hw c.1 c.2) (hidden_cells src) dst
    (by
      intro c hc
      have := (mem_hidden_cells src c).mp hc
      rw [← h1, ← h2] at this
      exact ⟨by omega, lt_of_lt_of_le this.2 (w2 c.1 this.1)⟩)
  set mid := (hidden_cells src).foldl (fun l c => l.set_hw c.1 c.2 (src.hw c.1 c.2)) dst
    with hmid
  obtain ⟨a1, a2, a3, a4, a5, a6⟩ := fh
  have hocells : output_cells mid = output_cells src := by
    unfold output_cells
    rw [a5, a6.2.1, h2, h3]
  have ho := read_cells_saved (fun l c x => l.set_ow c.1 c.2 x) (fun c => src.ow c.1 c.2)
    (output_cells src) mid []
  rw [List.append_nil] at ho
  have fo := fold_set_ow (fun c => src.ow c.1 c.2) (output_cells src) mid
    (by
      intro c hc
      have := (mem_output_cells src c).mp hc
      rw [← h2, ← h3] at this
      rw [a3]
      exact ⟨by omega, lt_of_lt_of_le this.2 (w4 c.1 this.1)⟩)
  obtain ⟨b1, b2, b3, b4, b5, b6⟩ := fo
  have hres : load_weights dst ((hidden_cells src).map (fun c => item.real (src.hw c.1 c.2)) ++
      (output_cells src).map (fun c => item.real (src.ow c.1 c.2))) =
      (0, (output_cells src).foldl (fun l c => l.set_ow c.1 c.2 (src.ow c.1 c.2)) mid) := by
    unfold load_weights
    dsimp only
    rw [hcells, hh]
    dsimp only
    rw [if_neg (by simp), hocells, ho]
    dsimp only
    rw [if_neg (by simp)]
  rw [hres]
  dsimp only
  refine ⟨rfl, by rw [b4, a4], ?_, ?_⟩
  · intro j i hj hi
    rw [hw_congr _ mid b3 j i]
    exact a1 (j, i) ((mem_hidden_cells src (j, i)).mpr ⟨hj, hi⟩)
  · intro j i hj hi
    exact b1 (j, i) ((mem_output_cells src (j, i)).mpr ⟨hj, hi⟩)

/-- The net `make_learner` builds has weight matrices of the allocated sizes. -/
theorem make_learner_allocated (learn : net) (input hidden output : Nat)
    (mem : allocation) : weights_allocated (make_learner learn input hidden output mem) := by
  unfold weights_allocated make_learner
  dsimp only
  refine ⟨?_, ?_, ?_, ?_⟩
  · rw [List.length_map, List.length_range]; omega
  · intro j hj
    have hj2 : j < input + 1 := by omega
    simp [List.getD_eq_getElem?_getD, List.getElem?_map, List.getElem?_range, hj2]
  · rw [List.length_map, List.length_range]; omega
  · intro j hj
    have hj2 : j < hidden + 1 := by omega
    simp [List.getD_eq_getElem?_getD, List.getElem?_map, List.getElem?_range, hj2]

/-- C17: with the file taken as the sequence of the values written, `load_net`
applied to the output of `save_net` on a network of the same dimensions (with
weight matrices of the allocated sizes) returns 0 and restores `num_training`
and every weight to the same matrix position: `hidden_weight[j][i]` for every
input `j` in `0..num_inputs` and hidden unit `i`, and `output_weight[j][i]` for
every hidden slot `j` in `0..num_hidden` and output `i`. -/
theorem load_net_save_net (src dst : net) (junk : Int × Int × Int)
    (h1 : dst.num_inputs = src.num_inputs) (h2 : dst.num_hidden = src.num_hidden)
    (h3 : dst.num_output = src.num_output) (hw : weights_allocated dst) :
    (load_net dst (some (save_net src)) junk).1 = 0 ∧
    (load_net dst (some (save_net src)) junk).2.num_training = src.num_training ∧
    (∀ j i, j < (src.num_inputs + 1).toNat → i < src.num_hidden.toNat →
      (load_net dst (some (save_net src)) junk).2.hw j i = src.hw j i) ∧
    (∀ j i, j < (src.num_hidden + 1).toNat → i < src.num_output.toNat →
      (load_net dst (some (save_net src)) junk).2.ow j i = src.ow j i) := by
  have hsave : save_net src = item.int src.num_inputs :: item.int src.num_hidden ::
      item.int src.num_output :: item.int src.num_training ::
      ((hidden_cells src).map (fun c => item.real (src.hw c.1 c.2)) ++
        (output_cells src).map (fun c => item.real (src.ow c.1 c.2))) := by
    unfold save_net
    simp
  have htr : load_training dst (item.int src.num_training ::
      ((hidden_cells src).map (fun c => item.real (src.hw c.1 c.2)) ++
        (output_cells src).map (fun c => item.real (src.ow c.1 c.2)))) =
      ({ dst with num_training := src.num_training },
        (hidden_cells src).map (fun c => item.real (src.hw c.1 c.2)) ++
          (output_cells src).map (fun c => item.real (src.ow c.1 c.2))) := rfl
  rw [hsave, load_net_header, if_neg (by rw [h1, h2, h3]; simp), htr]
  exact load_weights_saved src { dst with num_training := src.num_training } h1 h2 h3 hw

/-- Witness for C17: the weights of one net of the program's size are saved and
loaded into another. -/
theorem load_net_save_net_witness :
    (favouring_net 0 1).num_inputs = (favouring_net 1 0).num_inputs ∧
    (favouring_net 0 1).num_hidden = (favouring_net 1 0).num_hidden ∧
    (favouring_net 0 1).num_output = (favouring_net 1 0).num_output ∧
    weights_allocated (favouring_net 0 1) ∧
    (load_net (favouring_net 0 1) (some (save_net (favouring_net 1 0))) (0, 0, 0)).1 = 0 ∧
    (load_net (favouring_net 0 1) (some (save_net (favouring_net 1 0)))
      (0, 0, 0)).2.num_training = (favouring_net 1 0).num_training ∧
    (∀ j i, j < ((favouring_net 1 0).num_inputs + 1).toNat →
      i < (favouring_net 1 0).num_hidden.toNat →
      (load_net (favouring_net 0 1) (some (save_net (favouring_net 1 0))) (0, 0, 0)).2.hw j i =
        (favouring_net 1 0).hw j i) ∧
    (∀ j i, j < ((favouring_net 1 0).num_hidden + 1).toNat →
      i < (favouring_net 1 0).num_output.toNat →
      (load_net (favouring_net 0 1) (some (save_net (favouring_net 1 0))) (0, 0, 0)).2.ow j i =
        (favouring_net 1 0).ow j i) :=
  ⟨rfl, rfl, rfl, make_learner_allocated default NET_INPUT HIDDEN_NODES 2 _,
    load_net_save_net (favouring_net 1 0) (favouring_net 0 1) (0, 0, 0) rfl rfl rfl
      (make_learner_allocated default NET_INPUT HIDDEN_NODES 2 _)⟩

/-- A loop of `load_net` over a file that ends, or holds no number, after the
numbers for the cells `pre`: they are stored and the loop fails at the next
cell. -/
theorem read_cells_stops (put : net → Nat × Nat → ℚ → net) (v : Nat × Nat → ℚ)
    (pre : List (Nat × Nat)) (c : Nat × Nat) (post : List (Nat × Nat)) (bad : List item)
    (hbad : scan_real bad = (none, bad)) :
    ∀ (l : net),
      read_cells put (pre ++ c :: post) l (pre.map (fun c => item.real (v c)) ++ bad) =
        (false, pre.foldl (fun l c => put l c (v c)) l, bad) := by
  induction pre with
  | nil =>
    intro l
    rw [List.nil_append, List.map_nil, List.nil_append]
    unfold read_cells
    rw [hbad]
    rfl
  | cons d ds ih =>
    intro l
    rw [List.cons_append, List.map_cons, List.cons_append]
    unfold read_cells
    simp only [scan_real, List.foldl_cons]
    exact ih _

/-- A list cut before its end is the part taken, a next element, and a rest. -/
theorem take_then_next {α : Type} (xs : List α) (n : Nat) (h : n < xs.length) :
    ∃ c post, xs = xs.take n ++ c :: post := by
  have hd : (xs.drop n).length = xs.length - n := List.length_drop n xs
  cases hdrop : xs.drop n with
  | nil =>
    rw [hdrop] at hd
    simp at hd
    omega
  | cons c post =>
    refine ⟨c, post, ?_⟩
    rw [← hdrop, List.take_append_drop]

/-- The two loops of `load_net` on the first `n` of the weights written by
`save_net` for a net of the same sizes, followed by the end of the file or by
text that is no number: the loops fail, after the weights read have been
stored. -/
theorem load_weights_truncated (src dst : net) (h1 : dst.num_inputs = src.num_inputs)
    (h2 : dst.num_hidden = src.num_hidden) (h3 : dst.num_output = src.num_output)
    (hw : weights_allocated dst) (n : Nat)
    (hn : n < (hidden_cells src).length + (output_cells src).length) (bad : List item)
    (hbad : scan_real bad = (none, bad)) :
    (load_weights dst (((hidden_cells src).map (fun c => item.real (src.hw c.1 c.2)) ++
      (output_cells src).map (fun c => item.real (src.ow c.1 c.2))).take n ++ bad)).1 = -1 ∧
    (load_weights dst (((hidden_cells src).map (fun c => item.real (src.hw c.1 c.2)) ++
      (output_cells src).map (fun c => item.real (src.ow c.1 c.2))).take n ++
        bad)).2.num_training = dst.num_training ∧
    (∀ c ∈ (hidden_cells src).take n,
      (load_weights dst (((hidden_cells src).map (fun c => item.real (src.hw c.1 c.2)) ++
        (output_cells src).map (fun c => item.real (src.ow c.1 c.2))).take n ++
          bad)).2.hw c.1 c.2 = src.hw c.1 c.2) ∧
    (∀ j i, (j, i) ∉ (hidden_cells src).take n →
      (load_weights dst (((hidden_cells src).map (fun c => item.real (src.hw c.1 c.2)) ++
        (output_cells src).map (fun c => item.real (src.ow c.1 c.2))).take n ++
          bad)).2.hw j i = dst.hw j i) ∧
    (∀ c ∈ (output_cells src).take (n - (hidden_cells src).length),
      (load_weights dst (((hidden_cells src).map (fun c => item.real (src.hw c.1 c.2)) ++
        (output_cells src).map (fun c => item.real (src.ow c.1 c.2))).take n ++
          bad)).2.ow c.1 c.2 = src.ow c.1 c.2) ∧
    (∀ j i, (j, i) ∉ (output_cells src).take (n - (hidden_cells src).length) →
      (load_weights dst (((hidden_cells src).map (fun c => item.real (src.hw c.1 c.2)) ++
        (output_cells src).map (fun c => item.real (src.ow c.1 c.2))).take n ++
          bad)).2.ow j i = dst.ow j i) := by
  obtain ⟨w1, w2, w3, w4⟩ := hw
  have hcells : hidden_cells dst = hidden_cells src := by
    unfold hidden_cells
    rw [h1, h2]
  have hrange_h : ∀ c ∈ hidden_cells src, c.1 < dst.hidden_weight.length ∧
      c.2 < (dst.hidden_weight.getD c.1 []).length := by
    intro c hc
    have := (mem_hidden_cells src c).mp hc
    rw [← h1, ← h2] at this
    exact ⟨by omega, lt_of_lt_of_le this.2 (w2 c.1 this.1)⟩
  have htake : ((hidden_cells src).map (fun c => item.real (src.hw c.1 c.2)) ++
      (output_cells src).map (fun c => item.real (src.ow c.1 c.2))).take n =
      ((hidden_cells src).take n).map (fun c => item.real (src.hw c.1 c.2)) ++
      ((output_cells src).take (n - (hidden_cells src).length)).map
        (fun c => item.real (src.ow c.1 c.2)) := by
    rw [List.take_append_eq_append_take, List.length_map, List.map_take, List.map_take]
  rw [htake]
  by_cases hlt : n < (hidden_cells src).length
  · -- the failure is in the loop over the hidden weights
    have hz : n - (hidden_cells src).length = 0 := by omega
    rw [hz, List.take_zero, List.map_nil, List.append_nil]
    obtain ⟨c, post, hsplit⟩ := take_then_next (hidden_cells src) n hlt
    have hstop := read_cells_stops (fun l c x => l.set_hw c.1 c.2 x)
      (fun c => src.hw c.1 c.2) ((hidden_cells src).take n) c post bad hbad dst
    rw [← hsplit] at hstop
    have fh := fold_set_hw (fun c => src.hw c.1 c.2) ((hidden_cells src).take n) dst
      (fun c hc => hrange_h c (List.mem_of_mem_take hc))
    obtain ⟨a1, a2, a3, a4, a5, a6⟩ := fh
    have hres : load_weights dst
        (((hidden_cells src).take n).map (fun c => item.real (src.hw c.1 c.2)) ++ bad) =
        (-1, ((hidden_cells src).take n).foldl
          (fun l c => l.set_hw c.1 c.2 (src.hw c.1 c.2)) dst) := by
      unfold load_weights
      dsimp only
      rw [hcells, hstop]
      rfl
    rw [hres]
    dsimp only
    exact ⟨rfl, a4, a1, a2, fun c hc => absurd hc (List.not_mem_nil c),
      fun j i _ => ow_congr _ _ a3 j i⟩
  · -- the failure is in the loop over the output weights
    have hge : (hidden_cells src).length ≤ n := by omega
    rw [List.take_of_length_le hge, List.append_assoc]
    have hh := read_cells_saved (fun l c x => l.set_hw c.1 c.2 x) (fun c => src.hw c.1 c.2)
      (hidden_cells src) dst
      (((output_cells src).take (n - (hidden_cells src).length)).map
        (fun c => item.real (src.ow c.1 c.2)) ++ bad)
    have fh := fold_set_hw (fun c => src.hw c.1 c.2) (hidden_cells src) dst hrange_h
    set mid := (hidden_cells src).foldl (fun l c => l.set_hw c.1 c.2 (src.hw c.1 c.2)) dst
      with hmid
    obtain ⟨a1, a2, a3, a4, a5, a6⟩ := fh
    have hocells : output_cells mid = output_cells src := by
      unfold output_cells
      rw [a5, a6.2.1, h2, h3]
    obtain ⟨c, post, hsplit⟩ := take_then_next (output_cells src)
      (n - (hidden_cells src).length) (by omega)
    have hstop := read_cells_stops (fun l c x => l.set_ow c.1 c.2 x)
      (fun c => src.ow c.1 c.2) ((output_cells src).take (n - (hidden_cells src).length))
      c post bad hbad mid
    rw [← hsplit] at hstop
    have fo := fold_set_ow (fun c => src.ow c.1 c.2)
      ((output_cells src).take (n - (hidden_cells src).length)) mid
      (by
        intro c hc
        have := (mem_output_cells src c).mp (List.mem_of_mem_take hc)
        rw [← h2, ← h3] at this
        rw [a3]
        exact ⟨by omega, lt_of_lt_of_le this.2 (w4 c.1 this.1)⟩)
    obtain ⟨b1, b2, b3, b4, b5, b6⟩ := fo
    have hres : load_weights dst
        ((hidden_cells src).map (fun c => item.real (src.hw c.1 c.2)) ++
          (((output_cells src).take (n - (hidden_cells src).length)).map
            (fun c => item.real (src.ow c.1 c.2)) ++ bad)) =
        (-1, ((output_cells src).take (n - (hidden_cells src).length)).foldl
          (fun l c => l.set_ow c.1 c.2 (src.ow c.1 c.2)) mid) := by
      unfold load_weights
      dsimp only
      rw [hcells, hh]
      dsimp only
      rw [if_neg (by simp), hocells, hstop]
      rfl
    rw [hres]
    dsimp only
    refine ⟨rfl, by rw [b4, a4], ?_, ?_, b1, ?_⟩
    · intro c hc
      rw [hw_congr _ mid b3 c.1 c.2]
      exact a1 c hc
    · intro j i hji
      rw [hw_congr _ mid b3 j i]
      exact a2 j i hji
    · intro j i hji
      rw [b2 j i hji]
      exact ow_congr _ _ a3 j i

/-- C18: `load_net` reports failure (returns -1) whenever the file cannot be
opened or any of the three declared sizes (input, hidden, output) differs from
the network's own, and in that case the network, with its weights and its
training-iteration counter, is as it was before the call. -/
theorem load_net_rejects (learn : net) (a b c : Int) (rest : List item)
    (junk : Int × Int × Int)
    (hmis : a ≠ learn.num_inputs ∨ b ≠ learn.num_hidden ∨ c ≠ learn.num_output) :
    load_net learn none junk = (-1, learn) ∧
    load_net learn (some (item.int a :: item.int b :: item.int c :: rest)) junk =
      (-1, learn) := by
  refine ⟨rfl, ?_⟩
  rw [load_net_header, if_pos hmis]

/-- Witness for C18: a file for a net with three outputs. -/
theorem load_net_rejects_witness :
    ((443 : Int) ≠ heavy_net.num_inputs ∨ (50 : Int) ≠ heavy_net.num_hidden ∨
      (3 : Int) ≠ heavy_net.num_output) ∧
    load_net heavy_net none (0, 0, 0) = (-1, heavy_net) ∧
    load_net heavy_net (some (item.int 443 :: item.int 50 :: item.int 3 ::
      [item.int 9, item.real 1])) (0, 0, 0) = (-1, heavy_net) :=
  ⟨Or.inr (Or.inr (by decide)),
    load_net_rejects heavy_net 443 50 3 [item.int 9, item.real 1] (0, 0, 0)
      (Or.inr (Or.inr (by decide)))⟩

/-- `load_net` on the first items of a saved file: the header, the training
counter and `n` weights, followed by the end of the file or by text that is no
number. -/
theorem load_net_cut (src dst : net) (junk : Int × Int × Int)
    (h1 : dst.num_inputs = src.num_inputs) (h2 : dst.num_hidden = src.num_hidden)
    (h3 : dst.num_output = src.num_output) (n : Nat) (bad : List item) :
    load_net dst (some ((save_net src).take (4 + n) ++ bad)) junk =
      load_weights { dst with num_training := src.num_training }
        (((hidden_cells src).map (fun c => item.real (src.hw c.1 c.2)) ++
          (output_cells src).map (fun c => item.real (src.ow c.1 c.2))).take n ++ bad) := by
  have hsave : (save_net src).take (4 + n) ++ bad =
      item.int src.num_inputs :: item.int src.num_hidden ::
      item.int src.num_output :: item.int src.num_training ::
      (((hidden_cells src).map (fun c => item.real (src.hw c.1 c.2)) ++
        (output_cells src).map (fun c => item.real (src.ow c.1 c.2))).take n ++ bad) := by
    unfold save_net
    have h4 : 4 + n = n + 1 + 1 + 1 + 1 := by omega
    rw [h4]
    simp [List.take_succ_cons]
  rw [hsave, load_net_header, if_neg (by rw [h1, h2, h3]; simp)]
  rfl

/-- C19, counterexample: a net of the program's size with all hidden weights 0
and training counter 0 loads a file with the right header that ends after the
first weight.  `load_net` returns -1, and the net is left with the training
counter 5 of the file and with the weight 7 in `hidden_weight[0][0]`. -/
theorem load_net_partial :
    (save_net heavy_net).take 5 =
      [item.int 443, item.int 50, item.int 2, item.int 5, item.real 7] ∧
    (load_net (favouring_net 0 1) (some ((save_net heavy_net).take 5)) (0, 0, 0)).1 = -1 ∧
    (favouring_net 0 1).num_training = 0 ∧
    (load_net (favouring_net 0 1) (some ((save_net heavy_net).take 5))
      (0, 0, 0)).2.num_training = 5 ∧
    (favouring_net 0 1).hw 0 0 = 0 ∧
    (load_net (favouring_net 0 1) (some ((save_net heavy_net).take 5)) (0, 0, 0)).2.hw 0 0 =
      7 := by
  have hcut := load_net_cut heavy_net (favouring_net 0 1) (0, 0, 0) rfl rfl rfl 1 []
  rw [List.append_nil] at hcut
  have htake2 : (hidden_cells heavy_net).take 2 = [(0, 0), (1, 0)] := by decide
  have hlen : 1 < (hidden_cells heavy_net).length := by
    have := congrArg List.length htake2
    rw [List.length_take] at this
    simp at this
    omega
  have hmem : ((0, 0) : Nat × Nat) ∈ (hidden_cells heavy_net).take 1 := by
    have : (hidden_cells heavy_net).take 1 = [(0, 0)] := by
      have := congrArg (List.take 1) htake2
      rw [List.take_take] at this
      simpa using this
    rw [this]
    exact List.mem_singleton.mpr rfl
  have htr := load_weights_truncated heavy_net
    { favouring_net 0 1 with num_training := heavy_net.num_training } rfl rfl rfl
    (make_learner_allocated default NET_INPUT HIDDEN_NODES 2 _) 1 (by omega) [] rfl
  rw [List.append_nil] at htr
  have hw7 : heavy_net.hw 0 0 = 7 :=
    make_learner_hw default NET_INPUT HIDDEN_NODES 2 heavy_memory 0 0 (by decide) (by decide)
  have hw0 : (favouring_net 0 1).hw 0 0 = 0 :=
    make_learner_hw default NET_INPUT HIDDEN_NODES 2 (bias_memory HIDDEN_NODES 0 1) 0 0
      (by decide) (by decide)
  have hfile : (save_net heavy_net).take 5 =
      [item.int 443, item.int 50, item.int 2, item.int 5, item.real 7] := by
    have hh : (hidden_cells heavy_net) = (0, 0) :: (hidden_cells heavy_net).drop 1 := by
      have h1 : (hidden_cells heavy_net).take 1 = [(0, 0)] := by
        have := congrArg (List.take 1) htake2
        rw [List.take_take] at this
        simpa using this
      have := List.take_append_drop 1 (hidden_cells heavy_net)
      rw [h1] at this
      exact this.symm
    unfold save_net
    rw [hh, List.map_cons, hw7]
    rfl
  have h5 : (4 : Nat) + 1 = 5 := rfl
  rw [h5] at hcut
  rw [hcut]
  exact ⟨hfile, htr.1, rfl, htr.2.1, hw0, (htr.2.2.1 (0, 0) hmem).trans hw7⟩

/-- The file saved for `heavy_net` holds more than one weight. -/
theorem heavy_net_cells :
    1 < (hidden_cells heavy_net).length + (output_cells heavy_net).length := by
  have htake2 : (hidden_cells heavy_net).take 2 = [(0, 0), (1, 0)] := by decide
  have := congrArg List.length htake2
  rw [List.length_take] at this
  simp at this
  omega

/-- C19, amended: `load_net` leaves the network as it was when it fails before
the weight list (the file cannot be opened, or a declared size differs).  When
it fails in the weight list, that is on a saved file for a net of the same
sizes cut after the header, the training counter and `n` weights and followed
by the end of the file or by text that is no number, it returns -1 with the
training counter of the file and the weights read so far stored in the network
(with weight matrices of the allocated sizes); the weights not yet read keep
the values they had before the call. -/
theorem load_net_failure (src dst : net) (junk : Int × Int × Int)
    (h1 : dst.num_inputs = src.num_inputs) (h2 : dst.num_hidden = src.num_hidden)
    (h3 : dst.num_output = src.num_output) (hw : weights_allocated dst) (n : Nat)
    (hn : n < (hidden_cells src).length + (output_cells src).length) (bad : List item)
    (hbad : scan_real bad = (none, bad)) :
    load_net dst none junk = (-1, dst) ∧
    (∀ (a b c : Int) (rest : List item),
      a ≠ dst.num_inputs ∨ b ≠ dst.num_hidden ∨ c ≠ dst.num_output →
      load_net dst (some (item.int a :: item.int b :: item.int c :: rest)) junk =
        (-1, dst)) ∧
    (load_net dst (some ((save_net src).take (4 + n) ++ bad)) junk).1 = -1 ∧
    (load_net dst (some ((save_net src).take (4 + n) ++ bad)) junk).2.num_training =
      src.num_training ∧
    (∀ c ∈ (hidden_cells src).take n,
      (load_net dst (some ((save_net src).take (4 + n) ++ bad)) junk).2.hw c.1 c.2 =
        src.hw c.1 c.2) ∧
    (∀ j i, (j, i) ∉ (hidden_cells src).take n →
      (load_net dst (some ((save_net src).take (4 + n) ++ bad)) junk).2.hw j i =
        dst.hw j i) ∧
    (∀ c ∈ (output_cells src).take (n - (hidden_cells src).length),
      (load_net dst (some ((save_net src).take (4 + n) ++ bad)) junk).2.ow c.1 c.2 =
        src.ow c.1 c.2) ∧
    (∀ j i, (j, i) ∉ (output_cells src).take (n - (hidden_cells src).length) →
      (load_net dst (some ((save_net src).take (4 + n) ++ bad)) junk).2.ow j i =
        dst.ow j i) := by
  refine ⟨rfl, ?_, ?_⟩
  · intro a b c rest hmis
    rw [load_net_header, if_pos hmis]
  · rw [load_net_cut src dst junk h1 h2 h3 n bad]
    exact load_weights_truncated src { dst with num_training := src.num_training } h1 h2 h3
      hw n hn bad hbad

/-- Witness for the amended C19: the file saved for `heavy_net`, cut after the
first weight and followed by text, is loaded into a net with zero hidden
weights. -/
theorem load_net_failure_witness :
    (favouring_net 0 1).num_inputs = heavy_net.num_inputs ∧
    (favouring_net 0 1).num_hidden = heavy_net.num_hidden ∧
    (favouring_net 0 1).num_output = heavy_net.num_output ∧
    weights_allocated (favouring_net 0 1) ∧
    1 < (hidden_cells heavy_net).length + (output_cells heavy_net).length ∧
    scan_real [item.text] = (none, [item.text]) ∧
    load_net (favouring_net 0 1) none (0, 0, 0) = (-1, favouring_net 0 1) ∧
    (∀ (a b c : Int) (rest : List item),
      a ≠ (favouring_net 0 1).num_inputs ∨ b ≠ (favouring_net 0 1).num_hidden ∨
        c ≠ (favouring_net 0 1).num_output →
      load_net (favouring_net 0 1) (some (item.int a :: item.int b :: item.int c :: rest))
        (0, 0, 0) = (-1, favouring_net 0 1)) ∧
    (load_net (favouring_net 0 1) (some ((save_net heavy_net).take (4 + 1) ++ [item.text]))
      (0, 0, 0)).1 = -1 ∧
    (load_net (favouring_net 0 1) (some ((save_net heavy_net).take (4 + 1) ++ [item.text]))
      (0, 0, 0)).2.num_training = heavy_net.num_training ∧
    (∀ c ∈ (hidden_cells heavy_net).take 1,
      (load_net (favouring_net 0 1) (some ((save_net heavy_net).take (4 + 1) ++ [item.text]))
        (0, 0, 0)).2.hw c.1 c.2 = heavy_net.hw c.1 c.2) ∧
    (∀ j i, (j, i) ∉ (hidden_cells heavy_net).take 1 →
      (load_net (favouring_net 0 1) (some ((save_net heavy_net).take (4 + 1) ++ [item.text]))
        (0, 0, 0)).2.hw j i = (favouring_net 0 1).hw j i) ∧
    (∀ c ∈ (output_cells heavy_net).take (1 - (hidden_cells heavy_net).length),
      (load_net (favouring_net 0 1) (some ((save_net heavy_net).take (4 + 1) ++ [item.text]))
        (0, 0, 0)).2.ow c.1 c.2 = heavy_net.ow c.1 c.2) ∧
    (∀ j i, (j, i) ∉ (output_cells heavy_net).take (1 - (hidden_cells heavy_net).length) →
      (load_net (favouring_net 0 1) (some ((save_net heavy_net).take (4 + 1) ++ [item.text]))
        (0, 0, 0)).2.ow j i = (favouring_net 0 1).ow j i) :=
  ⟨rfl, rfl, rfl, make_learner_allocated default NET_INPUT HIDDEN_NODES 2 _, heavy_net_cells,
    rfl,
    load_net_failure heavy_net (favouring_net 0 1) (0, 0, 0) rfl rfl rfl
      (make_learner_allocated default NET_INPUT HIDDEN_NODES 2 _) 1 heavy_net_cells
      [item.text] rfl⟩

/-! ### The forced "satisfy" action -/

/-- Outside the character phase the loop over the cards to play runs to its
end. -/
theorem legal_plays_no_exit (E : Engine) (g : game) (checking_retreat : Int) (p : player)
    (hp : p.phase ≠ PHASE_CHAR) (idx : List Nat) :
    (legal_plays E g checking_retreat p idx).2 = false := by
  induction idx with
  | nil => rfl
  | cons i rest ih =>
    unfold legal_plays
    dsimp only
    split
    · exact ih
    · rw [if_neg (fun h => hp h.1)]
      exact ih

/-- C20, counterexample: in the leader phase of player 0 the phase-specific
pass yields the one action "advance the phase", and the opponent's card
`deck[1]` is an active, unsatisfied "discard or..." card that can be satisfied.
`legal_act` returns two actions: the advance of the phase, then `ACT_SATISFY`
for that card.  And when player 0 also has a special power to use, `legal_act`
returns the one action `ACT_USE`, without any `ACT_SATISFY`. -/
theorem legal_act_satisfy_added :
    (duty_game.p duty_game.turn).phase = PHASE_LEADER ∧
    play_pass ready_engine duty_game 0 = [mk_act ACT_NONE] ∧
    owes_discard ready_engine duty_game
      ((duty_game.p (other_player duty_game.turn)).card_at 1) = true ∧
    legal_act ready_engine duty_game 0 =
      [mk_act ACT_NONE, { mk_act ACT_SATISFY with arg := some duty_design }] ∧
    (legal_act ready_engine duty_game 0).length = 2 ∧
    owes_discard ready_engine duty_power_game
      ((duty_power_game.p (other_player duty_power_game.turn)).card_at 1) = true ∧
    legal_act ready_engine duty_power_game 0 =
      [{ mk_act ACT_USE with arg := some power_design }] := by
  refine ⟨by decide, by decide, by decide, by decide, by decide, by decide, by decide⟩

/-- C20, amended: in `legal_act`, in the Leader or Support phase, when no
automatic bluff call is due, no special power can be used, the phase-specific
pass yields at least one action, and some active, text-unignored, unsatisfied
opponent card carries a category-7 "discard or..." effect that can be
satisfied, the returned list is the list of the phase-specific pass followed by
exactly one more action: `ACT_SATISFY` whose argument is the first such opponent
card in deck order. -/
theorem legal_act_satisfy (E : Engine) (g : game) (checking_retreat : Int)
    (pre post : List card) (c : card)
    (hphase : (g.p g.turn).phase = PHASE_LEADER ∨ (g.p g.turn).phase = PHASE_SUPPORT)
    (hbluff : ¬ check_auto_bluff g 1 < 0) (huses : (legal_uses E g).length = 0)
    (hpass : (play_pass E g checking_retreat).length ≠ 0)
    (hdeck : (g.p (other_player g.turn)).loop_cards = pre ++ c :: post)
    (hc : owes_discard E g c = true) (hfirst : ∀ a ∈ pre, owes_discard E g a = false) :
    legal_act E g checking_retreat =
      play_pass E g checking_retreat ++ [{ mk_act ACT_SATISFY with arg := some c.d_ptr }] := by
  have hnotchar : (g.p g.turn).phase ≠ PHASE_CHAR := by
    rcases hphase with h | h <;> rw [h] <;> decide
  have hnotbegin : (g.p g.turn).phase ≠ PHASE_BEGIN := by
    rcases hphase with h | h <;> rw [h] <;> decide
  have hfind : (g.p (other_player g.turn)).loop_cards.find? (owes_discard E g) = some c := by
    rw [List.find?_eq_some]
    exact ⟨hc, pre, post, hdeck, fun a ha => by rw [hfirst a ha]; rfl⟩
  have hsat : ∀ legal : List action, legal.length ≠ 0 →
      legal_satisfy E g legal = legal ++ [{ mk_act ACT_SATISFY with arg := some c.d_ptr }] := by
    intro legal hl
    unfold legal_satisfy
    dsimp only
    rw [if_neg hl, if_neg hnotchar]
    have hf : (g.p (other_player g.turn)).loop_cards.find? (fun c =>
        c.active ≠ 0 && c.text_ignored = 0 && c.d_ptr.special_cat = 7 &&
        has_bits c.d_ptr.special_effect S7_DISCARD_MASK && c.used = 0 &&
        E.satisfy_possible g c.d_ptr ≠ 0) = some c := hfind
    rw [hf]
  have hexit := legal_plays_no_exit E g checking_retreat (g.p g.turn) hnotchar
    (later_indices (g.p g.turn))
  unfold legal_act
  dsimp only
  rw [if_neg hnotbegin, if_pos (by rcases hphase with h | h <;> simp [h])]
  unfold legal_play_phase
  dsimp only
  rw [if_neg hbluff, if_neg (by simp [huses]), hexit]
  unfold play_pass at hpass ⊢
  dsimp only at hpass ⊢
  by_cases hs : (g.p g.turn).phase = PHASE_SUPPORT
  · rw [if_pos hs] at hpass ⊢
    simp only [Bool.false_eq_true, if_false]
    rw [if_pos hs]
    exact hsat _ hpass
  · rw [if_neg hs] at hpass ⊢
    simp only [Bool.false_eq_true, if_false]
    rw [if_neg hs]
    exact hsat _ hpass

/-- Witness for the amended C20: the leader phase of `duty_game`. -/
theorem legal_act_satisfy_witness :
    ((duty_game.p duty_game.turn).phase = PHASE_LEADER ∨
      (duty_game.p duty_game.turn).phase = PHASE_SUPPORT) ∧
    ¬ check_auto_bluff duty_game 1 < 0 ∧ (legal_uses ready_engine duty_game).length = 0 ∧
    (play_pass ready_engine duty_game 0).length ≠ 0 ∧
    (duty_game.p (other_player duty_game.turn)).loop_cards =
      [] ++ { (default : card) with d_ptr := duty_design, active := 1 } ::
        List.replicate 29 default ∧
    owes_discard ready_engine duty_game
      { (default : card) with d_ptr := duty_design, active := 1 } = true ∧
    (∀ a ∈ ([] : List card), owes_discard ready_engine duty_game a = false) ∧
    legal_act ready_engine duty_game 0 =
      play_pass ready_engine duty_game 0 ++
        [{ mk_act ACT_SATISFY with
          arg := some ({ (default : card) with d_ptr := duty_design, active := 1 }).d_ptr }] :=
  ⟨Or.inl (by decide), by decide, by decide, by decide, by decide, by decide,
    fun a ha => absurd ha (List.not_mem_nil a),
    legal_act_satisfy ready_engine duty_game 0 [] (List.replicate 29 default)
      { (default : card) with d_ptr := duty_design, active := 1 }
      (Or.inl (by decide)) (by decide) (by decide) (by decide) (by decide) (by decide)
      (fun a ha => absurd ha (List.not_mem_nil a))⟩

/-- The phases of the play pass are not the beginning phase. -/
theorem play_phase_not_begin (p : player)
    (h : p.phase = PHASE_LEADER ∨ p.phase = PHASE_CHAR ∨ p.phase = PHASE_SUPPORT) :
    p.phase ≠ PHASE_BEGIN := by
  rcases h with h | h | h <;> rw [h] <;> decide

/-- The list of `legal_uses` is the list of the usable cards, one action each. -/
theorem legal_uses_eq (E : Engine) (g : game) :
    legal_uses E g = ((g.p g.turn).loop_cards.filter (usable_now E g)).map
      (fun c => { mk_act ACT_USE with arg := some c.d_ptr }) := rfl

/-- C21: in the leader, character or support phase, when the automatic bluff
check passes (`check_auto_bluff g 1` is not negative) and the player to move
has at least one card that passes the test `usable_now` (active, with a special
effect, text not ignored, unused, timing "on my turn", `special_possible`),
`legal_act` returns exactly one `ACT_USE` action per such card, in deck order,
and nothing else: every action of the list is an `ACT_USE` and the list is as
long as the list of such cards. -/
theorem legal_act_uses_first (E : Engine) (g : game) (checking_retreat : Int)
    (hphase : (g.p g.turn).phase = PHASE_LEADER ∨ (g.p g.turn).phase = PHASE_CHAR ∨
      (g.p g.turn).phase = PHASE_SUPPORT)
    (hbluff : ¬ check_auto_bluff g 1 < 0)
    (hsome : ∃ c ∈ (g.p g.turn).loop_cards, usable_now E g c = true) :
    legal_act E g checking_retreat =
      ((g.p g.turn).loop_cards.filter (usable_now E g)).map
        (fun c => { mk_act ACT_USE with arg := some c.d_ptr }) ∧
    (∀ a ∈ legal_act E g checking_retreat, a.act = ACT_USE) ∧
    (legal_act E g checking_retreat).length =
      ((g.p g.turn).loop_cards.filter (usable_now E g)).length := by
  have hne : (legal_uses E g).length ≠ 0 := by
    obtain ⟨c, hc, hu⟩ := hsome
    rw [legal_uses_eq, List.length_map]
    have hmem : c ∈ (g.p g.turn).loop_cards.filter (usable_now E g) :=
      List.mem_filter.mpr ⟨hc, hu⟩
    exact fun h0 => List.not_mem_nil c (List.length_eq_zero.mp h0 ▸ hmem)
  have heq : legal_act E g checking_retreat = legal_uses E g := by
    unfold legal_act
    dsimp only
    rw [if_neg (play_phase_not_begin _ hphase), if_pos hphase]
    unfold legal_play_phase
    dsimp only
    rw [if_neg hbluff, if_pos hne]
  rw [heq, legal_uses_eq]
  refine ⟨rfl, ?_, by rw [List.length_map]⟩
  intro a ha
  obtain ⟨c, _, hca⟩ := List.mem_map.mp ha
  rw [← hca]
  rfl

theorem legal_act_uses_first_witness :
    ((duty_power_game.p duty_power_game.turn).phase = PHASE_LEADER ∨
      (duty_power_game.p duty_power_game.turn).phase = PHASE_CHAR ∨
      (duty_power_game.p duty_power_game.turn).phase = PHASE_SUPPORT) ∧
    ¬ check_auto_bluff duty_power_game 1 < 0 ∧
    (∃ c ∈ (duty_power_game.p duty_power_game.turn).loop_cards,
      usable_now ready_engine duty_power_game c = true) ∧
    legal_act ready_engine duty_power_game 0 =
      [{ mk_act ACT_USE with arg := some power_design }] :=
  ⟨Or.inl (by decide), by decide,
    ⟨{ (default : card) with d_ptr := power_design, active := 1 }, by decide, by decide⟩,
    (legal_act_uses_first ready_engine duty_power_game 0 (Or.inl (by decide)) (by decide)
      ⟨{ (default : card) with d_ptr := power_design, active := 1 }, by decide,
        by decide⟩).1.trans (by decide)⟩

/-- The bit `1 << e` tested by `legal_act` is the shield icon of the element
`e`. -/
theorem shield_bit (e : Int) (he : e = 0 ∨ e = 1) : 1 <<< e.toNat = shield_icon e := by
  rcases he with h | h <;> rw [h] <;> decide

/-- C22: in the announce phase `legal_act` returns the two announcements
(fire, then earth) when no fight has started; when a fight has started in an
element (0 or 1) it returns exactly the announcement in that element if the
power to match (`power_to_match`: the opponent's `compute_power`, or 0 when
the player to move has an active combat card whose icons hold the shield of
the fight element) is at most the `compute_power` of the player to move, and
no action otherwise; in both cases no action announces in the other
element. -/
theorem legal_act_announce (E : Engine) (g : game) (checking_retreat : Int)
    (hphase : (g.p g.turn).phase = PHASE_ANNOUNCE) :
    (g.fight_started = 0 →
      legal_act E g checking_retreat = [mk_act ACT_ANN_FIRE, mk_act ACT_ANN_EARTH]) ∧
    (g.fight_started ≠ 0 → (g.fight_element = 0 ∨ g.fight_element = 1) →
      (power_to_match g ≤ compute_power g g.turn →
        legal_act E g checking_retreat = [mk_act (ACT_ANN_FIRE + g.fight_element)]) ∧
      (¬ power_to_match g ≤ compute_power g g.turn →
        legal_act E g checking_retreat = []) ∧
      ∀ a ∈ legal_act E g checking_retreat,
        a.act ≠ ACT_ANN_FIRE + (1 - g.fight_element)) := by
  have heq : legal_act E g checking_retreat = legal_announce g := by
    unfold legal_act
    dsimp only
    rw [hphase]
    rfl
  rw [heq]
  refine ⟨fun h0 => ?_, fun h1 he => ?_⟩
  · unfold legal_announce
    rw [if_pos h0]
  · have hp : legal_announce g =
        if power_to_match g ≤ compute_power g g.turn
        then [mk_act (ACT_ANN_FIRE + g.fight_element)] else [] := by
      unfold legal_announce power_to_match
      rw [if_neg h1, shield_bit _ he]
    rw [hp]
    refine ⟨fun h => by rw [if_pos h], fun h => by rw [if_neg h], ?_⟩
    intro a ha
    by_cases h : power_to_match g ≤ compute_power g g.turn
    · rw [if_pos h] at ha
      rw [List.mem_singleton.mp ha]
      rcases he with h0 | h0 <;> rw [h0] <;> decide
    · rw [if_neg h] at ha
      exact absurd ha (List.not_mem_nil a)

theorem legal_act_announce_witness :
    (shield_game.p shield_game.turn).phase = PHASE_ANNOUNCE ∧
    compute_power shield_game (other_player shield_game.turn) = 5 ∧
    compute_power shield_game shield_game.turn = 0 ∧
    power_to_match shield_game = 0 ∧
    legal_act quiet_engine shield_game 0 = [mk_act ACT_ANN_EARTH] :=
  ⟨by decide, by decide, by decide, by decide,
    (((legal_act_announce quiet_engine shield_game 0 (by decide)).2 (by decide)
      (Or.inr (by decide))).1 (by decide)).trans (by decide)⟩

/-- C23: in the beginning phase, outside a retreat check, `legal_act` returns
in this order one land action for each active ship that has not landed, one
reveal action for each bluff card, one retrieve action for each card for which
`retrieve_legal` holds (each over the deck indices after `last_played`), and
then one `ACT_NONE` action; with or without a retreat check the list is not
empty and `ACT_NONE` is its last element. -/
theorem legal_act_begin (E : Engine) (g : game)
    (hphase : (g.p g.turn).phase = PHASE_BEGIN) :
    legal_act E g 0 =
      ((later_indices (g.p g.turn)).filter (fun i =>
          ((g.p g.turn).card_at i).active ≠ 0 && ((g.p g.turn).card_at i).d_ptr.capacity ≠ 0 &&
            ((g.p g.turn).card_at i).landed = 0)).map (fun i =>
        mk_act_card ACT_LAND i ((g.p g.turn).card_at i).d_ptr) ++
      ((later_indices (g.p g.turn)).filter (fun i =>
          ((g.p g.turn).card_at i).bluff ≠ 0)).map (fun i =>
        mk_act_card ACT_REVEAL i ((g.p g.turn).card_at i).d_ptr) ++
      ((later_indices (g.p g.turn)).filter (fun i =>
          E.retrieve_legal g ((g.p g.turn).card_at i) ≠ 0)).map (fun i =>
        mk_act_card ACT_RETRIEVE i ((g.p g.turn).card_at i).d_ptr) ++
      [mk_act ACT_NONE] ∧
    ∀ checking_retreat : Int, legal_act E g checking_retreat ≠ [] ∧
      (legal_act E g checking_retreat).getLast? = some (mk_act ACT_NONE) := by
  have heq : ∀ cr : Int, legal_act E g cr = legal_begin E g cr := by
    intro cr
    unfold legal_act
    dsimp only
    rw [if_pos hphase]
  refine ⟨?_, fun cr => ?_⟩
  · rw [heq]
    unfold legal_begin
    simp
  · rw [heq]
    unfold legal_begin
    dsimp only
    refine ⟨by simp, ?_⟩
    rw [List.getLast?_append]
    rfl

theorem legal_act_begin_witness :
    (harbour_game.p harbour_game.turn).phase = PHASE_BEGIN ∧
    legal_act quiet_engine harbour_game 0 =
      [mk_act_card ACT_LAND 1 { (default : design) with index := 5, capacity := 2 },
       mk_act_card ACT_REVEAL 2 (plain_design 6), mk_act ACT_NONE] :=
  ⟨by decide, ((legal_act_begin quiet_engine harbour_game (by decide)).1).trans (by decide)⟩

/-- The load actions are `ACT_LOAD` actions. -/
theorem legal_loads_acts (E : Engine) (g : game) (checking_retreat : Int) :
    ∀ a ∈ legal_loads E g checking_retreat, a.act = ACT_LOAD := by
  intro a ha
  unfold legal_loads at ha
  dsimp only at ha
  split_ifs at ha with h1
  · exact absurd ha (List.not_mem_nil a)
  · split at ha
    · exact absurd ha (List.not_mem_nil a)
    · obtain ⟨j, _, hj⟩ := List.mem_map.mp ha
      rw [← hj]

/-- The bluff actions are `ACT_BLUFF` actions. -/
theorem legal_bluffs_acts (E : Engine) (g : game) (checking_retreat : Int) :
    ∀ a ∈ legal_bluffs E g checking_retreat, a.act = ACT_BLUFF := by
  intro a ha
  unfold legal_bluffs at ha
  dsimp only at ha
  have hall : ∀ l : List Nat, ∀ a ∈ l.map (fun i =>
      mk_act_card ACT_BLUFF i ((g.p g.turn).card_at i).d_ptr), a.act = ACT_BLUFF := by
    intro l a ha
    obtain ⟨j, _, hj⟩ := List.mem_map.mp ha
    rw [← hj]
    rfl
  split_ifs at ha with h1
  · exact hall _ a (List.mem_of_mem_take ha)
  · exact hall _ a ha

/-- The end of `legal_act` keeps the list and adds at most an `ACT_SATISFY`
action. -/
theorem legal_satisfy_mem (E : Engine) (g : game) (legal : List action) (a : action) :
    (a ∈ legal → a ∈ legal_satisfy E g legal) ∧
    (a ∈ legal_satisfy E g legal → a ∈ legal ∨ a.act = ACT_SATISFY) := by
  unfold legal_satisfy
  dsimp only
  split_ifs with h1 h2
  · exact ⟨id, Or.inl⟩
  · exact ⟨id, Or.inl⟩
  · split
    · refine ⟨fun h => List.mem_append_left _ h, fun h => ?_⟩
      rcases List.mem_append.mp h with h | h
      · exact Or.inl h
      · rw [List.mem_singleton.mp h]; exact Or.inr rfl
    · exact ⟨id, Or.inl⟩

/-- Outside a retreat check `legal_advance` adds the advance of the phase
exactly when the phase is not the character phase or a character was played. -/
theorem legal_advance_none (p : player) (legal : List action)
    (hl : ∀ a ∈ legal, a.act ≠ ACT_NONE) :
    (∃ a ∈ legal_advance p 0 legal, a.act = ACT_NONE) ↔
      ¬ (p.phase = PHASE_CHAR ∧ p.char_played = 0) := by
  unfold legal_advance
  rw [if_neg (fun h => h.1 rfl)]
  by_cases h : p.phase ≠ PHASE_CHAR ∨ p.char_played ≠ 0
  · rw [if_pos h]
    refine ⟨fun _ hc => ?_, fun _ => ⟨mk_act ACT_NONE, by simp, rfl⟩⟩
    rcases h with h | h
    · exact h hc.1
    · exact h hc.2
  · rw [if_neg h]
    refine ⟨fun ⟨a, ha, h0⟩ => absurd h0 (hl a ha), fun hc => absurd ?_ hc⟩
    constructor
    · by_contra h1; exact h (Or.inl h1)
    · by_contra h1; exact h (Or.inr h1)

/-- The loop over the cards to play leaves `legal_act` only in the character
phase. -/
theorem legal_plays_exit_char (E : Engine) (g : game) (checking_retreat : Int) (p : player)
    (l : List Nat) (h : (legal_plays E g checking_retreat p l).2 = true) :
    p.phase = PHASE_CHAR := by
  by_contra hne
  rw [legal_plays_no_exit E g checking_retreat p hne l] at h
  exact Bool.false_ne_true h

/-- C24 (counterexample): in the character phase of `crew_game` a character
has been played this turn, no special power is usable, no retreat check runs
and the automatic bluff check passes, yet `legal_act` offers only to play the
character loaded on a ship: the advance action is not in the list. -/
theorem legal_act_crew_no_advance :
    (crew_game.p crew_game.turn).phase = PHASE_CHAR ∧
    (crew_game.p crew_game.turn).char_played = 1 ∧
    (∀ c ∈ (crew_game.p crew_game.turn).loop_cards,
      usable_now open_engine crew_game c = false) ∧
    ¬ check_auto_bluff crew_game 1 < 0 ∧
    legal_act open_engine crew_game 0 = [mk_act_card ACT_PLAY 1 crew_design] ∧
    ¬ (∃ a ∈ legal_act open_engine crew_game 0, a.act = ACT_NONE) ∧
    ¬ ((crew_game.p crew_game.turn).phase = PHASE_CHAR ∧
      (crew_game.p crew_game.turn).char_played = 0) := by
  decide

/-- C24 (amended): in the leader, character or support phase, when no special
power is usable, no retreat check is running and the automatic bluff check
passes, `legal_act` includes the advance action `ACT_NONE` if and only if it is
not the case that the phase is the character phase and no character has been
played this turn, and the loop over the cards to play did not end at a
playable character loaded on a ship (the second component of `legal_plays`,
which is set in the character phase only). -/
theorem legal_act_advance (E : Engine) (g : game)
    (hphase : (g.p g.turn).phase = PHASE_LEADER ∨ (g.p g.turn).phase = PHASE_CHAR ∨
      (g.p g.turn).phase = PHASE_SUPPORT)
    (huses : ∀ c ∈ (g.p g.turn).loop_cards, usable_now E g c = false)
    (hbluff : ¬ check_auto_bluff g 1 < 0) :
    ((∃ a ∈ legal_act E g 0, a.act = ACT_NONE) ↔
      (¬ ((g.p g.turn).phase = PHASE_CHAR ∧ (g.p g.turn).char_played = 0) ∧
        (legal_plays E g 0 (g.p g.turn) (later_indices (g.p g.turn))).2 = false)) ∧
    ((legal_plays E g 0 (g.p g.turn) (later_indices (g.p g.turn))).2 = true →
      (g.p g.turn).phase = PHASE_CHAR) := by
  refine ⟨?_, legal_plays_exit_char E g 0 _ _⟩
  have hu : (legal_uses E g).length = 0 := by
    rw [legal_uses_eq, List.length_map, List.length_eq_zero, List.filter_eq_nil_iff]
    intro c hc
    rw [huses c hc]
    exact Bool.false_ne_true
  have hplays := legal_plays_acts E g 0 (g.p g.turn) (later_indices (g.p g.turn))
  have hp0 : ∀ a ∈ (legal_plays E g 0 (g.p g.turn) (later_indices (g.p g.turn))).1,
      a.act ≠ ACT_NONE := by
    intro a ha
    rcases hplays a ha with h | h <;> rw [h] <;> decide
  have hs0 : ∀ a ∈ legal_support E g 0
      (legal_plays E g 0 (g.p g.turn) (later_indices (g.p g.turn))).1, a.act ≠ ACT_NONE := by
    intro a ha
    rcases legal_support_acts E g 0 _ a ha with h | h | h
    · exact hp0 a h
    · rw [h]; decide
    · rw [h]; decide
  have hsat : ∀ legal : List action,
      (∃ a ∈ legal_satisfy E g legal, a.act = ACT_NONE) ↔ (∃ a ∈ legal, a.act = ACT_NONE) := by
    intro legal
    constructor
    · rintro ⟨a, ha, h0⟩
      rcases (legal_satisfy_mem E g legal a).2 ha with h | h
      · exact ⟨a, h, h0⟩
      · rw [h] at h0; exact absurd h0 (by decide)
    · rintro ⟨a, ha, h0⟩
      exact ⟨a, (legal_satisfy_mem E g legal a).1 ha, h0⟩
  have heq : legal_act E g 0 = legal_play_phase E g 0 := by
    unfold legal_act
    dsimp only
    rw [if_neg (play_phase_not_begin _ hphase), if_pos hphase]
  rw [heq]
  unfold legal_play_phase
  dsimp only
  rw [if_neg hbluff, if_neg (by simp [hu])]
  by_cases hx : (legal_plays E g 0 (g.p g.turn) (later_indices (g.p g.turn))).2 = true
  · rw [if_pos hx]
    constructor
    · rintro ⟨a, ha, h0⟩
      exact absurd h0 (hp0 a ha)
    · rintro ⟨_, h2⟩
      rw [hx] at h2
      exact absurd h2 (by decide)
  · rw [if_neg hx]
    have hx2 : (legal_plays E g 0 (g.p g.turn) (later_indices (g.p g.turn))).2 = false := by
      simpa using hx
    by_cases hs : (g.p g.turn).phase = PHASE_SUPPORT
    · rw [if_pos hs, hsat, legal_advance_none _ _ hs0]
      exact ⟨fun h => ⟨h, hx2⟩, fun h => h.1⟩
    · rw [if_neg hs, hsat, legal_advance_none _ _ hp0]
      exact ⟨fun h => ⟨h, hx2⟩, fun h => h.1⟩

theorem legal_act_advance_witness :
    ((crew_game.p crew_game.turn).phase = PHASE_LEADER ∨
      (crew_game.p crew_game.turn).phase = PHASE_CHAR ∨
      (crew_game.p crew_game.turn).phase = PHASE_SUPPORT) ∧
    (∀ c ∈ (crew_game.p crew_game.turn).loop_cards,
      usable_now quiet_engine crew_game c = false) ∧
    ¬ check_auto_bluff crew_game 1 < 0 ∧
    legal_act quiet_engine crew_game 0 = [mk_act ACT_NONE] ∧
    ((∃ a ∈ legal_act quiet_engine crew_game 0, a.act = ACT_NONE) ↔
      (¬ ((crew_game.p crew_game.turn).phase = PHASE_CHAR ∧
          (crew_game.p crew_game.turn).char_played = 0) ∧
        (legal_plays quiet_engine crew_game 0 (crew_game.p crew_game.turn)
          (later_indices (crew_game.p crew_game.turn))).2 = false)) :=
  ⟨Or.inr (Or.inl (by decide)), by decide, by decide, by decide,
    (legal_act_advance quiet_engine crew_game (Or.inr (Or.inl (by decide))) (by decide)
      (by decide)).1⟩

/-- The value of `check_auto_bluff` when no "you may not call bluff" card is
found: the unknown bluff cards of the relevant element less the bluff cards
played. -/
theorem check_auto_bluff_budget (g : game) (future : Int) (h : uncallable g future = false) :
    check_auto_bluff g future = relevant_unknown g - bluffs_played g := by
  have hany : (g.p g.turn).loop_cards.any (fun c =>
      c.d_ptr.special_cat = 3 && c.d_ptr.special_effect = no_call_bluff_effect &&
        ((c.active ≠ 0 && c.text_ignored = 0) || (c.where_ = LOC_HAND && future ≠ 0))) =
      false := h
  unfold check_auto_bluff relevant_unknown
  dsimp only
  rw [hany]
  simp only [Bool.false_eq_true, if_false]
  by_cases hf : g.fight_started ≠ 0
  · rw [if_pos hf, if_pos hf]
    by_cases he : g.fight_element ≠ 0
    · rw [if_pos he]
      unfold unknown_bluffs bluffs_played
      rw [if_neg he]
    · rw [if_neg he]
      unfold unknown_bluffs bluffs_played
      rw [if_pos (not_not.mp he)]
  · rw [if_neg hf, if_neg hf]
    have h0 : unknown_bluffs g 0 = (((g.p g.turn).loop_cards.filter (fun c =>
      has_bits c.d_ptr.icons ICON_BLUFF_F && c.loc_known = 0)).length : Int) := rfl
    have h1 : unknown_bluffs g 1 = (((g.p g.turn).loop_cards.filter (fun c =>
      has_bits c.d_ptr.icons ICON_BLUFF_E && c.loc_known = 0)).length : Int) := rfl
    rw [← h0, ← h1]
    unfold bluffs_played
    by_cases hlt : unknown_bluffs g 1 < unknown_bluffs g 0
    · rw [if_pos hlt, min_eq_right (le_of_lt hlt)]
    · rw [if_neg hlt, min_eq_left (not_lt.mp hlt)]

/-- C25: when `check_auto_bluff g 1 < 1`, or `bluff_legal` or
`support_allowed` is false, `legal_support` adds no bluff action: the
`ACT_BLUFF` actions of its result are those of the list it was given (none,
when that list has none), and the result is that list alone or with the load
actions added.  When no "you may not call bluff" card counts (none in force or
in hand), `check_auto_bluff g 1 < 1` says that the bluff cards of the player
are at least as many as their cards with the bluff icon of the relevant
element whose location is unknown (the fight element, or the lesser count when
no fight has started). -/
theorem legal_support_no_bluff (E : Engine) (g : game) (checking_retreat : Int)
    (legal : List action)
    (h : check_auto_bluff g 1 < 1 ∨ E.bluff_legal g g.turn = 0 ∨ E.support_allowed g = 0) :
    (legal_support E g checking_retreat legal).filter (fun a => a.act = ACT_BLUFF) =
      legal.filter (fun a => a.act = ACT_BLUFF) ∧
    ((∀ a ∈ legal, a.act ≠ ACT_BLUFF) →
      ∀ a ∈ legal_support E g checking_retreat legal, a.act ≠ ACT_BLUFF) ∧
    (legal_support E g checking_retreat legal = legal ∨
      legal_support E g checking_retreat legal = legal ++ legal_loads E g checking_retreat) ∧
    (uncallable g 1 = false →
      (check_auto_bluff g 1 < 1 ↔ relevant_unknown g ≤ bluffs_played g)) := by
  have hshape : legal_support E g checking_retreat legal = legal ∨
      legal_support E g checking_retreat legal = legal ++ legal_loads E g checking_retreat := by
    unfold legal_support
    dsimp only
    by_cases h1 : E.support_allowed g = 0
    · rw [if_pos h1]; exact Or.inl rfl
    · rw [if_neg h1]
      by_cases h2 : E.bluff_legal g g.turn = 0
      · rw [if_pos h2]; exact Or.inr rfl
      · rw [if_neg h2]
        by_cases h3 : check_auto_bluff g 1 < 1
        · rw [if_pos h3]; exact Or.inr rfl
        · rcases h with h | h | h
          · exact absurd h h3
          · exact absurd h h2
          · exact absurd h h1
  have hloads : (legal_loads E g checking_retreat).filter (fun a => a.act = ACT_BLUFF) = [] := by
    rw [List.filter_eq_nil_iff]
    intro a ha
    rw [legal_loads_acts E g checking_retreat a ha]
    decide
  have hfilter : (legal_support E g checking_retreat legal).filter
      (fun a => a.act = ACT_BLUFF) = legal.filter (fun a => a.act = ACT_BLUFF) := by
    rcases hshape with h1 | h1
    · rw [h1]
    · rw [h1, List.filter_append, hloads, List.append_nil]
  refine ⟨hfilter, ?_, hshape, ?_⟩
  · intro hl a ha hb
    have hm : a ∈ (legal_support E g checking_retreat legal).filter
        (fun a => a.act = ACT_BLUFF) := List.mem_filter.mpr ⟨ha, by simpa using hb⟩
    rw [hfilter] at hm
    exact hl a (List.mem_filter.mp hm).1 hb
  · intro hno
    rw [check_auto_bluff_budget g 1 hno]
    omega

theorem legal_support_no_bluff_witness :
    (check_auto_bluff spent_bluff_game 1 < 1 ∨
      bluff_engine.bluff_legal spent_bluff_game spent_bluff_game.turn = 0 ∨
      bluff_engine.support_allowed spent_bluff_game = 0) ∧
    check_auto_bluff spent_bluff_game 1 = 0 ∧
    legal_bluffs bluff_engine spent_bluff_game 0 ≠ [] ∧
    legal_support bluff_engine spent_bluff_game 0 [] = [] ∧
    (legal_support bluff_engine spent_bluff_game 0 []).filter (fun a => a.act = ACT_BLUFF) =
      ([] : List action).filter (fun a => a.act = ACT_BLUFF) :=
  ⟨Or.inl (by decide), by decide, by decide, by decide,
    (legal_support_no_bluff bluff_engine spent_bluff_game 0 [] (Or.inl (by decide))).1⟩

/-! ### The enumeration of `ai_choose_aux` as a list of combinations -/

/-- A "you may not call bluff" card in force makes `check_auto_bluff` return
99. -/
theorem check_auto_bluff_forbidden (g : game) (future : Int)
    (h : ∃ c ∈ (g.p g.turn).loop_cards, forbids_call c = true) :
    check_auto_bluff g future = 99 := by
  obtain ⟨c, hc, hf⟩ := h
  unfold check_auto_bluff
  dsimp only
  rw [if_pos]
  rw [List.any_eq_true]
  refine ⟨c, hc, ?_⟩
  unfold forbids_call at hf
  simp only [Bool.and_eq_true, decide_eq_true_eq, bne_iff_ne, ne_eq,
    Bool.or_eq_true, Bool.decide_eq_true] at hf ⊢
  exact ⟨⟨hf.1.2, hf.2⟩, Or.inl ⟨hf.1.1.1, hf.1.1.2⟩⟩

/-- C26: when the player to move in the game `g` has an active card whose text
is not ignored and whose category-3 effect is "you may not call bluff", then
(a) every call of `announce_power` that makes its check for bluffs in `g` (the
fight had started and the call was made in `g`, or the call started the fight
and `g` is the game after the card effects were noticed) returns `g` without
invoking the control `call_bluff` of the opponent and without calling
`bluff_called`; (b) `check_auto_bluff` returns 99 for either value of
`future`; (c) `legal_act` is not cut to no action by the automatic bluff
checks: in the leader, character and support phases it is the list of the
usable special powers when there is one, else the plays alone when the loop
over the cards ended at a character on a ship, else the list `play_pass` with
the forced "satisfy" action; in the phase after support it depends on
`check_end_support` alone. -/
theorem announce_power_forbidden (notice : game → game)
    (call_bluff : interface → game → Int × game) (bluff_called : game → game) (E : Engine)
    (g : game) (checking_retreat : Int)
    (h : ∃ c ∈ (g.p g.turn).loop_cards, forbids_call c = true) :
    (∀ (g0 : game) (element : Int), announce_start notice g0 element = g →
      g0.turn = g.turn →
      announce_power notice call_bluff bluff_called g0 element =
        { game := g, asked := false, called := false }) ∧
    (g.fight_started ≠ 0 → ∀ element : Int,
      announce_power notice call_bluff bluff_called g element =
        { game := g, asked := false, called := false }) ∧
    (∀ future : Int, check_auto_bluff g future = 99) ∧
    ((g.p g.turn).phase = PHASE_LEADER ∨ (g.p g.turn).phase = PHASE_CHAR ∨
        (g.p g.turn).phase = PHASE_SUPPORT →
      ((legal_uses E g).length ≠ 0 → legal_act E g checking_retreat = legal_uses E g) ∧
      ((legal_uses E g).length = 0 →
        (legal_plays E g checking_retreat (g.p g.turn) (later_indices (g.p g.turn))).2 = true →
        legal_act E g checking_retreat =
          (legal_plays E g checking_retreat (g.p g.turn) (later_indices (g.p g.turn))).1) ∧
      ((legal_uses E g).length = 0 →
        (legal_plays E g checking_retreat (g.p g.turn) (later_indices (g.p g.turn))).2 = false →
        legal_act E g checking_retreat = legal_satisfy E g (play_pass E g checking_retreat))) ∧
    ((g.p g.turn).phase = PHASE_AFTER_SB →
      legal_act E g checking_retreat =
        if E.check_end_support g ≠ 0 then [mk_act ACT_NONE] else []) := by
  have hany : (g.p g.turn).loop_cards.any forbids_call = true := by
    obtain ⟨c, hc, hf⟩ := h
    rw [List.any_eq_true]
    exact ⟨c, hc, hf⟩
  have hstart : ∀ (g0 : game) (element : Int), announce_start notice g0 element = g →
      g0.turn = g.turn →
      announce_power notice call_bluff bluff_called g0 element =
        { game := g, asked := false, called := false } := by
    intro g0 element h0 ht
    unfold announce_power
    dsimp only
    rw [h0, ht]
    by_cases h1 : g.simulation ≠ 0
    · rw [if_pos h1]
    · rw [if_neg h1]
      by_cases h2 : ¬ ((g.p g.turn).loop_cards.any
          (fun c => c.bluff ≠ 0 && c.value_ignored = 0)) = true
      · rw [if_pos h2]
      · rw [if_neg h2, if_pos hany]
  have h99 : ∀ future : Int, check_auto_bluff g future = 99 :=
    fun future => check_auto_bluff_forbidden g future h
  refine ⟨hstart, ?_, h99, ?_, ?_⟩
  · intro hf element
    refine hstart g element ?_ rfl
    unfold announce_start
    rw [if_neg hf]
  · intro hphase
    have heq : legal_act E g checking_retreat = legal_play_phase E g checking_retreat := by
      unfold legal_act
      dsimp only
      rw [if_neg (play_phase_not_begin _ hphase), if_pos hphase]
    rw [heq]
    unfold legal_play_phase
    dsimp only
    rw [if_neg (by rw [h99]; decide)]
    refine ⟨fun hu => by rw [if_pos hu], fun hu hx => ?_, fun hu hx => ?_⟩
    · rw [if_neg (by simp [hu]), if_pos hx]
    · rw [if_neg (by simp [hu]), if_neg (by simp [hx])]
      unfold play_pass
      dsimp only
      by_cases hs : (g.p g.turn).phase = PHASE_SUPPORT
      · rw [if_pos hs, if_pos hs]
      · rw [if_neg hs, if_neg hs]
  · intro hphase
    have heq : legal_act E g checking_retreat = legal_after_sb E g := by
      unfold legal_act
      dsimp only
      rw [hphase]
      rfl
    rw [heq]
    unfold legal_after_sb
    rw [if_neg (by rw [h99]; decide)]

theorem announce_power_forbidden_witness :
    (∃ c ∈ (silence_game.p silence_game.turn).loop_cards, forbids_call c = true) ∧
    silence_game.simulation = 0 ∧
    (silence_game.p silence_game.turn).loop_cards.any
      (fun c => c.bluff ≠ 0 && c.value_ignored = 0) = true ∧
    announce_power id (fun _ x => (1, x)) (fun x => { x with game_over := 1 })
      silence_game 0 = { game := silence_game, asked := false, called := false } ∧
    announce_power id (fun _ x => (1, x)) (fun x => { x with game_over := 1 })
      loud_game 0 =
        { game := { loud_game with game_over := 1, random_event := 1 }, asked := true,
          called := true } ∧
    check_auto_bluff silence_game 0 = 99 :=
  ⟨⟨{ (default : card) with d_ptr := silence_design, active := 1, where_ := LOC_COMBAT },
      by decide, by decide⟩, by decide, by decide,
    (announce_power_forbidden id (fun _ x => (1, x)) (fun x => { x with game_over := 1 })
      quiet_engine silence_game 0
      ⟨{ (default : card) with d_ptr := silence_design, active := 1, where_ := LOC_COMBAT },
        by decide, by decide⟩).2.1 (by decide) 0,
    by decide, by decide⟩

/-! ### Zone and counter consistency of the card mutators -/

theorem getD_set_card {α : Type} (l : List α) (k i : Nat) (c d : α) :
    (l.set k c).getD i d = if i = k ∧ k < l.length then c else l.getD i d := by
  rw [List.getD_eq_getElem?_getD, List.getD_eq_getElem?_getD, List.getElem?_set]
  by_cases h : k = i
  · subst h
    by_cases hk : k < l.length
    · simp [hk]
    · have hn : l[k]? = none := List.getElem?_eq_none (Nat.le_of_not_lt hk)
      simp [hk, hn]
  · have h2 : ¬ (i = k ∧ k < l.length) := fun hh => h hh.1.symm
    simp [h, h2]

theorem card_at_set_card (p : player) (k i : Nat) (c : card) :
    (p.set_card k c).card_at i = if i = k ∧ k < p.deck.length then c else p.card_at i :=
  getD_set_card p.deck k i c default

theorem zones_same_refl (p : player) : zones_same p p := ⟨rfl, rfl, fun _ => ⟨rfl, rfl⟩⟩

theorem zones_same_trans (p q r : player) (h1 : zones_same p q) (h2 : zones_same q r) :
    zones_same p r :=
  ⟨h2.1.trans h1.1, h2.2.1.trans h1.2.1,
    fun i => ⟨(h2.2.2 i).1.trans (h1.2.2 i).1, (h2.2.2 i).2.trans (h1.2.2 i).2⟩⟩

theorem in_place_refl (p : player) : in_place p p := ⟨zones_same_refl p, fun _ => Or.inl rfl⟩

theorem in_place_trans (p q r : player) (h1 : in_place p q) (h2 : in_place q r) :
    in_place p r := by
  refine ⟨zones_same_trans p q r h1.1 h2.1, fun i => ?_⟩
  rcases h2.2 i with h | h
  · rcases h1.2 i with h3 | h3
    · exact Or.inl (h.trans h3)
    · exact Or.inr (h.trans h3)
  · exact Or.inr h

/-- An assignment to a card that keeps its zone and design keeps the zones. -/
theorem zones_same_set_card (p : player) (k : Nat) (c : card)
    (h1 : c.where_ = (p.card_at k).where_) (h2 : c.d_ptr = (p.card_at k).d_ptr) :
    zones_same p (p.set_card k c) := by
  refine ⟨rfl, by simp [player.set_card], fun i => ?_⟩
  rw [card_at_set_card]
  by_cases h : i = k ∧ k < p.deck.length
  · rw [if_pos h, h.1]; exact ⟨h1, h2⟩
  · rw [if_neg h]; exact ⟨rfl, rfl⟩

/-- An assignment to a card that keeps its zone and design, and its ship or
unloads it, leaves the cards in place. -/
theorem in_place_set_card (p : player) (k : Nat) (c : card)
    (h1 : c.where_ = (p.card_at k).where_) (h2 : c.d_ptr = (p.card_at k).d_ptr)
    (h3 : c.ship = (p.card_at k).ship ∨ c.ship = none) :
    in_place p (p.set_card k c) := by
  refine ⟨zones_same_set_card p k c h1 h2, fun i => ?_⟩
  rw [card_at_set_card]
  by_cases h : i = k ∧ k < p.deck.length
  · rw [if_pos h, h.1]; exact h3
  · rw [if_neg h]; exact Or.inl rfl

/-- Zone and counter consistency depends on zones, counters and designs only. -/
theorem zones_ok_of_same (p q : player) (h : zones_same p q) (hp : zones_ok p) :
    zones_ok q := by
  obtain ⟨hs, hl, hc⟩ := h
  obtain ⟨h1, h2, h3, h4⟩ := hp
  refine ⟨hl.trans h1, by rw [hs]; exact h2, ?_, ?_⟩
  · intro i hi1 hi2
    rw [(hc i).1, (hc i).2, (hc 0).2]
    exact h3 i hi1 hi2
  · intro z hz
    rw [hs, h4 z hz]
    congr 2
    apply List.filter_congr
    intro i _
    rw [(hc i).1]

/-- Cargo stays flat when the cards are left in place. -/
theorem cargo_flat_of_in_place (p q : player) (h : in_place p q) (hp : cargo_flat p) :
    cargo_flat q := by
  intro i hi1 hi2 hs
  rw [(h.1.2.2 i).2]
  apply hp i hi1 hi2
  rcases h.2 i with h1 | h1
  · rw [← h1]; exact hs
  · exact absurd h1 hs

theorem p_set_p_self (g : game) (who : Int) (x : player) : (g.set_p who x).p who = x := by
  unfold game.set_p game.p
  by_cases h : who = 0
  · simp [h]
  · simp [h]

theorem p_set_p_other (g : game) (who who2 : Int) (x : player)
    (h : ¬ (who2 = 0 ↔ who = 0)) : (g.set_p who x).p who2 = g.p who2 := by
  unfold game.set_p game.p
  by_cases h1 : who = 0
  · have h2 : who2 ≠ 0 := fun h2 => h ⟨fun _ => h1, fun _ => h2⟩
    simp [h1, h2]
  · have h2 : who2 = 0 := by
      by_contra h2
      exact h ⟨fun h3 => absurd h3 h2, fun h3 => absurd h3 h1⟩
    simp [h1, h2]

theorem p_congr (g : game) (who who2 : Int) (h : who2 = 0 ↔ who = 0) :
    g.p who2 = g.p who := by
  unfold game.p
  by_cases h1 : who = 0
  · simp [h1, h.mpr h1]
  · have h2 : who2 ≠ 0 := fun h2 => h1 (h.mp h2)
    simp [h1, h2]

/-- Replacing a player by one with the cards left in place leaves the cards of
both players in place. -/
theorem in_place_set_p (g : game) (who : Int) (x : player) (h : in_place (g.p who) x) :
    ∀ who2, in_place (g.p who2) ((g.set_p who x).p who2) := by
  intro who2
  by_cases h2 : (who2 = 0 ↔ who = 0)
  · rw [p_congr (g.set_p who x) who who2 h2, p_congr g who who2 h2, p_set_p_self]
    exact h
  · rw [p_set_p_other g who who2 x h2]
    exact in_place_refl _

theorem stack_add_length (st : List Int) (loc d : Int) :
    (stack_add st loc d).length = st.length := by
  unfold stack_add
  simp

theorem stack_add_getD (st : List Int) (loc d : Int) (z : Nat) :
    (stack_add st loc d).getD z 0 =
      if z = loc.toNat ∧ loc.toNat < st.length then st.getD z 0 + d else st.getD z 0 := by
  unfold stack_add
  rw [getD_set_card]
  by_cases h : z = loc.toNat ∧ loc.toNat < st.length
  · rw [if_pos h, if_pos h, h.1]
  · rw [if_neg h, if_neg h]

theorem length_filter_cons (p : Nat → Bool) (a : Nat) (l : List Nat) :
    (((a :: l).filter p).length : Int) =
      ((l.filter p).length : Int) + (if p a = true then 1 else 0) := by
  rw [List.filter_cons]
  by_cases h : p a = true
  · rw [if_pos h, if_pos h, List.length_cons]
    push_cast
    ring
  · rw [if_neg h, if_neg h]
    ring

/-- The number of indices of a list without repetitions at which a function
takes the value `z`, after the value at `k` is changed to `t`. -/
theorem count_update (f : Nat → Int) (k : Nat) (t z : Int) (l : List Nat) (hl : l.Nodup) :
    ((l.filter (fun i => decide ((if i = k then t else f i) = z))).length : Int) +
        (if k ∈ l ∧ f k = z then 1 else 0) =
      ((l.filter (fun i => decide (f i = z))).length : Int) +
        (if k ∈ l ∧ t = z then 1 else 0) := by
  induction l with
  | nil => simp
  | cons a rest ih =>
    have hnd := List.nodup_cons.mp hl
    have ih2 := ih hnd.2
    rw [length_filter_cons, length_filter_cons]
    by_cases hak : a = k
    · have hnot : k ∉ rest := by rw [← hak]; exact hnd.1
      rw [if_neg (fun h => hnot h.1), if_neg (fun h => hnot h.1)] at ih2
      have hm : k ∈ a :: rest := by rw [hak]; exact List.mem_cons_self _ _
      have c1 : (decide ((if a = k then t else f a) = z) = true) ↔ t = z := by
        rw [if_pos hak, decide_eq_true_eq]
      have c2 : (decide (f a = z) = true) ↔ f k = z := by
        rw [decide_eq_true_eq, hak]
      by_cases h1 : t = z
      · by_cases h2 : f k = z
        · rw [if_pos (c1.mpr h1), if_pos (c2.mpr h2), if_pos ⟨hm, h2⟩, if_pos ⟨hm, h1⟩]
          omega
        · rw [if_pos (c1.mpr h1), if_neg (fun h => h2 (c2.mp h)), if_neg (fun h => h2 h.2),
            if_pos ⟨hm, h1⟩]
          omega
      · by_cases h2 : f k = z
        · rw [if_neg (fun h => h1 (c1.mp h)), if_pos (c2.mpr h2), if_pos ⟨hm, h2⟩,
            if_neg (fun h => h1 h.2)]
          omega
        · rw [if_neg (fun h => h1 (c1.mp h)), if_neg (fun h => h2 (c2.mp h)),
            if_neg (fun h => h2 h.2), if_neg (fun h => h1 h.2)]
          omega
    · have hka : k ≠ a := fun h => hak h.symm
      have hm : k ∈ a :: rest ↔ k ∈ rest := by
        rw [List.mem_cons]
        exact ⟨fun h => h.resolve_left hka, Or.inr⟩
      have c1 : (decide ((if a = k then t else f a) = z) = true) ↔ f a = z := by
        rw [if_neg hak, decide_eq_true_eq]
      have c2 : (decide (f a = z) = true) ↔ f a = z := by
        rw [decide_eq_true_eq]
      have e1 : (if k ∈ a :: rest ∧ f k = z then (1 : Int) else 0) =
          (if k ∈ rest ∧ f k = z then 1 else 0) := if_congr (and_congr hm Iff.rfl) rfl rfl
      have e2 : (if k ∈ a :: rest ∧ t = z then (1 : Int) else 0) =
          (if k ∈ rest ∧ t = z then 1 else 0) := if_congr (and_congr hm Iff.rfl) rfl rfl
      rw [e1, e2]
      by_cases h2 : f a = z
      · rw [if_pos (c1.mpr h2), if_pos (c2.mpr h2)]
        omega
      · rw [if_neg (fun h => h2 (c1.mp h)), if_neg (fun h => h2 (c2.mp h))]
        omega

theorem deck_indices_nodup : deck_indices.Nodup := by decide

theorem mem_deck_indices (k : Nat) : k ∈ deck_indices ↔ 1 ≤ k ∧ k < DECK_SIZE := by
  unfold deck_indices DECK_SIZE
  simp only [List.mem_map, List.mem_range]
  constructor
  · rintro ⟨j, hj, rfl⟩
    omega
  · rintro ⟨h1, h2⟩
    exact ⟨k - 1, by omega, by omega⟩

theorem shift_card_at (p : player) (k i : Nat) (to_ : Int) (hk : k < p.deck.length) :
    (shift_card p k to_).card_at i =
      if i = k then { p.card_at k with where_ := to_ } else p.card_at i := by
  unfold shift_card player.card_at
  dsimp only
  rw [getD_set_card]
  by_cases h : i = k
  · rw [if_pos ⟨h, hk⟩, if_pos h]
  · rw [if_neg (fun hh => h hh.1), if_neg h]

/-- The statements that move a card from a zone to another keep zone and
counter consistency. -/
theorem zones_ok_shift (p : player) (k : Nat) (to_ : Int) (hp : zones_ok p) (hk1 : 1 ≤ k)
    (hk2 : k < DECK_SIZE) (ht1 : 0 ≤ to_) (ht2 : to_ < (LOC_MAX : Int)) :
    zones_ok (shift_card p k to_) := by
  obtain ⟨h1, h2, h3, h4⟩ := hp
  have hk : k < p.deck.length := by rw [h1]; exact hk2
  obtain ⟨hw1, hw2, _⟩ := h3 k hk1 hk2
  refine ⟨?_, ?_, ?_, ?_⟩
  · unfold shift_card
    simp [h1]
  · unfold shift_card
    dsimp only
    rw [stack_add_length, stack_add_length, h2]
  · intro i hi1 hi2
    rw [shift_card_at p k i to_ hk, shift_card_at p k 0 to_ hk, if_neg (show ¬ (0 = k) by omega)]
    by_cases h : i = k
    · rw [if_pos h]
      exact ⟨ht1, ht2, (h3 k hk1 hk2).2.2⟩
    · rw [if_neg h]
      exact h3 i hi1 hi2
  · intro z hz
    have hcount := count_update (fun i => (p.card_at i).where_) k to_ (z : Int) deck_indices
      deck_indices_nodup
    have hmem : k ∈ deck_indices := (mem_deck_indices k).mpr ⟨hk1, hk2⟩
    have hf : (deck_indices.filter (fun i =>
        decide (((shift_card p k to_).card_at i).where_ = (z : Int)))) =
        (deck_indices.filter (fun i =>
          decide ((if i = k then to_ else (p.card_at i).where_) = (z : Int)))) := by
      apply List.filter_congr
      intro i _
      rw [shift_card_at p k i to_ hk]
      by_cases h : i = k
      · rw [if_pos h, if_pos h]
      · rw [if_neg h, if_neg h]
    rw [hf]
    have hst : (shift_card p k to_).stack.getD z 0 =
        p.stack.getD z 0 + (if (p.card_at k).where_ = (z : Int) then -1 else 0) +
          (if to_ = (z : Int) then 1 else 0) := by
      unfold shift_card
      dsimp only
      rw [stack_add_getD, stack_add_getD, stack_add_length, h2]
      have e1 : (z = to_.toNat ∧ to_.toNat < LOC_MAX) ↔ to_ = (z : Int) := by
        unfold LOC_MAX at *
        constructor
        · rintro ⟨a, _⟩; omega
        · intro a; omega
      have e2 : (z = (p.card_at k).where_.toNat ∧ (p.card_at k).where_.toNat < LOC_MAX) ↔
          (p.card_at k).where_ = (z : Int) := by
        unfold LOC_MAX at *
        constructor
        · rintro ⟨a, _⟩; omega
        · intro a; omega
      by_cases a1 : to_ = (z : Int)
      · by_cases a2 : (p.card_at k).where_ = (z : Int)
        · rw [if_pos (e1.mpr a1), if_pos (e2.mpr a2), if_pos a1, if_pos a2]
        · rw [if_pos (e1.mpr a1), if_neg (fun hh => a2 (e2.mp hh)), if_pos a1, if_neg a2]
          ring
      · by_cases a2 : (p.card_at k).where_ = (z : Int)
        · rw [if_neg (fun hh => a1 (e1.mp hh)), if_pos (e2.mpr a2), if_neg a1, if_pos a2]
          ring
        · rw [if_neg (fun hh => a1 (e1.mp hh)), if_neg (fun hh => a2 (e2.mp hh)), if_neg a1,
            if_neg a2]
          ring
    rw [hst, h4 z hz]
    simp only [hmem, true_and] at hcount
    by_cases a1 : to_ = (z : Int)
    · by_cases a2 : (p.card_at k).where_ = (z : Int)
      · rw [if_pos a1, if_pos a2] at hcount ⊢
        omega
      · rw [if_pos a1, if_neg a2] at hcount ⊢
        omega
    · by_cases a2 : (p.card_at k).where_ = (z : Int)
      · rw [if_neg a1, if_pos a2] at hcount ⊢
        omega
      · rw [if_neg a1, if_neg a2] at hcount ⊢
        omega

/-- The statements that move a card keep the designs and the ships. -/
theorem shift_card_cargo (p : player) (k : Nat) (to_ : Int) :
    (shift_card p k to_).deck.length = p.deck.length ∧
    ∀ i, ((shift_card p k to_).card_at i).d_ptr = (p.card_at i).d_ptr ∧
      ((shift_card p k to_).card_at i).ship = (p.card_at i).ship := by
  refine ⟨by unfold shift_card; simp, fun i => ?_⟩
  unfold shift_card player.card_at
  dsimp only
  rw [getD_set_card]
  by_cases h : i = k ∧ k < p.deck.length
  · rw [if_pos h, h.1]; exact ⟨rfl, rfl⟩
  · rw [if_neg h]; exact ⟨rfl, rfl⟩

theorem cargo_same_refl (p : player) : cargo_same p p := ⟨rfl, fun _ => ⟨rfl, Or.inl rfl⟩⟩

theorem cargo_same_trans (p q r : player) (h1 : cargo_same p q) (h2 : cargo_same q r) :
    cargo_same p r := by
  refine ⟨h2.1.trans h1.1, fun i => ⟨(h2.2 i).1.trans (h1.2 i).1, ?_⟩⟩
  rcases (h2.2 i).2 with h | h
  · rcases (h1.2 i).2 with h3 | h3
    · exact Or.inl (h.trans h3)
    · exact Or.inr (h.trans h3)
  · exact Or.inr h

theorem cargo_same_of_in_place (p q : player) (h : in_place p q) : cargo_same p q :=
  ⟨h.1.2.1, fun i => ⟨(h.1.2.2 i).2, h.2 i⟩⟩

theorem cargo_same_shift (p : player) (k : Nat) (to_ : Int) :
    cargo_same p (shift_card p k to_) :=
  ⟨(shift_card_cargo p k to_).1,
    fun i => ⟨((shift_card_cargo p k to_).2 i).1, Or.inl ((shift_card_cargo p k to_).2 i).2⟩⟩

theorem cargo_flat_of_same (p q : player) (h : cargo_same p q) (hp : cargo_flat p) :
    cargo_flat q := by
  intro i hi1 hi2 hs
  rw [(h.2 i).1]
  apply hp i hi1 hi2
  rcases (h.2 i).2 with h1 | h1
  · rw [← h1]; exact hs
  · exact absurd h1 hs

theorem try_each_nil {α : Type} (step : game → α → Option game) (acc : Option game) :
    try_each step [] acc = acc := rfl

theorem try_each_cons {α : Type} (step : game → α → Option game) (a : α) (l : List α)
    (acc : Option game) :
    try_each step (a :: l) acc = try_each step l (acc.bind (fun x => step x a)) := rfl

theorem try_each_none {α : Type} (step : game → α → Option game) (l : List α) :
    try_each step l none = none := by
  induction l with
  | nil => rfl
  | cons a rest ih => rw [try_each_cons]; exact ih

/-- A property kept by every step that has a result holds for the result of the
loop. -/
theorem try_each_inv {α : Type} (P : game → Prop) (step : game → α → Option game)
    (l : List α) (hstep : ∀ x a y, a ∈ l → P x → step x a = some y → P y) :
    ∀ (x y : game), P x → try_each step l (some x) = some y → P y := by
  induction l with
  | nil =>
    intro x y hx h
    rw [try_each_nil] at h
    cases h
    exact hx
  | cons a rest ih =>
    intro x y hx h
    rw [try_each_cons] at h
    cases hs : step x a with
    | none =>
      rw [Option.some_bind, hs, try_each_none] at h
      cases h
    | some x1 =>
      rw [Option.some_bind, hs] at h
      exact ih (fun x a y ha => hstep x a y (List.mem_cons_of_mem _ ha)) x1 y
        (hstep x a x1 (List.mem_cons_self _ _) hx hs) h

/-- A loop whose steps have a result, under a property they keep, has a
result. -/
theorem try_each_total {α : Type} (P : game → Prop) (step : game → α → Option game)
    (l : List α) (hstep : ∀ x a, a ∈ l → P x → ∃ y, step x a = some y ∧ P y) :
    ∀ x : game, P x → ∃ y, try_each step l (some x) = some y ∧ P y := by
  induction l with
  | nil => intro x hx; exact ⟨x, rfl, hx⟩
  | cons a rest ih =>
    intro x hx
    obtain ⟨x1, hs, hx1⟩ := hstep x a (List.mem_cons_self _ _) hx
    rw [try_each_cons, Option.some_bind, hs]
    exact ih (fun x a ha => hstep x a (List.mem_cons_of_mem _ ha)) x1 hx1

/-- A loop of assignments to cards that leave them in place leaves the cards
in place. -/
theorem in_place_foldl (body : player → Nat → player)
    (hb : ∀ q i, in_place q (body q i)) (l : List Nat) :
    ∀ p : player, in_place p (l.foldl body p) := by
  induction l with
  | nil => intro p; exact in_place_refl p
  | cons a rest ih =>
    intro p
    rw [List.foldl_cons]
    exact in_place_trans _ _ _ (hb p a) (ih _)

theorem in_place_check_all_known (g : game) (who : Int) :
    ∀ who2, in_place (g.p who2) ((check_all_known g who).p who2) := by
  intro who2
  unfold check_all_known
  dsimp only
  split_ifs
  · exact in_place_refl _
  · exact in_place_refl _
  · apply in_place_set_p
    apply in_place_foldl
    intro q i
    split_ifs
    · exact in_place_set_card q i _ rfl rfl (Or.inl rfl)
    · exact in_place_refl q

theorem in_place_remove_fake (g : game) (who : Int) :
    ∀ who2, in_place (g.p who2) ((remove_fake g who).p who2) := by
  intro who2
  unfold remove_fake
  split_ifs
  · exact in_place_refl _
  · apply in_place_set_p
    apply in_place_foldl
    intro q i
    split_ifs
    · exact in_place_set_card q i _ rfl rfl (Or.inl rfl)
    · exact in_place_refl q

theorem in_place_random_mark (g : game) (who : Int) (k seed : Nat) :
    ∀ who2, in_place (g.p who2) ((random_mark g who k seed).p who2) := by
  intro who2
  have h : (random_mark g who k seed).p who2 =
      (g.set_p who ((g.p who).set_card k
        { (if g.simulation ≠ 0 then
            { (g.p who).card_at k with random_fake := ((g.p who).card_at k).where_ }
          else (g.p who).card_at k) with on_bottom := 0 })).p who2 := rfl
  rw [h]
  apply in_place_set_p
  apply in_place_set_card
  · split_ifs <;> rfl
  · split_ifs <;> rfl
  · split_ifs <;> exact Or.inl rfl

theorem in_place_random_card (g : game) (who stack : Int) :
    ∀ who2, in_place (g.p who2) ((random_card g who stack).2.p who2) := by
  intro who2
  unfold random_card
  dsimp only
  split_ifs
  · exact in_place_refl _
  · exact in_place_random_mark g who _ _ who2

/-- A field of a player other than the deck and the counters is assigned. -/
theorem in_place_fields (p q : player) (h1 : q.stack = p.stack) (h2 : q.deck = p.deck) :
    in_place p q := by
  refine ⟨⟨h1, by rw [h2], fun i => ?_⟩, fun i => ?_⟩
  · unfold player.card_at; rw [h2]; exact ⟨rfl, rfl⟩
  · unfold player.card_at; rw [h2]; exact Or.inl rfl

theorem game_in_place_refl (x : game) : game_in_place x x := fun _ => in_place_refl _

theorem game_in_place_trans (x y z : game) (h1 : game_in_place x y) (h2 : game_in_place y z) :
    game_in_place x z := fun who => in_place_trans _ _ _ (h1 who) (h2 who)

theorem game_zones_ok_of_in_place (x y : game) (h : game_in_place x y)
    (hx : game_zones_ok x) : game_zones_ok y :=
  fun who => zones_ok_of_same _ _ (h who).1 (hx who)

/-- A field of a player other than the deck and the counters is assigned. -/
theorem in_place_set_field (g : game) (who : Int) (q : player)
    (h1 : q.stack = (g.p who).stack) (h2 : q.deck = (g.p who).deck) :
    game_in_place g (g.set_p who q) :=
  in_place_set_p g who q (in_place_fields _ _ h1 h2)

theorem in_place_track_discard (g : game) (who : Int) (d_ptr : design) (to_ : Int) :
    game_in_place g (track_discard g who d_ptr to_) := by
  unfold track_discard
  split_ifs
  · exact game_in_place_trans g (random_card g who LOC_DISCARD).2 _
      (in_place_random_card g who LOC_DISCARD) (in_place_set_field _ who _ rfl rfl)
  · exact game_in_place_refl g

theorem in_place_track_last (g : game) (who : Int) (d_ptr : design) (to_ : Int) :
    game_in_place g (track_last g who d_ptr to_) := by
  unfold track_last
  dsimp only
  split_ifs
  · exact game_in_place_trans g (g.set_p who { g.p who with last_leader := some d_ptr }) _
      (in_place_set_field g who _ rfl rfl) (in_place_set_field _ who _ rfl rfl)
  · exact in_place_set_field g who _ rfl rfl
  · exact in_place_set_field g who _ rfl rfl
  · exact game_in_place_refl g

theorem in_place_track_known (g : game) (who : Int) (k : Nat) (faceup : Int) :
    game_in_place g (track_known g who k faceup) := by
  unfold track_known
  split_ifs
  · exact in_place_set_p g who _ (in_place_set_card _ _ _ rfl rfl (Or.inl rfl))
  · exact game_in_place_refl g

theorem in_place_track_no_cards (g : game) (who : Int) :
    game_in_place g (track_no_cards g who) := by
  unfold track_no_cards
  split_ifs
  · exact in_place_set_field g who _ rfl rfl
  · exact game_in_place_refl g

/-- After the start of `move_card` the cards are left in place. -/
theorem in_place_move_card_head (g : game) (who : Int) (k : Nat) (d_ptr : design)
    (to_ faceup : Int) :
    game_in_place (move_card_shift g who k to_) (move_card_head g who k d_ptr to_ faceup) := by
  unfold move_card_head
  exact game_in_place_trans _ _ _ (in_place_track_discard _ who d_ptr to_)
    (game_in_place_trans _ _ _ (in_place_track_last _ who d_ptr to_)
      (game_in_place_trans _ _ _ (in_place_track_known _ who k faceup)
        (in_place_track_no_cards _ who)))

/-- The player moved by the start of `move_card`. -/
theorem move_card_shift_p (g : game) (who : Int) (k : Nat) (to_ : Int) :
    (move_card_shift g who k to_).p who =
      (shift_card (g.p who) k to_).set_card k
        { deactivate_card ((shift_card (g.p who) k to_).card_at k) with disclosed := 0 } := by
  unfold move_card_shift
  exact p_set_p_self _ _ _

/-- The start of `move_card` keeps zone and counter consistency. -/
theorem zones_ok_move_card_shift (g : game) (who : Int) (k : Nat) (to_ : Int)
    (hg : game_zones_ok g) (hk1 : 1 ≤ k) (hk2 : k < DECK_SIZE) (ht1 : 0 ≤ to_)
    (ht2 : to_ < (LOC_MAX : Int)) : game_zones_ok (move_card_shift g who k to_) := by
  intro who2
  by_cases h2 : (who2 = 0 ↔ who = 0)
  · rw [p_congr (move_card_shift g who k to_) who who2 h2, move_card_shift_p]
    exact zones_ok_of_same _ _ (zones_same_set_card _ _ _ rfl rfl)
      (zones_ok_shift _ k to_ (hg who) hk1 hk2 ht1 ht2)
  · unfold move_card_shift
    rw [p_set_p_other _ who who2 _ h2]
    exact hg who2

/-- The start of `move_card` keeps the designs and the ships. -/
theorem cargo_same_move_card_shift (g : game) (who : Int) (k : Nat) (to_ : Int) :
    ∀ who2, cargo_same (g.p who2) ((move_card_shift g who k to_).p who2) := by
  intro who2
  by_cases h2 : (who2 = 0 ↔ who = 0)
  · rw [p_congr (move_card_shift g who k to_) who who2 h2, p_congr g who who2 h2,
      move_card_shift_p]
    exact cargo_same_trans _ _ _ (cargo_same_shift _ k to_)
      (cargo_same_of_in_place _ _ (in_place_set_card _ _ _ rfl rfl (Or.inl rfl)))
  · unfold move_card_shift
    rw [p_set_p_other _ who who2 _ h2]
    exact cargo_same_refl _

/-- The index found by `find_card` is that of a card with the design. -/
theorem find_card_spec (g : game) (who : Int) (d_ptr : design) (k : Nat)
    (h : find_card g who d_ptr = some k) :
    k < DECK_SIZE ∧ ((g.p who).card_at k).d_ptr = d_ptr := by
  unfold find_card at h
  have h1 := List.find?_some h
  have h2 := List.mem_of_find?_eq_some h
  exact ⟨List.mem_range.mp h2, by simpa using h1⟩

/-- A design carried by a card of the deck is found. -/
theorem find_card_some (g : game) (who : Int) (d_ptr : design) (i : Nat) (hi : i < DECK_SIZE)
    (h : ((g.p who).card_at i).d_ptr = d_ptr) : ∃ k, find_card g who d_ptr = some k := by
  unfold find_card
  cases hf : (List.range DECK_SIZE).find? (fun i =>
      decide (((g.p who).card_at i).d_ptr = d_ptr)) with
  | some k => exact ⟨k, rfl⟩
  | none =>
    exfalso
    have := List.find?_eq_none.mp hf i (List.mem_range.mpr hi)
    simp [h] at this

theorem game_cargo_same_refl (x : game) : game_cargo_same x x := fun _ => cargo_same_refl _

theorem game_cargo_same_trans (x y z : game) (h1 : game_cargo_same x y)
    (h2 : game_cargo_same y z) : game_cargo_same x z :=
  fun who => cargo_same_trans _ _ _ (h1 who) (h2 who)

theorem game_cargo_same_of_in_place (x y : game) (h : game_in_place x y) :
    game_cargo_same x y := fun who => cargo_same_of_in_place _ _ (h who)

/-- The end of `move_card` leaves the cards in place. -/
theorem in_place_move_card_tail (x : game) (who : Int) :
    game_in_place x (remove_fake (check_all_known x who) who) :=
  game_in_place_trans _ _ _ (in_place_check_all_known x who) (in_place_remove_fake _ who)

/-- The statements of `move_card` for the card found keep zone and counter
consistency, the designs and the ships. -/
theorem move_card_head_keeps (g : game) (who : Int) (k : Nat) (d_ptr : design)
    (to_ faceup : Int) :
    game_cargo_same g (move_card_head g who k d_ptr to_ faceup) ∧
    (game_zones_ok g → 1 ≤ k → k < DECK_SIZE → 0 ≤ to_ → to_ < (LOC_MAX : Int) →
      game_zones_ok (move_card_head g who k d_ptr to_ faceup)) :=
  ⟨game_cargo_same_trans _ _ _ (cargo_same_move_card_shift g who k to_)
      (game_cargo_same_of_in_place _ _ (in_place_move_card_head g who k d_ptr to_ faceup)),
    fun hg hk1 hk2 ht1 ht2 =>
      game_zones_ok_of_in_place _ _ (in_place_move_card_head g who k d_ptr to_ faceup)
        (zones_ok_move_card_shift g who k to_ hg hk1 hk2 ht1 ht2)⟩

/-- The statement `c->ship = NULL` leaves the cards in place. -/
theorem in_place_unship (y : game) (who : Int) (i : Nat) :
    game_in_place y
      (y.set_p who ((y.p who).set_card i { (y.p who).card_at i with ship := none })) :=
  in_place_set_p y who _ (in_place_set_card _ _ _ rfl rfl (Or.inr rfl))

/-- The result of the body of the loop over the cards on a ship. -/
theorem unload_cargo_some (move : game → design → Option game) (who : Int) (d_ptr : design)
    (x : game) (i : Nat) (b : game) (h : unload_cargo move who d_ptr x i = some b) :
    b = x ∨ ∃ y, ((x.p who).card_at i).ship = some d_ptr ∧
      move x ((x.p who).card_at i).d_ptr = some y ∧
      b = y.set_p who ((y.p who).set_card i { (y.p who).card_at i with ship := none }) := by
  unfold unload_cargo at h
  split_ifs at h with hs
  · cases hm : move x ((x.p who).card_at i).d_ptr with
    | none => rw [hm] at h; cases h
    | some y =>
      rw [hm] at h
      cases h
      exact Or.inr ⟨y, hs, rfl, rfl⟩
  · cases h
    exact Or.inl rfl

/-- If `move_card` returns, zone and counter consistency holds afterwards, the
designs are those of before and no card is newly loaded on a ship. -/
theorem move_card_keeps (to_ faceup : Int) (who : Int) (ht1 : 0 ≤ to_)
    (ht2 : to_ < (LOC_MAX : Int)) :
    ∀ (fuel : Nat) (g : game) (d_ptr : design) (g1 : game),
      move_card fuel g who d_ptr to_ faceup = some g1 →
      game_cargo_same g g1 ∧
      (game_zones_ok g → d_ptr ≠ ((g.p who).card_at 0).d_ptr → game_zones_ok g1) := by
  intro fuel
  induction fuel with
  | zero =>
    intro g d_ptr g1 h
    unfold move_card at h
    cases h
  | succ fuel ih =>
    intro g d_ptr g1 h
    unfold move_card at h
    cases hf : find_card g who d_ptr with
    | none =>
      rw [hf] at h
      cases h
    | some k =>
      rw [hf] at h
      dsimp only at h
      obtain ⟨hk2, hkd⟩ := find_card_spec g who d_ptr k hf
      obtain ⟨hc6, hz6⟩ := move_card_head_keeps g who k d_ptr to_ faceup
      -- the loop over the cards on the ship
      have hloop : ∀ x : game,
          try_each (unload_cargo (fun y d => move_card fuel y who d to_ faceup) who d_ptr)
            deck_indices (some (move_card_head g who k d_ptr to_ faceup)) = some x →
          game_cargo_same g x ∧
          (game_zones_ok g → d_ptr ≠ ((g.p who).card_at 0).d_ptr → game_zones_ok x) := by
        intro x hx
        constructor
        · refine try_each_inv (fun x => game_cargo_same g x) _ deck_indices ?_ _ x hc6 hx
          intro a i b _ ha hs
          rcases unload_cargo_some _ who d_ptr a i b hs with hb | ⟨y, _, hm, hb⟩
          · rw [hb]; exact ha
          · rw [hb]
            exact game_cargo_same_trans _ _ _ ha (game_cargo_same_trans _ _ _
              (ih a _ y hm).1 (game_cargo_same_of_in_place _ _ (in_place_unship y who i)))
        · intro hg hd
          have hk1 : 1 ≤ k := by
            by_contra hk0
            have : k = 0 := by omega
            rw [this] at hkd
            exact hd hkd.symm
          refine try_each_inv (fun x => game_zones_ok x) _ deck_indices ?_ _ x
            (hz6 hg hk1 hk2 ht1 ht2) hx
          intro a i b hi ha hs
          rcases unload_cargo_some _ who d_ptr a i b hs with hb | ⟨y, _, hm, hb⟩
          · rw [hb]; exact ha
          · rw [hb]
            have hi2 := (mem_deck_indices i).mp hi
            exact game_zones_ok_of_in_place _ _ (in_place_unship y who i)
              ((ih a _ y hm).2 ha ((ha who).2.2.1 i hi2.1 hi2.2).2.2)
      by_cases hcap : ((g.p who).card_at k).d_ptr.capacity ≠ 0 ∧ to_ = LOC_DISCARD
      · rw [if_pos hcap] at h
        cases hr : try_each (unload_cargo (fun y d => move_card fuel y who d to_ faceup) who
            d_ptr) deck_indices (some (move_card_head g who k d_ptr to_ faceup)) with
        | none => rw [hr] at h; cases h
        | some x =>
          rw [hr] at h
          cases h
          obtain ⟨hcx, hzx⟩ := hloop x hr
          exact ⟨game_cargo_same_trans _ _ _ hcx
              (game_cargo_same_of_in_place _ _ (in_place_move_card_tail x who)),
            fun hg hd => game_zones_ok_of_in_place _ _ (in_place_move_card_tail x who)
              (hzx hg hd)⟩
      · rw [if_neg hcap] at h
        cases h
        refine ⟨game_cargo_same_trans _ _ _ hc6
            (game_cargo_same_of_in_place _ _ (in_place_move_card_tail _ who)), ?_⟩
        intro hg hd
        have hk1 : 1 ≤ k := by
          by_contra hk0
          have : k = 0 := by omega
          rw [this] at hkd
          exact hd hkd.symm
        exact game_zones_ok_of_in_place _ _ (in_place_move_card_tail _ who)
          (hz6 hg hk1 hk2 ht1 ht2)

/-- A call of `move_card` that does not discard a ship returns after the
statements for the card found. -/
theorem move_card_plain (fuel : Nat) (g : game) (who : Int) (d_ptr : design)
    (to_ faceup : Int) (k : Nat) (hf : find_card g who d_ptr = some k)
    (hcap : ¬ (((g.p who).card_at k).d_ptr.capacity ≠ 0 ∧ to_ = LOC_DISCARD)) :
    move_card (fuel + 1) g who d_ptr to_ faceup =
      some (remove_fake (check_all_known (move_card_head g who k d_ptr to_ faceup) who)
        who) := by
  unfold move_card
  rw [hf]
  dsimp only
  rw [if_neg hcap]
  rfl

/-- With two levels of calls `move_card` returns when no card loaded on a ship
is a ship itself and the design is that of a card of the deck. -/
theorem move_card_returns (fuel : Nat) (g : game) (who : Int) (d_ptr : design)
    (to_ faceup : Int) (hflat : cargo_flat (g.p who)) (i : Nat) (hi : i < DECK_SIZE)
    (hd : ((g.p who).card_at i).d_ptr = d_ptr) :
    ∃ g1, move_card (fuel + 2) g who d_ptr to_ faceup = some g1 := by
  obtain ⟨k, hf⟩ := find_card_some g who d_ptr i hi hd
  by_cases hcap : ((g.p who).card_at k).d_ptr.capacity ≠ 0 ∧ to_ = LOC_DISCARD
  · have hloop := try_each_total (fun x => game_cargo_same g x)
      (unload_cargo (fun y d => move_card (fuel + 1) y who d to_ faceup) who d_ptr)
      deck_indices (by
        intro x j hj hx
        have hj2 := (mem_deck_indices j).mp hj
        unfold unload_cargo
        by_cases hs : ((x.p who).card_at j).ship = some d_ptr
        · rw [if_pos hs]
          obtain ⟨k2, hf2⟩ := find_card_some x who ((x.p who).card_at j).d_ptr j hj2.2 rfl
          have hflat2 : cargo_flat (x.p who) := cargo_flat_of_same _ _ (hx who) hflat
          have hzero : ((x.p who).card_at j).d_ptr.capacity = 0 :=
            hflat2 j hj2.1 hj2.2 (by rw [hs]; exact Option.some_ne_none _)
          have hcap2 : ¬ (((x.p who).card_at k2).d_ptr.capacity ≠ 0 ∧ to_ = LOC_DISCARD) := by
            rw [(find_card_spec x who _ k2 hf2).2, hzero]
            exact fun h => h.1 rfl
          have hm := move_card_plain fuel x who ((x.p who).card_at j).d_ptr to_ faceup k2 hf2
            hcap2
          beta_reduce
          rw [hm]
          refine ⟨_, rfl, ?_⟩
          refine game_cargo_same_trans _ _ _ hx (game_cargo_same_trans _ _ _
            (game_cargo_same_trans _ _ _ (move_card_head_keeps x who k2 _ to_ faceup).1
              (game_cargo_same_of_in_place _ _ (in_place_move_card_tail _ who)))
            (game_cargo_same_of_in_place _ _ (in_place_unship _ who j)))
        · rw [if_neg hs]
          exact ⟨x, rfl, hx⟩)
      (move_card_head g who k d_ptr to_ faceup) (move_card_head_keeps g who k d_ptr to_ faceup).1
    obtain ⟨x, hx, _⟩ := hloop
    refine ⟨remove_fake (check_all_known x who) who, ?_⟩
    unfold move_card
    rw [hf]
    dsimp only
    rw [if_pos hcap, hx]
    rfl
  · exact ⟨_, move_card_plain (fuel + 1) g who d_ptr to_ faceup k hf hcap⟩

theorem game_zones_ok_set_p (g : game) (who : Int) (x : player) (hg : game_zones_ok g)
    (hx : zones_ok x) : game_zones_ok (g.set_p who x) := by
  intro who2
  by_cases h2 : (who2 = 0 ↔ who = 0)
  · rw [p_congr (g.set_p who x) who who2 h2, p_set_p_self]
    exact hx
  · rw [p_set_p_other g who who2 x h2]
    exact hg who2

/-- A design other than that of the cell `deck[0]` is found at an index from 1
on. -/
theorem find_card_pos (g : game) (who : Int) (d_ptr : design) (k : Nat)
    (hf : find_card g who d_ptr = some k) (hd : d_ptr ≠ ((g.p who).card_at 0).d_ptr) :
    1 ≤ k ∧ k < DECK_SIZE := by
  obtain ⟨hk2, hkd⟩ := find_card_spec g who d_ptr k hf
  refine ⟨?_, hk2⟩
  by_contra hk0
  have : k = 0 := by omega
  rw [this] at hkd
  exact hd hkd.symm

/-- If `load_card` returns, zone and counter consistency holds afterwards;
and it returns when the design is that of a card of the deck. -/
theorem load_card_keeps (notice : game → game) (hn : keeps_zones notice) (g : game)
    (d_ptr ship_dptr : design) :
    (∀ g1, load_card notice g d_ptr ship_dptr = some g1 → game_zones_ok g →
      d_ptr ≠ ((g.p g.turn).card_at 0).d_ptr → game_zones_ok g1) ∧
    (∀ i, i < DECK_SIZE → ((g.p g.turn).card_at i).d_ptr = d_ptr →
      ∃ g1, load_card notice g d_ptr ship_dptr = some g1) := by
  constructor
  · intro g1 h hg hd
    unfold load_card at h
    cases hf : find_card g g.turn d_ptr with
    | none => rw [hf] at h; cases h
    | some k =>
      rw [hf] at h
      dsimp only at h
      cases h
      obtain ⟨hk1, hk2⟩ := find_card_pos g g.turn d_ptr k hf hd
      have hz1 : zones_ok ((shift_card (g.p g.turn) k LOC_INFLUENCE).set_card k
          { (shift_card (g.p g.turn) k LOC_INFLUENCE).card_at k with
            ship := some ship_dptr, disclosed := 0, loc_known := 1, recent := 1 }) :=
        zones_ok_of_same _ _ (zones_same_set_card _ _ _ rfl rfl)
          (zones_ok_shift _ k LOC_INFLUENCE (hg g.turn) hk1 hk2 (by decide) (by decide))
      refine game_zones_ok_of_in_place _ _ (hn _) (game_zones_ok_set_p _ _ _ hg ?_)
      split_ifs
      · exact zones_ok_of_same _ _ ⟨rfl, rfl, fun _ => ⟨rfl, rfl⟩⟩ hz1
      · exact hz1
  · intro i hi hd
    obtain ⟨k, hf⟩ := find_card_some g g.turn d_ptr i hi hd
    unfold load_card
    rw [hf]
    exact ⟨_, rfl⟩

/-- If `retrieve_card` returns, zone and counter consistency holds afterwards;
and it returns when the design is that of a card of the deck. -/
theorem retrieve_card_keeps (notice : game → game) (hn : keeps_zones notice) (g : game)
    (d_ptr : design) :
    (∀ g1, retrieve_card notice g d_ptr = some g1 → game_zones_ok g →
      d_ptr ≠ ((g.p g.turn).card_at 0).d_ptr → game_zones_ok g1) ∧
    (∀ i, i < DECK_SIZE → ((g.p g.turn).card_at i).d_ptr = d_ptr →
      ∃ g1, retrieve_card notice g d_ptr = some g1) := by
  constructor
  · intro g1 h hg hd
    unfold retrieve_card at h
    cases hf : find_card g g.turn d_ptr with
    | none => rw [hf] at h; cases h
    | some k =>
      rw [hf] at h
      dsimp only at h
      cases h
      obtain ⟨hk1, hk2⟩ := find_card_pos g g.turn d_ptr k hf hd
      refine game_zones_ok_of_in_place _ _ (hn _) (game_zones_ok_set_p _ _ _ hg ?_)
      refine zones_ok_of_same _ _ (zones_same_set_card _ _ _ rfl rfl) ?_
      refine zones_ok_shift _ k LOC_HAND ?_ hk1 hk2 (by decide) (by decide)
      exact zones_ok_of_same _ _ (zones_same_set_card _ _ _ rfl rfl) (hg g.turn)
  · intro i hi hd
    obtain ⟨k, hf⟩ := find_card_some g g.turn d_ptr i hi hd
    unfold retrieve_card
    rw [hf]
    exact ⟨_, rfl⟩

theorem game_cargo_same_notice (notice : game → game) (hn : keeps_zones notice) (x : game) :
    game_cargo_same x (notice x) := game_cargo_same_of_in_place _ _ (hn x)

/-- If `reveal_bluff` returns, zone and counter consistency holds afterwards,
the designs are those of before and no card is newly loaded on a ship. -/
theorem reveal_bluff_keeps (notice : game → game) (hn : keeps_zones notice) (fuel : Nat)
    (g : game) (who : Int) (d_ptr : design) (r : Int × game)
    (h : reveal_bluff notice fuel g who d_ptr = some r) :
    game_cargo_same g r.2 ∧
    (game_zones_ok g → d_ptr ≠ ((g.p who).card_at 0).d_ptr → game_zones_ok r.2) := by
  unfold reveal_bluff at h
  cases hf : find_card g who d_ptr with
  | none => rw [hf] at h; cases h
  | some k =>
    rw [hf] at h
    dsimp only at h
    have hin : game_in_place g (g.set_p who ((g.p who).set_card k
        { (g.p who).card_at k with bluff := 0, type := ((g.p who).card_at k).d_ptr.type })) :=
      in_place_set_p g who _ (in_place_set_card _ _ _ rfl rfl (Or.inl rfl))
    cases hm : move_card fuel (g.set_p who ((g.p who).set_card k
        { (g.p who).card_at k with bluff := 0, type := ((g.p who).card_at k).d_ptr.type }))
        who d_ptr LOC_DISCARD 1 with
    | none => rw [hm] at h; cases h
    | some x =>
      rw [hm] at h
      cases h
      obtain ⟨hc, hz⟩ := move_card_keeps LOC_DISCARD 1 who (by decide) (by decide) fuel _ d_ptr
        x hm
      refine ⟨game_cargo_same_trans _ _ _ (game_cargo_same_of_in_place _ _ hin)
        (game_cargo_same_trans _ _ _ hc (game_cargo_same_notice notice hn x)), ?_⟩
      intro hg hd
      refine game_zones_ok_of_in_place _ _ (hn x) (hz (game_zones_ok_of_in_place _ _ hin hg) ?_)
      rw [((hin who).1.2.2 0).2]
      exact hd

/-- With two levels of calls `reveal_bluff` returns when no card loaded on a
ship is a ship itself and the design is that of a card of the deck. -/
theorem reveal_bluff_returns (notice : game → game) (fuel : Nat) (g : game) (who : Int)
    (d_ptr : design) (hflat : cargo_flat (g.p who)) (i : Nat) (hi : i < DECK_SIZE)
    (hd : ((g.p who).card_at i).d_ptr = d_ptr) :
    ∃ r, reveal_bluff notice (fuel + 2) g who d_ptr = some r := by
  obtain ⟨k, hf⟩ := find_card_some g who d_ptr i hi hd
  have hin : game_in_place g (g.set_p who ((g.p who).set_card k
      { (g.p who).card_at k with bluff := 0, type := ((g.p who).card_at k).d_ptr.type })) :=
    in_place_set_p g who _ (in_place_set_card _ _ _ rfl rfl (Or.inl rfl))
  obtain ⟨x, hx⟩ := move_card_returns fuel (g.set_p who ((g.p who).set_card k
      { (g.p who).card_at k with bluff := 0, type := ((g.p who).card_at k).d_ptr.type }))
    who d_ptr LOC_DISCARD 1 (cargo_flat_of_in_place _ _ (hin who) hflat) i hi
    (by rw [((hin who).1.2.2 i).2]; exact hd)
  unfold reveal_bluff
  rw [hf]
  dsimp only
  rw [hx]
  exact ⟨_, rfl⟩

/-- If the body of the loop of `clear_cards` returns, zone and counter
consistency holds afterwards, the designs are those of before and no card is
newly loaded on a ship. -/
theorem clear_card_keeps (notice : game → game) (hn : keeps_zones notice) (fuel : Nat)
    (x : game) (i : Int) (j : Nat) (hj : j ∈ deck_indices) (y : game)
    (h : clear_card notice fuel x i j = some y) :
    game_cargo_same x y ∧ (game_zones_ok x → game_zones_ok y) := by
  have hj2 := (mem_deck_indices j).mp hj
  unfold clear_card at h
  dsimp only at h
  by_cases h1 : ((x.p i).card_at j).type = TYPE_INFLUENCE
  · rw [if_pos h1] at h
    cases h
    have hin : game_in_place x (x.set_p i ((x.p i).set_card j
        { (x.p i).card_at j with recent := 0 })) :=
      in_place_set_p x i _ (in_place_set_card _ _ _ rfl rfl (Or.inl rfl))
    exact ⟨game_cargo_same_of_in_place _ _ hin, game_zones_ok_of_in_place _ _ hin⟩
  · rw [if_neg h1] at h
    by_cases h2 : ((x.p i).card_at j).bluff ≠ 0
    · rw [if_pos h2] at h
      cases hr : reveal_bluff notice fuel x i ((x.p i).card_at j).d_ptr with
      | none => rw [hr] at h; cases h
      | some r =>
        rw [hr] at h
        cases h
        obtain ⟨hc, hz⟩ := reveal_bluff_keeps notice hn fuel x i _ r hr
        exact ⟨hc, fun hx => hz hx ((hx i).2.2.1 j hj2.1 hj2.2).2.2⟩
    · rw [if_neg h2] at h
      have hin : in_place (x.p i) ((x.p i).set_card j (deactivate_card ((x.p i).card_at j))) :=
        in_place_set_card _ _ _ rfl rfl (Or.inl rfl)
      by_cases h3 : ((x.p i).card_at j).where_ = LOC_COMBAT ∨
          ((x.p i).card_at j).where_ = LOC_SUPPORT
      · rw [if_pos h3] at h
        cases h
        constructor
        · intro who2
          by_cases hw : (who2 = 0 ↔ i = 0)
          · rw [p_congr (x.set_p i _) i who2 hw, p_congr x i who2 hw, p_set_p_self]
            exact cargo_same_trans _ _ _ (cargo_same_of_in_place _ _ hin)
              (cargo_same_trans _ _ _ (cargo_same_shift _ j LOC_DISCARD)
                (cargo_same_of_in_place _ _ (in_place_fields _ _ rfl rfl)))
          · rw [p_set_p_other x i who2 _ hw]
            exact cargo_same_refl _
        · intro hx
          apply game_zones_ok_set_p x i _ hx
          refine zones_ok_of_same _ _ ⟨rfl, rfl, fun _ => ⟨rfl, rfl⟩⟩ ?_
          exact zones_ok_shift _ j LOC_DISCARD (zones_ok_of_same _ _ hin.1 (hx i)) hj2.1 hj2.2
            (by decide) (by decide)
      · rw [if_neg h3] at h
        cases h
        exact ⟨game_cargo_same_of_in_place _ _ (in_place_set_p x i _ hin),
          game_zones_ok_of_in_place _ _ (in_place_set_p x i _ hin)⟩

/-- With two levels of calls the body of the loop of `clear_cards` returns when
no card loaded on a ship is a ship itself. -/
theorem clear_card_returns (notice : game → game) (fuel : Nat) (x : game) (i : Int) (j : Nat)
    (hj : j ∈ deck_indices) (hflat : cargo_flat (x.p i)) :
    ∃ y, clear_card notice (fuel + 2) x i j = some y := by
  have hj2 := (mem_deck_indices j).mp hj
  unfold clear_card
  dsimp only
  split_ifs
  · exact ⟨_, rfl⟩
  · obtain ⟨r, hr⟩ := reveal_bluff_returns notice fuel x i ((x.p i).card_at j).d_ptr hflat j
      hj2.2 rfl
    rw [hr]
    exact ⟨_, rfl⟩
  · exact ⟨_, rfl⟩
  · exact ⟨_, rfl⟩

/-- If `clear_cards` returns, zone and counter consistency holds afterwards;
and it returns, with two levels of calls, when no card loaded on a ship is a
ship itself. -/
theorem clear_cards_keeps (notice : game → game) (hn : keeps_zones notice) (g : game) :
    (∀ fuel g1, clear_cards notice fuel g = some g1 → game_zones_ok g → game_zones_ok g1) ∧
    ((∀ who, cargo_flat (g.p who)) → ∀ fuel, ∃ g1, clear_cards notice (fuel + 2) g = some g1) := by
  constructor
  · intro fuel g1 h hg
    unfold clear_cards at h
    cases hr : try_each (fun x (i : Int) => try_each (fun y j => clear_card notice fuel y i j)
        deck_indices (some x)) [0, 1] (some g) with
    | none => rw [hr] at h; cases h
    | some x =>
      rw [hr] at h
      cases h
      refine game_zones_ok_of_in_place _ _ (hn x) ?_
      refine try_each_inv game_zones_ok _ [0, 1] ?_ g x hg hr
      intro a i b _ ha hb
      exact try_each_inv game_zones_ok _ deck_indices
        (fun y j z hj hy hz => (clear_card_keeps notice hn fuel y i j hj z hz).2 hy) a b ha hb
  · intro hflat fuel
    have houter := try_each_total (fun x => game_cargo_same g x)
      (fun x (i : Int) => try_each (fun y j => clear_card notice (fuel + 2) y i j)
        deck_indices (some x)) [0, 1] (by
        intro x i _ hx
        obtain ⟨y, hy, hxy⟩ := try_each_total (fun y => game_cargo_same g y)
          (fun y j => clear_card notice (fuel + 2) y i j) deck_indices (by
            intro y j hj hy
            obtain ⟨z, hz⟩ := clear_card_returns notice fuel y i j hj
              (cargo_flat_of_same _ _ (hy i) (hflat i))
            exact ⟨z, hz, game_cargo_same_trans _ _ _ hy
              (clear_card_keeps notice hn (fuel + 2) y i j hj z hz).1⟩) x hx
        exact ⟨y, hy, hxy⟩) g (game_cargo_same_refl g)
    obtain ⟨x, hx, _⟩ := houter
    unfold clear_cards
    rw [hx]
    exact ⟨_, rfl⟩

/-- The cards of a list, each in one of eight zones, counted zone by zone. -/
theorem sum_zone_counts (f : Nat → Int) (l : List Nat)
    (hf : ∀ i ∈ l, 0 ≤ f i ∧ f i < 8) :
    ((List.range 8).map (fun (z : Nat) =>
      ((l.filter (fun i => decide (f i = (z : Int)))).length : Int))).sum = (l.length : Int) := by
  have hr : List.range 8 = [0, 1, 2, 3, 4, 5, 6, 7] := by decide
  rw [hr]
  induction l with
  | nil => simp
  | cons a rest ih =>
    have ih2 := ih (fun i hi => hf i (List.mem_cons_of_mem _ hi))
    simp only [List.map, List.sum_cons, List.sum_nil, length_filter_cons, decide_eq_true_eq,
      List.length_cons] at ih2 ⊢
    obtain ⟨h0, h8⟩ := hf a (List.mem_cons_self _ _)
    have hcases : f a = 0 ∨ f a = 1 ∨ f a = 2 ∨ f a = 3 ∨ f a = 4 ∨ f a = 5 ∨ f a = 6 ∨
        f a = 7 := by omega
    push_cast at ih2 ⊢
    rcases hcases with h | h | h | h | h | h | h | h <;> rw [h] <;> norm_num <;> omega

/-- Under zone and counter consistency the counters of a player add up to the
number of cards `deck[1]`, ..., `deck[DECK_SIZE - 1]`. -/
theorem stack_total_of_zones_ok (p : player) (hp : zones_ok p) :
    stack_total p = ((DECK_SIZE - 1 : Nat) : Int) := by
  obtain ⟨_, _, h3, h4⟩ := hp
  unfold stack_total
  have h1 : (List.range LOC_MAX).map (fun z => p.stack.getD z 0) =
      (List.range 8).map (fun (z : Nat) =>
        ((deck_indices.filter (fun i => decide ((p.card_at i).where_ = (z : Int)))).length :
          Int)) := by
    apply List.map_congr_left
    intro z hz
    exact h4 z (List.mem_range.mp hz)
  rw [h1, sum_zone_counts (fun i => (p.card_at i).where_) deck_indices]
  · decide
  · intro i hi
    have hi2 := (mem_deck_indices i).mp hi
    exact ⟨(h3 i hi2.1 hi2.2).1, (h3 i hi2.1 hi2.2).2.1⟩

/-- Zone and counter consistency from checks over the lists of indices and of
zones. -/
theorem zones_ok_of_checks (p : player) (h1 : p.deck.length = DECK_SIZE)
    (h2 : p.stack.length = LOC_MAX)
    (h3 : ∀ i ∈ deck_indices, 0 ≤ (p.card_at i).where_ ∧
      (p.card_at i).where_ < (LOC_MAX : Int) ∧ (p.card_at i).d_ptr ≠ (p.card_at 0).d_ptr)
    (h4 : ∀ z ∈ List.range LOC_MAX, p.stack.getD z 0 =
      ((deck_indices.filter (fun i => decide ((p.card_at i).where_ = (z : Int)))).length :
        Int)) : zones_ok p :=
  ⟨h1, h2, fun i hi1 hi2 => h3 i ((mem_deck_indices i).mpr ⟨hi1, hi2⟩),
    fun z hz => h4 z (List.mem_range.mpr hz)⟩

theorem barge_player_zones_ok : zones_ok barge_player :=
  zones_ok_of_checks barge_player (by decide) (by decide) (by decide) (by decide)

theorem barge_game_zones_ok : game_zones_ok barge_game := by
  intro who
  unfold game.p
  split_ifs <;> exact barge_player_zones_ok

theorem keeps_zones_id : keeps_zones id := fun _ _ => in_place_refl _

/-- C27: zone and counter consistency is an invariant of the card mutators.
Let `game_zones_ok g` hold (for each player the counter `stack[z]` of each of
the `LOC_MAX` zones is the number of cards `deck[1]`, ..., `deck[30]` whose
`where` is `z`, the arrays have their sizes, every card is in a zone and no
card has the design of the unused cell `deck[0]`), and let `notice_effect_1`
write neither `where` nor `stack` nor designs nor ships.  Then the counters of
each player add up to 30, and: whenever `move_card` (to a zone `to_`),
`load_card`, `retrieve_card` or `clear_cards` returns, for a design other than
that of `deck[0]` (a card of index at least 1), `game_zones_ok` holds again and
the sum of the counters of each player is unchanged; and each of them does
return, the recursive discard of the cards loaded on a discarded ship
included, with two levels of calls of `move_card` when no card loaded on a
ship is a ship itself and the design is that of a card of the deck. -/
theorem card_mutators_keep_zones (notice : game → game) (hn : keeps_zones notice) (g : game)
    (hg : game_zones_ok g) :
    (∀ who : Int, stack_total (g.p who) = 30 ∧ (g.p who).deck.length = DECK_SIZE) ∧
    (∀ (who : Int) (d_ptr : design) (to_ faceup : Int), 0 ≤ to_ → to_ < (LOC_MAX : Int) →
      d_ptr ≠ ((g.p who).card_at 0).d_ptr →
      (∀ fuel g1, move_card fuel g who d_ptr to_ faceup = some g1 →
        game_zones_ok g1 ∧ ∀ who2, stack_total (g1.p who2) = stack_total (g.p who2)) ∧
      (cargo_flat (g.p who) → (∃ i, i < DECK_SIZE ∧ ((g.p who).card_at i).d_ptr = d_ptr) →
        ∀ fuel, ∃ g1, move_card (fuel + 2) g who d_ptr to_ faceup = some g1)) ∧
    (∀ d_ptr ship_dptr : design, d_ptr ≠ ((g.p g.turn).card_at 0).d_ptr →
      (∀ g1, load_card notice g d_ptr ship_dptr = some g1 →
        game_zones_ok g1 ∧ ∀ who2, stack_total (g1.p who2) = stack_total (g.p who2)) ∧
      ((∃ i, i < DECK_SIZE ∧ ((g.p g.turn).card_at i).d_ptr = d_ptr) →
        ∃ g1, load_card notice g d_ptr ship_dptr = some g1)) ∧
    (∀ d_ptr : design, d_ptr ≠ ((g.p g.turn).card_at 0).d_ptr →
      (∀ g1, retrieve_card notice g d_ptr = some g1 →
        game_zones_ok g1 ∧ ∀ who2, stack_total (g1.p who2) = stack_total (g.p who2)) ∧
      ((∃ i, i < DECK_SIZE ∧ ((g.p g.turn).card_at i).d_ptr = d_ptr) →
        ∃ g1, retrieve_card notice g d_ptr = some g1)) ∧
    (∀ fuel g1, clear_cards notice fuel g = some g1 →
      game_zones_ok g1 ∧ ∀ who2, stack_total (g1.p who2) = stack_total (g.p who2)) ∧
    ((∀ who, cargo_flat (g.p who)) →
      ∀ fuel, ∃ g1, clear_cards notice (fuel + 2) g = some g1) := by
  have htot : ∀ x : game, game_zones_ok x →
      ∀ who2, stack_total (x.p who2) = stack_total (g.p who2) := by
    intro x hx who2
    rw [stack_total_of_zones_ok _ (hx who2), stack_total_of_zones_ok _ (hg who2)]
  refine ⟨fun who => ⟨?_, (hg who).1⟩, ?_, ?_, ?_, ?_, ?_⟩
  · rw [stack_total_of_zones_ok _ (hg who)]
    decide
  · intro who d_ptr to_ faceup ht1 ht2 hd
    refine ⟨fun fuel g1 h => ?_, fun hflat ⟨i, hi, hdi⟩ fuel => ?_⟩
    · have hz := (move_card_keeps to_ faceup who ht1 ht2 fuel g d_ptr g1 h).2 hg hd
      exact ⟨hz, htot g1 hz⟩
    · exact move_card_returns fuel g who d_ptr to_ faceup hflat i hi hdi
  · intro d_ptr ship_dptr hd
    refine ⟨fun g1 h => ?_, fun ⟨i, hi, hdi⟩ => ?_⟩
    · have hz := (load_card_keeps notice hn g d_ptr ship_dptr).1 g1 h hg hd
      exact ⟨hz, htot g1 hz⟩
    · exact (load_card_keeps notice hn g d_ptr ship_dptr).2 i hi hdi
  · intro d_ptr hd
    refine ⟨fun g1 h => ?_, fun ⟨i, hi, hdi⟩ => ?_⟩
    · have hz := (retrieve_card_keeps notice hn g d_ptr).1 g1 h hg hd
      exact ⟨hz, htot g1 hz⟩
    · exact (retrieve_card_keeps notice hn g d_ptr).2 i hi hdi
  · intro fuel g1 h
    have hz := (clear_cards_keeps notice hn g).1 fuel g1 h hg
    exact ⟨hz, htot g1 hz⟩
  · exact (clear_cards_keeps notice hn g).2

theorem card_mutators_keep_zones_witness :
    keeps_zones id ∧ game_zones_ok barge_game ∧
    (barge_game.p 0).stack = [0, 0, 28, 0, 0, 0, 0, 2] ∧
    (move_card 2 barge_game 0 barge_design LOC_DISCARD 1).map (fun x => (x.p 0).stack) =
      some [0, 0, 28, 0, 0, 0, 2, 0] ∧
    (∀ fuel g1, move_card fuel barge_game 0 barge_design LOC_DISCARD 1 = some g1 →
      game_zones_ok g1 ∧ ∀ who2, stack_total (g1.p who2) = stack_total (barge_game.p who2)) :=
  ⟨keeps_zones_id, barge_game_zones_ok, by decide, by decide,
    ((card_mutators_keep_zones id keeps_zones_id barge_game barge_game_zones_ok).2.1 0
      barge_design LOC_DISCARD 1 (by decide) (by decide) (by decide)).1⟩

/-- The small net with its inputs set, as the contents of its arrays. -/
theorem tiny_net_state (mem : allocation) (alpha : ℚ) (x0 x1 : Int) :
    SET_INPUT (SET_INPUT (tiny_net mem alpha) 0 x0) 1 x1 =
      tiny_state [x0, x1, 1] [0, 0, 0] 0 (mem.hidden_result 0) 0 (mem.net_result 0)
        (mem.net_result 1) 0 (mem.win_prob 0) (mem.win_prob 1)
        [[mem.hidden_weight 0 0], [mem.hidden_weight 1 0], [mem.hidden_weight 2 0]]
        [[mem.output_weight 0 0, mem.output_weight 0 1],
         [mem.output_weight 1 0, mem.output_weight 1 1]] alpha := by
  simp [SET_INPUT, tiny_net, make_learner, tiny_state, List.range_succ]
  rfl

/-- The small net computed from cleared sums: the hidden result is a sigmoid
value, the output sums are the weighted sums and the probabilities their
softmax. -/
theorem compute_tiny (expf : ℚ → ℚ) (x0 x1 : Int)
    (h herr r0 r1 S p0 p1 v0 v1 v2 u0 u1 b0 b1 alpha hs : ℚ)
    (hhs : hs = v0 * (x0 : ℚ) + v1 * (x1 : ℚ) + v2) :
    compute_net expf (tiny_state [x0, x1, 1] [0, 0, 0] 0 h herr r0 r1 S p0 p1
        [[v0], [v1], [v2]] [[u0, u1], [b0, b1]] alpha) =
      tiny_state [x0, x1, 1] [x0, x1, 1] hs (1 + expf (-hs))⁻¹ herr
        ((1 + expf (-hs))⁻¹ * u0 + b0) ((1 + expf (-hs))⁻¹ * u1 + b1)
        (expf ((1 + expf (-hs))⁻¹ * u0 + b0) + expf ((1 + expf (-hs))⁻¹ * u1 + b1))
        (expf ((1 + expf (-hs))⁻¹ * u0 + b0) /
          (expf ((1 + expf (-hs))⁻¹ * u0 + b0) + expf ((1 + expf (-hs))⁻¹ * u1 + b1)))
        (expf ((1 + expf (-hs))⁻¹ * u1 + b1) /
          (expf ((1 + expf (-hs))⁻¹ * u0 + b0) + expf ((1 + expf (-hs))⁻¹ * u1 + b1)))
        [[v0], [v1], [v2]] [[u0, u1], [b0, b1]] alpha := by
  subst hhs
  unfold compute_net compute_net_probs compute_net_outputs compute_net_hidden
    compute_net_inputs output_sum tiny_state
  by_cases h0 : x0 = 0
  · by_cases h1 : x1 = 0
    · simp [for_range, List.range_succ, net.hw, net.ow, sigmoid, h0, h1]
    · simp [for_range, List.range_succ, net.hw, net.ow, sigmoid, h0, h1]
  · by_cases h1 : x1 = 0
    · simp [for_range, List.range_succ, net.hw, net.ow, sigmoid, h0, h1]
    · simp [for_range, List.range_succ, net.hw, net.ow, sigmoid, h0, h1]

/-- One call of `train_net` with `lambda = 1` on the small net: the new weights
and the cleared cells. -/
theorem train_tiny (expf : ℚ → ℚ) (x0 x1 : Int) (prev : List Int)
    (hs h r0 r1 S p0 p1 v0 v1 v2 u0 u1 b0 b1 alpha d0 d1 u0n herr hc : ℚ)
    (hprev : prev.length = 3)
    (hu0n : u0n = u0 + alpha * (-(p0 - d0) * h * (p0 * (1 - p0))))
    (hherr : herr = (p0 - d0) * (p0 * (1 - p0) * u0 - u1 * expf (r0 + r1) / (S * S)) +
      (p1 - d1) * (p1 * (1 - p1) * u1 - u0n * expf (r1 + r0) / (S * S)))
    (hhc : hc = h * (1 - h) * -herr * alpha) :
    train_net expf (tiny_state [x0, x1, 1] prev hs h 0 r0 r1 S p0 p1
        [[v0], [v1], [v2]] [[u0, u1], [b0, b1]] alpha) 1 [d0, d1] =
      tiny_state [x0, x1, 1] [0, 0, 0] 0 h 0 r0 r1 S p0 p1
        [[if x0 = 0 then v0 else v0 + hc], [if x1 = 0 then v1 else v1 + hc], [v2 + hc]]
        [[u0n, u1 + alpha * (-(p1 - d1) * h * (p1 * (1 - p1)))],
         [b0 + alpha * -(p0 - d0) * (p0 * (1 - p0)),
          b1 + alpha * -(p1 - d1) * (p1 * (1 - p1))]] alpha := by
  subst hu0n hherr hhc
  match prev, hprev with
  | [a, b, c], _ =>
    unfold train_net train_clear train_hidden_weights train_hidden_corr tiny_state
    by_cases h0 : x0 = 0
    · by_cases h1 : x1 = 0
      · simp [for_range, List.range_succ, net.hw, net.ow, net.set_ow, net.set_hw, train_output,
          train_hderiv, h0, h1]
        ring
      · simp [for_range, List.range_succ, net.hw, net.ow, net.set_ow, net.set_hw, train_output,
          train_hderiv, h0, h1]
        ring
    · by_cases h1 : x1 = 0
      · simp [for_range, List.range_succ, net.hw, net.ow, net.set_ow, net.set_hw, train_output,
          train_hderiv, h0, h1]
        ring
      · simp [for_range, List.range_succ, net.hw, net.ow, net.set_ow, net.set_hw, train_output,
          train_hderiv, h0, h1]
        ring

/-- The squared error of the small net given by its arrays. -/
theorem squared_error_tiny (xs prev : List Int) (hsum h herr r0 r1 S p0 p1 : ℚ)
    (hw ow : List (List ℚ)) (alpha d0 d1 : ℚ) :
    squared_error (tiny_state xs prev hsum h herr r0 r1 S p0 p1 hw ow alpha) [d0, d1] =
      (p0 - d0) ^ 2 + (p1 - d1) ^ 2 := by
  simp [squared_error, tiny_state, List.range_succ]

/-- The small net before and after one training step, in closed form: the
hidden sum `hs`, the hidden result `h`, the output sums `r0`, `r1`, the
outputs `p0`, `p1`, the new weights of the outputs, the error `herr` of the
hidden node, its correction `hc`, and the same values computed again. -/
theorem tiny_trained (expf : ℚ → ℚ) (mem : allocation) (alpha : ℚ) (x0 x1 : Int) (d0 d1 : ℚ) :
    ∃ hs h r0 r1 S p0 p1 u0n u1n b0n b1n herr hc hs2 h2 r0n r1n : ℚ,
      hs = mem.hidden_weight 0 0 * (x0 : ℚ) + mem.hidden_weight 1 0 * (x1 : ℚ) +
        mem.hidden_weight 2 0 ∧
      h = (1 + expf (-hs))⁻¹ ∧
      r0 = h * mem.output_weight 0 0 + mem.output_weight 1 0 ∧
      r1 = h * mem.output_weight 0 1 + mem.output_weight 1 1 ∧
      S = expf r0 + expf r1 ∧ p0 = expf r0 / S ∧ p1 = expf r1 / S ∧
      u0n = mem.output_weight 0 0 + alpha * (-(p0 - d0) * h * (p0 * (1 - p0))) ∧
      u1n = mem.output_weight 0 1 + alpha * (-(p1 - d1) * h * (p1 * (1 - p1))) ∧
      b0n = mem.output_weight 1 0 + alpha * -(p0 - d0) * (p0 * (1 - p0)) ∧
      b1n = mem.output_weight 1 1 + alpha * -(p1 - d1) * (p1 * (1 - p1)) ∧
      herr = (p0 - d0) * (p0 * (1 - p0) * mem.output_weight 0 0 -
          mem.output_weight 0 1 * expf (r0 + r1) / (S * S)) +
        (p1 - d1) * (p1 * (1 - p1) * mem.output_weight 0 1 -
          u0n * expf (r1 + r0) / (S * S)) ∧
      hc = h * (1 - h) * -herr * alpha ∧
      hs2 = hs + hc * ((x0 : ℚ) + (x1 : ℚ) + 1) ∧
      h2 = (1 + expf (-hs2))⁻¹ ∧
      r0n = h2 * u0n + b0n ∧ r1n = h2 * u1n + b1n ∧
      squared_error (tiny_before expf mem alpha x0 x1) [d0, d1] =
        (p0 - d0) ^ 2 + (p1 - d1) ^ 2 ∧
      squared_error (tiny_after expf mem alpha x0 x1 [d0, d1]) [d0, d1] =
        (expf r0n / (expf r0n + expf r1n) - d0) ^ 2 +
          (expf r1n / (expf r0n + expf r1n) - d1) ^ 2 := by
  refine ⟨_, _, _, _, _, _, _, _, _, _, _, _, _, _, _, _, _, rfl, rfl, rfl, rfl, rfl, rfl, rfl,
    rfl, rfl, rfl, rfl, rfl, rfl, rfl, rfl, rfl, rfl, ?_, ?_⟩
  · unfold tiny_before
    rw [tiny_net_state, compute_tiny expf x0 x1 _ _ _ _ _ _ _ _ _ _ _ _ _ _ _ _ rfl,
      squared_error_tiny]
  · unfold tiny_after tiny_before
    rw [tiny_net_state, compute_tiny expf x0 x1 _ _ _ _ _ _ _ _ _ _ _ _ _ _ _ _ rfl,
      train_tiny expf x0 x1 [x0, x1, 1] _ _ _ _ _ _ _ _ _ _ _ _ _ _ _ _ _ _ _ _ rfl rfl rfl rfl,
      compute_tiny expf x0 x1 _ _ _ _ _ _ _ _ _ _ _ _ _ _ _ _ rfl, squared_error_tiny]
    have e : ∀ a b : ℚ, (if x0 = 0 then a else a + b) * (x0 : ℚ) = (a + b) * (x0 : ℚ) := by
      intro a b
      by_cases h0 : x0 = 0
      · simp [h0]
      · simp [h0]
    have e1 : ∀ a b : ℚ, (if x1 = 0 then a else a + b) * (x1 : ℚ) = (a + b) * (x1 : ℚ) := by
      intro a b
      by_cases h0 : x1 = 0
      · simp [h0]
      · simp [h0]
    have e2 : ∀ a b c z : ℚ, (a + z) * (x0 : ℚ) + (b + z) * (x1 : ℚ) + (c + z) =
        a * (x0 : ℚ) + b * (x1 : ℚ) + c + z * ((x0 : ℚ) + (x1 : ℚ) + 1) := by
      intros
      ring
    rw [e, e1, e2]

/-- With a larger first and a smaller second exponential the softmax is
nearer to the target (1, 0). -/
theorem one_hot_error_le (A B A2 B2 : ℚ) (hA : 0 < A) (hB2 : 0 < B2) (hAA : A ≤ A2)
    (hBB : B2 ≤ B) :
    (A2 / (A2 + B2) - 1) ^ 2 + (B2 / (A2 + B2) - 0) ^ 2 ≤
      (A / (A + B) - 1) ^ 2 + (B / (A + B) - 0) ^ 2 := by
  have hA2 : 0 < A2 := lt_of_lt_of_le hA hAA
  have hB : 0 < B := lt_of_lt_of_le hB2 hBB
  have hS : 0 < A + B := by linarith
  have hS2 : 0 < A2 + B2 := by linarith
  have e1 : A2 / (A2 + B2) - 1 = -(B2 / (A2 + B2)) := by
    field_simp
  have e2 : A / (A + B) - 1 = -(B / (A + B)) := by
    field_simp
  have hq : B2 / (A2 + B2) ≤ B / (A + B) := by
    rw [div_le_div_iff₀ hS2 hS]
    nlinarith [mul_le_mul hBB hAA (le_of_lt hA) (le_of_lt hB)]
  have hq0 : 0 ≤ B2 / (A2 + B2) := le_of_lt (div_pos hB2 hS2)
  have hsq : (B2 / (A2 + B2)) ^ 2 ≤ (B / (A + B)) ^ 2 := pow_le_pow_left₀ hq0 hq 2
  rw [e1, e2, sub_zero, sub_zero, neg_sq, neg_sq]
  linarith

/-- A sigmoid value lies strictly between 0 and 1 and grows with the sum. -/
theorem sigmoid_value (expf : ℚ → ℚ) (hpos : ∀ x, 0 < expf x)
    (hmono : ∀ a b, a ≤ b → expf a ≤ expf b) (s t : ℚ) (hst : s ≤ t) :
    0 < (1 + expf (-s))⁻¹ ∧ (1 + expf (-t))⁻¹ < 1 ∧ (1 + expf (-s))⁻¹ ≤ (1 + expf (-t))⁻¹ := by
  have h1 : 0 < 1 + expf (-s) := by linarith [hpos (-s)]
  have h2 : 0 < 1 + expf (-t) := by linarith [hpos (-t)]
  refine ⟨inv_pos.mpr h1, ?_, ?_⟩
  · exact inv_lt_one_of_one_lt₀ (by linarith [hpos (-t)])
  · exact inv_anti₀ h2 (by linarith [hmono (-t) (-s) (by linarith)])

/-- With a smaller first and a larger second exponential the softmax is
nearer to the target (0, 1). -/
theorem one_hot_error_le_swap (A B A2 B2 : ℚ) (hB : 0 < B) (hA2 : 0 < A2) (hAA : A2 ≤ A)
    (hBB : B ≤ B2) :
    (A2 / (A2 + B2) - 0) ^ 2 + (B2 / (A2 + B2) - 1) ^ 2 ≤
      (A / (A + B) - 0) ^ 2 + (B / (A + B) - 1) ^ 2 := by
  have h := one_hot_error_le B A B2 A2 hB hA2 hBB hAA
  rw [add_comm B2 A2, add_comm B A] at h
  linarith

/-- In the exact model with a stand-in for the exponential that is only
positive and non-decreasing: for the 2-input, 1-hidden, 2-output net made from
any memory, with a learning rate `alpha ≥ 0`, inputs `x0, x1 ≥ 0`, a target
that is (1, 0) or (0, 1), and a hidden node whose weight to the target's output
is not negative and whose weight to the other output is not positive, one call
of `train_net` with `lambda = 1` followed by `compute_net` on the same inputs
does not increase the squared error between the outputs and the target. -/
theorem train_net_one_hot_signed (expf : ℚ → ℚ) (mem : allocation) (alpha : ℚ) (x0 x1 : Int)
    (desired : List ℚ)
    (hpos : ∀ x, 0 < expf x) (hmono : ∀ a b, a ≤ b → expf a ≤ expf b)
    (halpha : 0 ≤ alpha) (hx0 : 0 ≤ x0) (hx1 : 0 ≤ x1)
    (hd : (desired = [1, 0] ∧ 0 ≤ mem.output_weight 0 0 ∧ mem.output_weight 0 1 ≤ 0) ∨
      (desired = [0, 1] ∧ mem.output_weight 0 0 ≤ 0 ∧ 0 ≤ mem.output_weight 0 1)) :
    squared_error (tiny_after expf mem alpha x0 x1 desired) desired ≤
      squared_error (tiny_before expf mem alpha x0 x1) desired := by
  have hq0 : (0 : ℚ) ≤ (x0 : ℚ) := by exact_mod_cast hx0
  have hq1 : (0 : ℚ) ≤ (x1 : ℚ) := by exact_mod_cast hx1
  rcases hd with ⟨hd, hu0, hu1⟩ | ⟨hd, hu0, hu1⟩
  · subst hd
    obtain ⟨hs, h, r0, r1, S, p0, p1, u0n, u1n, b0n, b1n, herr, hc, hs2, h2, r0n, r1n,
      ehs, eh, er0, er1, eS, ep0, ep1, eu0n, eu1n, eb0n, eb1n, eherr, ehc, ehs2, eh2, er0n,
      er1n, ebefore, eafter⟩ := tiny_trained expf mem alpha x0 x1 1 0
    rw [ebefore, eafter, ep0, ep1, eS]
    have hE0 := hpos r0
    have hE1 := hpos r1
    have hS : 0 < S := by rw [eS]; linarith
    have hp0 : 0 < p0 := by rw [ep0]; exact div_pos hE0 hS
    have hp1 : 0 < p1 := by rw [ep1]; exact div_pos hE1 hS
    have hsum : p0 + p1 = 1 := by
      rw [ep0, ep1, ← add_div, ← eS]
      exact div_self (ne_of_gt hS)
    have hQ1 : 0 ≤ expf (r0 + r1) / (S * S) :=
      le_of_lt (div_pos (hpos _) (mul_pos hS hS))
    have hQ2 : 0 ≤ expf (r1 + r0) / (S * S) :=
      le_of_lt (div_pos (hpos _) (mul_pos hS hS))
    have hh := sigmoid_value expf hpos hmono hs hs (le_refl _)
    rw [← eh] at hh
    have hD0 : 0 ≤ p0 * (1 - p0) := mul_nonneg (le_of_lt hp0) (by linarith)
    have hD1 : 0 ≤ p1 * (1 - p1) := mul_nonneg (le_of_lt hp1) (by linarith)
    have hc0 : 0 ≤ -(p0 - 1) * (p0 * (1 - p0)) := mul_nonneg (by linarith) hD0
    have hc1 : 0 ≤ (p1 - 0) * (p1 * (1 - p1)) := mul_nonneg (by linarith) hD1
    have hu0n : 0 ≤ u0n := by
      rw [eu0n]
      have : 0 ≤ alpha * (-(p0 - 1) * h * (p0 * (1 - p0))) :=
        mul_nonneg halpha (mul_nonneg (mul_nonneg (by linarith) (le_of_lt hh.1)) hD0)
      linarith
    have hherr : herr ≤ 0 := by
      rw [eherr]
      have t1 : 0 ≤ p0 * (1 - p0) * mem.output_weight 0 0 -
          mem.output_weight 0 1 * expf (r0 + r1) / (S * S) := by
        have a1 := mul_nonneg hD0 hu0
        have a2 : 0 ≤ -mem.output_weight 0 1 * (expf (r0 + r1) / (S * S)) :=
          mul_nonneg (by linarith) hQ1
        have a3 : mem.output_weight 0 1 * expf (r0 + r1) / (S * S) =
            -(-mem.output_weight 0 1 * (expf (r0 + r1) / (S * S))) := by ring
        rw [a3]
        linarith
      have t2 : p1 * (1 - p1) * mem.output_weight 0 1 - u0n * expf (r1 + r0) / (S * S) ≤ 0 := by
        have a1 : p1 * (1 - p1) * mem.output_weight 0 1 ≤ 0 :=
          mul_nonpos_of_nonneg_of_nonpos hD1 hu1
        have a2 : 0 ≤ u0n * (expf (r1 + r0) / (S * S)) := mul_nonneg hu0n hQ2
        have a3 : u0n * expf (r1 + r0) / (S * S) = u0n * (expf (r1 + r0) / (S * S)) := by ring
        rw [a3]
        linarith
      have s1 : (p0 - 1) * (p0 * (1 - p0) * mem.output_weight 0 0 -
          mem.output_weight 0 1 * expf (r0 + r1) / (S * S)) ≤ 0 :=
        mul_nonpos_of_nonpos_of_nonneg (by linarith) t1
      have s2 : (p1 - 0) * (p1 * (1 - p1) * mem.output_weight 0 1 -
          u0n * expf (r1 + r0) / (S * S)) ≤ 0 :=
        mul_nonpos_of_nonneg_of_nonpos (by linarith) t2
      linarith
    have hhc : 0 ≤ hc := by
      rw [ehc]
      exact mul_nonneg (mul_nonneg (mul_nonneg (le_of_lt hh.1) (by linarith [hh.2.1]))
        (by linarith)) halpha
    have hhs2 : hs ≤ hs2 := by
      rw [ehs2]
      have := mul_nonneg hhc (by linarith : (0 : ℚ) ≤ (x0 : ℚ) + (x1 : ℚ) + 1)
      linarith
    have hh2 := sigmoid_value expf hpos hmono hs hs2 hhs2
    rw [← eh, ← eh2] at hh2
    have hh2pos : 0 < h2 := lt_of_lt_of_le hh.1 hh2.2.2
    have hr0 : r0 ≤ r0n := by
      have e : r0n = r0 + ((h2 - h) * mem.output_weight 0 0 +
          alpha * (-(p0 - 1) * (p0 * (1 - p0))) * (h2 * h + 1)) := by
        rw [er0n, er0, eu0n, eb0n]
        ring
      rw [e]
      have a1 : 0 ≤ (h2 - h) * mem.output_weight 0 0 := mul_nonneg (by linarith [hh2.2.2]) hu0
      have a2 : 0 ≤ alpha * (-(p0 - 1) * (p0 * (1 - p0))) * (h2 * h + 1) :=
        mul_nonneg (mul_nonneg halpha hc0)
          (by linarith [mul_pos hh2pos hh.1])
      linarith
    have hr1 : r1n ≤ r1 := by
      have e : r1n = r1 - (-((h2 - h) * mem.output_weight 0 1) +
          alpha * ((p1 - 0) * (p1 * (1 - p1))) * (h2 * h + 1)) := by
        rw [er1n, er1, eu1n, eb1n]
        ring
      rw [e]
      have a1 : (h2 - h) * mem.output_weight 0 1 ≤ 0 :=
        mul_nonpos_of_nonneg_of_nonpos (by linarith [hh2.2.2]) hu1
      have a2 : 0 ≤ alpha * ((p1 - 0) * (p1 * (1 - p1))) * (h2 * h + 1) :=
        mul_nonneg (mul_nonneg halpha hc1)
          (by linarith [mul_pos hh2pos hh.1])
      linarith
    exact one_hot_error_le (expf r0) (expf r1) (expf r0n) (expf r1n) hE0 (hpos _)
      (hmono _ _ hr0) (hmono _ _ hr1)
  · subst hd
    obtain ⟨hs, h, r0, r1, S, p0, p1, u0n, u1n, b0n, b1n, herr, hc, hs2, h2, r0n, r1n,
      ehs, eh, er0, er1, eS, ep0, ep1, eu0n, eu1n, eb0n, eb1n, eherr, ehc, ehs2, eh2, er0n,
      er1n, ebefore, eafter⟩ := tiny_trained expf mem alpha x0 x1 0 1
    rw [ebefore, eafter, ep0, ep1, eS]
    have hE0 := hpos r0
    have hE1 := hpos r1
    have hS : 0 < S := by rw [eS]; linarith
    have hp0 : 0 < p0 := by rw [ep0]; exact div_pos hE0 hS
    have hp1 : 0 < p1 := by rw [ep1]; exact div_pos hE1 hS
    have hsum : p0 + p1 = 1 := by
      rw [ep0, ep1, ← add_div, ← eS]
      exact div_self (ne_of_gt hS)
    have hQ1 : 0 ≤ expf (r0 + r1) / (S * S) :=
      le_of_lt (div_pos (hpos _) (mul_pos hS hS))
    have hQ2 : 0 ≤ expf (r1 + r0) / (S * S) :=
      le_of_lt (div_pos (hpos _) (mul_pos hS hS))
    have hh := sigmoid_value expf hpos hmono hs hs (le_refl _)
    rw [← eh] at hh
    have hD0 : 0 ≤ p0 * (1 - p0) := mul_nonneg (le_of_lt hp0) (by linarith)
    have hD1 : 0 ≤ p1 * (1 - p1) := mul_nonneg (le_of_lt hp1) (by linarith)
    have hc0 : 0 ≤ (p0 - 0) * (p0 * (1 - p0)) := mul_nonneg (by linarith) hD0
    have hc1 : 0 ≤ -(p1 - 1) * (p1 * (1 - p1)) := mul_nonneg (by linarith) hD1
    have hu0n : u0n ≤ 0 := by
      rw [eu0n]
      have a1 : 0 ≤ alpha * ((p0 - 0) * h * (p0 * (1 - p0))) :=
        mul_nonneg halpha (mul_nonneg (mul_nonneg (by linarith) (le_of_lt hh.1)) hD0)
      have a2 : alpha * (-(p0 - 0) * h * (p0 * (1 - p0))) =
          -(alpha * ((p0 - 0) * h * (p0 * (1 - p0)))) := by ring
      rw [a2]
      linarith
    have hherr : herr ≤ 0 := by
      rw [eherr]
      have t1 : p0 * (1 - p0) * mem.output_weight 0 0 -
          mem.output_weight 0 1 * expf (r0 + r1) / (S * S) ≤ 0 := by
        have a1 : p0 * (1 - p0) * mem.output_weight 0 0 ≤ 0 :=
          mul_nonpos_of_nonneg_of_nonpos hD0 hu0
        have a2 : 0 ≤ mem.output_weight 0 1 * (expf (r0 + r1) / (S * S)) :=
          mul_nonneg hu1 hQ1
        have a3 : mem.output_weight 0 1 * expf (r0 + r1) / (S * S) =
            mem.output_weight 0 1 * (expf (r0 + r1) / (S * S)) := by ring
        rw [a3]
        linarith
      have t2 : 0 ≤ p1 * (1 - p1) * mem.output_weight 0 1 -
          u0n * expf (r1 + r0) / (S * S) := by
        have a1 := mul_nonneg hD1 hu1
        have a2 : 0 ≤ -u0n * (expf (r1 + r0) / (S * S)) := mul_nonneg (by linarith) hQ2
        have a3 : u0n * expf (r1 + r0) / (S * S) =
            -(-u0n * (expf (r1 + r0) / (S * S))) := by ring
        rw [a3]
        linarith
      have s1 : (p0 - 0) * (p0 * (1 - p0) * mem.output_weight 0 0 -
          mem.output_weight 0 1 * expf (r0 + r1) / (S * S)) ≤ 0 :=
        mul_nonpos_of_nonneg_of_nonpos (by linarith) t1
      have s2 : (p1 - 1) * (p1 * (1 - p1) * mem.output_weight 0 1 -
          u0n * expf (r1 + r0) / (S * S)) ≤ 0 :=
        mul_nonpos_of_nonpos_of_nonneg (by linarith) t2
      linarith
    have hhc : 0 ≤ hc := by
      rw [ehc]
      exact mul_nonneg (mul_nonneg (mul_nonneg (le_of_lt hh.1) (by linarith [hh.2.1]))
        (by linarith)) halpha
    have hhs2 : hs ≤ hs2 := by
      rw [ehs2]
      have := mul_nonneg hhc (by linarith : (0 : ℚ) ≤ (x0 : ℚ) + (x1 : ℚ) + 1)
      linarith
    have hh2 := sigmoid_value expf hpos hmono hs hs2 hhs2
    rw [← eh, ← eh2] at hh2
    have hh2pos : 0 < h2 := lt_of_lt_of_le hh.1 hh2.2.2
    have hr0 : r0n ≤ r0 := by
      have e : r0n = r0 - (-((h2 - h) * mem.output_weight 0 0) +
          alpha * ((p0 - 0) * (p0 * (1 - p0))) * (h2 * h + 1)) := by
        rw [er0n, er0, eu0n, eb0n]
        ring
      rw [e]
      have a1 : (h2 - h) * mem.output_weight 0 0 ≤ 0 :=
        mul_nonpos_of_nonneg_of_nonpos (by linarith [hh2.2.2]) hu0
      have a2 : 0 ≤ alpha * ((p0 - 0) * (p0 * (1 - p0))) * (h2 * h + 1) :=
        mul_nonneg (mul_nonneg halpha hc0)
          (by linarith [mul_pos hh2pos hh.1])
      linarith
    have hr1 : r1 ≤ r1n := by
      have e : r1n = r1 + ((h2 - h) * mem.output_weight 0 1 +
          alpha * (-(p1 - 1) * (p1 * (1 - p1))) * (h2 * h + 1)) := by
        rw [er1n, er1, eu1n, eb1n]
        ring
      rw [e]
      have a1 : 0 ≤ (h2 - h) * mem.output_weight 0 1 := mul_nonneg (by linarith [hh2.2.2]) hu1
      have a2 : 0 ≤ alpha * (-(p1 - 1) * (p1 * (1 - p1))) * (h2 * h + 1) :=
        mul_nonneg (mul_nonneg halpha hc1)
          (by linarith [mul_pos hh2pos hh.1])
      linarith
    exact one_hot_error_le_swap (expf r0) (expf r1) (expf r0n) (expf r1n) hE1 (hpos _)
      (hmono _ _ hr0) (hmono _ _ hr1)

/-- The stand-in `ramp_exp` does not decrease. -/
theorem ramp_exp_mono : ∀ a b, a ≤ b → ramp_exp a ≤ ramp_exp b := by
  intro a b hab
  unfold ramp_exp
  by_cases ha : 0 ≤ a
  · have hb : 0 ≤ b := le_trans ha hab
    rw [if_pos ha, if_pos hb]
    linarith
  · have ha2 : a < 0 := lt_of_not_le ha
    have h1 : 1 / (1 - a) ≤ 1 := by
      rw [div_le_one (by linarith)]
      linarith
    rw [if_neg ha]
    by_cases hb : 0 ≤ b
    · rw [if_pos hb]
      linarith
    · have hb2 : b < 0 := lt_of_not_le hb
      rw [if_neg hb]
      exact one_div_le_one_div_of_le (by linarith) (by linarith)

set_option maxRecDepth 8000 in
/-- A negative input turns the hidden node the wrong way: `train_net` adds the
same correction to the hidden weight of every nonzero input, whatever its
sign.  On the inputs -2, 0 the net made from `steep_memory` is at squared
error 1/2 from the target (1, 0), and further away after one call of
`train_net` with `lambda = 1`. -/
theorem train_net_negative_input :
    squared_error (tiny_before ramp_exp steep_memory (1 / 10000) (-2) 0) [1, 0] = 1 / 2 ∧
    squared_error (tiny_before ramp_exp steep_memory (1 / 10000) (-2) 0) [1, 0] <
      squared_error (tiny_after ramp_exp steep_memory (1 / 10000) (-2) 0 [1, 0]) [1, 0] := by
  constructor
  · with_unfolding_all decide
  · with_unfolding_all decide

/-- C28 (counterexample): the small net made from `steep_memory` with the
learning rate 0.0001 of the program gives the outputs (1/2, 1/2) on the inputs
0, 0, at squared error 1/50 from the target (3/5, 2/5), whose entries sum to
1; after one call of `train_net` with `lambda = 1` the squared error on the
same inputs is larger. -/
theorem train_net_overshoots :
    squared_error (tiny_before ramp_exp steep_memory (1 / 10000) 0 0) [3 / 5, 2 / 5] = 1 / 50 ∧
    squared_error (tiny_before ramp_exp steep_memory (1 / 10000) 0 0) [3 / 5, 2 / 5] <
      squared_error (tiny_after ramp_exp steep_memory (1 / 10000) 0 0 [3 / 5, 2 / 5])
        [3 / 5, 2 / 5] := by
  constructor
  · with_unfolding_all decide
  · with_unfolding_all decide

/-- The net made from `steep_memory`, trained once towards (1, 0) on the inputs
1, 0, with the stand-in `ramp_exp`. -/
theorem train_net_one_hot_signed_sample :
    squared_error (tiny_after ramp_exp steep_memory (1 / 10000) 1 0 [1, 0]) [1, 0] ≤
      squared_error (tiny_before ramp_exp steep_memory (1 / 10000) 1 0) [1, 0] :=
  train_net_one_hot_signed ramp_exp steep_memory (1 / 10000) 1 0 [1, 0] ramp_exp_pos
    ramp_exp_mono (by with_unfolding_all decide) (by decide) (by decide)
    (Or.inl ⟨rfl, by with_unfolding_all decide, by with_unfolding_all decide⟩)

/-! ### The worst case of a declined fight -/

/-- Reading another cell of an array after a write (cells beyond the list are
the default value). -/
theorem getD_write_at_ne {α : Type} [Inhabited α] (xs : List α) (k j : Nat) (x : α)
    (hj : j ≠ k) : (write_at xs k x).getD j default = xs.getD j default := by
  unfold write_at
  by_cases hk : k < xs.length
  · rw [if_pos hk, List.getD_eq_getElem?_getD, List.getD_eq_getElem?_getD,
      List.getElem?_set_ne (Ne.symm hj)]
  · rw [if_neg hk, List.getD_eq_getElem?_getD, List.getD_eq_getElem?_getD]
    by_cases h1 : j < xs.length
    · rw [List.append_assoc, List.getElem?_append_left h1]
    · rw [List.getElem?_eq_none (Nat.le_of_not_lt h1)]
      by_cases h2 : j < k
      · rw [List.getElem?_append_left (by
          rw [List.length_append, List.length_replicate]; omega),
          List.getElem?_append_right (Nat.le_of_not_lt h1)]
        rw [List.getElem?_replicate, if_pos (by omega)]
        rfl
      · rw [List.getElem?_eq_none (by
          simp only [List.length_append, List.length_replicate, List.length_singleton]
          omega)]

/-- The first `n` passes of the loop of `store_net` on a full window: the
cells below `n` hold their upper neighbours, the others are as before. -/
theorem shift_past_steps (past : List (List Int)) (n : Nat) (i : Nat) :
    (for_range n (fun i p => write_at p i (p.getD (i + 1) [])) past).getD i [] =
      if i < n then past.getD (i + 1) [] else past.getD i [] := by
  induction n generalizing i with
  | zero =>
    rw [for_range_zero]
    simp
  | succ n ih =>
    rw [for_range_succ]
    by_cases hi : i = n
    · subst hi
      rw [getD_write_at_self, ih (i + 1), if_neg (by omega), if_pos (by omega)]
    · have e := getD_write_at_ne
        (for_range n (fun i p => write_at p i (p.getD (i + 1) [])) past) n i
        ((for_range n (fun i p => write_at p i (p.getD (i + 1) [])) past).getD (n + 1) []) hi
      have hd : (default : List Int) = [] := rfl
      rw [hd] at e
      rw [e, ih i]
      by_cases h2 : i < n
      · rw [if_pos h2, if_pos (by omega)]
      · rw [if_neg h2, if_neg (by omega)]

/-- The window after `store_net` on a full window. -/
theorem store_net_full (l : net) (h : l.num_past = (PAST_MAX : Int)) :
    (store_net l).num_past = (PAST_MAX : Int) ∧
    (∀ i, i < PAST_MAX - 1 → (store_net l).past_input.getD i [] = l.past_input.getD (i + 1) []) ∧
    (store_net l).past_input.getD (PAST_MAX - 1) [] = input_copy l := by
  have hn : (l.num_past - 1).toNat = PAST_MAX - 1 := by
    rw [h]
    rfl
  unfold store_net
  simp only [h, if_true]
  refine ⟨by norm_num, fun i hi => ?_, ?_⟩
  · have hh : ((PAST_MAX : Int) - 1).toNat = PAST_MAX - 1 := rfl
    rw [hh]
    have e := getD_write_at_ne (shift_past l.past_input) (PAST_MAX - 1) i
      (input_copy { l with past_input := shift_past l.past_input,
                           num_past := (PAST_MAX : Int) - 1 }) (by omega)
    have hd : (default : List Int) = [] := rfl
    rw [hd] at e
    rw [e]
    unfold shift_past
    rw [shift_past_steps, if_pos hi]
  · have hh : ((PAST_MAX : Int) - 1).toNat = PAST_MAX - 1 := rfl
    rw [hh, getD_write_at_self]
    unfold input_copy
    dsimp only

/-- The window after `store_net` on a window that is not full. -/
theorem store_net_room (l : net) (h : l.num_past ≠ (PAST_MAX : Int)) :
    (store_net l).num_past = l.num_past + 1 ∧
    (∀ i, i ≠ l.num_past.toNat →
      (store_net l).past_input.getD i [] = l.past_input.getD i []) ∧
    (store_net l).past_input.getD l.num_past.toNat [] = input_copy l := by
  unfold store_net
  simp only [h, if_false]
  refine ⟨trivial, fun i hi => ?_, ?_⟩
  · have e := getD_write_at_ne l.past_input l.num_past.toNat i (input_copy l) hi
    have hd : (default : List Int) = [] := rfl
    rw [hd] at e
    exact e
  · rw [getD_write_at_self]

/-- The bounds of `num_past` are kept by every call on the window. -/
theorem run_past_ops_bounds (ops : List past_op) (l : net)
    (h : 0 ≤ l.num_past ∧ l.num_past ≤ (PAST_MAX : Int)) :
    0 ≤ (run_past_ops l ops).num_past ∧ (run_past_ops l ops).num_past ≤ (PAST_MAX : Int) := by
  induction ops generalizing l with
  | nil => exact h
  | cons op rest ih =>
    have e : run_past_ops l (op :: rest) = run_past_ops (run_past_op l op) rest := rfl
    rw [e]
    apply ih
    cases op with
    | store =>
      show 0 ≤ (store_net l).num_past ∧ (store_net l).num_past ≤ (PAST_MAX : Int)
      by_cases hf : l.num_past = (PAST_MAX : Int)
      · rw [(store_net_full l hf).1]
        exact ⟨(by decide : (0 : Int) ≤ (PAST_MAX : Int)), le_refl _⟩
      · rw [(store_net_room l hf).1]
        have := h.1
        have := h.2
        exact ⟨by omega, by omega⟩
    | clear => exact ⟨le_refl _, (by decide : (0 : Int) ≤ (PAST_MAX : Int))⟩

/-- C33: the window of past inputs is a bounded FIFO.  For a net made by
`make_learner`, after any sequence of calls of `store_net` and `clear_store`,
`0 ≤ num_past ≤ 50`.  A call of `store_net` on a full window (`num_past = 50`)
leaves `num_past = 50`, the cells 0, ..., 48 hold the snapshots that were in
the cells 1, ..., 49 (the oldest is dropped, the others keep their order), and
the cell 49 holds a copy of the cells `input_value[0..num_inputs]`, bias slot
included.  On a window that is not full `store_net` writes the copy to the
cell `num_past`, leaves the other cells and adds one to `num_past`.
`clear_store` sets `num_past` to 0. -/
theorem past_window_fifo :
    (∀ (learn : net) (input hidden output : Nat) (mem : allocation) (ops : List past_op),
      0 ≤ (run_past_ops (make_learner learn input hidden output mem) ops).num_past ∧
      (run_past_ops (make_learner learn input hidden output mem) ops).num_past ≤ 50) ∧
    (∀ l : net, l.num_past = 50 →
      (store_net l).num_past = 50 ∧
      (∀ i, i < 49 → (store_net l).past_input.getD i [] = l.past_input.getD (i + 1) []) ∧
      (store_net l).past_input.getD 49 [] =
        (List.range (l.num_inputs + 1).toNat).map (fun k => l.input_value.getD k 0)) ∧
    (∀ l : net, l.num_past ≠ 50 →
      (store_net l).num_past = l.num_past + 1 ∧
      (∀ i, i ≠ l.num_past.toNat →
        (store_net l).past_input.getD i [] = l.past_input.getD i []) ∧
      (store_net l).past_input.getD l.num_past.toNat [] =
        (List.range (l.num_inputs + 1).toNat).map (fun k => l.input_value.getD k 0)) ∧
    (∀ l : net, (clear_store l).num_past = 0) :=
  ⟨fun learn input hidden output mem ops =>
      run_past_ops_bounds ops (make_learner learn input hidden output mem)
        ⟨le_refl _, (by decide : (0 : Int) ≤ (PAST_MAX : Int))⟩,
    fun l h => store_net_full l h, fun l h => store_net_room l h, fun _ => rfl⟩

/-! ### The replay of past inputs in `perform_training` -/

/-- The loop of `perform_training` started with the training amount `lambda`
trains the snapshot `n - 1 - j` in its pass `j` with `lambda * 0.9 ^ j`. -/
theorem replay_past_fold (expf : ℚ → ℚ) (target : List ℚ) (n : Nat) (lambda : ℚ) (l : net) :
    replay_past expf target n lambda l =
      (List.range n).foldl (fun acc j =>
        replay_step expf target acc (n - 1 - j) (lambda * (9 / 10 : ℚ) ^ j)) l := by
  induction n generalizing lambda l with
  | zero => rfl
  | succ n ih =>
    have e : replay_past expf target (n + 1) lambda l =
        replay_past expf target n (lambda * (9 / 10)) (replay_step expf target l n lambda) := rfl
    have hf : (fun acc j => replay_step expf target acc (n - 1 - j)
          (lambda * (9 / 10) * (9 / 10 : ℚ) ^ j)) =
        (fun acc j => replay_step expf target acc (n + 1 - 1 - (j + 1))
          (lambda * (9 / 10 : ℚ) ^ (j + 1))) := by
      funext acc j
      have h1 : n + 1 - 1 - (j + 1) = n - 1 - j := by omega
      have h2 : lambda * (9 / 10 : ℚ) ^ (j + 1) = lambda * (9 / 10) * (9 / 10 : ℚ) ^ j := by
        rw [pow_succ]
        ring
      rw [h1, h2]
    have h0 : replay_step expf target l n lambda =
        replay_step expf target l (n + 1 - 1 - 0) (lambda * (9 / 10 : ℚ) ^ 0) := by
      have h3 : n + 1 - 1 - 0 = n := by omega
      rw [h3, pow_zero, mul_one]
    rw [e, ih, hf, h0, List.range_succ_eq_map, List.foldl_cons, List.foldl_map]

/-- The loop of `perform_training` is the replay by age with the exponent
`k - 1`. -/
theorem replay_past_by_age (expf : ℚ → ℚ) (target : List ℚ) (n : Nat) (l : net) :
    replay_past expf target (n - 1) 1 l = replay_by_age expf target 1 n l := by
  have hf : (fun acc j => replay_step expf target acc (n - 1 - 1 - j)
        (1 * (9 / 10 : ℚ) ^ j)) =
      (fun acc j => replay_step expf target acc (n - 1 - (j + 1))
        ((9 / 10 : ℚ) ^ (j + 1 - 1))) := by
    funext acc j
    have h1 : n - 1 - (j + 1) = n - 1 - 1 - j := by omega
    have h2 : j + 1 - 1 = j := by omega
    rw [h1, h2, one_mul]
  rw [replay_past_fold, hf]
  unfold replay_by_age
  rw [List.foldl_map]

/-- The net of `who` after an assignment to it. -/
theorem learner_set_learner (s : ai_state) (who : Int) (l : net) :
    (s.set_learner who l).learner who = l := by
  unfold ai_state.set_learner ai_state.learner
  by_cases h : who = 0
  · simp [h]
  · simp [h]

/-- C32 (counterexample): the small net `tiny_stored` holds two snapshots, the
current inputs in cell 1 and the inputs of one step back in cell 0.  The loop
of `perform_training` trains the snapshot of one step back with `lambda = 1`,
and the net it leaves differs from the one left by training that snapshot
with `lambda = 0.9`. -/
theorem replay_past_full_weight :
    tiny_stored.num_past = 2 ∧
    replay_past ramp_exp [1, 0] (tiny_stored.num_past - 1).toNat 1 tiny_stored =
      replay_step ramp_exp [1, 0] tiny_stored 0 1 ∧
    (replay_past ramp_exp [1, 0] (tiny_stored.num_past - 1).toNat 1 tiny_stored).output_weight ≠
      (replay_by_age ramp_exp [1, 0] 0 2 tiny_stored).output_weight ∧
    replay_by_age ramp_exp [1, 0] 0 2 tiny_stored =
      replay_step ramp_exp [1, 0] tiny_stored 0 (9 / 10) := by
  refine ⟨rfl, rfl, ?_, ?_⟩
  · with_unfolding_all decide
  · unfold replay_by_age
    simp [List.range_succ]

/-- C32 (as amended): in `perform_training` with a net loaded, after the
current inputs are evaluated and stored (and, when the desired result is
passed, trained towards it with `lambda = 1`), the stored snapshots are
replayed from the most recent to the oldest: the snapshot `k ≥ 1` steps back in
time is trained with `lambda = 0.9 ^ (k - 1)` towards the same target, which is
the desired result when it is passed and the current output of the net
otherwise. -/
theorem perform_training_replay (expf : ℚ → ℚ) (g : game) (who : Int)
    (desired : Option (List ℚ)) (s : ai_state) (h : (s.learner who).num_inputs ≠ 0) :
    (perform_training expf g who desired s).learner who =
      replay_by_age expf (training_target expf (stored_learner expf g who s) desired).2 1
        (training_target expf (stored_learner expf g who s) desired).1.num_past.toNat
        (training_target expf (stored_learner expf g who s) desired).1 ∧
    (∀ d, desired = some d →
      training_target expf (stored_learner expf g who s) desired =
        (train_net expf (stored_learner expf g who s) 1 [d.getD 0 0, d.getD 1 0],
          [d.getD 0 0, d.getD 1 0])) ∧
    (desired = none →
      training_target expf (stored_learner expf g who s) desired =
        (stored_learner expf g who s,
          [(stored_learner expf g who s).win_prob.getD 0 0,
           (stored_learner expf g who s).win_prob.getD 1 0])) := by
  refine ⟨?_, ?_, ?_⟩
  · unfold perform_training
    rw [if_neg h]
    dsimp only
    rw [learner_set_learner, ← replay_past_by_age]
    have e : ∀ a : Int, (a - 1).toNat = a.toNat - 1 := by
      intro a
      omega
    rw [e]
  · intro d hd
    rw [hd]
    rfl
  · intro hd
    rw [hd]
    rfl

/-- C32 witness: the final training of player 0 on the real game, with both
nets loaded. -/
theorem perform_training_replay_witness :
    (loaded_state.learner 0).num_inputs ≠ 0 ∧
    (perform_training ramp_exp real_game 0 (some [1, 0]) loaded_state).learner 0 =
      replay_by_age ramp_exp
        (training_target ramp_exp (stored_learner ramp_exp real_game 0 loaded_state)
          (some [1, 0])).2 1
        (training_target ramp_exp (stored_learner ramp_exp real_game 0 loaded_state)
          (some [1, 0])).1.num_past.toNat
        (training_target ramp_exp (stored_learner ramp_exp real_game 0 loaded_state)
          (some [1, 0])).1 :=
  ⟨by decide, (perform_training_replay ramp_exp real_game 0 (some [1, 0]) loaded_state
    (by decide)).1⟩

/-! ### Marks of randomly chosen cards -/

theorem marks_kept_refl (x : game) : marks_kept x x := ⟨rfl, fun _ _ _ => rfl⟩

theorem marks_kept_trans (x y z : game) (h1 : marks_kept x y) (h2 : marks_kept y z) :
    marks_kept x z :=
  ⟨h2.1.trans h1.1, fun h0 who i =>
    (h2.2 (h1.1.trans h0) who i).trans (h1.2 h0 who i)⟩

/-- Assigning a player leaves the simulation flag alone. -/
theorem simulation_set_p (g : game) (who : Int) (q : player) :
    (g.set_p who q).simulation = g.simulation := by
  unfold game.set_p
  split_ifs <;> rfl

/-- A player is replaced by one whose cards carry the same marks. -/
theorem marks_kept_set_p (g : game) (who : Int) (q : player)
    (h : ∀ i, (q.card_at i).random_fake = ((g.p who).card_at i).random_fake) :
    marks_kept g (g.set_p who q) := by
  refine ⟨simulation_set_p g who q, fun _ who2 i => ?_⟩
  by_cases h2 : (who2 = 0 ↔ who = 0)
  · rw [p_congr (g.set_p who q) who who2 h2, p_congr g who who2 h2, p_set_p_self]
    exact h i
  · rw [p_set_p_other g who who2 q h2]

/-- The mark of a card after an assignment to a card that keeps its mark. -/
theorem random_fake_set_card (p : player) (k i : Nat) (c : card)
    (h : c.random_fake = (p.card_at k).random_fake) :
    ((p.set_card k c).card_at i).random_fake = (p.card_at i).random_fake := by
  rw [card_at_set_card]
  by_cases hi : i = k ∧ k < p.deck.length
  · rw [if_pos hi, h, hi.1]
  · rw [if_neg hi]

/-- A loop of assignments to cards that keep the marks keeps the marks. -/
theorem random_fake_foldl (body : player → Nat → player)
    (hb : ∀ q i j, ((body q i).card_at j).random_fake = (q.card_at j).random_fake)
    (l : List Nat) :
    ∀ (p : player) (j : Nat), ((l.foldl body p).card_at j).random_fake =
      (p.card_at j).random_fake := by
  induction l with
  | nil => intro p j; rfl
  | cons a rest ih =>
    intro p j
    rw [List.foldl_cons, ih, hb]

theorem marks_kept_check_all_known (g : game) (who : Int) :
    marks_kept g (check_all_known g who) := by
  unfold check_all_known
  dsimp only
  split_ifs
  · exact marks_kept_refl g
  · exact marks_kept_refl g
  · apply marks_kept_set_p
    intro i
    apply random_fake_foldl
    intro q a j
    split_ifs
    · exact random_fake_set_card q a j _ rfl
    · rfl

theorem marks_kept_remove_fake (g : game) (who : Int) : marks_kept g (remove_fake g who) := by
  unfold remove_fake
  by_cases h : g.simulation = 0
  · rw [if_pos h]
    exact marks_kept_refl g
  · rw [if_neg h]
    exact ⟨simulation_set_p g who _, fun h0 => absurd h0 h⟩

theorem marks_kept_random_card (g : game) (who stack : Int) :
    marks_kept g (random_card g who stack).2 := by
  unfold random_card
  dsimp only
  split_ifs
  · exact marks_kept_refl g
  · by_cases h : g.simulation = 0
    · have e : random_mark g who (random_index (g.p who) stack (myrand g.random_seed).1)
          (myrand g.random_seed).2 =
          { g.set_p who ((g.p who).set_card
              (random_index (g.p who) stack (myrand g.random_seed).1)
              { (g.p who).card_at (random_index (g.p who) stack (myrand g.random_seed).1) with
                on_bottom := 0 }) with
            random_seed := (myrand g.random_seed).2, random_event := 1 } := by
        unfold random_mark
        simp only [h, ne_eq, not_true_eq_false, if_false]
      rw [e]
      have hk := marks_kept_set_p g who ((g.p who).set_card
        (random_index (g.p who) stack (myrand g.random_seed).1)
        { (g.p who).card_at (random_index (g.p who) stack (myrand g.random_seed).1) with
          on_bottom := 0 }) (fun i => random_fake_set_card _ _ i _ rfl)
      exact ⟨hk.1, hk.2⟩
    · refine ⟨?_, fun h0 => absurd h0 h⟩
      unfold random_mark
      exact simulation_set_p g who _

/-- The mark of a card after the statements that change its zone. -/
theorem random_fake_shift_card (p : player) (k i : Nat) (to_ : Int) :
    ((shift_card p k to_).card_at i).random_fake = (p.card_at i).random_fake := by
  have e : (shift_card p k to_).card_at i =
      (p.set_card k { p.card_at k with where_ := to_ }).card_at i := rfl
  rw [e]
  exact random_fake_set_card p k i _ rfl

theorem marks_kept_move_card_shift (g : game) (who : Int) (k : Nat) (to_ : Int) :
    marks_kept g (move_card_shift g who k to_) := by
  unfold move_card_shift
  apply marks_kept_set_p
  intro i
  exact (random_fake_set_card (shift_card (g.p who) k to_) k i
    { deactivate_card ((shift_card (g.p who) k to_).card_at k) with disclosed := 0 } rfl).trans
    (random_fake_shift_card (g.p who) k i to_)

/-- A field of a player other than the deck is assigned. -/
theorem marks_kept_set_field (g : game) (who : Int) (q : player)
    (h : q.deck = (g.p who).deck) : marks_kept g (g.set_p who q) := by
  apply marks_kept_set_p
  intro i
  unfold player.card_at
  rw [h]

theorem marks_kept_track_discard (g : game) (who : Int) (d_ptr : design) (to_ : Int) :
    marks_kept g (track_discard g who d_ptr to_) := by
  unfold track_discard
  split_ifs
  · exact marks_kept_trans g (random_card g who LOC_DISCARD).2 _
      (marks_kept_random_card g who LOC_DISCARD) (marks_kept_set_field _ who _ rfl)
  · exact marks_kept_refl g

theorem marks_kept_track_last (g : game) (who : Int) (d_ptr : design) (to_ : Int) :
    marks_kept g (track_last g who d_ptr to_) := by
  unfold track_last
  dsimp only
  split_ifs
  · exact marks_kept_trans g (g.set_p who { g.p who with last_leader := some d_ptr }) _
      (marks_kept_set_field g who _ rfl) (marks_kept_set_field _ who _ rfl)
  · exact marks_kept_set_field g who _ rfl
  · exact marks_kept_set_field g who _ rfl
  · exact marks_kept_refl g

theorem marks_kept_track_known (g : game) (who : Int) (k : Nat) (faceup : Int) :
    marks_kept g (track_known g who k faceup) := by
  unfold track_known
  split_ifs
  · exact marks_kept_set_p g who _ (fun i => random_fake_set_card _ k i _ rfl)
  · exact marks_kept_refl g

theorem marks_kept_track_no_cards (g : game) (who : Int) :
    marks_kept g (track_no_cards g who) := by
  unfold track_no_cards
  split_ifs
  · exact marks_kept_set_field g who _ rfl
  · exact marks_kept_refl g

theorem marks_kept_move_card_head (g : game) (who : Int) (k : Nat) (d_ptr : design)
    (to_ faceup : Int) : marks_kept g (move_card_head g who k d_ptr to_ faceup) := by
  unfold move_card_head
  exact marks_kept_trans g (move_card_shift g who k to_) _ (marks_kept_move_card_shift g who k to_)
    (marks_kept_trans _ (track_discard (move_card_shift g who k to_) who d_ptr to_) _
      (marks_kept_track_discard _ who d_ptr to_)
      (marks_kept_trans _
        (track_last (track_discard (move_card_shift g who k to_) who d_ptr to_) who d_ptr to_) _
        (marks_kept_track_last _ who d_ptr to_)
        (marks_kept_trans _
          (track_known (track_last (track_discard (move_card_shift g who k to_) who d_ptr to_)
            who d_ptr to_) who k faceup) _
          (marks_kept_track_known _ who k faceup) (marks_kept_track_no_cards _ who))))

/-- The end of `move_card`: the checks for known locations and removable
marks. -/
theorem marks_kept_move_card_tail (x : game) (who : Int) :
    marks_kept x (remove_fake (check_all_known x who) who) :=
  marks_kept_trans x (check_all_known x who) _ (marks_kept_check_all_known x who)
    (marks_kept_remove_fake _ who)

/-- `move_card` keeps the simulation flag and, in a game that is not a
simulation, the mark of every card. -/
theorem marks_kept_move_card (to_ faceup : Int) (who : Int) :
    ∀ (fuel : Nat) (g : game) (d_ptr : design) (g1 : game),
      move_card fuel g who d_ptr to_ faceup = some g1 → marks_kept g g1 := by
  intro fuel
  induction fuel with
  | zero =>
    intro g d_ptr g1 h
    unfold move_card at h
    cases h
  | succ fuel ih =>
    intro g d_ptr g1 h
    unfold move_card at h
    cases hf : find_card g who d_ptr with
    | none =>
      rw [hf] at h
      cases h
    | some k =>
      rw [hf] at h
      dsimp only at h
      have hhead := marks_kept_move_card_head g who k d_ptr to_ faceup
      by_cases hcap : ((g.p who).card_at k).d_ptr.capacity ≠ 0 ∧ to_ = LOC_DISCARD
      · rw [if_pos hcap] at h
        cases hl : try_each (unload_cargo (fun y d => move_card fuel y who d to_ faceup)
            who d_ptr) deck_indices (some (move_card_head g who k d_ptr to_ faceup)) with
        | none =>
          rw [hl] at h
          cases h
        | some x =>
          rw [hl] at h
          cases h
          have hx : marks_kept g x := by
            refine try_each_inv (fun y => marks_kept g y) _ deck_indices ?_ _ x hhead hl
            intro a i b _ ha hs
            rcases unload_cargo_some _ who d_ptr a i b hs with hb | ⟨y, _, hm, hb⟩
            · rw [hb]
              exact ha
            · rw [hb]
              exact marks_kept_trans g y _
                (marks_kept_trans g a y ha (ih a _ y hm))
                (marks_kept_set_p y who _ (fun j => random_fake_set_card _ i j _ rfl))
          exact marks_kept_trans g x _ hx (marks_kept_move_card_tail x who)
      · rw [if_neg hcap] at h
        cases h
        exact marks_kept_trans g _ _ hhead (marks_kept_move_card_tail _ who)

/-- The game `move_card` returns comes out of `remove_fake`. -/
theorem move_card_ends (to_ faceup : Int) (who : Int) (fuel : Nat) (g : game)
    (d_ptr : design) (g1 : game) (h : move_card fuel g who d_ptr to_ faceup = some g1) :
    ∃ x, marks_kept g x ∧ g1 = remove_fake (check_all_known x who) who := by
  cases fuel with
  | zero =>
    unfold move_card at h
    cases h
  | succ fuel =>
    unfold move_card at h
    cases hf : find_card g who d_ptr with
    | none =>
      rw [hf] at h
      cases h
    | some k =>
      rw [hf] at h
      dsimp only at h
      have hhead := marks_kept_move_card_head g who k d_ptr to_ faceup
      by_cases hcap : ((g.p who).card_at k).d_ptr.capacity ≠ 0 ∧ to_ = LOC_DISCARD
      · rw [if_pos hcap] at h
        cases hl : try_each (unload_cargo (fun y d => move_card fuel y who d to_ faceup)
            who d_ptr) deck_indices (some (move_card_head g who k d_ptr to_ faceup)) with
        | none =>
          rw [hl] at h
          cases h
        | some x =>
          rw [hl] at h
          cases h
          refine ⟨x, ?_, rfl⟩
          refine try_each_inv (fun y => marks_kept g y) _ deck_indices ?_ _ x hhead hl
          intro a i b _ ha hs
          rcases unload_cargo_some _ who d_ptr a i b hs with hb | ⟨y, _, hm, hb⟩
          · rw [hb]
            exact ha
          · rw [hb]
            exact marks_kept_trans g y _
              (marks_kept_trans g a y ha (marks_kept_move_card to_ faceup who fuel a _ y hm))
              (marks_kept_set_p y who _ (fun j => random_fake_set_card _ i j _ rfl))
      · rw [if_neg hcap] at h
        cases h
        exact ⟨_, hhead, rfl⟩

/-- Players with the same counters. -/
theorem stack_at_congr (p q : player) (h : q.stack = p.stack) (d : Int) :
    q.stack_at d = p.stack_at d := by
  unfold player.stack_at
  rw [h]

/-- A loop over cards whose body keeps the counters and the other cards, and
leaves on its card no mark that names a zone whose counter is 0: after the
loop no card of the list carries such a mark. -/
theorem remove_fake_loop (body : player → Nat → player)
    (hs : ∀ q i, (body q i).stack = q.stack)
    (ho : ∀ q i j, j ≠ i → (body q i).card_at j = q.card_at j)
    (hc : ∀ q i, ((body q i).card_at i).random_fake ≠ 0 →
      q.stack_at ((body q i).card_at i).random_fake ≠ 0)
    (l : List Nat) (hl : l.Nodup) :
    ∀ q : player,
      (l.foldl body q).stack = q.stack ∧
      (∀ i, i ∉ l → (l.foldl body q).card_at i = q.card_at i) ∧
      (∀ i, i ∈ l → ((l.foldl body q).card_at i).random_fake ≠ 0 →
        q.stack_at ((l.foldl body q).card_at i).random_fake ≠ 0) := by
  induction l with
  | nil =>
    intro q
    exact ⟨rfl, fun _ _ => rfl, fun i hi => absurd hi (List.not_mem_nil i)⟩
  | cons a rest ih =>
    intro q
    rw [List.foldl_cons]
    have hnd := List.nodup_cons.mp hl
    obtain ⟨h1, h2, h3⟩ := ih hnd.2 (body q a)
    have hat : ∀ d, (body q a).stack_at d = q.stack_at d :=
      fun d => stack_at_congr _ _ (hs q a) d
    refine ⟨h1.trans (hs q a), fun i hi => ?_, fun i hi => ?_⟩
    · have hia : i ≠ a := fun e => hi (e ▸ List.mem_cons_self _ _)
      have hir : i ∉ rest := fun e => hi (List.mem_cons_of_mem _ e)
      rw [h2 i hir, ho q a i hia]
    · rcases List.mem_cons.mp hi with e | hir
      · subst e
        rw [h2 i hnd.1]
        exact hc q i
      · intro hne
        have := h3 i hir hne
        rw [hat] at this
        exact this

/-- In a simulated game `remove_fake` leaves no mark that names a zone whose
counter is 0. -/
theorem remove_fake_live (g : game) (who : Int) (h : g.simulation ≠ 0) :
    fakes_live ((remove_fake g who).p who) := by
  unfold remove_fake
  rw [if_neg h, p_set_p_self]
  obtain ⟨h1, _, h3⟩ := remove_fake_loop (fun q i =>
      if (q.card_at i).random_fake ≠ 0 ∧ q.stack_at (q.card_at i).random_fake = 0 then
        q.set_card i { q.card_at i with random_fake := 0 }
      else q)
    (by
      intro q i
      beta_reduce
      split_ifs <;> rfl)
    (by
      intro q i j hj
      beta_reduce
      split_ifs
      · rw [card_at_set_card, if_neg (fun hh => hj hh.1)]
      · rfl)
    (by
      intro q i
      beta_reduce
      by_cases hc : (q.card_at i).random_fake ≠ 0 ∧ q.stack_at (q.card_at i).random_fake = 0
      · rw [if_pos hc, card_at_set_card]
        by_cases hlen : i < q.deck.length
        · rw [if_pos ⟨rfl, hlen⟩]
          intro hne
          exact absurd rfl hne
        · exfalso
          apply hc.1
          unfold player.card_at
          rw [List.getD_eq_getElem?_getD, List.getElem?_eq_none (Nat.le_of_not_lt hlen)]
          rfl
      · rw [if_neg hc]
        intro hne
        by_contra h0
        exact hc ⟨hne, h0⟩)
    deck_indices deck_indices_nodup (g.p who)
  intro i hi hne
  rw [stack_at_congr _ _ h1]
  exact h3 i hi hne

/-- C34: when `move_card` returns the game `g1` for a simulated game, no card
`deck[1]`, ..., `deck[30]` of the moved player carries a mark `random_fake`
that names a zone whose counter `stack` is 0.  In a game that is not a
simulation `random_card` leaves the mark of every card as it was, and so does
`move_card`. -/
theorem move_card_clears_marks (fuel : Nat) (g : game) (who : Int) (d_ptr : design)
    (to_ faceup : Int) (g1 : game) (h : move_card fuel g who d_ptr to_ faceup = some g1) :
    (g.simulation ≠ 0 →
      ∀ i, 1 ≤ i → i < DECK_SIZE → ((g1.p who).card_at i).random_fake ≠ 0 →
        (g1.p who).stack_at ((g1.p who).card_at i).random_fake ≠ 0) ∧
    (g.simulation = 0 → ∀ (w : Int) (i : Nat),
      ((g1.p w).card_at i).random_fake = ((g.p w).card_at i).random_fake) ∧
    (∀ (x : game) (w stack : Int), x.simulation = 0 → ∀ (w2 : Int) (i : Nat),
      (((random_card x w stack).2.p w2).card_at i).random_fake =
        ((x.p w2).card_at i).random_fake) := by
  refine ⟨fun hs i hi1 hi2 => ?_, (marks_kept_move_card to_ faceup who fuel g d_ptr g1 h).2,
    fun x w stack => (marks_kept_random_card x w stack).2⟩
  obtain ⟨x, hx, e⟩ := move_card_ends to_ faceup who fuel g d_ptr g1 h
  rw [e]
  have hsim : (check_all_known x who).simulation ≠ 0 := by
    rw [(marks_kept_check_all_known x who).1, hx.1]
    exact hs
  exact remove_fake_live _ who hsim i ((mem_deck_indices i).mpr ⟨hi1, hi2⟩)

set_option maxRecDepth 20000 in
/-- C34 witness: in `marked_game` the last card in hand of player 0 is
discarded; the mark of the card `deck[2]`, which named the hand, is cleared. -/
theorem move_card_clears_marks_witness :
    marked_game.simulation ≠ 0 ∧
    ((marked_game.p 0).card_at 2).random_fake = LOC_HAND ∧
    (move_card 1 marked_game 0 (plain_design 1) LOC_DISCARD 1).map (fun x => (x.p 0).stack) =
      some [0, 0, 28, 0, 0, 0, 2, 0] ∧
    (move_card 1 marked_game 0 (plain_design 1) LOC_DISCARD 1).map
      (fun x => ((x.p 0).card_at 2).random_fake) = some 0 ∧
    ∀ x, move_card 1 marked_game 0 (plain_design 1) LOC_DISCARD 1 = some x →
      ∀ i, 1 ≤ i → i < DECK_SIZE → ((x.p 0).card_at i).random_fake ≠ 0 →
        (x.p 0).stack_at ((x.p 0).card_at i).random_fake ≠ 0 :=
  ⟨by decide, by decide, by decide, by decide, fun x hx =>
    (move_card_clears_marks 1 marked_game 0 (plain_design 1) LOC_DISCARD 1 x hx).1
      (by decide)⟩

/-! ### The size of the feature vector -/

theorem thresholds_length (n : Nat) (x : Int) : (thresholds n x).length = n := by
  unfold thresholds
  rw [List.length_map]
  induction n with
  | zero => rfl
  | succ n ih =>
    rw [List.range_succ]
    simp only [List.bind_eq_flatMap, List.flatMap_append, List.length_append] at ih ⊢
    rw [ih]
    rfl

theorem loop_cards_length (p : player) : p.loop_cards.length = 30 := by
  unfold player.loop_cards
  rw [List.length_map, List.length_range]
  rfl

/-- The four loops over the cards of a player set 4 x 30 inputs. -/
theorem eval_card_inputs_length (g : game) (who i : Int) :
    (eval_card_inputs g who i).length = 4 * 30 := by
  unfold eval_card_inputs
  simp only [List.length_append, List.length_map, loop_cards_length]

/-- The loop over the players sets 84 inputs for each. -/
theorem eval_player_inputs_length (g : game) (who i : Int) :
    (eval_player_inputs g who i).length = 84 := by
  unfold eval_player_inputs
  simp only [List.length_append, thresholds_length, List.length_singleton]

theorem eval_inputs_length (g : game) (who : Int) : (eval_inputs g who).length = NET_INPUT := by
  unfold eval_inputs
  simp only [List.length_append, eval_card_inputs_length, eval_player_inputs_length,
    List.length_map, loop_cards_length, List.length_cons, List.length_nil]
  rfl

/-- The calls `SET_INPUT(l, n++, x)` from `n = start` write the slots `start`,
`start + 1`, ... in turn, one for each value. -/
theorem set_inputs_slots (ys : List Int) :
    ∀ acc : net × Nat,
      (ys.foldl (fun (acc : net × Nat) x => (SET_INPUT acc.1 acc.2 x, acc.2 + 1)) acc).1 =
        (List.range ys.length).foldl (fun a n => SET_INPUT a (acc.2 + n) (ys.getD n 0)) acc.1 := by
  induction ys with
  | nil => intro acc; rfl
  | cons y rest ih =>
    intro acc
    have hf : (fun (a : net) (n : Nat) => SET_INPUT a (acc.2 + 1 + n) (rest.getD n 0)) =
        (fun (a : net) (n : Nat) => SET_INPUT a (acc.2 + (n + 1)) ((y :: rest).getD (n + 1) 0)) := by
      funext a n
      have h1 : acc.2 + 1 + n = acc.2 + (n + 1) := by omega
      rw [h1]
      rfl
    rw [List.foldl_cons, ih, List.length_cons, List.range_succ_eq_map, List.foldl_cons,
      List.foldl_map]
    dsimp only
    rw [hf]
    rfl

/-- A slot that is not written keeps its value. -/
theorem set_inputs_beyond (n : Nat) (xs : List Int) (k : Nat) (hk : n ≤ k) :
    ∀ l : net, ((List.range n).foldl (fun a m => SET_INPUT a m (xs.getD m 0)) l).input_value.getD
      k 0 = l.input_value.getD k 0 := by
  induction n with
  | zero => intro l; rfl
  | succ n ih =>
    intro l
    rw [List.range_succ, List.foldl_append, List.foldl_cons, List.foldl_nil]
    unfold SET_INPUT
    dsimp only
    rw [getD_set_other_int _ _ _ _ (by omega)]
    exact ih (by omega) l

/-- `compute_net` leaves the inputs alone. -/
theorem compute_net_input_value (expf : ℚ → ℚ) (l : net) :
    (compute_net expf l).input_value = l.input_value := by
  have a := same_shape_compute_net_hidden expf (compute_net_inputs l)
  have b := same_shape_compute_net_outputs expf (compute_net_hidden expf (compute_net_inputs l))
  have c := same_shape_compute_net_probs expf
    (compute_net_outputs expf (compute_net_hidden expf (compute_net_inputs l)))
  have hc : compute_net expf l = compute_net_probs expf
    (compute_net_outputs expf (compute_net_hidden expf (compute_net_inputs l))) := rfl
  rw [hc, c.1.2.2.1, b.1.2.2.1, a.1.2.2.1]
  exact (compute_net_inputs_keeps l).2.2.2.2.2

/-- C36: the feature vector has the size of the net.  For every game, every
`who` and every net, the values `eval_game` passes to `SET_INPUT` are
`NET_INPUT = 443`: 4 x 30 for the cards of each player, 30 for the special
cards, 5 global flags and 84 for each player.  The calls write the slots
0, 1, ..., 442 in turn, one call for each slot; with a net loaded the net
after `eval_game` is `compute_net` of the net so written, and no slot from 443
on, the bias slot included, is changed. -/
theorem eval_game_writes_inputs (expf : ℚ → ℚ) (g : game) (who : Int) (l : net) :
    (eval_inputs g who).length = 443 ∧
    (∀ i, (eval_card_inputs g who i).length = 4 * 30) ∧
    ((g.p who).loop_cards.map (fun c =>
      b2i (c.text_boosted ≠ 0 || c.on_bottom ≠ 0 || c.bluff ≠ 0))).length = 30 ∧
    (∀ i, (eval_player_inputs g who i).length = 84) ∧
    2 * (4 * 30) + 30 + 5 + 2 * 84 = NET_INPUT ∧
    set_inputs l (eval_inputs g who) =
      (List.range NET_INPUT).foldl (fun a n => SET_INPUT a n ((eval_inputs g who).getD n 0)) l ∧
    (l.num_inputs ≠ 0 →
      (eval_game_net expf l g who).2 = compute_net expf (set_inputs l (eval_inputs g who))) ∧
    ∀ k, NET_INPUT ≤ k →
      (eval_game_net expf l g who).2.input_value.getD k 0 = l.input_value.getD k 0 := by
  have hs : set_inputs l (eval_inputs g who) =
      (List.range NET_INPUT).foldl (fun a n => SET_INPUT a n ((eval_inputs g who).getD n 0))
        l := by
    unfold set_inputs
    rw [set_inputs_slots, eval_inputs_length]
    have hf : (fun (a : net) (n : Nat) => SET_INPUT a ((l, 0).2 + n) ((eval_inputs g who).getD n 0)) =
        (fun (a : net) (n : Nat) => SET_INPUT a n ((eval_inputs g who).getD n 0)) := by
      funext a n
      have h1 : ((l, 0) : net × Nat).2 + n = n := by
        show 0 + n = n
        omega
      rw [h1]
    rw [hf]
  refine ⟨eval_inputs_length g who, fun i => eval_card_inputs_length g who i, ?_,
    fun i => eval_player_inputs_length g who i, rfl, hs, ?_, ?_⟩
  · rw [List.length_map, loop_cards_length]
  · intro h
    unfold eval_game_net
    rw [if_neg h]
  · intro k hk
    unfold eval_game_net
    by_cases h : l.num_inputs = 0
    · rw [if_pos h]
    · rw [if_neg h]
      dsimp only
      rw [compute_net_input_value, hs]
      exact set_inputs_beyond NET_INPUT (eval_inputs g who) k hk l

/-! ### Hidden cards and the evaluator -/

/-- The entry `j` of a list of features computed card by card. -/
theorem getD_map_cards (cs : List card) (f : card → Int) (j : Nat) (h : j < cs.length) :
    (cs.map f).getD j 0 = f (cs.getD j default) := by
  rw [List.getD_eq_getElem?_getD, List.getD_eq_getElem?_getD, List.getElem?_map,
    List.getElem?_eq_getElem h]
  rfl

/-- The card `deck[j + 1]` in the list the loops run over. -/
theorem loop_cards_getD (p : player) (j : Nat) (h : j < 30) :
    p.loop_cards.getD j default = p.card_at (j + 1) := by
  unfold player.loop_cards player.card_at
  have hl : j < (List.range (DECK_SIZE - 1)).length := by
    rw [List.length_range]
    exact h
  rw [List.getD_eq_getElem?_getD, List.getElem?_map, List.getElem?_eq_getElem hl,
    List.getElem_range]
  rfl

/-- The features "active", "in hand" and "used" of the card `deck[j + 1]` of
player `i` in the block of per-card inputs. -/
theorem eval_card_inputs_at (g : game) (who i : Int) (j : Nat) (h : j < 30) :
    (eval_card_inputs g who i).getD j 0 =
      b2i (((g.p i).card_at (j + 1)).active ≠ 0 && ((g.p i).card_at (j + 1)).random_fake = 0 &&
        ((g.p i).card_at (j + 1)).d_ptr.type ≠ TYPE_LEADERSHIP &&
        (who = i || ((g.p i).card_at (j + 1)).loc_known ≠ 0)) ∧
    (eval_card_inputs g who i).getD (30 + j) 0 =
      b2i ((who = i || ((g.p i).card_at (j + 1)).loc_known ≠ 0) &&
        ((g.p i).card_at (j + 1)).where_ = LOC_HAND &&
        ((g.p i).card_at (j + 1)).random_fake = 0) ∧
    (eval_card_inputs g who i).getD (60 + j) 0 =
      b2i ((who = i || ((g.p i).card_at (j + 1)).loc_known ≠ 0) &&
        ((g.p i).card_at (j + 1)).random_fake = 0 &&
        (((g.p i).card_at (j + 1)).where_ = LOC_DISCARD ||
          ((g.p i).card_at (j + 1)).where_ = LOC_LEADERSHIP ||
          (((g.p i).card_at (j + 1)).where_ = LOC_COMBAT &&
            ((g.p i).card_at (j + 1)).active = 0))) := by
  have hl := loop_cards_length (g.p i)
  have hj : j < (g.p i).loop_cards.length := by rw [hl]; exact h
  unfold eval_card_inputs
  dsimp only
  refine ⟨?_, ?_, ?_⟩
  · rw [List.append_assoc, List.append_assoc,
      List.getD_append _ _ _ _ (by rw [List.length_map]; exact hj),
      getD_map_cards _ _ _ hj, loop_cards_getD _ _ h]
  · rw [List.append_assoc, List.append_assoc,
      List.getD_append_right _ _ _ _ (by rw [List.length_map, hl]; omega),
      List.length_map, hl,
      List.getD_append _ _ _ _ (by rw [List.length_map, hl]; omega)]
    have e : 30 + j - 30 = j := by omega
    rw [e, getD_map_cards _ _ _ hj, loop_cards_getD _ _ h]
  · rw [List.append_assoc, List.append_assoc,
      List.getD_append_right _ _ _ _ (by rw [List.length_map, hl]; omega),
      List.length_map, hl,
      List.getD_append_right _ _ _ _ (by rw [List.length_map, hl]; omega),
      List.length_map, hl,
      List.getD_append _ _ _ _ (by rw [List.length_map, hl]; omega)]
    have e : 60 + j - 30 - 30 = j := by omega
    rw [e, getD_map_cards _ _ _ hj, loop_cards_getD _ _ h]

/-- The features "this many characters in hand" of player `i` among the
per-player inputs: the five inputs after the first 68. -/
theorem eval_player_inputs_chars (g : game) (who i : Int) :
    ((eval_player_inputs g who i).drop 68).take 5 = thresholds 5 (hand_characters g who i) := by
  have e : eval_player_inputs g who i =
      ([b2i (g.turn = i && g.game_over = 0)] ++
        thresholds 15 (if g.fight_started ≠ 0 then compute_power g i else 0) ++
        thresholds 8 ((g.p i).stack_at LOC_COMBAT + (g.p i).stack_at LOC_SUPPORT -
          (((g.p i).loop_cards.filter (fun c => c.bluff ≠ 0)).length : Int)) ++
        thresholds 4 (((g.p i).loop_cards.filter (fun c => c.bluff ≠ 0)).length : Int) ++
        thresholds 10 ((g.p i).stack_at LOC_HAND) ++
        thresholds 30 ((g.p i).stack_at LOC_DRAW + (g.p i).stack_at LOC_HAND)) ++
      (thresholds 5 (hand_characters g who i) ++
        (thresholds 6 (((g.p i).loop_cards.filter (fun c => c.where_ = LOC_HAND &&
          c.disclosed = 0)).length : Int) ++
        [(g.p i).no_cards] ++ thresholds 3 (g.p i).dragons ++ [(g.p i).instant_win])) := by
    unfold eval_player_inputs hand_characters
    simp only [List.append_assoc]
    rfl
  rw [e, List.drop_left' (by
    simp only [List.length_append, thresholds_length, List.length_singleton]),
    List.take_left' (thresholds_length 5 _)]

/-- A hidden card has the features "active", "in hand" and "used" at 0 and is
not counted as a character in hand. -/
theorem hidden_card_features (who i : Int) (c : card) (h : c.hidden who i = true) :
    (c.active ≠ 0 && c.random_fake = 0 && c.d_ptr.type ≠ TYPE_LEADERSHIP &&
      (who = i || c.loc_known ≠ 0)) = false ∧
    ((who = i || c.loc_known ≠ 0) && c.where_ = LOC_HAND && c.random_fake = 0) = false ∧
    ((who = i || c.loc_known ≠ 0) && c.random_fake = 0 &&
      (c.where_ = LOC_DISCARD || c.where_ = LOC_LEADERSHIP ||
        (c.where_ = LOC_COMBAT && c.active = 0))) = false ∧
    counts_as_character who i c = false := by
  unfold card.hidden at h
  unfold counts_as_character
  by_cases hf : c.random_fake = 0
  · have hw : who ≠ i ∧ c.loc_known = 0 := by
      simpa [hf] using h
    simp [hw.1, hw.2]
  · simp [hf]

/-- Two cards that differ at most in their zone, and not even there unless the
card is hidden, pass the same tests of the evaluator. -/
theorem variant_card_features (who i : Int) (c c2 : card)
    (h1 : c2 = { c with where_ := c2.where_ })
    (h2 : c2.where_ = c.where_ ∨ c.hidden who i = true) :
    (c2.active ≠ 0 && c2.random_fake = 0 && c2.d_ptr.type ≠ TYPE_LEADERSHIP &&
      (who = i || c2.loc_known ≠ 0)) =
      (c.active ≠ 0 && c.random_fake = 0 && c.d_ptr.type ≠ TYPE_LEADERSHIP &&
        (who = i || c.loc_known ≠ 0)) ∧
    ((who = i || c2.loc_known ≠ 0) && c2.where_ = LOC_HAND && c2.random_fake = 0) =
      ((who = i || c.loc_known ≠ 0) && c.where_ = LOC_HAND && c.random_fake = 0) ∧
    ((who = i || c2.loc_known ≠ 0) && c2.random_fake = 0 &&
      (c2.where_ = LOC_DISCARD || c2.where_ = LOC_LEADERSHIP ||
        (c2.where_ = LOC_COMBAT && c2.active = 0))) =
      ((who = i || c.loc_known ≠ 0) && c.random_fake = 0 &&
        (c.where_ = LOC_DISCARD || c.where_ = LOC_LEADERSHIP ||
          (c.where_ = LOC_COMBAT && c.active = 0))) ∧
    counts_as_character who i c2 = counts_as_character who i c := by
  rcases h2 with h | h
  · have e : c2 = c :=
      calc c2 = { c with where_ := c2.where_ } := h1
        _ = { c with where_ := c.where_ } := by rw [h]
        _ = c := rfl
    rw [e]
    exact ⟨rfl, rfl, rfl, rfl⟩
  · have hk : c2.loc_known = c.loc_known := by rw [h1]
    have hf : c2.random_fake = c.random_fake := by rw [h1]
    have h' : c2.hidden who i = true := by
      unfold card.hidden at h ⊢
      rw [hk, hf]
      exact h
    have a := hidden_card_features who i c h
    have b := hidden_card_features who i c2 h'
    exact ⟨b.1.trans a.1.symm, b.2.1.trans a.2.1.symm, b.2.2.1.trans a.2.2.1.symm,
      b.2.2.2.trans a.2.2.2.symm⟩

/-- The count of characters in hand, as a count over the indices of the
deck. -/
theorem hand_characters_indices (g : game) (who i : Int) :
    hand_characters g who i = (((List.range (DECK_SIZE - 1)).filter (fun j =>
      counts_as_character who i ((g.p i).card_at (j + 1)))).length : Int) := by
  unfold hand_characters player.loop_cards
  rw [List.filter_map, List.length_map]
  rfl

/-- C35: the evaluator does not read the place of hidden cards.  A card of
player `i` is hidden from `who` when `i` is not `who` and its flag `loc_known`
is 0, or when it is marked `random_fake`.  In the values `eval_game(g, who)`
passes to the net, the per-card features "active", "in hand" and "used" of a
hidden card `deck[j + 1]` (the entries `j`, `30 + j` and `60 + j` of the block
of player `i`) are 0, and the card is not counted by the feature "characters in
hand" (the entries 68, ..., 72 of the per-player block).  A game that differs
from `g` only in the zone of hidden cards, with the same counters, has the
same values for these features. -/
theorem eval_game_hides_cards (g : game) (who : Int) :
    (∃ mid, eval_inputs g who = eval_card_inputs g who 0 ++ eval_card_inputs g who 1 ++ mid ++
      eval_player_inputs g who 0 ++ eval_player_inputs g who 1) ∧
    (∀ (i : Int) (j : Nat), j < 30 → ((g.p i).card_at (j + 1)).hidden who i = true →
      (eval_card_inputs g who i).getD j 0 = 0 ∧
      (eval_card_inputs g who i).getD (30 + j) 0 = 0 ∧
      (eval_card_inputs g who i).getD (60 + j) 0 = 0 ∧
      counts_as_character who i ((g.p i).card_at (j + 1)) = false) ∧
    (∀ i : Int, ((eval_player_inputs g who i).drop 68).take 5 =
      thresholds 5 ((((List.range (DECK_SIZE - 1)).filter (fun j =>
        counts_as_character who i ((g.p i).card_at (j + 1)))).length : Int))) ∧
    (∀ g2 : game, zone_variant who g g2 → ∀ i : Int,
      (∀ j, j < 90 →
        (eval_card_inputs g2 who i).getD j 0 = (eval_card_inputs g who i).getD j 0) ∧
      ((eval_player_inputs g2 who i).drop 68).take 5 =
        ((eval_player_inputs g who i).drop 68).take 5) := by
  refine ⟨⟨(g.p who).loop_cards.map (fun c =>
      b2i (c.text_boosted ≠ 0 || c.on_bottom ≠ 0 || c.bluff ≠ 0)) ++
    [eval_bad_bluff g who, g.game_over, g.fight_started,
     b2i (g.fight_element ≠ 0 && g.fight_started ≠ 0),
     b2i (g.fight_element = 0 && g.fight_started ≠ 0)], by
    unfold eval_inputs
    simp only [List.append_assoc]⟩, ?_, ?_, ?_⟩
  · intro i j hj hh
    have a := eval_card_inputs_at g who i j hj
    have b := hidden_card_features who i _ hh
    rw [a.1, a.2.1, a.2.2, b.1, b.2.1, b.2.2.1]
    exact ⟨rfl, rfl, rfl, b.2.2.2⟩
  · intro i
    rw [eval_player_inputs_chars, hand_characters_indices]
  · intro g2 hv i
    have hcard : ∀ j, j < 30 →
        (g2.p i).card_at (j + 1) =
          { (g.p i).card_at (j + 1) with where_ := ((g2.p i).card_at (j + 1)).where_ } ∧
        (((g2.p i).card_at (j + 1)).where_ = ((g.p i).card_at (j + 1)).where_ ∨
          ((g.p i).card_at (j + 1)).hidden who i = true) := by
      intro j hj
      exact (hv i).2 (j + 1) (by omega) (by unfold DECK_SIZE; omega)
    constructor
    · intro j hj
      by_cases h1 : j < 30
      · have v := variant_card_features who i _ _ (hcard j h1).1 (hcard j h1).2
        rw [(eval_card_inputs_at g2 who i j h1).1, (eval_card_inputs_at g who i j h1).1, v.1]
      · by_cases h2 : j < 60
        · have hk : j - 30 < 30 := by omega
          have e : j = 30 + (j - 30) := by omega
          have v := variant_card_features who i _ _ (hcard _ hk).1 (hcard _ hk).2
          rw [e, (eval_card_inputs_at g2 who i _ hk).2.1,
            (eval_card_inputs_at g who i _ hk).2.1, v.2.1]
        · have hk : j - 60 < 30 := by omega
          have e : j = 60 + (j - 60) := by omega
          have v := variant_card_features who i _ _ (hcard _ hk).1 (hcard _ hk).2
          rw [e, (eval_card_inputs_at g2 who i _ hk).2.2,
            (eval_card_inputs_at g who i _ hk).2.2, v.2.2.1]
    · rw [eval_player_inputs_chars, eval_player_inputs_chars, hand_characters_indices,
        hand_characters_indices]
      have hf : (List.range (DECK_SIZE - 1)).filter (fun j =>
            counts_as_character who i ((g2.p i).card_at (j + 1))) =
          (List.range (DECK_SIZE - 1)).filter (fun j =>
            counts_as_character who i ((g.p i).card_at (j + 1))) := by
        apply List.filter_congr
        intro j hj
        have hj2 : j < 30 := List.mem_range.mp hj
        exact (variant_card_features who i _ _ (hcard j hj2).1 (hcard j hj2).2).2.2.2
      rw [hf]

/-! ### The number of legal actions -/

/-- A stronger test keeps fewer elements. -/
theorem length_filter_le_of_imp {α : Type} (p q : α → Bool) (l : List α)
    (h : ∀ a, p a = true → q a = true) : (l.filter p).length ≤ (l.filter q).length := by
  induction l with
  | nil => exact le_refl _
  | cons a rest ih =>
    rw [List.filter_cons, List.filter_cons]
    by_cases hp : p a = true
    · rw [if_pos hp, if_pos (h a hp), List.length_cons, List.length_cons]
      omega
    · rw [if_neg hp]
      by_cases hq : q a = true
      · rw [if_pos hq, List.length_cons]
        omega
      · rw [if_neg hq]
        exact ih

/-- The loop "look for cards to play" adds at most two actions for each
eligible card. -/
theorem legal_plays_length (E : Engine) (g : game) (cr : Int) (p : player) (idx : List Nat) :
    (legal_plays E g cr p idx).1.length ≤
      2 * (idx.filter (fun i => E.card_eligible g (p.card_at i).d_ptr ≠ 0)).length := by
  induction idx with
  | nil => exact le_refl _
  | cons i rest ih =>
    have hmono : (rest.filter (fun i => E.card_eligible g (p.card_at i).d_ptr ≠ 0)).length ≤
        ((i :: rest).filter (fun i => E.card_eligible g (p.card_at i).d_ptr ≠ 0)).length := by
      rw [List.filter_cons]
      split
      · rw [List.length_cons]
        omega
      · exact le_refl _
    unfold legal_plays
    dsimp only
    split
    · omega
    · rename_i hskip
      have hel : E.card_eligible g (p.card_at i).d_ptr ≠ 0 := fun h0 => hskip (Or.inr (Or.inl h0))
      have hcons : ((i :: rest).filter (fun i =>
            E.card_eligible g (p.card_at i).d_ptr ≠ 0)).length =
          (rest.filter (fun i => E.card_eligible g (p.card_at i).d_ptr ≠ 0)).length + 1 := by
        rw [List.filter_cons, if_pos (by simpa using hel), List.length_cons]
      have hacts : ((if ((p.card_at i).d_ptr.special_cat = 4 ∧
            has_bits (p.card_at i).d_ptr.special_effect S4_OPTIONAL = true ∨
            (p.card_at i).d_ptr.special_cat = 8 ∧
            has_bits (p.card_at i).d_ptr.special_effect S8_OPTIONAL = true) ∧ cr = 0
          then [mk_act_card ACT_PLAY_NO i (p.card_at i).d_ptr] else []) ++
          [mk_act_card ACT_PLAY i (p.card_at i).d_ptr]).length ≤ 2 := by
        rw [List.length_append]
        split
        · exact le_refl _
        · exact Nat.le_succ _
      split
      · show ((if ((p.card_at i).d_ptr.special_cat = 4 ∧
            has_bits (p.card_at i).d_ptr.special_effect S4_OPTIONAL = true ∨
            (p.card_at i).d_ptr.special_cat = 8 ∧
            has_bits (p.card_at i).d_ptr.special_effect S8_OPTIONAL = true) ∧ cr = 0
          then [mk_act_card ACT_PLAY_NO i (p.card_at i).d_ptr] else []) ++
          [mk_act_card ACT_PLAY i (p.card_at i).d_ptr]).length ≤ _
        rw [hcons]
        omega
      · show (_ ++ (legal_plays E g cr p rest).1).length ≤ _
        rw [List.length_append, hcons]
        omega

theorem legal_loads_length (E : Engine) (g : game) (cr : Int) :
    (legal_loads E g cr).length ≤ eligible_count E g := by
  unfold legal_loads eligible_count
  dsimp only
  split
  · exact Nat.zero_le _
  · split
    · exact Nat.zero_le _
    · rw [List.length_map]
      apply length_filter_le_of_imp
      intro a ha
      simp only [Bool.and_eq_true] at ha
      exact ha.1.1

theorem legal_bluffs_length (E : Engine) (g : game) (cr : Int) :
    (legal_bluffs E g cr).length ≤ eligible_count E g := by
  have h : (((later_indices (g.p g.turn)).filter (fun i =>
        E.card_eligible g ((g.p g.turn).card_at i).d_ptr ≠ 0 &&
          has_bits ((g.p g.turn).card_at i).icons ICON_BLUFF_MASK)).map (fun i =>
      mk_act_card ACT_BLUFF i ((g.p g.turn).card_at i).d_ptr)).length ≤ eligible_count E g := by
    unfold eligible_count
    rw [List.length_map]
    apply length_filter_le_of_imp
    intro a ha
    simp only [Bool.and_eq_true] at ha
    exact ha.1
  unfold legal_bluffs
  dsimp only
  split
  · refine le_trans ?_ h
    rw [List.length_take]
    exact min_le_right _ _
  · exact h

theorem legal_support_length (E : Engine) (g : game) (cr : Int) (legal : List action) :
    (legal_support E g cr legal).length ≤ legal.length + 2 * eligible_count E g := by
  have h1 := legal_loads_length E g cr
  have h2 := legal_bluffs_length E g cr
  unfold legal_support
  dsimp only
  split
  · omega
  · split
    · rw [List.length_append]
      omega
    · split
      · rw [List.length_append]
        omega
      · rw [List.length_append, List.length_append]
        omega

theorem legal_advance_length (p : player) (cr : Int) (legal : List action) :
    (legal_advance p cr legal).length ≤ legal.length + 1 := by
  unfold legal_advance
  split
  · omega
  · split
    · rw [List.length_append]
      exact le_refl _
    · omega

theorem legal_satisfy_length (E : Engine) (g : game) (legal : List action) :
    (legal_satisfy E g legal).length ≤ legal.length + 1 := by
  unfold legal_satisfy
  dsimp only
  split
  · omega
  · split
    · omega
    · split
      · rw [List.length_append]
        exact le_refl _
      · omega

theorem legal_uses_length (E : Engine) (g : game) : (legal_uses E g).length ≤ 30 := by
  unfold legal_uses
  rw [List.length_map]
  exact le_trans (List.length_filter_le _ _) (le_of_eq (loop_cards_length _))

/-- The play phases give at most 30 "use" actions, or else at most four
actions for each eligible card and two more. -/
theorem legal_play_phase_length (E : Engine) (g : game) (cr : Int) :
    (legal_play_phase E g cr).length ≤ 30 ∨
    (legal_play_phase E g cr).length ≤ 4 * eligible_count E g + 2 := by
  have hp : (legal_plays E g cr (g.p g.turn) (later_indices (g.p g.turn))).1.length ≤
      2 * eligible_count E g := legal_plays_length E g cr (g.p g.turn) _
  unfold legal_play_phase
  dsimp only
  split
  · exact Or.inl (Nat.zero_le _)
  · split
    · exact Or.inl (legal_uses_length E g)
    · right
      split
      · omega
      · split
        · have h1 := legal_support_length E g cr
            (legal_plays E g cr (g.p g.turn) (later_indices (g.p g.turn))).1
          have h2 := legal_advance_length (g.p g.turn) cr (legal_support E g cr
            (legal_plays E g cr (g.p g.turn) (later_indices (g.p g.turn))).1)
          have h3 := legal_satisfy_length E g (legal_advance (g.p g.turn) cr
            (legal_support E g cr
              (legal_plays E g cr (g.p g.turn) (later_indices (g.p g.turn))).1))
          omega
        · have h2 := legal_advance_length (g.p g.turn) cr
            (legal_plays E g cr (g.p g.turn) (later_indices (g.p g.turn))).1
          have h3 := legal_satisfy_length E g (legal_advance (g.p g.turn) cr
            (legal_plays E g cr (g.p g.turn) (later_indices (g.p g.turn))).1)
          omega

/-- The begin phase gives one action for each ship to land, each bluff to
reveal (none during a retreat check) and each card to retrieve, and one
more. -/
theorem legal_begin_length (E : Engine) (g : game) (cr : Int) :
    (legal_begin E g cr).length ≤ ships_to_land g + bluffs_to_reveal g + retrievable E g + 1 := by
  have hb : ((later_indices (g.p g.turn)).filter (fun i =>
        ((g.p g.turn).card_at i).bluff ≠ 0 && cr = 0)).length ≤ bluffs_to_reveal g := by
    unfold bluffs_to_reveal
    apply length_filter_le_of_imp
    intro a ha
    simp only [Bool.and_eq_true] at ha
    exact ha.1
  unfold legal_begin ships_to_land retrievable
  dsimp only
  simp only [List.length_append, List.length_map, List.length_singleton]
  omega

theorem legal_announce_length (g : game) : (legal_announce g).length ≤ 2 := by
  unfold legal_announce
  dsimp only
  split_ifs <;> simp

theorem legal_after_sb_length (E : Engine) (g : game) : (legal_after_sb E g).length ≤ 1 := by
  unfold legal_after_sb
  split
  · exact Nat.zero_le _
  · split
    · exact le_refl _
    · exact Nat.zero_le _

/-- The length of the list of `legal_act`, by phase. -/
theorem legal_act_length (E : Engine) (g : game) (cr : Int) :
    (legal_act E g cr).length ≤ ships_to_land g + bluffs_to_reveal g + retrievable E g + 1 ∨
    (legal_act E g cr).length ≤ 30 ∨
    (legal_act E g cr).length ≤ 4 * eligible_count E g + 2 := by
  unfold legal_act
  dsimp only
  split
  · exact Or.inl (legal_begin_length E g cr)
  · split
    · exact Or.inr (legal_play_phase_length E g cr)
    · right; left
      split
      · exact (by decide : (2 : Nat) ≤ 30)
      · split
        · exact le_trans (legal_announce_length g) (by decide)
        · split
          · exact le_trans (legal_after_sb_length E g) (by decide)
          · split
            · exact (by decide : (1 : Nat) ≤ 30)
            · exact Nat.zero_le _

/-- C37 (counterexample): in `crowded_game` player 0, in the leader phase,
holds 30 leadership cards with an optional effect; the rules engine finds
every card eligible and allowed.  `legal_act` returns 61 actions: for each
card one to play it without and one to play it with its effect, and the
action to advance the phase.  That is more than `MAX_ACTION = 50`. -/
theorem legal_act_overflows :
    (legal_act open_engine crowded_game 0).length = 61 ∧
    MAX_ACTION < (legal_act open_engine crowded_game 0).length := by
  constructor
  · decide
  · decide

/-- C37 (as amended): when at most 12 of the cards `deck[last_played + 1]`,
... of the player to move are eligible, and the ships to land, the bluffs to
reveal and the cards to retrieve among them are at most 49 together,
`legal_act` returns at most `MAX_ACTION = 50` actions, whatever the phase, the
flags and the answers of the rules engine. -/
theorem legal_act_bounded (E : Engine) (g : game) (cr : Int)
    (he : eligible_count E g ≤ 12)
    (hb : ships_to_land g + bluffs_to_reveal g + retrievable E g ≤ 49) :
    (legal_act E g cr).length ≤ MAX_ACTION := by
  have hm : MAX_ACTION = 50 := rfl
  rcases legal_act_length E g cr with h | h | h
  · omega
  · omega
  · omega

/-- C37 witness: `crowded_game` with a rules engine that finds no card
eligible; with one that finds every card eligible the count is 30. -/
theorem legal_act_bounded_witness :
    eligible_count open_engine crowded_game = 30 ∧
    eligible_count quiet_engine crowded_game ≤ 12 ∧
    (legal_act quiet_engine crowded_game 0).length ≤ MAX_ACTION :=
  ⟨by decide, by decide,
    legal_act_bounded quiet_engine crowded_game 0 (by decide) (by decide)⟩

/-! ### The number of combinations a choice node records -/

theorem cursors_refl (s : ai_state) : cursors s s := ⟨rfl, rfl, fun h => h⟩

theorem cursors_trans {s t u : ai_state} (h1 : cursors s t) (h2 : cursors t u) :
    cursors s u :=
  ⟨h2.1.trans h1.1, h2.2.1.trans h1.2.1, fun h => h2.2.2 (h1.2.2 h)⟩

/-- Two states with the same cursors and flag. -/
theorem cursors_of_eq {s t : ai_state} (h1 : t.best_path_pos = s.best_path_pos)
    (h2 : t.node_pos = s.node_pos) (h3 : t.checking_decline = s.checking_decline) :
    cursors s t := ⟨h1, h2, fun h => h3.trans h⟩

theorem cursors_run_mutator (m : mutator) (g : game) (s : ai_state) :
    cursors s (run_mutator m g s).2 := cursors_of_eq rfl rfl rfl

theorem cursors_run_callback (E : Engine) (cb : Nat) (g : game) (who : Int)
    (list : List design) (data : Nat) (s : ai_state) :
    cursors s (run_callback E cb g who list data s).2.2 := cursors_of_eq rfl rfl rfl

theorem cursors_perform_none (E : Engine) (g : game) (s : ai_state) :
    cursors s (perform_none E g s).2 := by
  unfold perform_none
  by_cases h0 : (g.p g.turn).phase = PHASE_OVER
  · simp only [h0, if_true]; exact cursors_refl s
  · simp only [h0, if_false]
    by_cases h1 : (g.p g.turn).phase = PHASE_START
    · simp only [h1, if_true]; exact cursors_run_mutator _ _ s
    · simp only [h1, if_false]
      by_cases h2 : (g.p g.turn).phase = PHASE_AFTER_SB
      · simp only [h2, if_true]; exact cursors_run_mutator _ _ s
      · simp only [h2, if_false]
        by_cases h3 : (g.p g.turn).phase = PHASE_REFRESH
        · simp only [h3, if_true]; exact cursors_run_mutator _ _ s
        · simp only [h3, if_false]
          by_cases h4 : (g.p g.turn).phase = PHASE_END
          · simp only [h4, if_true]; exact cursors_run_mutator _ _ s
          · simp only [h4, if_false]; exact cursors_refl s

theorem cursors_perform_act (E : Engine) (g : game) (a : action) (s : ai_state) :
    cursors s (perform_act E g a s).2 := by
  unfold perform_act
  by_cases h1 : a.act = ACT_NONE
  · rw [if_pos h1]; exact cursors_perform_none E g s
  rw [if_neg h1]
  by_cases h2 : a.act = ACT_RETREAT
  · rw [if_pos h2]; exact cursors_run_mutator _ _ s
  rw [if_neg h2]
  by_cases h3 : a.act = ACT_RETRIEVE
  · rw [if_pos h3]; exact cursors_run_mutator _ _ s
  rw [if_neg h3]
  by_cases h4 : a.act = ACT_PLAY
  · rw [if_pos h4]; exact cursors_run_mutator _ _ s
  rw [if_neg h4]
  by_cases h5 : a.act = ACT_PLAY_NO
  · rw [if_pos h5]; exact cursors_run_mutator _ _ s
  rw [if_neg h5]
  by_cases h6 : a.act = ACT_ANN_FIRE ∨ a.act = ACT_ANN_EARTH
  · rw [if_pos h6]; exact cursors_run_mutator _ _ s
  rw [if_neg h6]
  by_cases h7 : a.act = ACT_USE
  · rw [if_pos h7]; exact cursors_run_mutator _ _ s
  rw [if_neg h7]
  by_cases h8 : a.act = ACT_SATISFY
  · rw [if_pos h8]; exact cursors_run_mutator _ _ s
  rw [if_neg h8]
  by_cases h9 : a.act = ACT_LAND
  · rw [if_pos h9]; exact cursors_run_mutator _ _ s
  rw [if_neg h9]
  by_cases h10 : a.act = ACT_LOAD
  · rw [if_pos h10]; exact cursors_run_mutator _ _ s
  rw [if_neg h10]
  by_cases h11 : a.act = ACT_BLUFF
  · rw [if_pos h11]; exact cursors_run_mutator _ _ s
  rw [if_neg h11]
  by_cases h12 : a.act = ACT_REVEAL
  · rw [if_pos h12]; exact cursors_run_mutator _ _ s
  rw [if_neg h12]
  exact cursors_refl s

theorem cursors_eval_game (expf : ℚ → ℚ) (g : game) (who : Int) (s : ai_state) :
    cursors s (eval_game expf g who s).2 := by
  have h := eval_game_frame expf g who s
  exact cursors_of_eq h.2.1 h.2.2.2.2.1 h.2.2.2.2.2.2.2.2.2.2.1

theorem cursors_check_decline (expf : ℚ → ℚ) (g : game) (who : Int) (s : ai_state) :
    cursors s (check_decline expf g who s).2 := by
  unfold check_decline
  by_cases h : (g.p who).stack_at LOC_HAND = 0
  · simp only [h, if_true]
    exact cursors_eval_game expf g who s
  · simp only [h, if_false]
    refine ⟨?_, ?_, fun _ => rfl⟩
    · simp only [(eval_game_frame expf _ who _).2.1]
    · simp only [(eval_game_frame expf _ who _).2.2.2.2.1]

theorem cursors_store_best (s : ai_state) (score : ℚ) (upd : action → action) :
    cursors s (store_best s score upd) := by
  unfold store_best
  split
  · exact cursors_of_eq rfl rfl rfl
  · exact cursors_refl s

theorem cursors_check_retreat (E : Engine) (find : game → ai_state → Option search_result)
    (hf : find_restores find) (g : game) (s : ai_state) (c : game × ai_state)
    (hc : check_retreat E find g s = some c) : cursors s c.2 := by
  unfold check_retreat at hc
  split at hc
  · cases hc; exact cursors_refl s
  · split at hc
    · cases hc; exact cursors_refl s
    · split at hc
      · cases hc; exact cursors_refl s
      · split at hc
        · cases hc
        · rename_i r hr
          cases hc
          have h1 : cursors s { s with must_retreat := 1, checking_retreat := 1 } :=
            cursors_of_eq rfl rfl rfl
          have h2 := hf _ _ _ hr
          have h3 : cursors r.2.2 (check_retreat_end E g r.2.2).2 := by
            unfold check_retreat_end
            dsimp only
            split
            · exact cursors_of_eq rfl rfl rfl
            · exact cursors_of_eq rfl rfl rfl
          exact cursors_trans (cursors_trans h1 h2) h3

theorem cursors_choose_branch (E : Engine) (expf : ℚ → ℚ)
    (find : game → ai_state → Option search_result) (hf : find_restores find) (g : game)
    (old_turn : Int) (n : node) (i : Nat) (s : ai_state) (x : ℚ × ai_state)
    (hx : choose_branch E expf find g old_turn n i s = some x) : cursors s x.2 := by
  unfold choose_branch at hx
  dsimp only at hx
  have hcb := cursors_run_callback E n.callback (simulate_game g) n.who
    (chosen_cards n.choices (n.legal.getD i 0)) n.data s
  split at hx
  · split at hx
    · cases hx; exact hcb
    · cases hx
      exact cursors_trans hcb (cursors_check_decline expf _ _ _)
  · cases hr : find (run_callback E n.callback (simulate_game g) n.who
        (chosen_cards n.choices (n.legal.getD i 0)) n.data s).2.1
        (run_callback E n.callback (simulate_game g) n.who
        (chosen_cards n.choices (n.legal.getD i 0)) n.data s).2.2 with
    | none => rw [hr] at hx; simp at hx
    | some r =>
      rw [hr] at hx
      simp only [Option.map_some', Option.some.injEq] at hx
      subst hx
      exact cursors_trans hcb (hf _ _ _ hr)

theorem cursors_choose_loop (E : Engine) (expf : ℚ → ℚ)
    (find : game → ai_state → Option search_result) (hf : find_restores find) (g : game)
    (old_turn : Int) (pos : Int) (fuel : Nat) :
    ∀ (i : Nat) (b_s : ℚ) (best_combo : Int) (s : ai_state) (r : ℚ × Int × ai_state),
      choose_loop E expf find g old_turn pos fuel i b_s best_combo s = some r →
        cursors s r.2.2 := by
  induction fuel with
  | zero =>
    intro i b_s best_combo s r hr
    simp only [choose_loop] at hr
    split at hr
    · simp at hr
    · cases hr; exact cursors_refl s
  | succ fuel ih =>
    intro i b_s best_combo s r hr
    simp only [choose_loop] at hr
    split at hr
    · cases hb : choose_branch E expf find g old_turn (s.node_at pos) i s with
      | none => rw [hb] at hr; simp at hr
      | some x =>
        rw [hb] at hr
        dsimp only at hr
        have hk := cursors_choose_branch E expf find hf g old_turn _ i s x hb
        split at hr
        · exact cursors_trans hk (ih _ _ _ _ _ hr)
        · exact cursors_trans hk (ih _ _ _ _ _ hr)
    · cases hr; exact cursors_refl s

theorem cursors_choose_action (E : Engine) (expf : ℚ → ℚ)
    (find : game → ai_state → Option search_result) (hf : find_restores find) (g : game)
    (s : ai_state) (r : ℚ × ai_state) (hr : choose_action E expf find g s = some r) :
    cursors s r.2 := by
  unfold choose_action at hr
  dsimp only at hr
  split at hr
  · cases hr
  · rename_i x hx
    cases hr
    have h2 := cursors_choose_loop E expf find hf g g.turn s.node_pos 5000 0 (-1) 0 _ x hx
    refine cursors_trans ?_ (cursors_store_best _ _ _)
    refine ⟨?_, ?_, fun h => h2.2.2 h⟩
    · show x.2.2.best_path_pos - 1 = s.best_path_pos
      rw [h2.1]
      show s.best_path_pos + 1 - 1 = s.best_path_pos
      omega
    · show x.2.2.node_pos - 1 = s.node_pos
      rw [h2.2.1]
      show s.node_pos + 1 - 1 = s.node_pos
      omega

theorem cursors_find_single (E : Engine) (expf : ℚ → ℚ)
    (find : game → ai_state → Option search_result) (hf : find_restores find) (g : game)
    (a : action) (s : ai_state) (r : search_result)
    (hr : find_single E expf find g a s = some r) : cursors s r.2.2 := by
  unfold find_single at hr
  dsimp only at hr
  have h1 : ({ s with best_path_pos := s.best_path_pos + 1 } : ai_state).best_path_pos =
      s.best_path_pos + 1 := rfl
  have h2 := cursors_perform_act E g a { s with best_path_pos := s.best_path_pos + 1 }
  generalize perform_act E g a { s with best_path_pos := s.best_path_pos + 1 } = p at hr h2
  split at hr
  · cases hr
  · rename_i x hx
    cases hr
    have hx2 : cursors p.2 x.2.2 := by
      split at hx
      · split at hx
        · cases hx
          exact cursors_of_eq rfl rfl rfl
        · split at hx
          · cases hx
          · rename_i c hc
            cases hx
            have hk := cursors_check_retreat E find hf p.1 p.2 c hc
            refine cursors_trans hk (cursors_trans (cursors_eval_game expf c.1 c.1.sim_turn c.2) ?_)
            exact cursors_of_eq rfl rfl rfl
      · exact hf _ _ _ hx
    have h3 := cursors_trans h2 hx2
    have h4 : cursors s { x.2.2 with best_path_pos := x.2.2.best_path_pos - 1 } := by
      refine ⟨?_, h3.2.1, fun h => h3.2.2 h⟩
      show x.2.2.best_path_pos - 1 = s.best_path_pos
      rw [h3.1, h1]
      omega
    exact cursors_trans h4 (cursors_store_best _ _ _)

theorem cursors_find_branch (E : Engine) (expf : ℚ → ℚ)
    (find : game → ai_state → Option search_result) (hf : find_restores find) (g : game)
    (a : action) (s : ai_state) (x : ℚ × ai_state)
    (hx : find_branch E expf find g a s = some x) : cursors s x.2 := by
  unfold find_branch at hx
  dsimp only at hx
  have hp := cursors_perform_act E (simulate_game g) a s
  generalize perform_act E (simulate_game g) a s = p at hx hp
  split at hx
  · split at hx
    · cases hx; exact hp
    · cases hx
      exact cursors_trans hp (cursors_eval_game expf _ _ _)
  · cases hr : find p.1 p.2 with
    | none => rw [hr] at hx; simp at hx
    | some r =>
      rw [hr] at hx
      simp only [Option.map_some', Option.some.injEq] at hx
      subst hx
      exact cursors_trans hp (hf _ _ _ hr)

theorem cursors_find_loop (E : Engine) (expf : ℚ → ℚ)
    (find : game → ai_state → Option search_result) (hf : find_restores find) (g : game)
    (legal : List action) :
    ∀ (b_s : ℚ) (best_act : Option action) (s : ai_state) (r : ℚ × Option action × ai_state),
      find_loop E expf find g legal b_s best_act s = some r → cursors s r.2.2 := by
  induction legal with
  | nil =>
    intro b_s best_act s r hr
    simp only [find_loop, Option.some.injEq] at hr
    rw [← hr]; exact cursors_refl s
  | cons a rest ih =>
    intro b_s best_act s r hr
    simp only [find_loop] at hr
    split at hr
    · cases hr; exact cursors_refl s
    · cases hb : find_branch E expf find g a s with
      | none => rw [hb] at hr; simp at hr
      | some x =>
        rw [hb] at hr
        dsimp only at hr
        have hk := cursors_find_branch E expf find hf g a s x hb
        split at hr
        · exact cursors_trans hk (ih _ _ _ _ hr)
        · exact cursors_trans hk (ih _ _ _ _ hr)

theorem cursors_find_multi (E : Engine) (expf : ℚ → ℚ)
    (find : game → ai_state → Option search_result) (hf : find_restores find) (g : game)
    (legal : List action) (s : ai_state) (r : search_result)
    (hr : find_multi E expf find g legal s = some r) : cursors s r.2.2 := by
  unfold find_multi at hr
  dsimp only at hr
  split at hr
  · cases hr
  · rename_i x hx
    have h2 := cursors_find_loop E expf find hf g legal (-1) none _ x hx
    have h3 : cursors s { x.2.2 with best_path_pos := x.2.2.best_path_pos - 1 } := by
      refine ⟨?_, h2.2.1, fun h => h2.2.2 h⟩
      show x.2.2.best_path_pos - 1 = s.best_path_pos
      rw [h2.1]
      show s.best_path_pos + 1 - 1 = s.best_path_pos
      omega
    split at hr
    · split at hr
      · cases hr
      · cases hr
        exact cursors_trans h3 (cursors_store_best _ _ _)
    · cases hr
      exact h3

theorem cursors_find_action_step (E : Engine) (expf : ℚ → ℚ)
    (find : game → ai_state → Option search_result) (hf : find_restores find) :
    find_restores (find_action_step E expf find) := by
  intro g s r hr
  unfold find_action_step at hr
  dsimp only at hr
  split at hr
  · cases hr
    refine cursors_trans (t := { s with node_len := s.node_pos }) (cursors_of_eq rfl rfl rfl) ?_
    exact cursors_eval_game expf _ _ _
  · split at hr
    · cases hc : choose_action E expf find g s with
      | none => rw [hc] at hr; cases hr
      | some x =>
        rw [hc] at hr
        cases hr
        exact cursors_choose_action E expf find hf g s x hc
    · split at hr
      · cases hr; exact cursors_refl s
      · split at hr
        · cases hr; exact cursors_refl s
        · exact cursors_find_single E expf find hf g _ s r hr
        · exact cursors_find_multi E expf find hf g _ s r hr

theorem cursors_find_action (E : Engine) (expf : ℚ → ℚ) (fuel : Nat) :
    find_restores (find_action E expf fuel) := by
  induction fuel with
  | zero => intro g s r hr; simp [find_action] at hr
  | succ k ih => exact cursors_find_action_step E expf _ ih

/-- The search leaves the flag `checking_decline` clear: every call of
`check_decline` made by the search is entered with the flag clear. -/
theorem find_action_decline_clear (E : Engine) (expf : ℚ → ℚ) (fuel : Nat) (g : game)
    (s : ai_state) (r : search_result) (h0 : s.checking_decline = 0)
    (hr : find_action E expf fuel g s = some r) : r.2.2.checking_decline = 0 :=
  (cursors_find_action E expf fuel g s r hr).2.2 h0

/-- C39: the search cursors obey stack discipline.  For every rules engine,
every game and every static state, when `find_action` returns it leaves
`best_path_pos` and `node_pos` at their values on entry, and so does
`choose_action` (with `find_action` for its recursive calls).  The rules engine
acts on simulated games with no assist string set: it reaches the static
state only through the chooser's part of it, which holds neither cursor. -/
theorem search_cursors_restored (E : Engine) (expf : ℚ → ℚ) (fuel : Nat) (g : game)
    (s : ai_state) :
    (∀ r, find_action E expf fuel g s = some r →
      r.2.2.best_path_pos = s.best_path_pos ∧ r.2.2.node_pos = s.node_pos) ∧
    (∀ x, choose_action E expf (find_action E expf fuel) g s = some x →
      x.2.best_path_pos = s.best_path_pos ∧ x.2.node_pos = s.node_pos) := by
  constructor
  · intro r hr
    have h := cursors_find_action E expf fuel g s r hr
    exact ⟨h.1, h.2.1⟩
  · intro x hx
    have h := cursors_choose_action E expf (find_action E expf fuel)
      (cursors_find_action E expf fuel) g s x hx
    exact ⟨h.1, h.2.1⟩

/-- C39 on two runs: the search of the retreat phase, which tries two actions,
and the examination of a choice node whose combination ends the game. -/
theorem search_cursors_restored_sample :
    (find_action quiet_engine flat_exp 2 retreat_game fresh_state).map
      (fun r => (r.2.2.best_path_pos, r.2.2.node_pos)) =
      some (fresh_state.best_path_pos, fresh_state.node_pos) ∧
    (choose_action quiet_engine flat_exp (find_action quiet_engine flat_exp 1) own_game
      pending_state).map (fun x => (x.2.best_path_pos, x.2.node_pos)) =
      some (pending_state.best_path_pos, pending_state.node_pos) ∧
    (∀ r, find_action quiet_engine flat_exp 2 retreat_game fresh_state = some r →
      r.2.2.best_path_pos = fresh_state.best_path_pos ∧
      r.2.2.node_pos = fresh_state.node_pos) :=
  ⟨by with_unfolding_all decide, by with_unfolding_all decide,
    (search_cursors_restored quiet_engine flat_exp 2 retreat_game fresh_state).1⟩

/-! ## The hypothetical hand of the retreat check -/

/-- The copy `simulate_game` makes has the turn of the game. -/
theorem simulate_game_turn (g : game) : (simulate_game g).turn = g.turn := by
  unfold simulate_game
  by_cases h : g.simulation = 0
  · simp [h]
  · simp [h]

/-- The copy `simulate_game` makes has the cards and counters of the game. -/
theorem simulate_game_cards (g : game) (who : Int) :
    ((simulate_game g).p who).deck = (g.p who).deck ∧
    ((simulate_game g).p who).stack = (g.p who).stack := by
  unfold simulate_game
  by_cases h : g.simulation = 0
  · unfold game.p
    by_cases hw : who = 0
    · simp [h, hw]
    · simp [h, hw]
  · simp [h]

/-- The loop of `pretend_in_hand` leaves every card where it is when each card
of unknown location it visits is in the hand. -/
theorem pretend_fold_places (orig : List card) (l : List Nat)
    (hin : ∀ i ∈ l, (orig.getD i default).unknown = true →
      (orig.getD i default).where_ = LOC_HAND) :
    ∀ d, same_places orig d →
      same_places orig (l.foldl (fun d i =>
        if (d.getD i default).unknown then
          d.set i { d.getD i default with random_fake := 0, where_ := LOC_HAND }
        else d) d) := by
  induction l with
  | nil => intro d hd; exact hd
  | cons a rest ih =>
    intro d hd
    rw [List.foldl_cons]
    apply ih (fun i hi => hin i (List.mem_cons_of_mem _ hi))
    by_cases hu : (d.getD a default).unknown = true
    · rw [if_pos hu]
      refine ⟨by rw [List.length_set]; exact hd.1, fun i => ?_⟩
      rw [getD_set_card d a i _ default]
      by_cases hi : i = a ∧ a < d.length
      · rw [if_pos hi, hi.1]
        refine ⟨?_, (hd.2 a).2.1, fun _ => (hd.2 a).2.2 hu⟩
        exact (hin a (List.mem_cons_self _ _) ((hd.2 a).2.2 hu)).symm
      · rw [if_neg hi]
        exact hd.2 i
    · rw [if_neg hu]
      exact hd

/-- The loop of `pretend_in_hand` writes no counter. -/
theorem pretend_in_hand_stack (p : player) : (pretend_in_hand p).stack = p.stack := by
  unfold pretend_in_hand
  rfl

/-- When every card of unknown location is in the hand, `pretend_in_hand`
leaves zones, counters and designs as they are. -/
theorem zones_same_pretend (p : player)
    (hin : ∀ i, 1 ≤ i → i < DECK_SIZE → (p.card_at i).unknown = true →
      (p.card_at i).where_ = LOC_HAND) :
    zones_same p (pretend_in_hand p) := by
  have h := pretend_fold_places p.deck deck_indices
    (fun i hi => hin i ((mem_deck_indices i).mp hi).1 ((mem_deck_indices i).mp hi).2)
    p.deck ⟨rfl, fun _ => ⟨rfl, rfl, fun h => h⟩⟩
  unfold zones_same player.card_at
  rw [pretend_in_hand_stack]
  unfold pretend_in_hand
  dsimp only
  exact ⟨rfl, h.1, fun i => ⟨(h.2 i).1, (h.2 i).2.1⟩⟩

/-- An assignment to one player record leaves the counters of every player whose
counters it keeps. -/
theorem stack_set_p (g : game) (who w : Int) (q : player) (h : q.stack = (g.p who).stack) :
    ((g.set_p who q).p w).stack = (g.p w).stack := by
  unfold game.set_p game.p at *
  by_cases h1 : who = 0
  · by_cases h2 : w = 0
    · simp only [h1, h2, if_true] at h ⊢; exact h
    · simp only [h1, h2, if_true, if_false] at h ⊢
  · by_cases h2 : w = 0
    · simp only [h1, h2, if_true, if_false] at h ⊢
    · simp only [h1, h2, if_false] at h ⊢; exact h

/-- The hypothetical game of `check_retreat` has the counters of the game. -/
theorem retreat_hypothesis_stack (g : game) (who : Int) :
    ((retreat_hypothesis g).1.p who).stack = (g.p who).stack := by
  unfold retreat_hypothesis
  dsimp only
  split
  · exact (simulate_game_cards g who).2
  · exact (stack_set_p _ _ who _ (pretend_in_hand_stack _)).trans (simulate_game_cards g who).2

/-- Past its three early returns `check_retreat` starts the search on the
hypothetical game. -/
theorem check_retreat_starts (E : Engine) (find : game → ai_state → Option search_result)
    (g : game) (s : ai_state) (h1 : g.fight_started ≠ 0)
    (h2 : retreat_bluff (g.p (other_player g.turn)) = false)
    (h3 : (retreat_hypothesis g).2 ≤ 15) :
    check_retreat E find g s =
      (find (retreat_hypothesis g).1 { s with must_retreat := 1, checking_retreat := 1 }).map
        (fun r => check_retreat_end E g r.2.2) := by
  unfold check_retreat
  rw [if_neg h1, if_neg (by rw [h2]; decide), if_neg (not_lt.mpr h3)]
  cases find (retreat_hypothesis g).1 { s with must_retreat := 1, checking_retreat := 1 } <;> rfl

theorem fog_player_zones_ok : zones_ok fog_player :=
  zones_ok_of_checks fog_player (by decide) (by decide) (by decide) (by decide)

theorem mist_player_zones_ok : zones_ok mist_player :=
  zones_ok_of_checks mist_player (by decide) (by decide) (by decide) (by decide)
set_option maxRecDepth 20000 in
/-- C40, counterexample: in a fight, with no bluff to call, player 0 holds one
card of unknown location and has another card of unknown location in the draw
pile, the other 28 cards known to be in the discard pile; the counters agree
with the zones.  `check_retreat` moves 2 cards and starts the search (a search
that gives up makes it give up) on a hypothetical game in which two cards of
player 0 have `where = LOC_HAND` while `stack[LOC_HAND]` is still 1, and no
card has `where = LOC_DRAW` while `stack[LOC_DRAW]` is still 1. -/
theorem check_retreat_miscounts_hand :
    zones_ok (fog_game.p fog_game.turn) ∧
    fog_game.fight_started ≠ 0 ∧
    retreat_bluff (fog_game.p (other_player fog_game.turn)) = false ∧
    (retreat_hypothesis fog_game).2 = 2 ∧
    check_retreat quiet_engine (fun _ _ => none) fog_game fresh_state = none ∧
    ((retreat_hypothesis fog_game).1.p fog_game.turn).stack.getD LOC_HAND.toNat 0 = 1 ∧
    (deck_indices.filter (fun i => decide
      ((((retreat_hypothesis fog_game).1.p fog_game.turn).card_at i).where_ = LOC_HAND))).length
      = 2 ∧
    ((retreat_hypothesis fog_game).1.p fog_game.turn).stack.getD LOC_DRAW.toNat 0 = 1 ∧
    (deck_indices.filter (fun i => decide
      ((((retreat_hypothesis fog_game).1.p fog_game.turn).card_at i).where_ = LOC_DRAW))).length
      = 0 ∧
    ¬ zones_ok ((retreat_hypothesis fog_game).1.p fog_game.turn) := by
  refine ⟨fog_player_zones_ok, by decide, by decide, by decide, by decide, by decide,
    by decide, by decide, by decide, ?_⟩
  intro h
  have h1 := h.2.2.2 1 (by decide)
  revert h1
  decide

/-- C40: the hypothetical state that `check_retreat` builds for the retreat
check has the zone counters of the game it copies, for both players; past the
early returns of `check_retreat` the search `find` is started on it; and its
counters are consistent with the card zones (for each zone `z`, `stack[z]` of
the player to move is the number of that player's cards with `where = z`, all
of them in a zone) when they are so in the game and no card changes zone:
every card in the hand is known, so no card is moved, or every card of the
player to move whose location is not known, or that is marked `random_fake`,
is in the hand already. -/
theorem retreat_hypothesis_counters (g : game) (hz : zones_ok (g.p g.turn))
    (hin : (∀ i, 1 ≤ i → i < DECK_SIZE → ((g.p g.turn).card_at i).where_ = LOC_HAND →
        ((g.p g.turn).card_at i).loc_known ≠ 0) ∨
      (∀ i, 1 ≤ i → i < DECK_SIZE → ((g.p g.turn).card_at i).unknown = true →
        ((g.p g.turn).card_at i).where_ = LOC_HAND)) :
    (∀ who, ((retreat_hypothesis g).1.p who).stack = (g.p who).stack) ∧
    (∀ (E : Engine) (find : game → ai_state → Option search_result) (s : ai_state),
      g.fight_started ≠ 0 → retreat_bluff (g.p (other_player g.turn)) = false →
      (retreat_hypothesis g).2 ≤ 15 →
      check_retreat E find g s =
        (find (retreat_hypothesis g).1
          { s with must_retreat := 1, checking_retreat := 1 }).map
          (fun r => check_retreat_end E g r.2.2)) ∧
    zones_ok ((retreat_hypothesis g).1.p g.turn) ∧
    ∀ z : Nat, z < LOC_MAX →
      ((retreat_hypothesis g).1.p g.turn).stack.getD z 0 =
        ((deck_indices.filter (fun i => decide
          ((((retreat_hypothesis g).1.p g.turn).card_at i).where_ = (z : Int)))).length : Int) := by
  have hsim : zones_same (g.p g.turn) ((simulate_game g).p g.turn) :=
    ⟨(simulate_game_cards g g.turn).2, by rw [(simulate_game_cards g g.turn).1],
      fun i => by unfold player.card_at; rw [(simulate_game_cards g g.turn).1]; exact ⟨rfl, rfl⟩⟩
  have hok : zones_ok ((retreat_hypothesis g).1.p g.turn) := by
    unfold retreat_hypothesis
    dsimp only
    rw [simulate_game_turn]
    split
    · exact zones_ok_of_same _ _ hsim hz
    · rename_i hall
      rw [p_set_p_self]
      apply zones_ok_of_same _ _ _ (zones_ok_of_same _ _ hsim hz)
      apply zones_same_pretend
      intro i hi1 hi2 hu
      have hc : ((simulate_game g).p g.turn).card_at i = (g.p g.turn).card_at i := by
        unfold player.card_at; rw [(simulate_game_cards g g.turn).1]
      rw [hc] at hu ⊢
      rcases hin with hk | hh
      · exfalso
        apply hall
        rw [List.all_eq_true]
        intro c hc1
        unfold player.loop_cards at hc1
        rw [List.mem_map] at hc1
        obtain ⟨j, hj, rfl⟩ := hc1
        rw [List.mem_range] at hj
        have hcj : ((simulate_game g).p g.turn).deck.getD (j + 1) default =
            (g.p g.turn).card_at (j + 1) := by
          unfold player.card_at; rw [(simulate_game_cards g g.turn).1]
        rw [hcj]
        by_cases hw : ((g.p g.turn).card_at (j + 1)).where_ = LOC_HAND
        · have := hk (j + 1) (by omega) (by unfold DECK_SIZE at *; omega) hw
          simp [this]
        · simp [hw]
      · exact hh i hi1 hi2 hu
  exact ⟨fun who => retreat_hypothesis_stack g who,
    fun E find s h1 h2 h3 => check_retreat_starts E find g s h1 h2 h3, hok, hok.2.2.2⟩

set_option maxRecDepth 20000 in
/-- C40, at a game: player 0 holds a card of unknown location and a card marked
`random_fake`; `check_retreat` rewrites both (2 cards moved, the mark cleared)
and the counters still agree with the zones. -/
theorem retreat_hypothesis_counters_witness :
    zones_ok (mist_game.p mist_game.turn) ∧
    (retreat_hypothesis mist_game).2 = 2 ∧
    (((retreat_hypothesis mist_game).1.p mist_game.turn).card_at 2).random_fake = 0 ∧
    zones_ok ((retreat_hypothesis mist_game).1.p mist_game.turn) :=
  ⟨mist_player_zones_ok, by decide, by decide,
    (retreat_hypothesis_counters mist_game mist_player_zones_ok
      (Or.inr (by decide))).2.2.1⟩

/-! ### Records inside and outside the array `legal` -/

/-- A loop run on the image of a state gives the image of the loop. -/
theorem for_range_map {σ τ : Type} (f : σ → τ) (n : Nat) (body : Nat → σ → σ)
    (body2 : Nat → τ → τ) (h : ∀ i s, body2 i (f s) = f (body i s)) (s : σ) :
    for_range n body2 (f s) = f (for_range n body s) := by
  unfold for_range
  induction n generalizing s with
  | zero => rfl
  | succ n ih =>
    rw [List.range_succ, List.foldl_append, List.foldl_append, ih]
    exact h n _

theorem compute_net_inputs_of_rat (l : net) :
    compute_net_inputs_of l.to_of = (compute_net_inputs l).to_of := by
  unfold compute_net_inputs_of compute_net_inputs
  refine for_range_map net.to_of _ _ _ ?_ l
  intro i s
  by_cases h : s.input_value.getD i 0 ≠ s.prev_input.getD i 0
  · rw [if_pos h]
    exact if_pos h
  · rw [if_neg h]
    exact if_neg h

theorem compute_net_hidden_of_rat (expf : ℚ → ℚ) (l : net) :
    compute_net_hidden_of expf l.to_of = (compute_net_hidden expf l).to_of := by
  unfold compute_net_hidden_of compute_net_hidden
  exact for_range_map net.to_of _ _ _ (fun _ _ => rfl) l

theorem compute_net_outputs_of_rat (expf : ℚ → ℚ) (l : net) :
    compute_net_outputs_of expf l.to_of = (compute_net_outputs expf l).to_of := by
  unfold compute_net_outputs_of compute_net_outputs
  exact for_range_map net.to_of _ _ _ (fun _ _ => rfl) { l with prob_sum := 0 }

theorem compute_net_probs_of_rat (expf : ℚ → ℚ) (l : net) :
    compute_net_probs_of expf l.to_of = (compute_net_probs expf l).to_of := by
  unfold compute_net_probs_of compute_net_probs
  exact for_range_map net.to_of _ _ _ (fun _ _ => rfl) l

/-- Over the rationals `compute_net_of` is `compute_net`. -/
theorem compute_net_of_rat (expf : ℚ → ℚ) (l : net) :
    compute_net_of expf l.to_of = (compute_net expf l).to_of := by
  unfold compute_net_of compute_net
  rw [compute_net_inputs_of_rat, compute_net_hidden_of_rat, compute_net_outputs_of_rat,
    compute_net_probs_of_rat]

theorem train_output_of_rat (expf : ℚ → ℚ) (lambda : ℚ) (desired : List ℚ) (i : Nat)
    (l : net) :
    train_output_of expf lambda desired i l.to_of =
      (train_output expf lambda desired i l).to_of := by
  unfold train_output_of train_output
  dsimp only
  have h : ∀ (A : net_of ℚ) (B : net) (e1 e2 : ℚ), A = B.to_of →
      A.set_ow A.num_hidden.toNat i (A.ow A.num_hidden.toNat i + A.alpha * e1 * e2) =
        (B.set_ow B.num_hidden.toNat i
          (B.ow B.num_hidden.toNat i + B.alpha * e1 * e2)).to_of := by
    intro A B e1 e2 hAB
    subst hAB
    rfl
  have hloop := for_range_map net.to_of l.num_hidden.toNat
    (fun j x =>
      ({ x with hidden_error := x.hidden_error.set j (x.hidden_error.getD j 0 +
        lambda * (l.win_prob.getD i 0 - desired.getD i 0) *
          train_hderiv expf x i j (l.win_prob.getD i 0 * (1 - l.win_prob.getD i 0))) } :
        net).set_ow j i
        (({ x with hidden_error := x.hidden_error.set j (x.hidden_error.getD j 0 +
          lambda * (l.win_prob.getD i 0 - desired.getD i 0) *
            train_hderiv expf x i j (l.win_prob.getD i 0 * (1 - l.win_prob.getD i 0))) } :
          net).ow j i +
          x.alpha * (-(lambda * (l.win_prob.getD i 0 - desired.getD i 0)) *
            x.hidden_result.getD j 0 * (l.win_prob.getD i 0 * (1 - l.win_prob.getD i 0)))))
    (fun j x =>
      ({ x with hidden_error := x.hidden_error.set j (x.hidden_error.getD j 0 +
        lambda * (l.win_prob.getD i 0 - desired.getD i 0) *
          train_hderiv_of expf x i j (l.win_prob.getD i 0 * (1 - l.win_prob.getD i 0))) } :
        net_of ℚ).set_ow j i
        (({ x with hidden_error := x.hidden_error.set j (x.hidden_error.getD j 0 +
          lambda * (l.win_prob.getD i 0 - desired.getD i 0) *
            train_hderiv_of expf x i j (l.win_prob.getD i 0 * (1 - l.win_prob.getD i 0))) } :
          net_of ℚ).ow j i +
          x.alpha * (-(lambda * (l.win_prob.getD i 0 - desired.getD i 0)) *
            x.hidden_result.getD j 0 * (l.win_prob.getD i 0 * (1 - l.win_prob.getD i 0)))))
    (fun _ _ => rfl) l
  exact h _ _ _ _ hloop

theorem train_hidden_weights_of_rat (l : net) (hc : List ℚ) :
    train_hidden_weights_of l.to_of hc = (train_hidden_weights l hc).to_of := by
  unfold train_hidden_weights_of train_hidden_weights
  refine for_range_map net.to_of _ _ _ ?_ l
  intro i s
  by_cases h : s.input_value.getD i 0 = 0
  · rw [if_pos h]
    exact if_pos h
  · rw [if_neg h]
    refine (if_neg h).trans ?_
    exact for_range_map net.to_of _ _ _ (fun _ _ => rfl) s

theorem train_clear_of_rat (l : net) : train_clear_of l.to_of = (train_clear l).to_of := by
  unfold train_clear_of train_clear
  dsimp only
  have h : ∀ (A : net_of ℚ) (B : net), A = B.to_of →
      ({ A with prev_input :=
        for_range (A.num_inputs + 1).toNat (fun i p => p.set i 0) A.prev_input } : net_of ℚ) =
      ({ B with prev_input :=
        for_range (B.num_inputs + 1).toNat (fun i p => p.set i 0) B.prev_input } : net).to_of := by
    intro A B hAB
    subst hAB
    rfl
  exact h _ _ (for_range_map net.to_of l.num_hidden.toNat
    (fun i x => { x with hidden_error := x.hidden_error.set i 0,
                         hidden_sum := x.hidden_sum.set i 0 })
    (fun i x => { x with hidden_error := x.hidden_error.set i 0,
                         hidden_sum := x.hidden_sum.set i 0 })
    (fun _ _ => rfl) l)

/-- Over the rationals `train_net_of` is `train_net`. -/
theorem train_net_of_rat (expf : ℚ → ℚ) (l : net) (lambda : ℚ) (desired : List ℚ) :
    train_net_of expf l.to_of lambda desired = (train_net expf l lambda desired).to_of := by
  unfold train_net_of train_net
  dsimp only
  have h1 : for_range l.to_of.num_output.toNat (train_output_of expf lambda desired) l.to_of =
      (for_range l.num_output.toNat (train_output expf lambda desired) l).to_of :=
    for_range_map net.to_of l.num_output.toNat (train_output expf lambda desired)
      (train_output_of expf lambda desired)
      (fun i s => train_output_of_rat expf lambda desired i s) l
  rw [h1, ← train_clear_of_rat, ← train_hidden_weights_of_rat]
  rfl

theorem set_inputs_of_rat (l : net) (xs : List Int) :
    set_inputs_of l.to_of xs = (set_inputs l xs).to_of := by
  unfold set_inputs_of set_inputs
  have key : ∀ (ys : List Int) (a : net) (n : Nat),
      (ys.foldl (fun (acc : net_of ℚ × Nat) x => (SET_INPUT_of acc.1 acc.2 x, acc.2 + 1))
        (a.to_of, n)).1 =
      (ys.foldl (fun (acc : net × Nat) x => (SET_INPUT acc.1 acc.2 x, acc.2 + 1))
        (a, n)).1.to_of := by
    intro ys
    induction ys with
    | nil => intro a n; rfl
    | cons y rest ih =>
      intro a n
      rw [List.foldl_cons, List.foldl_cons]
      exact ih (SET_INPUT a n y) (n + 1)
  exact key xs l 0

/-- Over the rationals `eval_game_net_of` is `eval_game_net`. -/
theorem eval_game_net_of_rat (expf : ℚ → ℚ) (l : net) (g : game) (who : Int) :
    (eval_game_net_of expf l.to_of g who).1 = (eval_game_net expf l g who).1 ∧
    (eval_game_net_of expf l.to_of g who).2 = (eval_game_net expf l g who).2.to_of := by
  unfold eval_game_net_of eval_game_net
  by_cases h : l.num_inputs = 0
  · have h2 : l.to_of.num_inputs = 0 := h
    rw [if_pos h, if_pos h2]
    exact ⟨by norm_num, rfl⟩
  · have h2 : ¬ l.to_of.num_inputs = 0 := h
    rw [if_neg h, if_neg h2]
    dsimp only
    rw [set_inputs_of_rat, compute_net_of_rat]
    generalize compute_net expf (set_inputs l (eval_inputs g who)) = c
    exact ⟨rfl, rfl⟩

/-- Over the rationals the comparison `keep_best_of` is `keep_best`. -/
theorem keep_best_of_rat (pairs : List (action × ℚ)) (b_s : ℚ) (best_act : Option action) :
    keep_best_of pairs b_s best_act = keep_best pairs b_s best_act := rfl

/-! ### One training step of the small net, over an ordered field -/

/-- The small net with its inputs set, as the contents of its arrays. -/
theorem tiny_net_state_of {K : Type} [Field K] (mem : allocation_of K) (alpha : K)
    (x0 x1 : Int) :
    SET_INPUT_of (SET_INPUT_of (tiny_net_of mem alpha) 0 x0) 1 x1 =
      tiny_state_of [x0, x1, 1] [0, 0, 0] 0 (mem.hidden_result 0) 0 (mem.net_result 0)
        (mem.net_result 1) 0 (mem.win_prob 0) (mem.win_prob 1)
        [[mem.hidden_weight 0 0], [mem.hidden_weight 1 0], [mem.hidden_weight 2 0]]
        [[mem.output_weight 0 0, mem.output_weight 0 1],
         [mem.output_weight 1 0, mem.output_weight 1 1]] alpha := by
  simp [SET_INPUT_of, tiny_net_of, make_learner_of, tiny_state_of, blank_net_of,
    List.range_succ]

/-- The small net computed from cleared sums. -/
theorem compute_tiny_of {K : Type} [Field K] (expf : K → K) (x0 x1 : Int)
    (h herr r0 r1 S p0 p1 v0 v1 v2 u0 u1 b0 b1 alpha hs : K)
    (hhs : hs = v0 * (x0 : K) + v1 * (x1 : K) + v2) :
    compute_net_of expf (tiny_state_of [x0, x1, 1] [0, 0, 0] 0 h herr r0 r1 S p0 p1
        [[v0], [v1], [v2]] [[u0, u1], [b0, b1]] alpha) =
      tiny_state_of [x0, x1, 1] [x0, x1, 1] hs (1 + expf (-hs))⁻¹ herr
        ((1 + expf (-hs))⁻¹ * u0 + b0) ((1 + expf (-hs))⁻¹ * u1 + b1)
        (expf ((1 + expf (-hs))⁻¹ * u0 + b0) + expf ((1 + expf (-hs))⁻¹ * u1 + b1))
        (expf ((1 + expf (-hs))⁻¹ * u0 + b0) /
          (expf ((1 + expf (-hs))⁻¹ * u0 + b0) + expf ((1 + expf (-hs))⁻¹ * u1 + b1)))
        (expf ((1 + expf (-hs))⁻¹ * u1 + b1) /
          (expf ((1 + expf (-hs))⁻¹ * u0 + b0) + expf ((1 + expf (-hs))⁻¹ * u1 + b1)))
        [[v0], [v1], [v2]] [[u0, u1], [b0, b1]] alpha := by
  subst hhs
  unfold compute_net_of compute_net_probs_of compute_net_outputs_of compute_net_hidden_of
    compute_net_inputs_of output_sum_of tiny_state_of
  by_cases h0 : x0 = 0
  · by_cases h1 : x1 = 0
    · simp [for_range, List.range_succ, net_of.hw, net_of.ow, sigmoid_of, h0, h1]
    · simp [for_range, List.range_succ, net_of.hw, net_of.ow, sigmoid_of, h0, h1]
  · by_cases h1 : x1 = 0
    · simp [for_range, List.range_succ, net_of.hw, net_of.ow, sigmoid_of, h0, h1]
    · simp [for_range, List.range_succ, net_of.hw, net_of.ow, sigmoid_of, h0, h1]

/-- One call of `train_net` with `lambda = 1` on the small net: the new weights
and the cleared cells. -/
theorem train_tiny_of {K : Type} [Field K] (expf : K → K) (x0 x1 : Int) (prev : List Int)
    (hs h r0 r1 S p0 p1 v0 v1 v2 u0 u1 b0 b1 alpha d0 d1 u0n herr hc : K)
    (hprev : prev.length = 3)
    (hu0n : u0n = u0 + alpha * (-(p0 - d0) * h * (p0 * (1 - p0))))
    (hherr : herr = (p0 - d0) * (p0 * (1 - p0) * u0 - u1 * expf (r0 + r1) / (S * S)) +
      (p1 - d1) * (p1 * (1 - p1) * u1 - u0n * expf (r1 + r0) / (S * S)))
    (hhc : hc = h * (1 - h) * -herr * alpha) :
    train_net_of expf (tiny_state_of [x0, x1, 1] prev hs h 0 r0 r1 S p0 p1
        [[v0], [v1], [v2]] [[u0, u1], [b0, b1]] alpha) 1 [d0, d1] =
      tiny_state_of [x0, x1, 1] [0, 0, 0] 0 h 0 r0 r1 S p0 p1
        [[if x0 = 0 then v0 else v0 + hc], [if x1 = 0 then v1 else v1 + hc], [v2 + hc]]
        [[u0n, u1 + alpha * (-(p1 - d1) * h * (p1 * (1 - p1)))],
         [b0 + alpha * -(p0 - d0) * (p0 * (1 - p0)),
          b1 + alpha * -(p1 - d1) * (p1 * (1 - p1))]] alpha := by
  subst hu0n hherr hhc
  match prev, hprev with
  | [a, b, c], _ =>
    unfold train_net_of train_clear_of train_hidden_weights_of train_hidden_corr_of
      tiny_state_of
    by_cases h0 : x0 = 0
    · by_cases h1 : x1 = 0
      · simp [for_range, List.range_succ, net_of.hw, net_of.ow, net_of.set_ow, net_of.set_hw,
          train_output_of, train_hderiv_of, h0, h1]
        ring
      · simp [for_range, List.range_succ, net_of.hw, net_of.ow, net_of.set_ow, net_of.set_hw,
          train_output_of, train_hderiv_of, h0, h1]
        ring
    · by_cases h1 : x1 = 0
      · simp [for_range, List.range_succ, net_of.hw, net_of.ow, net_of.set_ow, net_of.set_hw,
          train_output_of, train_hderiv_of, h0, h1]
        ring
      · simp [for_range, List.range_succ, net_of.hw, net_of.ow, net_of.set_ow, net_of.set_hw,
          train_output_of, train_hderiv_of, h0, h1]
        ring

/-- The squared error of the small net given by its arrays. -/
theorem squared_error_tiny_of {K : Type} [Field K] (xs prev : List Int)
    (hsum h herr r0 r1 S p0 p1 : K) (hw ow : List (List K)) (alpha d0 d1 : K) :
    squared_error_of (tiny_state_of xs prev hsum h herr r0 r1 S p0 p1 hw ow alpha) [d0, d1] =
      (p0 - d0) ^ 2 + (p1 - d1) ^ 2 := by
  simp [squared_error_of, tiny_state_of, List.range_succ]
  ring

/-- The small net before and after one training step, in closed form. -/
theorem tiny_trained_of {K : Type} [Field K] (expf : K → K) (mem : allocation_of K) (alpha : K)
    (x0 x1 : Int) (d0 d1 : K) :
    ∃ hs h r0 r1 S p0 p1 u0n u1n b0n b1n herr hc hs2 h2 r0n r1n : K,
      hs = mem.hidden_weight 0 0 * (x0 : K) + mem.hidden_weight 1 0 * (x1 : K) +
        mem.hidden_weight 2 0 ∧
      h = (1 + expf (-hs))⁻¹ ∧
      r0 = h * mem.output_weight 0 0 + mem.output_weight 1 0 ∧
      r1 = h * mem.output_weight 0 1 + mem.output_weight 1 1 ∧
      S = expf r0 + expf r1 ∧ p0 = expf r0 / S ∧ p1 = expf r1 / S ∧
      u0n = mem.output_weight 0 0 + alpha * (-(p0 - d0) * h * (p0 * (1 - p0))) ∧
      u1n = mem.output_weight 0 1 + alpha * (-(p1 - d1) * h * (p1 * (1 - p1))) ∧
      b0n = mem.output_weight 1 0 + alpha * -(p0 - d0) * (p0 * (1 - p0)) ∧
      b1n = mem.output_weight 1 1 + alpha * -(p1 - d1) * (p1 * (1 - p1)) ∧
      herr = (p0 - d0) * (p0 * (1 - p0) * mem.output_weight 0 0 -
          mem.output_weight 0 1 * expf (r0 + r1) / (S * S)) +
        (p1 - d1) * (p1 * (1 - p1) * mem.output_weight 0 1 -
          u0n * expf (r1 + r0) / (S * S)) ∧
      hc = h * (1 - h) * -herr * alpha ∧
      hs2 = hs + hc * ((x0 : K) + (x1 : K) + 1) ∧
      h2 = (1 + expf (-hs2))⁻¹ ∧
      r0n = h2 * u0n + b0n ∧ r1n = h2 * u1n + b1n ∧
      squared_error_of (tiny_before_of expf mem alpha x0 x1) [d0, d1] =
        (p0 - d0) ^ 2 + (p1 - d1) ^ 2 ∧
      squared_error_of (tiny_after_of expf mem alpha x0 x1 [d0, d1]) [d0, d1] =
        (expf r0n / (expf r0n + expf r1n) - d0) ^ 2 +
          (expf r1n / (expf r0n + expf r1n) - d1) ^ 2 := by
  refine ⟨_, _, _, _, _, _, _, _, _, _, _, _, _, _, _, _, _, rfl, rfl, rfl, rfl, rfl, rfl, rfl,
    rfl, rfl, rfl, rfl, rfl, rfl, rfl, rfl, rfl, rfl, ?_, ?_⟩
  · unfold tiny_before_of
    rw [tiny_net_state_of, compute_tiny_of expf x0 x1 _ _ _ _ _ _ _ _ _ _ _ _ _ _ _ _ rfl,
      squared_error_tiny_of]
  · unfold tiny_after_of tiny_before_of
    rw [tiny_net_state_of, compute_tiny_of expf x0 x1 _ _ _ _ _ _ _ _ _ _ _ _ _ _ _ _ rfl,
      train_tiny_of expf x0 x1 [x0, x1, 1] _ _ _ _ _ _ _ _ _ _ _ _ _ _ _ _ _ _ _ _ rfl rfl rfl
        rfl,
      compute_tiny_of expf x0 x1 _ _ _ _ _ _ _ _ _ _ _ _ _ _ _ _ rfl, squared_error_tiny_of]
    have e : ∀ a b : K, (if x0 = 0 then a else a + b) * (x0 : K) = (a + b) * (x0 : K) := by
      intro a b
      by_cases h0 : x0 = 0
      · simp [h0]
      · simp [h0]
    have e1 : ∀ a b : K, (if x1 = 0 then a else a + b) * (x1 : K) = (a + b) * (x1 : K) := by
      intro a b
      by_cases h0 : x1 = 0
      · simp [h0]
      · simp [h0]
    have e2 : ∀ a b c z : K, (a + z) * (x0 : K) + (b + z) * (x1 : K) + (c + z) =
        a * (x0 : K) + b * (x1 : K) + c + z * ((x0 : K) + (x1 : K) + 1) := by
      intros
      ring
    rw [e, e1, e2]

/-- A sigmoid value lies strictly between 0 and 1 and grows with the sum. -/
theorem sigmoid_value_of {K : Type} [LinearOrderedField K] (expf : K → K)
    (hpos : ∀ x, 0 < expf x) (hmono : ∀ a b, a ≤ b → expf a ≤ expf b) (s t : K)
    (hst : s ≤ t) :
    0 < (1 + expf (-s))⁻¹ ∧ (1 + expf (-t))⁻¹ < 1 ∧ (1 + expf (-s))⁻¹ ≤ (1 + expf (-t))⁻¹ := by
  have h1 : 0 < 1 + expf (-s) := by linarith [hpos (-s)]
  have h2 : 0 < 1 + expf (-t) := by linarith [hpos (-t)]
  refine ⟨inv_pos.mpr h1, ?_, ?_⟩
  · exact inv_lt_one_of_one_lt₀ (by linarith [hpos (-t)])
  · exact inv_anti₀ h2 (by linarith [hmono (-t) (-s) (by linarith)])

/-- When the first exponential gains on the second, the softmax is nearer to
the target (1, 0). -/
theorem one_hot_error_ratio {K : Type} [LinearOrderedField K] (A B A2 B2 : K) (hA : 0 < A)
    (hB : 0 < B) (hA2 : 0 < A2) (hB2 : 0 < B2) (hr : A * B2 ≤ A2 * B) :
    (A2 / (A2 + B2) - 1) ^ 2 + (B2 / (A2 + B2) - 0) ^ 2 ≤
      (A / (A + B) - 1) ^ 2 + (B / (A + B) - 0) ^ 2 := by
  have hS : 0 < A + B := by linarith
  have hS2 : 0 < A2 + B2 := by linarith
  have e1 : A2 / (A2 + B2) - 1 = -(B2 / (A2 + B2)) := by
    field_simp
  have e2 : A / (A + B) - 1 = -(B / (A + B)) := by
    field_simp
  have hq : B2 / (A2 + B2) ≤ B / (A + B) := by
    rw [div_le_div_iff₀ hS2 hS]
    nlinarith
  have hq0 : 0 ≤ B2 / (A2 + B2) := le_of_lt (div_pos hB2 hS2)
  have hsq : (B2 / (A2 + B2)) ^ 2 ≤ (B / (A + B)) ^ 2 := pow_le_pow_left₀ hq0 hq 2
  rw [e1, e2, sub_zero, sub_zero, neg_sq, neg_sq]
  linarith

/-- The weighted hidden result after the step: the hidden result moves with the
sign of `2 * w + d`, and the weight `w` gains `2 * d`. -/
theorem hidden_gain {K : Type} [LinearOrderedField K] (h h2 w d t : K) (hh : 0 < h)
    (hh2 : 0 < h2) (hd : 0 ≤ d) (ht : 0 ≤ t)
    (hup : 0 ≤ 2 * w + d → h ≤ h2) (hdown : 2 * w + d ≤ 0 → h2 ≤ h) :
    h * w ≤ h2 * (w + 2 * d) + t := by
  rcases le_total 0 (2 * w + d) with hs | hs
  · have h1 := hup hs
    have h3 : 0 ≤ w + 2 * d := by linarith
    have h4 : h * (w + 2 * d) ≤ h2 * (w + 2 * d) := mul_le_mul_of_nonneg_right h1 h3
    have h5 : 0 ≤ h * (2 * d) := mul_nonneg (le_of_lt hh) (by linarith)
    nlinarith
  · have h1 := hdown hs
    rcases le_total (w + 2 * d) 0 with h3 | h3
    · have h4 : h * (w + 2 * d) ≤ h2 * (w + 2 * d) :=
        mul_le_mul_of_nonpos_right h1 h3
      have h5 : 0 ≤ h * (2 * d) := mul_nonneg (le_of_lt hh) (by linarith)
      nlinarith
    · have h4 : 0 ≤ h2 * (w + 2 * d) := mul_nonneg (le_of_lt hh2) h3
      have hw : w ≤ 0 := by linarith
      have h5 : h * w ≤ 0 := mul_nonpos_of_nonneg_of_nonpos (le_of_lt hh) hw
      linarith

/-- When the second exponential gains on the first, the softmax is nearer to
the target (0, 1). -/
theorem one_hot_error_ratio_swap {K : Type} [LinearOrderedField K] (A B A2 B2 : K)
    (hA : 0 < A) (hB : 0 < B) (hA2 : 0 < A2) (hB2 : 0 < B2) (hr : B * A2 ≤ B2 * A) :
    (A2 / (A2 + B2) - 0) ^ 2 + (B2 / (A2 + B2) - 1) ^ 2 ≤
      (A / (A + B) - 0) ^ 2 + (B / (A + B) - 1) ^ 2 := by
  have h := one_hot_error_ratio B A B2 A2 hB hA hB2 hA2 hr
  rw [add_comm B2 A2, add_comm B A] at h
  linarith

/-- One step of `train_net` towards the target (1, 0) does not increase the
squared error of the small net, for every weight, when the exponential is
positive, non-decreasing and turns sums into products. -/
theorem tiny_first_hot_of {K : Type} [LinearOrderedField K] (expf : K → K)
    (hpos : ∀ x, 0 < expf x) (hmono : ∀ a b, a ≤ b → expf a ≤ expf b)
    (hmul : ∀ a b, expf (a + b) = expf a * expf b)
    (mem : allocation_of K) (alpha : K) (x0 x1 : Int)
    (halpha : 0 ≤ alpha) (hx0 : 0 ≤ x0) (hx1 : 0 ≤ x1) :
    squared_error_of (tiny_after_of expf mem alpha x0 x1 [1, 0]) [1, 0] ≤
      squared_error_of (tiny_before_of expf mem alpha x0 x1) [1, 0] := by
  have hq0 : (0 : K) ≤ (x0 : K) := by exact_mod_cast hx0
  have hq1 : (0 : K) ≤ (x1 : K) := by exact_mod_cast hx1
  have hX : (0 : K) ≤ (x0 : K) + (x1 : K) + 1 := by linarith
  obtain ⟨hs, h, r0, r1, S, p0, p1, u0n, u1n, b0n, b1n, herr, hc, hs2, h2, r0n, r1n,
    ehs, eh, er0, er1, eS, ep0, ep1, eu0n, eu1n, eb0n, eb1n, eherr, ehc, ehs2, eh2, er0n,
    er1n, ebefore, eafter⟩ := tiny_trained_of expf mem alpha x0 x1 1 0
  rw [ebefore, eafter, ep0, ep1, eS]
  have hE0 := hpos r0
  have hE1 := hpos r1
  have hS : 0 < S := by rw [eS]; linarith
  have hp0 : 0 < p0 := by rw [ep0]; exact div_pos hE0 hS
  have hp1 : 0 < p1 := by rw [ep1]; exact div_pos hE1 hS
  have hsum : p0 + p1 = 1 := by
    rw [ep0, ep1, ← add_div, ← eS]
    exact div_self (ne_of_gt hS)
  have hp1e : p1 = 1 - p0 := by linarith
  have hQ : expf (r0 + r1) / (S * S) = p0 * (1 - p0) := by
    rw [← hp1e, hmul, ep0, ep1]
    field_simp
  have hQ2 : expf (r1 + r0) / (S * S) = p0 * (1 - p0) := by rw [add_comm]; exact hQ
  have hh := sigmoid_value_of expf hpos hmono hs hs (le_refl _)
  rw [← eh] at hh
  have hh2 := sigmoid_value_of expf hpos hmono hs2 hs2 (le_refl _)
  rw [← eh2] at hh2
  obtain ⟨w, hw⟩ : ∃ w, w = mem.output_weight 0 0 - mem.output_weight 0 1 := ⟨_, rfl⟩
  obtain ⟨d, hdd⟩ : ∃ d, d = alpha * (1 - p0) * h * (p0 * (1 - p0)) := ⟨_, rfl⟩
  obtain ⟨c, hcc⟩ : ∃ c, c = h * (1 - h) * alpha * ((1 - p0) * (p0 * (1 - p0))) *
    ((x0 : K) + (x1 : K) + 1) := ⟨_, rfl⟩
  have hP1 : 0 ≤ 1 - p0 := by linarith
  have hD : 0 ≤ p0 * (1 - p0) := mul_nonneg (le_of_lt hp0) hP1
  have hd0 : 0 ≤ d := by
    rw [hdd]
    exact mul_nonneg (mul_nonneg (mul_nonneg halpha hP1) (le_of_lt hh.1)) hD
  have hc0 : 0 ≤ c := by
    rw [hcc]
    exact mul_nonneg (mul_nonneg (mul_nonneg (mul_nonneg (le_of_lt hh.1)
      (by linarith [hh.2.1])) halpha) (mul_nonneg hP1 hD)) hX
  have ht0 : 0 ≤ 2 * (alpha * ((1 - p0) * (p0 * (1 - p0)))) :=
    mul_nonneg (by norm_num) (mul_nonneg halpha (mul_nonneg hP1 hD))
  have hherr : herr = -((1 - p0) * (p0 * (1 - p0)) * (2 * w + d)) := by
    rw [eherr, mul_div_assoc, mul_div_assoc, hQ, hQ2, eu0n, hp1e, hw, hdd]
    ring
  have hstep : hs2 - hs = c * (2 * w + d) := by
    rw [ehs2, ehc, hherr, hcc]
    ring
  have hup : 0 ≤ 2 * w + d → h ≤ h2 := by
    intro hs0
    have hm := mul_nonneg hc0 hs0
    have hle : hs ≤ hs2 := by linarith
    have := (sigmoid_value_of expf hpos hmono hs hs2 hle).2.2
    rw [← eh, ← eh2] at this
    exact this
  have hdown : 2 * w + d ≤ 0 → h2 ≤ h := by
    intro hs0
    have hm := mul_nonneg hc0 (by linarith : 0 ≤ -(2 * w + d))
    have hle : hs2 ≤ hs := by linarith
    have := (sigmoid_value_of expf hpos hmono hs2 hs hle).2.2
    rw [← eh, ← eh2] at this
    exact this
  have key := hidden_gain h h2 w d (2 * (alpha * ((1 - p0) * (p0 * (1 - p0))))) hh.1 hh2.1
    hd0 ht0 hup hdown
  have hid : r0n + r1 - (r0 + r1n) =
      h2 * (w + 2 * d) + 2 * (alpha * ((1 - p0) * (p0 * (1 - p0)))) - h * w := by
    rw [er0n, er1n, er0, er1, eu0n, eu1n, eb0n, eb1n, hp1e, hw, hdd]
    ring
  have hz : r0 + r1n ≤ r0n + r1 := by linarith
  have hE : expf r0 * expf r1n ≤ expf r0n * expf r1 := by
    rw [← hmul, ← hmul]
    exact hmono _ _ hz
  exact one_hot_error_ratio (expf r0) (expf r1) (expf r0n) (expf r1n) hE0 hE1 (hpos _)
    (hpos _) hE

/-- One step of `train_net` towards the target (0, 1) does not increase the
squared error of the small net, for every weight, when the exponential is
positive, non-decreasing and turns sums into products. -/
theorem tiny_second_hot_of {K : Type} [LinearOrderedField K] (expf : K → K)
    (hpos : ∀ x, 0 < expf x) (hmono : ∀ a b, a ≤ b → expf a ≤ expf b)
    (hmul : ∀ a b, expf (a + b) = expf a * expf b)
    (mem : allocation_of K) (alpha : K) (x0 x1 : Int)
    (halpha : 0 ≤ alpha) (hx0 : 0 ≤ x0) (hx1 : 0 ≤ x1) :
    squared_error_of (tiny_after_of expf mem alpha x0 x1 [0, 1]) [0, 1] ≤
      squared_error_of (tiny_before_of expf mem alpha x0 x1) [0, 1] := by
  have hq0 : (0 : K) ≤ (x0 : K) := by exact_mod_cast hx0
  have hq1 : (0 : K) ≤ (x1 : K) := by exact_mod_cast hx1
  have hX : (0 : K) ≤ (x0 : K) + (x1 : K) + 1 := by linarith
  obtain ⟨hs, h, r0, r1, S, p0, p1, u0n, u1n, b0n, b1n, herr, hc, hs2, h2, r0n, r1n,
    ehs, eh, er0, er1, eS, ep0, ep1, eu0n, eu1n, eb0n, eb1n, eherr, ehc, ehs2, eh2, er0n,
    er1n, ebefore, eafter⟩ := tiny_trained_of expf mem alpha x0 x1 0 1
  rw [ebefore, eafter, ep0, ep1, eS]
  have hE0 := hpos r0
  have hE1 := hpos r1
  have hS : 0 < S := by rw [eS]; linarith
  have hp0 : 0 < p0 := by rw [ep0]; exact div_pos hE0 hS
  have hp1 : 0 < p1 := by rw [ep1]; exact div_pos hE1 hS
  have hsum : p0 + p1 = 1 := by
    rw [ep0, ep1, ← add_div, ← eS]
    exact div_self (ne_of_gt hS)
  have hp1e : p1 = 1 - p0 := by linarith
  have hQ : expf (r0 + r1) / (S * S) = p0 * (1 - p0) := by
    rw [← hp1e, hmul, ep0, ep1]
    field_simp
  have hQ2 : expf (r1 + r0) / (S * S) = p0 * (1 - p0) := by rw [add_comm]; exact hQ
  have hh := sigmoid_value_of expf hpos hmono hs hs (le_refl _)
  rw [← eh] at hh
  have hh2 := sigmoid_value_of expf hpos hmono hs2 hs2 (le_refl _)
  rw [← eh2] at hh2
  obtain ⟨w, hw⟩ : ∃ w, w = mem.output_weight 0 1 - mem.output_weight 0 0 := ⟨_, rfl⟩
  obtain ⟨d, hdd⟩ : ∃ d, d = alpha * p0 * h * (p0 * (1 - p0)) := ⟨_, rfl⟩
  obtain ⟨c, hcc⟩ : ∃ c, c = h * (1 - h) * alpha * (p0 * (p0 * (1 - p0))) *
    ((x0 : K) + (x1 : K) + 1) := ⟨_, rfl⟩
  have hP1 : 0 ≤ 1 - p0 := by linarith
  have hD : 0 ≤ p0 * (1 - p0) := mul_nonneg (le_of_lt hp0) hP1
  have hd0 : 0 ≤ d := by
    rw [hdd]
    exact mul_nonneg (mul_nonneg (mul_nonneg halpha (le_of_lt hp0)) (le_of_lt hh.1)) hD
  have hc0 : 0 ≤ c := by
    rw [hcc]
    exact mul_nonneg (mul_nonneg (mul_nonneg (mul_nonneg (le_of_lt hh.1)
      (by linarith [hh.2.1])) halpha) (mul_nonneg (le_of_lt hp0) hD)) hX
  have ht0 : 0 ≤ 2 * (alpha * (p0 * (p0 * (1 - p0)))) :=
    mul_nonneg (by norm_num) (mul_nonneg halpha (mul_nonneg (le_of_lt hp0) hD))
  have hherr : herr = -(p0 * (p0 * (1 - p0)) * (2 * w + d)) := by
    rw [eherr, mul_div_assoc, mul_div_assoc, hQ, hQ2, eu0n, hp1e, hw, hdd]
    ring
  have hstep : hs2 - hs = c * (2 * w + d) := by
    rw [ehs2, ehc, hherr, hcc]
    ring
  have hup : 0 ≤ 2 * w + d → h ≤ h2 := by
    intro hs0
    have hm := mul_nonneg hc0 hs0
    have hle : hs ≤ hs2 := by linarith
    have := (sigmoid_value_of expf hpos hmono hs hs2 hle).2.2
    rw [← eh, ← eh2] at this
    exact this
  have hdown : 2 * w + d ≤ 0 → h2 ≤ h := by
    intro hs0
    have hm := mul_nonneg hc0 (by linarith : 0 ≤ -(2 * w + d))
    have hle : hs2 ≤ hs := by linarith
    have := (sigmoid_value_of expf hpos hmono hs2 hs hle).2.2
    rw [← eh, ← eh2] at this
    exact this
  have key := hidden_gain h h2 w d (2 * (alpha * (p0 * (p0 * (1 - p0))))) hh.1 hh2.1
    hd0 ht0 hup hdown
  have hid : r1n + r0 - (r1 + r0n) =
      h2 * (w + 2 * d) + 2 * (alpha * (p0 * (p0 * (1 - p0)))) - h * w := by
    rw [er0n, er1n, er0, er1, eu0n, eu1n, eb0n, eb1n, hp1e, hw, hdd]
    ring
  have hz : r1 + r0n ≤ r1n + r0 := by linarith
  have hE : expf r1 * expf r0n ≤ expf r1n * expf r0 := by
    rw [← hmul, ← hmul]
    exact hmono _ _ hz
  exact one_hot_error_ratio_swap (expf r0) (expf r1) (expf r0n) (expf r1n) hE0 hE1 (hpos _)
    (hpos _) hE

/-- One step of `train_net` towards a one-hot target does not increase the
squared error of the small net, for every weight, when the exponential is
positive, non-decreasing and turns sums into products. -/
theorem tiny_one_hot_of {K : Type} [LinearOrderedField K] (expf : K → K)
    (hpos : ∀ x, 0 < expf x) (hmono : ∀ a b, a ≤ b → expf a ≤ expf b)
    (hmul : ∀ a b, expf (a + b) = expf a * expf b)
    (mem : allocation_of K) (alpha : K) (x0 x1 : Int) (desired : List K)
    (halpha : 0 ≤ alpha) (hx0 : 0 ≤ x0) (hx1 : 0 ≤ x1)
    (hd : desired = [1, 0] ∨ desired = [0, 1]) :
    squared_error_of (tiny_after_of expf mem alpha x0 x1 desired) desired ≤
      squared_error_of (tiny_before_of expf mem alpha x0 x1) desired := by
  rcases hd with hd | hd
  · subst hd
    exact tiny_first_hot_of expf hpos hmono hmul mem alpha x0 x1 halpha hx0 hx1
  · subst hd
    exact tiny_second_hot_of expf hpos hmono hmul mem alpha x0 x1 halpha hx0 hx1

/-- C28 (as amended), over the real numbers with the exponential function: for
the 2-input, 1-hidden, 2-output net made from any memory (any weights), with a
learning rate `alpha ≥ 0`, inputs `x0, x1 ≥ 0` and a target that is (1, 0) or
(0, 1), one call of `train_net` with `lambda = 1` followed by `compute_net` on
the same inputs does not increase the squared error between the outputs and
the target. -/
theorem train_net_one_hot_error (mem : allocation_of ℝ) (alpha : ℝ) (x0 x1 : Int)
    (desired : List ℝ) (halpha : 0 ≤ alpha) (hx0 : 0 ≤ x0) (hx1 : 0 ≤ x1)
    (hd : desired = [1, 0] ∨ desired = [0, 1]) :
    squared_error_of (tiny_after_of Real.exp mem alpha x0 x1 desired) desired ≤
      squared_error_of (tiny_before_of Real.exp mem alpha x0 x1) desired :=
  tiny_one_hot_of Real.exp Real.exp_pos (fun _ _ h => Real.exp_le_exp.mpr h) Real.exp_add
    mem alpha x0 x1 desired halpha hx0 hx1 hd

/-- C28 witness: the net made from `steep_memory`, whose hidden node has the
weight 2000 to output 0 and -2000 to output 1, trained once towards (0, 1), the
output its hidden node works against, on the inputs 1, 0. -/
theorem train_net_one_hot_error_witness :
    squared_error_of
        (tiny_after_of Real.exp (steep_memory_of : allocation_of ℝ) (1 / 10000) 1 0 [0, 1])
        [0, 1] ≤
      squared_error_of
        (tiny_before_of Real.exp (steep_memory_of : allocation_of ℝ) (1 / 10000) 1 0) [0, 1] :=
  train_net_one_hot_error steep_memory_of (1 / 10000) 1 0 [0, 1] (by norm_num) (by decide)
    (by decide) (Or.inr rfl)

/-! ### Evaluations that are not numbers -/

/-- Writing to a cell of a list the value it holds leaves the list as it is. -/
theorem set_getD_same {α : Type} (xs : List α) (j : Nat) (d x : α) (h : xs.getD j d = x) :
    xs.set j x = xs := by
  by_cases hj : j < xs.length
  · have hx : xs[j] = x := by
      simpa [List.getD_eq_getElem?_getD, List.getElem?_eq_getElem hj] using h
    apply List.ext_getElem?
    intro k
    by_cases hk : j = k
    · subst hk
      simp [List.getElem?_set, hj, hx]
    · simp [List.getElem?_set, hk]
  · exact List.set_eq_of_length_le (Nat.le_of_not_lt hj)

/-- The inner loop of the first loop of `compute_net`, over the doubles: with
weights zero from input `i` it leaves hidden sums that are all zero as they
are. -/
theorem quiet_hidden_loop (l : net_of dbl) (i n : Nat) (d : Int) (hs : List dbl)
    (hw : ∀ j, l.hw i j = 0) (h0 : ∀ k, hs.getD k 0 = 0) :
    for_range n (fun j hs => hs.set j (hs.getD j 0 + l.hw i j * ((d : Int) : dbl))) hs = hs := by
  induction n with
  | zero => exact for_range_zero _ _
  | succ m ih =>
    rw [for_range_succ, ih]
    apply set_getD_same _ _ 0
    rw [h0, hw]
    show dbl.num 0 = dbl.add (dbl.num 0) (dbl.mul (dbl.num 0) (dbl.num (d : ℚ)))
    simp [dbl.add, dbl.mul]

/-- The calls `SET_INPUT` change the input values of a net and nothing else. -/
theorem set_inputs_of_frame {K : Type} (l : net_of K) (xs : List Int) :
    ∃ A, set_inputs_of l xs = l.put_inputs A l.prev_input := by
  have h : ∀ (ys : List Int) (acc : net_of K × Nat),
      ∃ A, (ys.foldl (fun (acc : net_of K × Nat) x =>
        (SET_INPUT_of acc.1 acc.2 x, acc.2 + 1)) acc).1 = acc.1.put_inputs A acc.1.prev_input := by
    intro ys
    induction ys with
    | nil => intro acc; exact ⟨acc.1.input_value, rfl⟩
    | cons y ys ih =>
      intro acc
      obtain ⟨A, hA⟩ := ih (SET_INPUT_of acc.1 acc.2 y, acc.2 + 1)
      exact ⟨A, hA⟩
  exact h xs (l, 0)

/-- The first loop of `compute_net`, over the doubles, on a net whose hidden
weights and hidden sums are all zero: it changes the previous inputs and
nothing else. -/
theorem quiet_inputs_loop (l : net_of dbl) (A P : List Int)
    (hw : ∀ i j, l.hw i j = 0) (h0 : ∀ k, l.hidden_sum.getD k 0 = 0) :
    ∃ B, compute_net_inputs_of (l.put_inputs A P) = l.put_inputs A B := by
  unfold compute_net_inputs_of
  refine for_range_induct (fun _ s => ∃ B, s = l.put_inputs A B) _ _ _ ⟨P, rfl⟩ ?_
  rintro k x _ ⟨B, rfl⟩
  dsimp only
  split_ifs with hc
  · have hq := quiet_hidden_loop (l.put_inputs A B) k l.num_hidden.toNat
      (A.getD k 0 - B.getD k 0) l.hidden_sum (fun j => hw k j) h0
    refine ⟨B.set k (A.getD k 0), ?_⟩
    show { l.put_inputs A B with
      hidden_sum := for_range l.num_hidden.toNat (fun j hs => hs.set j (hs.getD j 0 +
        (l.put_inputs A B).hw k j * ((A.getD k 0 - B.getD k 0 : Int) : dbl))) l.hidden_sum,
      prev_input := B.set k (A.getD k 0) } = _
    rw [hq]
    rfl
  · exact ⟨B, rfl⟩

/-- The later loops of `compute_net` neither read nor write the input values
and the previous inputs. -/
theorem compute_net_late_frame {K : Type} [Zero K] [One K] [Add K] [Mul K] [Div K] [Neg K]
    (expf : K → K) (l : net_of K) (A B : List Int) :
    compute_net_probs_of expf (compute_net_outputs_of expf (compute_net_hidden_of expf
        (l.put_inputs A B))) =
      (compute_net_probs_of expf (compute_net_outputs_of expf
        (compute_net_hidden_of expf l))).put_inputs A B := by
  have h1 : ∀ X : net_of K, compute_net_hidden_of expf (X.put_inputs A B) =
      (compute_net_hidden_of expf X).put_inputs A B := by
    intro X
    exact for_range_map (fun s : net_of K => s.put_inputs A B) _ _ _ (fun _ _ => rfl) X
  have h2 : ∀ X : net_of K, compute_net_outputs_of expf (X.put_inputs A B) =
      (compute_net_outputs_of expf X).put_inputs A B := by
    intro X
    exact for_range_map (fun s : net_of K => s.put_inputs A B) _ _ _ (fun _ _ => rfl)
      { X with prob_sum := 0 }
  have h3 : ∀ X : net_of K, compute_net_probs_of expf (X.put_inputs A B) =
      (compute_net_probs_of expf X).put_inputs A B := by
    intro X
    exact for_range_map (fun s : net_of K => s.put_inputs A B) _ _ _ (fun _ _ => rfl) X
  rw [h1, h2, h3]

/-- The evaluator over the doubles on a net whose hidden weights and hidden
sums are all zero: whatever the position, the net after the call is the net
after the later loops of `compute_net`, but for its input values and previous
inputs. -/
theorem quiet_eval (expf : dbl → dbl) (l : net_of dbl) (g : game) (who : Int)
    (hn : l.num_inputs ≠ 0) (hw : ∀ i j, l.hw i j = 0)
    (h0 : ∀ k, l.hidden_sum.getD k 0 = 0) :
    ∃ A B, eval_game_net_of expf l g who =
      ((compute_net_probs_of expf (compute_net_outputs_of expf
          (compute_net_hidden_of expf l))).win_prob.getD who.toNat 0,
        (compute_net_probs_of expf (compute_net_outputs_of expf
          (compute_net_hidden_of expf l))).put_inputs A B) := by
  obtain ⟨A, hA⟩ := set_inputs_of_frame l (eval_inputs g who)
  obtain ⟨B, hB⟩ := quiet_inputs_loop l A l.prev_input hw h0
  refine ⟨A, B, ?_⟩
  unfold eval_game_net_of compute_net_of
  rw [if_neg hn]
  dsimp only
  rw [hA, hB, compute_net_late_frame]
  rfl

/-- The net `favouring_net_d a b` has hidden weights that are all zero. -/
theorem favouring_net_d_hw (a b : ℚ) (i j : Nat) : (favouring_net_d a b).hw i j = 0 := by
  unfold favouring_net_d make_learner_of net_of.hw
  dsimp only
  by_cases hi : i < NET_INPUT + 1
  · by_cases hj : j < HIDDEN_NODES
    · simp [List.getD_eq_getElem?_getD, hi, hj]
    · simp [List.getD_eq_getElem?_getD, hi, hj]
  · simp [List.getD_eq_getElem?_getD, List.getElem?_replicate, hi]

/-- The net `favouring_net_d a b` has hidden sums that are all zero. -/
theorem favouring_net_d_hidden_sum (a b : ℚ) (k : Nat) :
    (favouring_net_d a b).hidden_sum.getD k 0 = 0 := by
  unfold favouring_net_d make_learner_of
  dsimp only
  by_cases hk : k < HIDDEN_NODES
  · simp [List.getD_eq_getElem?_getD, hk]
  · simp [List.getD_eq_getElem?_getD, hk]

/-- The later loops of `compute_net` on the net whose output sums overflow
`exp`. -/
theorem overflow_late :
    ((compute_net_probs_of dbl_exp (compute_net_outputs_of dbl_exp
        (compute_net_hidden_of dbl_exp (favouring_net_d 1000 1000)))).net_result,
      (compute_net_probs_of dbl_exp (compute_net_outputs_of dbl_exp
        (compute_net_hidden_of dbl_exp (favouring_net_d 1000 1000)))).prob_sum,
      (compute_net_probs_of dbl_exp (compute_net_outputs_of dbl_exp
        (compute_net_hidden_of dbl_exp (favouring_net_d 1000 1000)))).win_prob,
      (compute_net_probs_of dbl_exp (compute_net_outputs_of dbl_exp
        (compute_net_hidden_of dbl_exp (favouring_net_d 1000 1000)))).win_prob.getD
          (0 : Int).toNat 0) =
    ([dbl.num 1000, dbl.num 1000], dbl.pinf, [dbl.nan, dbl.nan], dbl.nan) := by
  decide!

/-- The evaluation of the start of a game by a net whose output sums overflow
`exp`. -/
theorem overflow_eval :
    ((eval_game_net_of dbl_exp (favouring_net_d 1000 1000) real_game 0).2.net_result,
      (eval_game_net_of dbl_exp (favouring_net_d 1000 1000) real_game 0).2.prob_sum,
      (eval_game_net_of dbl_exp (favouring_net_d 1000 1000) real_game 0).2.win_prob,
      (eval_game_net_of dbl_exp (favouring_net_d 1000 1000) real_game 0).1) =
    ([dbl.num 1000, dbl.num 1000], dbl.pinf, [dbl.nan, dbl.nan], dbl.nan) := by
  obtain ⟨A, B, h⟩ := quiet_eval dbl_exp (favouring_net_d 1000 1000) real_game 0 (by decide)
    (favouring_net_d_hw 1000 1000) (favouring_net_d_hidden_sum 1000 1000)
  rw [h]
  exact overflow_late

/-- The later loops of `compute_net` on the net whose output sums underflow
`exp`. -/
theorem underflow_late :
    ((compute_net_probs_of dbl_exp (compute_net_outputs_of dbl_exp
        (compute_net_hidden_of dbl_exp (favouring_net_d (-1000) (-1000))))).net_result,
      (compute_net_probs_of dbl_exp (compute_net_outputs_of dbl_exp
        (compute_net_hidden_of dbl_exp (favouring_net_d (-1000) (-1000))))).prob_sum,
      (compute_net_probs_of dbl_exp (compute_net_outputs_of dbl_exp
        (compute_net_hidden_of dbl_exp (favouring_net_d (-1000) (-1000))))).win_prob,
      (compute_net_probs_of dbl_exp (compute_net_outputs_of dbl_exp
        (compute_net_hidden_of dbl_exp (favouring_net_d (-1000) (-1000))))).win_prob.getD
          (0 : Int).toNat 0) =
    ([dbl.num (-1000), dbl.num (-1000)], dbl.num 0, [dbl.nan, dbl.nan], dbl.nan) := by
  decide!

/-- The evaluation of the retreat phase by a net whose output sums underflow
`exp`. -/
theorem underflow_eval :
    ((eval_game_net_of dbl_exp (favouring_net_d (-1000) (-1000)) retreat_game 0).2.net_result,
      (eval_game_net_of dbl_exp (favouring_net_d (-1000) (-1000)) retreat_game 0).2.prob_sum,
      (eval_game_net_of dbl_exp (favouring_net_d (-1000) (-1000)) retreat_game 0).2.win_prob,
      (eval_game_net_of dbl_exp (favouring_net_d (-1000) (-1000)) retreat_game 0).1) =
    ([dbl.num (-1000), dbl.num (-1000)], dbl.num 0, [dbl.nan, dbl.nan], dbl.nan) := by
  obtain ⟨A, B, h⟩ := quiet_eval dbl_exp (favouring_net_d (-1000) (-1000)) retreat_game 0
    (by decide) (favouring_net_d_hw (-1000) (-1000)) (favouring_net_d_hidden_sum (-1000) (-1000))
  rw [h]
  exact underflow_late

/-- C5 (counterexample): a net of the program's size whose weights are all
finite: zero, but for the bias weights 1000 of the two outputs.  At the start
of a game `compute_net` finds the sums 1000 and 1000; `exp` overflows to
`+inf` on both, `prob_sum` is `+inf`, and both outputs are `inf / inf`, NaN:
the evaluation of the position is NaN, which is neither at least 0 nor at most
1 (every comparison with NaN is false). -/
theorem eval_game_not_a_number :
    (favouring_net_d 1000 1000).num_inputs = 443 ∧
    (favouring_net_d 1000 1000).num_hidden = 50 ∧
    (favouring_net_d 1000 1000).num_output = 2 ∧
    dbl_exp (dbl.num 1000) = dbl.pinf ∧ dbl.pinf + dbl.pinf = dbl.pinf ∧
    dbl.pinf / dbl.pinf = dbl.nan ∧
    (eval_game_net_of dbl_exp (favouring_net_d 1000 1000) real_game 0).2.net_result =
      [dbl.num 1000, dbl.num 1000] ∧
    (eval_game_net_of dbl_exp (favouring_net_d 1000 1000) real_game 0).2.prob_sum = dbl.pinf ∧
    (eval_game_net_of dbl_exp (favouring_net_d 1000 1000) real_game 0).2.win_prob =
      [dbl.nan, dbl.nan] ∧
    (eval_game_net_of dbl_exp (favouring_net_d 1000 1000) real_game 0).1 = dbl.nan ∧
    ¬ ((0 : dbl) ≤ dbl.nan) ∧ ¬ (dbl.nan ≤ (1 : dbl)) :=
  ⟨rfl, rfl, rfl, by decide, by decide, by decide,
    (Prod.mk.inj overflow_eval).1, (Prod.mk.inj (Prod.mk.inj overflow_eval).2).1,
    (Prod.mk.inj (Prod.mk.inj (Prod.mk.inj overflow_eval).2).2).1,
    (Prod.mk.inj (Prod.mk.inj (Prod.mk.inj overflow_eval).2).2).2,
    by decide, by decide⟩

/-- C3 (counterexample): a net of the program's size whose weights are all
finite: zero, but for the bias weights -1000 of the two outputs.  `exp`
underflows to 0 on both sums, `prob_sum` is 0 and both outputs are `0 / 0`,
NaN: the evaluation of a position, here of the retreat phase, is NaN, and NaN
is not at least -1.  Over two actions whose branch scores are such
evaluations, the comparison `score >= b_s` of the multi-action loop, started
at -1, is false twice: the loop ends with the score -1 and with no action
assigned, and as `-1 >= best_path_score` holds for the best-path score -1 at
the start of a search, the recording block stores the action that was never
assigned. -/
theorem find_action_unassigned :
    (favouring_net_d (-1000) (-1000)).num_inputs = 443 ∧
    (favouring_net_d (-1000) (-1000)).num_hidden = 50 ∧
    (favouring_net_d (-1000) (-1000)).num_output = 2 ∧
    dbl_exp (dbl.num (-1000)) = dbl.num 0 ∧ dbl.num 0 / dbl.num 0 = dbl.nan ∧
    (eval_game_net_of dbl_exp (favouring_net_d (-1000) (-1000)) retreat_game 0).2.prob_sum =
      dbl.num 0 ∧
    (eval_game_net_of dbl_exp (favouring_net_d (-1000) (-1000)) retreat_game 0).1 = dbl.nan ∧
    ¬ (dbl.nan ≥ (-1 : dbl)) ∧
    keep_best_of [(mk_act ACT_RETREAT, dbl.nan), (mk_act ACT_NONE, dbl.nan)] (-1) none =
      (-1, none) ∧
    (-1 : dbl) ≥ (-1 : dbl) :=
  ⟨rfl, rfl, rfl, by decide, by decide, (Prod.mk.inj (Prod.mk.inj underflow_eval).2).1,
    (Prod.mk.inj (Prod.mk.inj (Prod.mk.inj underflow_eval).2).2).2, by decide, by decide, by decide⟩

end BlueMoon
